import Mathlib

/-!
The shared-memory buffer pool of foot: a shallow embedding of `shm.c`, and of
the functions of `slave.c` that write the notifications.

* Pointers are integers (`NULL = 0`, `MAP_FAILED = (void *)-1`).
* `assert` is compiled in: a failing assertion ends the call with
  `Fault.assert line`, `line` being the line of the assertion in its file.
* `abort()` ends the call with `Fault.abort`.
* `int` arithmetic that overflows is undefined behaviour in C; it ends the call
  with `Fault.undefined`.  `size_t` arithmetic is taken modulo `2^64`.
* The operating system and the display peer are an oracle (`Sys`): every
  external call is answered by a function of the number of external calls made
  so far and of the arguments of the call.  Every external call is also
  recorded, in order, in the `calls` field of the state.
* `struct buffer` is declared in `shm.h`, which is not among the sources; its
  fields are the ones `shm.c` uses.
* A `struct buffer *` into the pool is the position of the entry in the list.
* The bytes of the backing files and the mappings are not part of the state:
  `Mem` follows them through the recorded calls.
* For `slave.c`, `write` is answered by an oracle of its own (`Tty`), and every
  call of `write` is recorded with its result.
-/

namespace Foot

/-! ## Machine integers and pointers -/

abbrev Ptr := Int

def NULL : Ptr := 0

def MAP_FAILED : Ptr := -1

/-- Conversion to `size_t` (64 bit, unsigned). -/
def u64 (x : Int) : Int := x % 2 ^ 64

/-- Conversion to `off_t` (64 bit, signed, two's complement). -/
def s64 (x : Int) : Int := (x + 2 ^ 63) % 2 ^ 64 - 2 ^ 63

/-- Bitwise and of two 64-bit unsigned values. -/
def and64 (a b : Int) : Int := (((u64 a).toNat &&& (u64 b).toNat : Nat) : Int)

/-- Bitwise complement of a 64-bit unsigned value. -/
def not64 (a : Int) : Int := 2 ^ 64 - 1 - u64 a

inductive Fault where
  | assert (line : Nat)
  | abort
  | undefined
deriving DecidableEq, Repr

/-- The `assert` of `assert.h`, with the line it stands on. -/
def assert (c : Bool) (line : Nat) : Except Fault Unit :=
  if c then pure () else throw (Fault.assert line)

def INT_MIN : Int := -(2 ^ 31)

def INT_MAX : Int := 2 ^ 31 - 1

/-- Multiplication of two `int`s; overflow is undefined behaviour. -/
def int_mul (a b : Int) : Except Fault Int :=
  if INT_MIN ≤ a * b ∧ a * b ≤ INT_MAX then pure (a * b) else throw Fault.undefined

/-- Addition of two `int`s; overflow is undefined behaviour. -/
def int_add (a b : Int) : Except Fault Int :=
  if INT_MIN ≤ a + b ∧ a + b ≤ INT_MAX then pure (a + b) else throw Fault.undefined

/-! ## External calls -/

inductive Call where
  | pixman_image_unref (pix : Ptr)
  | wl_buffer_destroy (wl_buf : Ptr)
  | munmap (addr : Ptr) (length : Int)
  | close (fd : Int)
  | sysconf
  | mmap (length : Int) (fd : Int) (offset : Int)
  | wl_shm_create_pool (fd : Int) (size : Int)
  | wl_shm_pool_create_buffer (pool : Ptr) (offset width height stride : Int)
  | wl_shm_pool_destroy (pool : Ptr)
  | pixman_image_create_bits_no_clear (width height : Int) (bits : Ptr) (stride : Int)
  | wl_buffer_add_listener (wl_buf : Ptr)
  | memfd_create
  | ftruncate (fd : Int) (length : Int)
  | fallocate (fd : Int) (offset len : Int)
  | memcpy (dest src : Ptr) (n : Int)
  | memmove (dest src : Ptr) (n : Int)
deriving DecidableEq, Repr

/-- Answers of the operating system, of the display peer and of the libraries
to the external calls.  The first argument of every function is the number of
external calls made before this one. -/
structure Sys where
  sysconf : Nat → Int
  stride_for_format_and_width : Int → Int
  memfd_create : Nat → Int
  ftruncate : Nat → Int → Int → Int
  fallocate : Nat → Int → Int → Int → Int
  mmap : Nat → Int → Int → Int → Ptr
  wl_shm_create_pool : Nat → Int → Int → Ptr
  wl_shm_pool_create_buffer : Nat → Ptr → Int → Int → Int → Int → Ptr
  pixman_image_create_bits_no_clear : Nat → Int → Int → Ptr → Int → Ptr

/-! ## Data model -/

/-- The fields of `struct buffer` that `shm.c` uses. -/
structure Buffer where
  cookie : Nat
  width : Int
  height : Int
  stride : Int
  busy : Bool
  size : Int
  mmapped : Ptr
  wl_buf : Ptr
  pix : Ptr
  fd : Int
  real_mmapped : Ptr
  mmap_size : Int
  offset : Int
  purge : Bool
deriving DecidableEq, Repr

/-- The file-scope state of `shm.c`: the list `buffers`, the two hole-punch
flags, the `static size_t size` of `page_size()`, and the external calls made
so far. -/
structure Shm where
  buffers : List Buffer
  can_punch_hole : Bool
  can_punch_hole_initialized : Bool
  page_size_size : Int
  calls : List Call
deriving DecidableEq, Repr

/-- State of the process at start: every static is zero-initialised. -/
def shm_init : Shm :=
  { buffers := [], can_punch_hole := false, can_punch_hole_initialized := false,
    page_size_size := 0, calls := [] }

def max_pool_size : Int := 256 * 1024 * 1024

/-- Record one external call. -/
def Shm.call (st : Shm) (c : Call) : Shm := { st with calls := st.calls ++ [c] }

/-- Number of external calls made so far. -/
def Shm.now (st : Shm) : Nat := st.calls.length

/-! ## Tear-down -/

/-- The function `buffer_destroy_dont_close` (lines 51-65): the entry afterwards and the calls made. -/
def buffer_destroy_dont_close (buf : Buffer) : Buffer × List Call :=
  let c1 := if buf.pix ≠ NULL then [Call.pixman_image_unref buf.pix] else []
  let c2 := if buf.wl_buf ≠ NULL then [Call.wl_buffer_destroy buf.wl_buf] else []
  let c3 := if buf.real_mmapped ≠ MAP_FAILED then [Call.munmap buf.real_mmapped buf.mmap_size] else []
  ({ buf with pix := NULL, wl_buf := NULL, real_mmapped := NULL, mmapped := NULL }, c1 ++ c2 ++ c3)

/-- The function `buffer_destroy` (lines 67-74). -/
def buffer_destroy (buf : Buffer) : Buffer × List Call :=
  let (buf1, cs) := buffer_destroy_dont_close buf
  let c4 := if buf1.fd ≥ 0 then [Call.close buf1.fd] else []
  ({ buf1 with fd := -1 }, cs ++ c4)

/-- The release callback `buffer_release` (lines 76-84). -/
def buffer_release (buffer : Buffer) (wl_buffer : Ptr) : Except Fault Buffer := do
  assert (buffer.wl_buf == wl_buffer) 81
  assert buffer.busy 82
  pure { buffer with busy := false }

/-! ## Instantiation -/

/-- The function `page_size` (lines 90-103); `size` is `size_t`, so the test
`size < 0` compares an unsigned value. -/
def page_size (sys : Sys) (st : Shm) : Except Fault (Int × Shm) := do
  let st1 :=
    if st.page_size_size == 0 then
      let st1 := st.call Call.sysconf
      let size := u64 (sys.sysconf st.now)
      let size := if u64 size < 0 then 4096 else size
      { st1 with page_size_size := size }
    else st
  assert (decide (st1.page_size_size > 0)) 101
  pure (st1.page_size_size, st1)

/-- The function `instantiate_offset` (lines 105-185).  Every failure path
ends in `abort()`. -/
def instantiate_offset (sys : Sys) (st : Shm) (buf : Buffer) (new_offset : Int) :
    Except Fault (Bool × Buffer × Shm) := do
  assert (decide (buf.fd ≥ 0)) 108
  assert (buf.mmapped == NULL) 109
  assert (buf.real_mmapped == NULL) 110
  assert (buf.wl_buf == NULL) 111
  assert (buf.pix == NULL) 112
  assert (decide (u64 (new_offset + buf.size) ≤ max_pool_size)) 113
  let (ps1, st) ← page_size sys st
  let aligned_offset := s64 (and64 new_offset (not64 (ps1 - 1)))
  let (ps2, st) ← page_size sys st
  let page_offset := and64 new_offset (ps2 - 1)
  let mmap_size := u64 (buf.size + page_offset)
  assert (decide (aligned_offset ≤ new_offset)) 126
  assert (decide (mmap_size ≥ buf.size)) 127
  let real_mmapped := sys.mmap st.now mmap_size buf.fd aligned_offset
  let st := st.call (Call.mmap mmap_size buf.fd aligned_offset)
  if real_mmapped == MAP_FAILED then throw Fault.abort
  else
    let mmapped := real_mmapped + page_offset
    let pool := sys.wl_shm_create_pool st.now buf.fd (new_offset + buf.size)
    let st := st.call (Call.wl_shm_create_pool buf.fd (new_offset + buf.size))
    if pool == NULL then throw Fault.abort
    else
      let wl_buf :=
        sys.wl_shm_pool_create_buffer st.now pool new_offset buf.width buf.height buf.stride
      let st :=
        st.call (Call.wl_shm_pool_create_buffer pool new_offset buf.width buf.height buf.stride)
      if wl_buf == NULL then throw Fault.abort
      else
        let st := st.call (Call.wl_shm_pool_destroy pool)
        let pix :=
          sys.pixman_image_create_bits_no_clear st.now buf.width buf.height mmapped buf.stride
        let st :=
          st.call (Call.pixman_image_create_bits_no_clear buf.width buf.height mmapped buf.stride)
        if pix == NULL then throw Fault.abort
        else
          let buf := { buf with offset := new_offset, real_mmapped := real_mmapped,
                                mmapped := mmapped, mmap_size := mmap_size, wl_buf := wl_buf,
                                pix := pix }
          let st := st.call (Call.wl_buffer_add_listener wl_buf)
          pure (true, buf, st)

/-! ## The pool -/

/-- First loop of `shm_get_buffer` (lines 191-206): destroy and unlink the
entries of `cookie` that are marked for purging. -/
def purge_marked (cookie : Nat) : List Buffer → Except Fault (List Buffer × List Call)
  | [] => pure ([], [])
  | it :: rest =>
    if it.cookie ≠ cookie then do
      let (l, cs) ← purge_marked cookie rest
      pure (it :: l, cs)
    else if !it.purge then do
      let (l, cs) ← purge_marked cookie rest
      pure (it :: l, cs)
    else do
      assert (!it.busy) 198
      let (l, cs) ← purge_marked cookie rest
      pure (l, (buffer_destroy it).2 ++ cs)

/-- Second loop of `shm_get_buffer` (lines 208-223): the first idle entry with
the wanted geometry and cookie is taken again; its position and the list
afterwards. -/
def reuse_cached (width height : Int) (cookie : Nat) : List Buffer → Option (Nat × List Buffer)
  | [] => none
  | it :: rest =>
    if it.width ≠ width then
      (reuse_cached width height cookie rest).map fun r => (r.1 + 1, it :: r.2)
    else if it.height ≠ height then
      (reuse_cached width height cookie rest).map fun r => (r.1 + 1, it :: r.2)
    else if it.cookie ≠ cookie then
      (reuse_cached width height cookie rest).map fun r => (r.1 + 1, it :: r.2)
    else if !it.busy then
      some (0, { it with busy := true, purge := false } :: rest)
    else
      (reuse_cached width height cookie rest).map fun r => (r.1 + 1, it :: r.2)

/-- Third loop of `shm_get_buffer` (lines 226-238): mark the idle entries of
`cookie` that have another geometry. -/
def mark_for_purging (width height : Int) (cookie : Nat) : List Buffer → List Buffer
  | [] => []
  | it :: rest =>
    if it.cookie ≠ cookie then it :: mark_for_purging width height cookie rest
    else if it.busy then it :: mark_for_purging width height cookie rest
    else if it.width == width && it.height == height then
      it :: mark_for_purging width height cookie rest
    else { it with purge := true } :: mark_for_purging width height cookie rest

/-- The function `shm_get_buffer` (lines 187-318): the position of the returned entry
and the state afterwards. -/
def shm_get_buffer (sys : Sys) (st : Shm) (width height : Int) (cookie : Nat) :
    Except Fault (Nat × Shm) := do
  let (l, cs) ← purge_marked cookie st.buffers
  let st := { st with buffers := l, calls := st.calls ++ cs }
  match reuse_cached width height cookie st.buffers with
  | some (i, l2) => pure (i, { st with buffers := l2 })
  | none =>
    let st := { st with buffers := mark_for_purging width height cookie st.buffers }
    let stride := sys.stride_for_format_and_width width
    let size := u64 (← int_mul stride height)
    let pool_fd := sys.memfd_create st.now
    let st := st.call Call.memfd_create
    if pool_fd == -1 then throw Fault.abort
    else
      let initial_offset : Int := 0
      let memfd_size := s64 (initial_offset + size)
      let r := sys.ftruncate st.now pool_fd memfd_size
      let st := st.call (Call.ftruncate pool_fd memfd_size)
      if r == -1 then throw Fault.abort
      else
        let st :=
          if !st.can_punch_hole_initialized then
            let r := sys.fallocate st.now pool_fd 0 1
            { st.call (Call.fallocate pool_fd 0 1) with
              can_punch_hole_initialized := true, can_punch_hole := r == 0 }
          else st
        let item : Buffer :=
          { cookie := cookie, width := width, height := height, stride := stride, busy := true,
            size := size, mmapped := NULL, wl_buf := NULL, pix := NULL, fd := pool_fd,
            real_mmapped := NULL, mmap_size := size, offset := 0, purge := false }
        let st := { st with buffers := st.buffers ++ [item] }
        let (ok, ret, st) ← instantiate_offset sys st item initial_offset
        if !ok then throw Fault.abort
        else
          pure (st.buffers.length - 1,
            { st with buffers := st.buffers.set (st.buffers.length - 1) ret })

/-- Loop of `shm_fini` (lines 320-327) over the list: the calls made. -/
def fini_calls : List Buffer → List Call
  | [] => []
  | it :: rest => (buffer_destroy it).2 ++ fini_calls rest

/-- The function `shm_fini` (lines 320-327): every entry is destroyed and unlinked. -/
def shm_fini (st : Shm) : Shm :=
  { st with buffers := [], calls := st.calls ++ fini_calls st.buffers }

/-- The function `shm_can_scroll` (lines 329-338), not on i386. -/
def shm_can_scroll (st : Shm) : Bool := st.can_punch_hole

/-- Loop of `shm_purge` (lines 591-599). -/
def purge_all (cookie : Nat) : List Buffer → Except Fault (List Buffer × List Call)
  | [] => pure ([], [])
  | it :: rest =>
    if it.cookie ≠ cookie then do
      let (l, cs) ← purge_all cookie rest
      pure (it :: l, cs)
    else do
      assert (!it.busy) 595
      let (l, cs) ← purge_all cookie rest
      pure (l, (buffer_destroy it).2 ++ cs)

/-- The function `shm_purge` (lines 585-600). -/
def shm_purge (st : Shm) (cookie : Nat) : Except Fault Shm := do
  let (l, cs) ← purge_all cookie st.buffers
  pure { st with buffers := l, calls := st.calls ++ cs }

/-! ## Scrolling -/

/-- A call of `ftruncate` whose failure (a negative result) leads to `abort()`. -/
def sys_ftruncate (sys : Sys) (st : Shm) (fd length : Int) : Except Fault Shm :=
  let r := sys.ftruncate st.now fd length
  let st := st.call (Call.ftruncate fd length)
  if r < 0 then throw Fault.abort else pure st

/-- The function `wrap_buffer` (lines 340-362). -/
def wrap_buffer (sys : Sys) (st : Shm) (buf : Buffer) (new_offset : Int) :
    Except Fault (Bool × Buffer × Shm) := do
  let (ps1, st) ← page_size sys st
  let aligned_offset := s64 (and64 new_offset (not64 (ps1 - 1)))
  let (ps2, st) ← page_size sys st
  let page_offset := and64 new_offset (ps2 - 1)
  let mmap_size := u64 (buf.size + page_offset)
  assert (decide (aligned_offset ≤ new_offset)) 347
  assert (decide (mmap_size ≥ buf.size)) 348
  let m := sys.mmap st.now mmap_size buf.fd aligned_offset
  let st := st.call (Call.mmap mmap_size buf.fd aligned_offset)
  if m == MAP_FAILED then
    pure (false, buf, st)
  else
    let st := st.call (Call.memcpy (m + page_offset) buf.mmapped buf.size)
    let st := st.call (Call.munmap m mmap_size)
    let (buf, cs) := buffer_destroy_dont_close buf
    let st := { st with calls := st.calls ++ cs }
    instantiate_offset sys st buf new_offset

/-- The function `shm_scroll_forward` (lines 364-480). -/
def shm_scroll_forward (sys : Sys) (st : Shm) (buf : Buffer)
    (rows top_margin top_keep_rows bottom_margin bottom_keep_rows : Int) :
    Except Fault (Bool × Buffer × Shm) := do
  assert st.can_punch_hole 369
  assert buf.busy 370
  assert (buf.pix != NULL) 371
  assert (buf.wl_buf != NULL) 372
  assert (buf.real_mmapped != NULL) 373
  assert (decide (buf.fd ≥ 0)) 374
  if !st.can_punch_hole then
    pure (false, buf, st)
  else
    assert (decide (rows > 0)) 381
    let scrolled ← int_mul rows buf.stride
    assert (decide (u64 scrolled < buf.size)) 382
    let (buf, st) ←
      (if u64 (buf.offset + scrolled + buf.size) > max_pool_size then do
        assert (decide (u64 buf.offset > buf.size)) 386
        let (ok, buf, st) ← wrap_buffer sys st buf 0
        (if !ok then throw Fault.abort else pure (buf, st))
      else pure (buf, st) : Except Fault (Buffer × Shm))
    let new_offset := buf.offset + scrolled
    assert (decide (u64 (new_offset + buf.size) ≤ max_pool_size)) 398
    let st ← sys_ftruncate sys st buf.fd (s64 (u64 (new_offset + buf.size)))
    let st ←
      (if top_keep_rows > 0 then do
        let d ← int_mul (← int_add top_margin rows) buf.stride
        let s ← int_mul (← int_add top_margin 0) buf.stride
        let n ← int_mul top_keep_rows buf.stride
        pure (st.call (Call.memmove (buf.mmapped + d) (buf.mmapped + s) (u64 n)))
      else pure st : Except Fault Shm)
    let (buf, cs) := buffer_destroy_dont_close buf
    let st := { st with calls := st.calls ++ cs }
    let st ←
      (if new_offset > 0 then
        let r := sys.fallocate st.now buf.fd 0 new_offset
        let st := st.call (Call.fallocate buf.fd 0 new_offset)
        (if r < 0 then throw Fault.abort else pure st)
      else pure st : Except Fault Shm)
    let (ret, buf, st) ← instantiate_offset sys st buf new_offset
    let st ←
      (if ret && decide (bottom_keep_rows > 0) then do
        let d ← int_mul (← int_add bottom_margin bottom_keep_rows) buf.stride
        let s ← int_mul (← int_add (← int_add bottom_margin rows) bottom_keep_rows) buf.stride
        let n ← int_mul bottom_keep_rows buf.stride
        pure (st.call
          (Call.memmove (buf.mmapped + buf.size - d) (buf.mmapped + buf.size - s) (u64 n)))
      else pure st : Except Fault Shm)
    pure (ret, buf, st)

/-- The function `shm_scroll_reverse` (lines 482-572). -/
def shm_scroll_reverse (sys : Sys) (st : Shm) (buf : Buffer)
    (rows top_margin top_keep_rows bottom_margin bottom_keep_rows : Int) :
    Except Fault (Bool × Buffer × Shm) := do
  assert (decide (rows > 0)) 487
  let diff ← int_mul rows buf.stride
  let (buf, st) ←
    (if diff > buf.offset then do
      let st ← sys_ftruncate sys st buf.fd max_pool_size
      let (ps, st) ← page_size sys st
      let (ok, buf, st) ←
        wrap_buffer sys st buf (s64 (and64 (max_pool_size - buf.size) (not64 (ps - 1))))
      (if !ok then throw Fault.abort else pure (buf, st))
    else pure (buf, st) : Except Fault (Buffer × Shm))
  let new_offset := buf.offset - diff
  assert (decide (new_offset ≤ max_pool_size)) 509
  let st ←
    (if bottom_keep_rows > 0 then do
      let d ← int_mul (← int_add (← int_add bottom_margin rows) bottom_keep_rows) buf.stride
      let s ← int_mul (← int_add bottom_margin bottom_keep_rows) buf.stride
      let n ← int_mul bottom_keep_rows buf.stride
      pure (st.call
        (Call.memmove (buf.mmapped + buf.size - d) (buf.mmapped + buf.size - s) (u64 n)))
    else pure st : Except Fault Shm)
  let (buf, cs) := buffer_destroy_dont_close buf
  let st := { st with calls := st.calls ++ cs }
  let st ← sys_ftruncate sys st buf.fd (s64 (u64 (new_offset + buf.size)))
  let (ret, buf, st) ← instantiate_offset sys st buf new_offset
  let st ←
    (if ret && decide (top_keep_rows > 0) then do
      let d ← int_mul (← int_add top_margin 0) buf.stride
      let s ← int_mul (← int_add top_margin rows) buf.stride
      let n ← int_mul top_keep_rows buf.stride
      pure (st.call (Call.memmove (buf.mmapped + d) (buf.mmapped + s) (u64 n)))
    else pure st : Except Fault Shm)
  pure (ret, buf, st)

/-- Negation of an `int`; `-INT_MIN` is undefined behaviour. -/
def int_neg (a : Int) : Except Fault Int :=
  if INT_MIN ≤ -a ∧ -a ≤ INT_MAX then pure (-a) else throw Fault.undefined

/-- The function `shm_scroll` (lines 574-583), on the entry at position `i`. -/
def shm_scroll (sys : Sys) (st : Shm) (i : Nat)
    (rows top_margin top_keep_rows bottom_margin bottom_keep_rows : Int) :
    Except Fault (Bool × Shm) := do
  match st.buffers[i]? with
  | none => throw Fault.undefined
  | some buf =>
    assert (rows != 0) 579
    let (ret, buf, st) ←
      (if rows > 0 then
        shm_scroll_forward sys st buf rows top_margin top_keep_rows bottom_margin bottom_keep_rows
      else do
        shm_scroll_reverse sys st buf (← int_neg rows) top_margin top_keep_rows
          bottom_margin bottom_keep_rows : Except Fault (Bool × Buffer × Shm))
    pure (ret, { st with buffers := st.buffers.set i buf })

/-- A release notification of the display peer for the entry at position `i`. -/
def release (st : Shm) (i : Nat) (wl_buffer : Ptr) : Except Fault Shm := do
  match st.buffers[i]? with
  | none => throw Fault.undefined
  | some buffer =>
    let buffer ← buffer_release buffer wl_buffer
    pure { st with buffers := st.buffers.set i buffer }

/-! ## Runs of the pool -/

/-- The operations on the pool: the four exported functions and the release
notification of the display peer. -/
inductive Op where
  | acquire (sys : Sys) (width height : Int) (cookie : Nat)
  | release (i : Nat) (wl_buffer : Ptr)
  | scroll (sys : Sys) (i : Nat) (rows top_margin top_keep_rows bottom_margin bottom_keep_rows : Int)
  | purge (cookie : Nat)
  | fini

/-- One operation on the pool. -/
def exec (st : Shm) : Op → Except Fault Shm
  | Op.acquire sys width height cookie => (shm_get_buffer sys st width height cookie).map (·.2)
  | Op.release i wl_buffer => release st i wl_buffer
  | Op.scroll sys i rows tm tk bm bk => (shm_scroll sys st i rows tm tk bm bk).map (·.2)
  | Op.purge cookie => shm_purge st cookie
  | Op.fini => pure (shm_fini st)

/-- The states the pool reaches from the start of the process by operations
that return, each operation being allowed by `ok` in the state it starts from. -/
inductive Reachable (ok : Shm → Op → Prop) : Shm → Prop
  | init : Reachable ok shm_init
  | step {st st2 : Shm} (op : Op) : Reachable ok st → ok st op → exec st op = Except.ok st2 →
      Reachable ok st2

/-! ## Summaries of the calls that return

The functions below name what `page_size` and `instantiate_offset` return when
they return; the lemmas `page_size_eq_ok` and `instantiate_offset_eq_ok` prove
that they do. -/

/-- Value returned by `page_size()` in state `st`. -/
def page_size_of (sys : Sys) (st : Shm) : Int :=
  if st.page_size_size = 0 then u64 (sys.sysconf st.now) else st.page_size_size

/-- External calls made by `page_size()` in state `st`. -/
def page_size_calls (st : Shm) : List Call :=
  if st.page_size_size = 0 then [Call.sysconf] else []

/-- The local `aligned_offset` of `instantiate_offset` and `wrap_buffer`. -/
def aligned_offset_of (ps new_offset : Int) : Int := s64 (and64 new_offset (not64 (ps - 1)))

/-- The local `page_offset` of `instantiate_offset` and `wrap_buffer`. -/
def page_offset_of (ps new_offset : Int) : Int := and64 new_offset (ps - 1)

/-- The local `mmap_size` of `instantiate_offset` and `wrap_buffer`. -/
def mmap_size_of (ps : Int) (buf : Buffer) (new_offset : Int) : Int :=
  u64 (buf.size + page_offset_of ps new_offset)

/-- Address returned by the `mmap` of `instantiate_offset`, made as external call number `n`. -/
def mmap_of (sys : Sys) (n : Nat) (ps : Int) (buf : Buffer) (new_offset : Int) : Ptr :=
  sys.mmap n (mmap_size_of ps buf new_offset) buf.fd (aligned_offset_of ps new_offset)

/-- Pool descriptor obtained by `instantiate_offset`. -/
def pool_of (sys : Sys) (n : Nat) (buf : Buffer) (new_offset : Int) : Ptr :=
  sys.wl_shm_create_pool (n + 1) buf.fd (new_offset + buf.size)

/-- Peer handle obtained by `instantiate_offset`. -/
def wl_buf_of (sys : Sys) (n : Nat) (buf : Buffer) (new_offset : Int) : Ptr :=
  sys.wl_shm_pool_create_buffer (n + 2) (pool_of sys n buf new_offset) new_offset
    buf.width buf.height buf.stride

/-- Pixel view obtained by `instantiate_offset`. -/
def pix_of (sys : Sys) (n : Nat) (ps : Int) (buf : Buffer) (new_offset : Int) : Ptr :=
  sys.pixman_image_create_bits_no_clear (n + 4) buf.width buf.height
    (mmap_of sys n ps buf new_offset + page_offset_of ps new_offset) buf.stride

/-- The entry as `instantiate_offset` leaves it (lines 163-168). -/
def instantiated (sys : Sys) (n : Nat) (ps : Int) (buf : Buffer) (new_offset : Int) : Buffer :=
  { buf with
    offset := new_offset
    real_mmapped := mmap_of sys n ps buf new_offset
    mmapped := mmap_of sys n ps buf new_offset + page_offset_of ps new_offset
    mmap_size := mmap_size_of ps buf new_offset
    wl_buf := wl_buf_of sys n buf new_offset
    pix := pix_of sys n ps buf new_offset }

/-- External calls of a successful `instantiate_offset`, the first being call number `n`. -/
def instantiate_calls (sys : Sys) (n : Nat) (ps : Int) (buf : Buffer) (new_offset : Int) :
    List Call :=
  [Call.mmap (mmap_size_of ps buf new_offset) buf.fd (aligned_offset_of ps new_offset),
   Call.wl_shm_create_pool buf.fd (new_offset + buf.size),
   Call.wl_shm_pool_create_buffer (pool_of sys n buf new_offset) new_offset
     buf.width buf.height buf.stride,
   Call.wl_shm_pool_destroy (pool_of sys n buf new_offset),
   Call.pixman_image_create_bits_no_clear buf.width buf.height
     (mmap_of sys n ps buf new_offset + page_offset_of ps new_offset) buf.stride,
   Call.wl_buffer_add_listener (wl_buf_of sys n buf new_offset)]

/-- The conditions under which `instantiate_offset` returns: its assertions
hold and its four external requests succeed. -/
def InstantiateReturns (sys : Sys) (st : Shm) (buf : Buffer) (new_offset : Int) : Prop :=
  0 ≤ buf.fd ∧ buf.mmapped = NULL ∧ buf.real_mmapped = NULL ∧ buf.wl_buf = NULL ∧
  buf.pix = NULL ∧ u64 (new_offset + buf.size) ≤ max_pool_size ∧
  0 < page_size_of sys st ∧
  aligned_offset_of (page_size_of sys st) new_offset ≤ new_offset ∧
  buf.size ≤ mmap_size_of (page_size_of sys st) buf new_offset ∧
  mmap_of sys (st.now + (page_size_calls st).length) (page_size_of sys st) buf new_offset
    ≠ MAP_FAILED ∧
  pool_of sys (st.now + (page_size_calls st).length) buf new_offset ≠ NULL ∧
  wl_buf_of sys (st.now + (page_size_calls st).length) buf new_offset ≠ NULL ∧
  pix_of sys (st.now + (page_size_calls st).length) (page_size_of sys st) buf new_offset ≠ NULL

/-- The state after a successful `instantiate_offset`. -/
def after_instantiate (sys : Sys) (st : Shm) (buf : Buffer) (new_offset : Int) : Shm :=
  { st with
    page_size_size := page_size_of sys st
    calls := st.calls ++ page_size_calls st ++
      instantiate_calls sys (st.now + (page_size_calls st).length) (page_size_of sys st)
        buf new_offset }

/-- An entry the first loop of `shm_get_buffer` keeps: not a purge-marked entry of `cookie`. -/
def kept (cookie : Nat) (b : Buffer) : Bool := !(b.cookie == cookie && b.purge)

/-- An entry the second loop of `shm_get_buffer` takes: idle, with the wanted geometry and cookie. -/
def reusable (width height : Int) (cookie : Nat) (b : Buffer) : Bool :=
  b.width == width && b.height == height && b.cookie == cookie && !b.busy

/-- What the third loop of `shm_get_buffer` does to one entry. -/
def mark (width height : Int) (cookie : Nat) (b : Buffer) : Buffer :=
  if b.cookie = cookie ∧ b.busy = false ∧ ¬ (b.width = width ∧ b.height = height) then
    { b with purge := true }
  else b

/-- The entries of the pool after the first loop of `shm_get_buffer`. -/
def swept (st : Shm) (cookie : Nat) : List Buffer := st.buffers.filter (kept cookie)

/-- The external calls of the first loop of `shm_get_buffer`. -/
def sweep_calls (st : Shm) (cookie : Nat) : List Call :=
  fini_calls (st.buffers.filter fun b => !kept cookie b)

/-- The descriptor `memfd_create` returns to `shm_get_buffer` on a miss. -/
def pool_fd_of (sys : Sys) (st : Shm) (cookie : Nat) : Int :=
  sys.memfd_create (st.now + (sweep_calls st cookie).length)

/-- The local `size` of `shm_get_buffer` (line 252). -/
def size_of (sys : Sys) (width height : Int) : Int :=
  u64 (sys.stride_for_format_and_width width * height)

/-- The entry `shm_get_buffer` pushes on a miss (lines 291-304). -/
def pushed (sys : Sys) (st : Shm) (width height : Int) (cookie : Nat) : Buffer :=
  { cookie := cookie, width := width, height := height,
    stride := sys.stride_for_format_and_width width, busy := true,
    size := size_of sys width height, mmapped := NULL, wl_buf := NULL, pix := NULL,
    fd := pool_fd_of sys st cookie, real_mmapped := NULL,
    mmap_size := size_of sys width height, offset := 0, purge := false }

/-- The state in which `shm_get_buffer` calls `instantiate_offset` on a miss (line 307). -/
def pushed_state (sys : Sys) (st : Shm) (width height : Int) (cookie : Nat) : Shm :=
  { buffers := (swept st cookie).map (mark width height cookie) ++ [pushed sys st width height cookie]
    can_punch_hole :=
      if st.can_punch_hole_initialized then st.can_punch_hole
      else sys.fallocate (st.now + (sweep_calls st cookie).length + 2)
        (pool_fd_of sys st cookie) 0 1 == 0
    can_punch_hole_initialized := true
    page_size_size := st.page_size_size
    calls := st.calls ++ sweep_calls st cookie ++
      [Call.memfd_create,
       Call.ftruncate (pool_fd_of sys st cookie) (s64 (0 + size_of sys width height))] ++
      (if st.can_punch_hole_initialized then []
       else [Call.fallocate (pool_fd_of sys st cookie) 0 1]) }

/-- The conditions under which `shm_get_buffer` returns on a miss. -/
def MissReturns (sys : Sys) (st : Shm) (width height : Int) (cookie : Nat) : Prop :=
  (INT_MIN ≤ sys.stride_for_format_and_width width * height ∧
    sys.stride_for_format_and_width width * height ≤ INT_MAX) ∧
  pool_fd_of sys st cookie ≠ -1 ∧
  sys.ftruncate (st.now + (sweep_calls st cookie).length + 1) (pool_fd_of sys st cookie)
    (s64 (0 + size_of sys width height)) ≠ -1 ∧
  InstantiateReturns sys (pushed_state sys st width height cookie)
    (pushed sys st width height cookie) 0

/-- The entry `shm_get_buffer` returns on a miss: the pushed entry, instantiated at offset 0. -/
def fresh_entry (sys : Sys) (st : Shm) (width height : Int) (cookie : Nat) : Buffer :=
  instantiated sys
    ((pushed_state sys st width height cookie).now +
      (page_size_calls (pushed_state sys st width height cookie)).length)
    (page_size_of sys (pushed_state sys st width height cookie))
    (pushed sys st width height cookie) 0

/-- The state after `shm_get_buffer` returned on a miss. -/
def after_miss (sys : Sys) (st : Shm) (width height : Int) (cookie : Nat) : Shm :=
  { after_instantiate sys (pushed_state sys st width height cookie)
      (pushed sys st width height cookie) 0 with
    buffers := (swept st cookie).map (mark width height cookie) ++
      [fresh_entry sys st width height cookie] }

/-- Two states of one entry that differ at most in offset, mapping, pixel view
and peer handle. -/
def SameEntry (a b : Buffer) : Prop :=
  b.cookie = a.cookie ∧ b.width = a.width ∧ b.height = a.height ∧ b.stride = a.stride ∧
  b.busy = a.busy ∧ b.size = a.size ∧ b.fd = a.fd ∧ b.purge = a.purge

/-- Two states of the process with the same pool and the same hole-punch flags,
the second having made further external calls. -/
def Frame (st st2 : Shm) : Prop :=
  st2.buffers = st.buffers ∧ st2.can_punch_hole = st.can_punch_hole ∧
  st2.can_punch_hole_initialized = st.can_punch_hole_initialized ∧
  ∃ cs, st2.calls = st.calls ++ cs

/-! ## A sample environment and sample pools -/

/-- An environment in which every external call succeeds, except that a file
cannot be mapped at a negative offset nor truncated to a negative length: pages
of 4096 bytes, four bytes per pixel, descriptors and addresses numbered by the
call that returns them. -/
def sample_sys : Sys :=
  { sysconf := fun _ => 4096
    stride_for_format_and_width := fun w => 4 * w
    memfd_create := fun n => 3 + n
    ftruncate := fun _ _ len => if len < 0 then -1 else 0
    fallocate := fun _ _ _ _ => 0
    mmap := fun n _ _ off => if off < 0 then MAP_FAILED else 4096 * (n + 1)
    wl_shm_create_pool := fun n _ _ => 100 + n
    wl_shm_pool_create_buffer := fun n _ _ _ _ _ => 200 + n
    pixman_image_create_bits_no_clear := fun n _ _ _ _ => 300 + n }

/-- The pool with every entry released. -/
def all_released (st : Shm) : Shm :=
  { st with buffers := st.buffers.map fun b => { b with busy := false } }

/-- The pool after a first buffer of 2 by 2 pixels was acquired for cookie 7. -/
def pool_a : Shm := after_miss sample_sys shm_init 2 2 7

/-- The pool after a buffer of 1 by 1 pixel was acquired for cookie 7 while the
entry of `pool_a` was idle. -/
def pool_ab : Shm := after_miss sample_sys (all_released pool_a) 1 1 7

/-- The list with the busy flag of the entry at position `i` cleared. -/
def clear_busy_at : Nat → List Buffer → List Buffer
  | _, [] => []
  | 0, b :: l => { b with busy := false } :: l
  | i + 1, b :: l => b :: clear_busy_at i l

/-- The pool after the release notification for the entry at position `i`. -/
def released (st : Shm) (i : Nat) : Shm :=
  { st with buffers := clear_busy_at i st.buffers }

/-- The external calls that release a mapping, a pixel view, a peer handle or a descriptor. -/
def Call.tears_down : Call → Bool
  | Call.pixman_image_unref _ => true
  | Call.wl_buffer_destroy _ => true
  | Call.munmap _ _ => true
  | Call.close _ => true
  | _ => false

/-- An entry with key `(cookie, width, height)` that is not marked for purging. -/
def live (cookie : Nat) (width height : Int) (b : Buffer) : Bool :=
  b.cookie == cookie && b.width == width && b.height == height && !b.purge

/-- The discipline under which a key has one entry: `shm_get_buffer` is called
for a key only while no entry with that key is busy. -/
def acquire_when_idle (st : Shm) : Op → Prop
  | Op.acquire _ width height cookie =>
    ∀ b ∈ st.buffers, b.cookie = cookie → b.width = width → b.height = height → b.busy = false
  | _ => True

/-- The pool after a second buffer of 2 by 2 pixels was acquired for cookie 7
while the entry of `pool_a` was busy. -/
def pool_aa : Shm := after_miss sample_sys pool_a 2 2 7

/-- What the pool relies on from its environment: a file cannot be mapped at a
negative offset, `mmap` returns `MAP_FAILED` or a valid address, a file cannot
be truncated to a negative length, and the stride of a non-negative width is not
negative. -/
def Sys.Posix (sys : Sys) : Prop :=
  (∀ n len fd off, off < 0 → sys.mmap n len fd off = MAP_FAILED) ∧
  (∀ n len fd off, sys.mmap n len fd off = MAP_FAILED ∨ 0 < sys.mmap n len fd off) ∧
  (∀ n fd len, len < 0 → sys.ftruncate n fd len < 0) ∧
  (∀ w, 0 ≤ w → 0 ≤ sys.stride_for_format_and_width w)

/-- The operations made in an environment that is `Posix`, widths being non-negative. -/
def posix_ops (_ : Shm) : Op → Prop
  | Op.acquire sys width _ _ => sys.Posix ∧ 0 ≤ width
  | Op.scroll sys _ _ _ _ _ _ => sys.Posix
  | _ => True

instance (sys : Sys) (st : Shm) (buf : Buffer) (o : Int) :
    Decidable (InstantiateReturns sys st buf o) := by
  unfold InstantiateReturns; infer_instance

instance (sys : Sys) (st : Shm) (w h : Int) (c : Nat) : Decidable (MissReturns sys st w h c) := by
  unfold MissReturns; infer_instance


/-! ## Summaries of the scrolls that return -/

/-- The state in which `wrap_buffer` calls `instantiate_offset` (line 361), its
own `mmap` having succeeded. -/
def wrap_state (sys : Sys) (st : Shm) (buf : Buffer) (new_offset : Int) : Shm :=
  { st with
    page_size_size := page_size_of sys st
    calls := st.calls ++ page_size_calls st ++
      [Call.mmap (mmap_size_of (page_size_of sys st) buf new_offset) buf.fd
         (aligned_offset_of (page_size_of sys st) new_offset),
       Call.memcpy
         (mmap_of sys (st.now + (page_size_calls st).length) (page_size_of sys st) buf new_offset +
           page_offset_of (page_size_of sys st) new_offset) buf.mmapped buf.size,
       Call.munmap
         (mmap_of sys (st.now + (page_size_calls st).length) (page_size_of sys st) buf new_offset)
         (mmap_size_of (page_size_of sys st) buf new_offset)] ++
      (buffer_destroy_dont_close buf).2 }

/-- The entry as a `wrap_buffer` that returns true leaves it. -/
def wrapped_entry (sys : Sys) (st : Shm) (buf : Buffer) (new_offset : Int) : Buffer :=
  instantiated sys
    ((wrap_state sys st buf new_offset).now +
      (page_size_calls (wrap_state sys st buf new_offset)).length)
    (page_size_of sys (wrap_state sys st buf new_offset))
    (buffer_destroy_dont_close buf).1 new_offset

/-- The state after a `wrap_buffer` that returns true. -/
def after_wrap (sys : Sys) (st : Shm) (buf : Buffer) (new_offset : Int) : Shm :=
  after_instantiate sys (wrap_state sys st buf new_offset) (buffer_destroy_dont_close buf).1
    new_offset

/-- The test of line 384: a forward scroll by `rows` wraps around. -/
def forward_wraps (buf : Buffer) (rows : Int) : Prop :=
  u64 (buf.offset + rows * buf.stride + buf.size) > max_pool_size

instance (buf : Buffer) (rows : Int) : Decidable (forward_wraps buf rows) := by
  unfold forward_wraps; infer_instance

/-- The entry of a forward scroll after its wrap check (line 395). -/
def forward_entry (sys : Sys) (st : Shm) (buf : Buffer) (rows : Int) : Buffer :=
  if forward_wraps buf rows then wrapped_entry sys st buf 0 else buf

/-- The state of a forward scroll after its wrap check (line 395). -/
def forward_state (sys : Sys) (st : Shm) (buf : Buffer) (rows : Int) : Shm :=
  if forward_wraps buf rows then after_wrap sys st buf 0 else st

/-- The local `new_offset` of `shm_scroll_forward` (line 397). -/
def forward_offset (sys : Sys) (st : Shm) (buf : Buffer) (rows : Int) : Int :=
  (forward_entry sys st buf rows).offset + rows * buf.stride

/-- The `memmove` of the top region in `shm_scroll_forward` (lines 425-428). -/
def forward_top_move (b : Buffer) (rows top_margin top_keep_rows : Int) : List Call :=
  if top_keep_rows > 0 then
    [Call.memmove (b.mmapped + (top_margin + rows) * b.stride)
      (b.mmapped + (top_margin + 0) * b.stride) (u64 (top_keep_rows * b.stride))]
  else []

/-- The `memmove` of the bottom region in `shm_scroll_forward` (lines 459-462). -/
def forward_bottom_move (b : Buffer) (rows bottom_margin bottom_keep_rows : Int) : List Call :=
  if bottom_keep_rows > 0 then
    [Call.memmove (b.mmapped + b.size - (bottom_margin + bottom_keep_rows) * b.stride)
      (b.mmapped + b.size - (bottom_margin + rows + bottom_keep_rows) * b.stride)
      (u64 (bottom_keep_rows * b.stride))]
  else []

/-- The state in which `shm_scroll_forward` calls `instantiate_offset` (line 454). -/
def forward_remap_state (sys : Sys) (st : Shm) (buf : Buffer)
    (rows top_margin top_keep_rows : Int) : Shm :=
  { forward_state sys st buf rows with
    calls := (forward_state sys st buf rows).calls ++
      [Call.ftruncate (forward_entry sys st buf rows).fd
        (s64 (u64 (forward_offset sys st buf rows + (forward_entry sys st buf rows).size)))] ++
      forward_top_move (forward_entry sys st buf rows) rows top_margin top_keep_rows ++
      (buffer_destroy_dont_close (forward_entry sys st buf rows)).2 ++
      (if forward_offset sys st buf rows > 0 then
        [Call.fallocate (forward_entry sys st buf rows).fd 0 (forward_offset sys st buf rows)]
       else []) }

/-- The entry as a `shm_scroll_forward` that returns leaves it. -/
def scrolled_forward (sys : Sys) (st : Shm) (buf : Buffer)
    (rows top_margin top_keep_rows : Int) : Buffer :=
  instantiated sys
    ((forward_remap_state sys st buf rows top_margin top_keep_rows).now +
      (page_size_calls (forward_remap_state sys st buf rows top_margin top_keep_rows)).length)
    (page_size_of sys (forward_remap_state sys st buf rows top_margin top_keep_rows))
    (buffer_destroy_dont_close (forward_entry sys st buf rows)).1
    (forward_offset sys st buf rows)

/-- The state after a `shm_scroll_forward` that returns. -/
def after_scroll_forward (sys : Sys) (st : Shm) (buf : Buffer)
    (rows top_margin top_keep_rows bottom_margin bottom_keep_rows : Int) : Shm :=
  { after_instantiate sys (forward_remap_state sys st buf rows top_margin top_keep_rows)
      (buffer_destroy_dont_close (forward_entry sys st buf rows)).1
      (forward_offset sys st buf rows) with
    calls := (after_instantiate sys (forward_remap_state sys st buf rows top_margin top_keep_rows)
        (buffer_destroy_dont_close (forward_entry sys st buf rows)).1
        (forward_offset sys st buf rows)).calls ++
      forward_bottom_move (scrolled_forward sys st buf rows top_margin top_keep_rows)
        rows bottom_margin bottom_keep_rows }

/-- The calls that copy a buffer with `memcpy`: only `wrap_buffer` makes one. -/
def Call.is_memcpy : Call → Bool
  | Call.memcpy _ _ _ => true
  | _ => false

/-- A process in which hole punching was found to work and the page size is known. -/
def scroll_state : Shm :=
  { shm_init with can_punch_hole := true, can_punch_hole_initialized := true,
                  page_size_size := 4096 }

/-- The entry of the instance given with the wrap-around of a forward scroll: 3
rows of 100 bytes at offset 700. -/
def instance_entry : Buffer :=
  { cookie := 7, width := 25, height := 3, stride := 100, busy := true, size := 300,
    mmapped := 8192 + 700, wl_buf := 202, pix := 304, fd := 3, real_mmapped := 8192,
    mmap_size := 1000, offset := 700, purge := false }

/-- An entry of 3 rows of 100 bytes that ends at the pool bound. -/
def last_entry : Buffer :=
  { cookie := 7, width := 25, height := 3, stride := 100, busy := true, size := 300,
    mmapped := 8192 + 3796, wl_buf := 202, pix := 304, fd := 3, real_mmapped := 8192,
    mmap_size := 4096, offset := 268435156, purge := false }

/-- The external calls of a `wrap_buffer` that returns true. -/
def wrap_calls (sys : Sys) (st : Shm) (buf : Buffer) (new_offset : Int) : List Call :=
  page_size_calls st ++
    [Call.mmap (mmap_size_of (page_size_of sys st) buf new_offset) buf.fd
       (aligned_offset_of (page_size_of sys st) new_offset),
     Call.memcpy
       (mmap_of sys (st.now + (page_size_calls st).length) (page_size_of sys st) buf new_offset +
         page_offset_of (page_size_of sys st) new_offset) buf.mmapped buf.size,
     Call.munmap
       (mmap_of sys (st.now + (page_size_calls st).length) (page_size_of sys st) buf new_offset)
       (mmap_size_of (page_size_of sys st) buf new_offset)] ++
    (buffer_destroy_dont_close buf).2 ++
    page_size_calls (wrap_state sys st buf new_offset) ++
    instantiate_calls sys
      ((wrap_state sys st buf new_offset).now +
        (page_size_calls (wrap_state sys st buf new_offset)).length)
      (page_size_of sys (wrap_state sys st buf new_offset))
      (buffer_destroy_dont_close buf).1 new_offset

/-- The external calls of a `shm_scroll_forward` that returns, after its
`ftruncate` (lines 423-463). -/
def forward_rest_calls (sys : Sys) (st : Shm) (buf : Buffer)
    (rows top_margin top_keep_rows bottom_margin bottom_keep_rows : Int) : List Call :=
  forward_top_move (forward_entry sys st buf rows) rows top_margin top_keep_rows ++
    (buffer_destroy_dont_close (forward_entry sys st buf rows)).2 ++
    (if forward_offset sys st buf rows > 0 then
      [Call.fallocate (forward_entry sys st buf rows).fd 0 (forward_offset sys st buf rows)]
     else []) ++
    page_size_calls (forward_remap_state sys st buf rows top_margin top_keep_rows) ++
    instantiate_calls sys
      ((forward_remap_state sys st buf rows top_margin top_keep_rows).now +
        (page_size_calls (forward_remap_state sys st buf rows top_margin top_keep_rows)).length)
      (page_size_of sys (forward_remap_state sys st buf rows top_margin top_keep_rows))
      (buffer_destroy_dont_close (forward_entry sys st buf rows)).1
      (forward_offset sys st buf rows) ++
    forward_bottom_move (scrolled_forward sys st buf rows top_margin top_keep_rows)
      rows bottom_margin bottom_keep_rows

/-- The test of line 490: a reverse scroll by `rows` wraps around. -/
def reverse_wraps (buf : Buffer) (rows : Int) : Prop := rows * buf.stride > buf.offset

instance (buf : Buffer) (rows : Int) : Decidable (reverse_wraps buf rows) := by
  unfold reverse_wraps; infer_instance

/-- The state in which `shm_scroll_reverse` calls `wrap_buffer` (line 504). -/
def reverse_wrap_state (sys : Sys) (st : Shm) (buf : Buffer) : Shm :=
  { st with
    page_size_size := page_size_of sys (st.call (Call.ftruncate buf.fd max_pool_size))
    calls := st.calls ++ [Call.ftruncate buf.fd max_pool_size] ++
      page_size_calls (st.call (Call.ftruncate buf.fd max_pool_size)) }

/-- The offset a reverse scroll wraps to (line 504): the last page boundary
that leaves room for the buffer below the pool bound. -/
def reverse_target (sys : Sys) (st : Shm) (buf : Buffer) : Int :=
  aligned_offset_of (page_size_of sys (st.call (Call.ftruncate buf.fd max_pool_size)))
    (max_pool_size - buf.size)

/-- The entry of a reverse scroll after its wrap check (line 506). -/
def reverse_entry (sys : Sys) (st : Shm) (buf : Buffer) (rows : Int) : Buffer :=
  if reverse_wraps buf rows then
    wrapped_entry sys (reverse_wrap_state sys st buf) buf (reverse_target sys st buf)
  else buf

/-- The state of a reverse scroll after its wrap check (line 506). -/
def reverse_state (sys : Sys) (st : Shm) (buf : Buffer) (rows : Int) : Shm :=
  if reverse_wraps buf rows then
    after_wrap sys (reverse_wrap_state sys st buf) buf (reverse_target sys st buf)
  else st

/-- The local `new_offset` of `shm_scroll_reverse` (line 508). -/
def reverse_offset (sys : Sys) (st : Shm) (buf : Buffer) (rows : Int) : Int :=
  (reverse_entry sys st buf rows).offset - rows * buf.stride

/-- The `memmove` of the bottom region in `shm_scroll_reverse` (lines 521-524). -/
def reverse_bottom_move (b : Buffer) (rows bottom_margin bottom_keep_rows : Int) : List Call :=
  if bottom_keep_rows > 0 then
    [Call.memmove (b.mmapped + b.size - (bottom_margin + rows + bottom_keep_rows) * b.stride)
      (b.mmapped + b.size - (bottom_margin + bottom_keep_rows) * b.stride)
      (u64 (bottom_keep_rows * b.stride))]
  else []

/-- The `memmove` of the top region in `shm_scroll_reverse` (lines 553-556). -/
def reverse_top_move (b : Buffer) (rows top_margin top_keep_rows : Int) : List Call :=
  if top_keep_rows > 0 then
    [Call.memmove (b.mmapped + (top_margin + 0) * b.stride)
      (b.mmapped + (top_margin + rows) * b.stride) (u64 (top_keep_rows * b.stride))]
  else []

/-- The state in which `shm_scroll_reverse` calls `instantiate_offset` (line 549). -/
def reverse_remap_state (sys : Sys) (st : Shm) (buf : Buffer)
    (rows bottom_margin bottom_keep_rows : Int) : Shm :=
  { reverse_state sys st buf rows with
    calls := (reverse_state sys st buf rows).calls ++
      reverse_bottom_move (reverse_entry sys st buf rows) rows bottom_margin bottom_keep_rows ++
      (buffer_destroy_dont_close (reverse_entry sys st buf rows)).2 ++
      [Call.ftruncate (reverse_entry sys st buf rows).fd
        (s64 (u64 (reverse_offset sys st buf rows + (reverse_entry sys st buf rows).size)))] }

/-- The entry as a `shm_scroll_reverse` that returns leaves it. -/
def scrolled_reverse (sys : Sys) (st : Shm) (buf : Buffer)
    (rows bottom_margin bottom_keep_rows : Int) : Buffer :=
  instantiated sys
    ((reverse_remap_state sys st buf rows bottom_margin bottom_keep_rows).now +
      (page_size_calls (reverse_remap_state sys st buf rows bottom_margin bottom_keep_rows)).length)
    (page_size_of sys (reverse_remap_state sys st buf rows bottom_margin bottom_keep_rows))
    (buffer_destroy_dont_close (reverse_entry sys st buf rows)).1
    (reverse_offset sys st buf rows)

/-- The state after a `shm_scroll_reverse` that returns. -/
def after_scroll_reverse (sys : Sys) (st : Shm) (buf : Buffer)
    (rows top_margin top_keep_rows bottom_margin bottom_keep_rows : Int) : Shm :=
  { after_instantiate sys (reverse_remap_state sys st buf rows bottom_margin bottom_keep_rows)
      (buffer_destroy_dont_close (reverse_entry sys st buf rows)).1
      (reverse_offset sys st buf rows) with
    calls := (after_instantiate sys
        (reverse_remap_state sys st buf rows bottom_margin bottom_keep_rows)
        (buffer_destroy_dont_close (reverse_entry sys st buf rows)).1
        (reverse_offset sys st buf rows)).calls ++
      reverse_top_move (scrolled_reverse sys st buf rows bottom_margin bottom_keep_rows)
        rows top_margin top_keep_rows }

/-- The external calls of a `shm_scroll_reverse` that returns, after its wrap
check (lines 518-557). -/
def reverse_rest_calls (sys : Sys) (st : Shm) (buf : Buffer)
    (rows top_margin top_keep_rows bottom_margin bottom_keep_rows : Int) : List Call :=
  reverse_bottom_move (reverse_entry sys st buf rows) rows bottom_margin bottom_keep_rows ++
    (buffer_destroy_dont_close (reverse_entry sys st buf rows)).2 ++
    [Call.ftruncate (reverse_entry sys st buf rows).fd
      (s64 (u64 (reverse_offset sys st buf rows + (reverse_entry sys st buf rows).size)))] ++
    page_size_calls (reverse_remap_state sys st buf rows bottom_margin bottom_keep_rows) ++
    instantiate_calls sys
      ((reverse_remap_state sys st buf rows bottom_margin bottom_keep_rows).now +
        (page_size_calls
          (reverse_remap_state sys st buf rows bottom_margin bottom_keep_rows)).length)
      (page_size_of sys (reverse_remap_state sys st buf rows bottom_margin bottom_keep_rows))
      (buffer_destroy_dont_close (reverse_entry sys st buf rows)).1
      (reverse_offset sys st buf rows) ++
    reverse_top_move (scrolled_reverse sys st buf rows bottom_margin bottom_keep_rows)
      rows top_margin top_keep_rows

/-- An entry of 3 rows of 100 bytes at the start of its file. -/
def first_entry : Buffer :=
  { cookie := 7, width := 25, height := 3, stride := 100, busy := true, size := 300,
    mmapped := 8192, wl_buf := 202, pix := 304, fd := 3, real_mmapped := 8192,
    mmap_size := 300, offset := 0, purge := false }

/-- A system like `sample_sys` on which hole punching is not available:
`fallocate` fails. -/
def no_punch_sys : Sys := { sample_sys with fallocate := fun _ _ _ _ => -1 }

/-- The pool after a buffer of 25 by 3 pixels, 3 rows of 100 bytes, was acquired
on `no_punch_sys`: the probe has failed and `can_punch_hole` is false. -/
def no_punch_pool : Shm := after_miss no_punch_sys shm_init 25 3 7

/-- The operations of `ops`, one after the other, as long as they return. -/
def run (st : Shm) : List Op → Except Fault Shm
  | [] => pure st
  | op :: ops => do
    let st ← exec st op
    run st ops

/-- The calls that ask the system to punch a hole. -/
def Call.is_fallocate : Call → Bool
  | Call.fallocate _ _ _ => true
  | _ => false

/-- The entry of `pool_a`. -/
def entry_a : Buffer := fresh_entry sample_sys shm_init 2 2 7

/-! ## Pixel rows and mapped bytes -/

/-- Address of row `r` of the pixel view that
`pixman_image_create_bits_no_clear(format, width, height, bits, stride)` makes:
the rows lie `stride` bytes apart, the first at `bits`. -/
def row_address (bits : Ptr) (stride r : Int) : Ptr := bits + r * stride

/-- File offset of the byte that stands `x` bytes into a shared mapping made by
`mmap(NULL, length, prot, MAP_SHARED, fd, offset)`. -/
def mapped_file_offset (offset x : Int) : Int := offset + x

/-! ## The bytes behind the calls

The external calls recorded in `Shm.calls` act on the backing files and on the
address space.  `Mem` follows the bytes of the files and the live shared
mappings through a list of calls; the answers of the system are those of `Sys`. -/

/-- One live shared mapping: the `length` bytes at address `addr` show the
bytes of file `fd` from `offset` on. -/
structure Mapping where
  addr : Ptr
  length : Int
  fd : Int
  offset : Int
deriving DecidableEq, Repr

/-- The bytes of the backing files, by descriptor and file offset, and the
live mappings, the most recent first. -/
structure Mem where
  file : Int → Int → Nat
  maps : List Mapping

/-- The mapping shows address `a`. -/
def Mapping.covers (p : Mapping) (a : Ptr) : Bool := decide (p.addr ≤ a ∧ a < p.addr + p.length)

/-- The file byte that address `a` shows: descriptor and file offset. -/
def Mem.resolve (m : Mem) (a : Ptr) : Option (Int × Int) :=
  match m.maps.find? (fun p => p.covers a) with
  | some p => some (p.fd, p.offset + (a - p.addr))
  | none => none

/-- The byte read at address `a`; an address that shows no file reads as 0. -/
def Mem.read (m : Mem) (a : Ptr) : Nat :=
  match m.resolve a with
  | some (fd, off) => m.file fd off
  | none => 0

/-- The memory after the byte `v` was stored at address `a`. -/
def Mem.write (m : Mem) (a : Ptr) (v : Nat) : Mem :=
  match m.resolve a with
  | some (fd, off) => { m with file := fun f o => if f = fd ∧ o = off then v else m.file f o }
  | none => m

/-- The memory after `memmove(dest, src, n)`: the `n` bytes at `src`, as they
were before the call, stand at `dest`. -/
def Mem.memmove (m : Mem) (dest src : Ptr) (n : Int) : Mem :=
  (List.range n.toNat).foldl
    (fun acc (k : Nat) => acc.write (dest + (k : Int)) (m.read (src + (k : Int)))) m

/-- The memory after one external call, made as call number `n`.  `memcpy` is
taken as `memmove`, which it is when the two ranges do not overlap; `ftruncate`
drops the bytes from the new length on (they read as 0 when the file grows
again); `fallocate`, always called here to punch a hole, zeroes its range. -/
def Mem.step (sys : Sys) (n : Nat) (m : Mem) : Call → Mem
  | Call.mmap length fd offset =>
    if sys.mmap n length fd offset = MAP_FAILED then m
    else { m with maps := ⟨sys.mmap n length fd offset, length, fd, offset⟩ :: m.maps }
  | Call.munmap addr length =>
    { m with maps := m.maps.eraseP fun p => p.addr == addr && p.length == length }
  | Call.memmove dest src k => m.memmove dest src k
  | Call.memcpy dest src k => m.memmove dest src k
  | Call.ftruncate fd length =>
    if sys.ftruncate n fd length < 0 then m
    else { m with file := fun f o => if f = fd ∧ length ≤ o then 0 else m.file f o }
  | Call.fallocate fd offset len =>
    if sys.fallocate n fd offset len < 0 then m
    else { m with
      file := fun f o => if f = fd ∧ offset ≤ o ∧ o < offset + len then 0 else m.file f o }
  | _ => m

/-- The memory after the calls `cs`, the first of them made as call number `n`. -/
def Mem.run (sys : Sys) : Nat → Mem → List Call → Mem
  | _, m, [] => m
  | n, m, c :: cs => Mem.run sys (n + 1) (Mem.step sys n m c) cs

/-- A buffer of two rows of four bytes at the start of its file, mapped at address 65536. -/
def two_rows : Buffer :=
  { cookie := 7, width := 1, height := 2, stride := 4, busy := true, size := 8,
    mmapped := 65536, wl_buf := 202, pix := 304, fd := 3, real_mmapped := 65536,
    mmap_size := 8, offset := 0, purge := false }

/-- The memory in which `two_rows` is mapped and byte `o` of its file holds `10 + o`. -/
def two_rows_mem : Mem :=
  { file := fun fd o => if fd = 3 then (10 + o).toNat else 0
    maps := [⟨65536, 8, 3, 0⟩] }

/-! ## The notifications of `slave.c`

Before the shell is started, `slave_exec` writes the notifications gathered
while the configuration was read to the terminal, which does not block.  A C
string is the list of its `char`s, without the closing NUL. -/

/-- The kinds of notification (`enum user_notification_kind`). -/
inductive user_notification_kind where
  | USER_NOTIFICATION_DEPRECATED
  | USER_NOTIFICATION_WARNING
  | USER_NOTIFICATION_ERROR
deriving DecidableEq, Repr

/-- One notification (`struct user_notification`). -/
structure user_notification where
  kind : user_notification_kind
  text : List Char
deriving DecidableEq, Repr

/-- The results of `emit_one_notification` (line 70). -/
inductive user_notification_ret_t where
  | UN_OK
  | UN_NO_MORE
  | UN_FAIL
deriving DecidableEq, Repr

/-- What the system answers to `write`: the result of the call made after `n`
earlier ones, and the `errno` it sets when that result is negative; with the
two values of `errno.h` the code looks at. -/
structure Tty where
  EWOULDBLOCK : Int
  EAGAIN : Int
  write : Nat → Int → List Char → Int
  errno : Nat → Int

/-- One call of `write` as it was made: the descriptor, the bytes given (the
count is their number), the result, and `errno` after the call. -/
structure Written where
  fd : Int
  buf : List Char
  ret : Int
  errno : Int
deriving DecidableEq, Repr

/-- The process as far as the notifications go: `errno` and the calls of
`write` made so far. -/
structure Slave where
  errno : Int
  writes : List Written
deriving DecidableEq, Repr

/-- A call `write(fd, buf, strlen(buf))`: the result and the process afterwards.
A negative result sets `errno`. -/
def Slave.write (env : Tty) (s : Slave) (fd : Int) (buf : List Char) : Int × Slave :=
  let r := env.write s.writes.length fd buf
  let e := if r < 0 then env.errno s.writes.length else s.errno
  (r, { errno := e, writes := s.writes ++ [⟨fd, buf, r, e⟩] })

/-- The end of `emit_one_notification` after a failed `write` (lines 106-111). -/
def write_failed (env : Tty) (s : Slave) : user_notification_ret_t × Slave :=
  if s.errno == env.EWOULDBLOCK || s.errno == env.EAGAIN then
    (user_notification_ret_t.UN_NO_MORE, s)
  else
    (user_notification_ret_t.UN_FAIL, s)

/-- The function `emit_one_notification` (lines 72-114); `pre` and `post` are
its locals `prefix` and `postfix`. -/
def emit_one_notification (env : Tty) (s : Slave) (fd : Int) (notif : user_notification) :
    Except Fault (user_notification_ret_t × Slave) := do
  let post := "\x1b[m\n".toList
  let pre : Option (List Char) :=
    match notif.kind with
    | user_notification_kind.USER_NOTIFICATION_DEPRECATED =>
      some "\x1b[33;1mdeprecated\x1b[39;21m: ".toList
    | user_notification_kind.USER_NOTIFICATION_WARNING =>
      some "\x1b[33;1mwarning\x1b[39;21m: ".toList
    | user_notification_kind.USER_NOTIFICATION_ERROR =>
      some "\x1b[31;1merror\x1b[39;21m: ".toList
  assert pre.isSome 92
  let (r, s) := s.write env fd (pre.getD [])
  if r < 0 then pure (write_failed env s)
  else
    let (r, s) := s.write env fd notif.text
    if r < 0 then pure (write_failed env s)
    else
      let (r, s) := s.write env fd post
      if r < 0 then pure (write_failed env s)
      else pure (user_notification_ret_t.UN_OK, s)

/-- The function `emit_notifications_of_kind` (lines 116-134), over the list
from its head on. -/
def emit_notifications_of_kind (env : Tty) (fd : Int) (kind : user_notification_kind) :
    List user_notification → Slave → Except Fault (Bool × Slave)
  | [], s => pure (true, s)
  | it :: rest, s =>
    if it.kind = kind then do
      let (r, s) ← emit_one_notification env s fd it
      match r with
      | user_notification_ret_t.UN_OK => emit_notifications_of_kind env fd kind rest s
      | user_notification_ret_t.UN_NO_MORE => pure (true, s)
      | user_notification_ret_t.UN_FAIL => pure (false, s)
    else emit_notifications_of_kind env fd kind rest s

/-- The function `emit_notifications` (lines 136-143). -/
def emit_notifications (env : Tty) (s : Slave) (fd : Int)
    (notifications : List user_notification) : Except Fault (Bool × Slave) := do
  let (r, s) ← emit_notifications_of_kind env fd
    user_notification_kind.USER_NOTIFICATION_ERROR notifications s
  if !r then pure (false, s)
  else
    let (r, s) ← emit_notifications_of_kind env fd
      user_notification_kind.USER_NOTIFICATION_WARNING notifications s
    if !r then pure (false, s)
    else
      emit_notifications_of_kind env fd
        user_notification_kind.USER_NOTIFICATION_DEPRECATED notifications s

/-- The text a notification of the kind starts with. -/
def kind_label : user_notification_kind → List Char
  | user_notification_kind.USER_NOTIFICATION_DEPRECATED =>
    "\x1b[33;1mdeprecated\x1b[39;21m: ".toList
  | user_notification_kind.USER_NOTIFICATION_WARNING => "\x1b[33;1mwarning\x1b[39;21m: ".toList
  | user_notification_kind.USER_NOTIFICATION_ERROR => "\x1b[31;1merror\x1b[39;21m: ".toList

/-- The text every notification ends with: the reset of the attributes and a newline. -/
def reset_newline : List Char := "\x1b[m\n".toList

/-- A notification as it is to appear on the terminal. -/
def rendered (n : user_notification) : List Char := kind_label n.kind ++ n.text ++ reset_newline

/-- The pieces to write for the notifications of one kind, in the order of the list. -/
def group_pieces (kind : user_notification_kind) (ns : List user_notification) :
    List (List Char) :=
  (ns.filter fun n => n.kind = kind).flatMap fun n => [kind_label kind, n.text, reset_newline]

/-- The call of `write` failed for good: with an `errno` other than
`EWOULDBLOCK` and `EAGAIN`. -/
def Written.fatal (env : Tty) (c : Written) : Prop :=
  c.ret < 0 ∧ c.errno ≠ env.EWOULDBLOCK ∧ c.errno ≠ env.EAGAIN

instance (env : Tty) (c : Written) : Decidable (c.fatal env) := by
  unfold Written.fatal; infer_instance

/-- The calls `t` are the writes of the pieces `ps` to `fd`, one after the
other from the first on, up to the first call that fails. -/
inductive Cut (fd : Int) : List (List Char) → List Written → Prop where
  | done : Cut fd [] []
  | failed (b : List Char) (bs : List (List Char)) (c : Written) :
      c.fd = fd → c.buf = b → c.ret < 0 → Cut fd (b :: bs) [c]
  | wrote (b : List Char) (bs : List (List Char)) (c : Written) (t : List Written) :
      c.fd = fd → c.buf = b → 0 ≤ c.ret → Cut fd bs t → Cut fd (b :: bs) (c :: t)

/-- The bytes the calls handed over: of each call the first `ret` bytes given. -/
def received (t : List Written) : List Char := t.flatMap fun c => c.buf.take c.ret.toNat

/-- The text that is to appear on the terminal: the errors, then the warnings,
then the deprecations, each kind in the order of the list. -/
def all_rendered (ns : List user_notification) : List Char :=
  (ns.filter fun n => n.kind = user_notification_kind.USER_NOTIFICATION_ERROR).flatMap rendered ++
  (ns.filter fun n => n.kind = user_notification_kind.USER_NOTIFICATION_WARNING).flatMap rendered ++
  (ns.filter fun n => n.kind = user_notification_kind.USER_NOTIFICATION_DEPRECATED).flatMap rendered

/-- A terminal that takes every write in full. -/
def takes_all : Tty :=
  { EWOULDBLOCK := 11, EAGAIN := 11, write := fun _ _ buf => buf.length, errno := fun _ => 0 }

/-- A terminal that takes four writes in full and is full then. -/
def full_after_four : Tty :=
  { EWOULDBLOCK := 11, EAGAIN := 11,
    write := fun n _ buf => if n < 4 then buf.length else -1,
    errno := fun _ => 11 }

/-- Two notifications: a warning, then an error. -/
def two_notifications : List user_notification :=
  [⟨user_notification_kind.USER_NOTIFICATION_WARNING, "w".toList⟩,
   ⟨user_notification_kind.USER_NOTIFICATION_ERROR, "e".toList⟩]

/-! ## The content of a buffer across a forward scroll -/

/-- The bytes `g` after `n` of them were moved `shift` places up, to the places
from `lo` on, as `memmove` does it: the bytes moved are those `g` had. -/
def moved_up (g : Int → Nat) (lo n shift : Int) (z : Int) : Nat :=
  if lo ≤ z ∧ z < lo + n then g (z - shift) else g z

/-- The content of a buffer of `size` bytes in rows of `stride` bytes after a
forward scroll (lines 423-463), byte by byte from the new start of the buffer;
`c` is the content before, from the old start on.  The top region is moved
`rows` rows down, the buffer then starts `rows` rows further on, and there the
bottom region is moved `rows` rows down. -/
def forward_content (c : Int → Nat) (stride size rows top_margin top_keep_rows bottom_margin
    bottom_keep_rows : Int) : Int → Nat :=
  moved_up
    (fun y => moved_up c ((top_margin + rows) * stride) (top_keep_rows * stride) (rows * stride)
      (y + rows * stride))
    (size - (bottom_margin + bottom_keep_rows) * stride) (bottom_keep_rows * stride)
    (rows * stride)

/-- The calls that move bytes inside a mapping with `memmove`: only the scrolls
make them, for their keep regions. -/
def Call.is_memmove : Call → Bool
  | Call.memmove _ _ _ => true
  | _ => false

/-- A buffer of four rows of four bytes at the start of its file, mapped at address 65536. -/
def four_rows : Buffer :=
  { cookie := 7, width := 1, height := 4, stride := 4, busy := true, size := 16,
    mmapped := 65536, wl_buf := 202, pix := 304, fd := 3, real_mmapped := 65536,
    mmap_size := 16, offset := 0, purge := false }

/-- The memory in which `four_rows` is mapped and byte `o` of its file holds `10 + o`. -/
def four_rows_mem : Mem :=
  { file := fun fd o => if fd = 3 then (10 + o).toNat else 0
    maps := [⟨65536, 16, 3, 0⟩] }

/-- The memory in which `last_entry` is mapped, from the page boundary below
its offset on, and byte `o` of its file holds `o % 251`. -/
def last_entry_mem : Mem :=
  { file := fun fd o => if fd = 3 then (o % 251).toNat else 0
    maps := [⟨8192, 4096, 3, 268431360⟩] }

/-- A system like `sample_sys` whose mappings lie 4 GiB apart, so that no two
mappings of at most `max_pool_size` bytes and a page share an address. -/
def wide_sys : Sys :=
  { sample_sys with
    mmap := fun n _ _ off => if off < 0 then MAP_FAILED else 4294967296 * (n + 1) }

/-! ## Reasoning about calls that return -/

theorem bind_eq_ok {ε α β : Type} (x : Except ε α) (f : α → Except ε β) (b : β) :
    (x >>= f) = Except.ok b ↔ ∃ a, x = Except.ok a ∧ f a = Except.ok b := by
  cases x with
  | error e => simp [bind, Except.bind]
  | ok a => simp [bind, Except.bind]

theorem assert_eq_ok (c : Bool) (line : Nat) (u : Unit) :
    assert c line = Except.ok u ↔ c = true := by
  unfold assert
  cases c <;> simp [pure, Except.pure, throw, throwThe, MonadExceptOf.throw]

theorem pure_eq_ok {α : Type} (a b : α) : (pure a : Except Fault α) = Except.ok b ↔ a = b := by
  simp [pure, Except.pure]

theorem throw_ne_ok {α : Type} (e : Fault) (b : α) :
    (throw e : Except Fault α) = Except.ok b ↔ False := by
  simp [throw, throwThe, MonadExceptOf.throw]

theorem ite_throw_eq_ok {α : Type} (c : Prop) [Decidable c] (e : Fault) (x : Except Fault α)
    (b : α) : (if c then throw e else x) = Except.ok b ↔ ¬ c ∧ x = Except.ok b := by
  by_cases h : c <;> simp [h, throw, throwThe, MonadExceptOf.throw]

theorem int_mul_eq_ok (a b r : Int) :
    int_mul a b = Except.ok r ↔ r = a * b ∧ INT_MIN ≤ a * b ∧ a * b ≤ INT_MAX := by
  unfold int_mul
  split
  · rename_i h
    simp only [pure_eq_ok]
    exact ⟨fun h1 => ⟨h1.symm, h⟩, fun h1 => h1.1.symm⟩
  · rename_i h
    simp only [throw_ne_ok, false_iff]
    exact fun h1 => h h1.2

theorem u64_nonneg (x : Int) : 0 ≤ u64 x := by unfold u64; omega

theorem page_size_eq_ok (sys : Sys) (st st2 : Shm) (ps : Int) :
    page_size sys st = Except.ok (ps, st2) ↔
      0 < page_size_of sys st ∧ ps = page_size_of sys st ∧
      st2 = { st with page_size_size := page_size_of sys st,
                      calls := st.calls ++ page_size_calls st } := by
  unfold page_size page_size_of page_size_calls
  simp only [bind_eq_ok, assert_eq_ok, pure_eq_ok, decide_eq_true_eq, Prod.mk.injEq]
  by_cases h0 : st.page_size_size = 0
  · have hneg : ¬ (u64 (u64 (sys.sysconf st.now)) < 0) := by
      have := u64_nonneg (u64 (sys.sysconf st.now)); omega
    simp only [h0, beq_self_eq_true, if_true, hneg, if_false, Shm.call]
    constructor
    · rintro ⟨_, h1, h2, h3⟩
      exact ⟨h1, h2.symm, h3.symm⟩
    · rintro ⟨h1, h2, h3⟩
      exact ⟨(), h1, h2.symm, h3.symm⟩
  · have hb : (st.page_size_size == 0) = false := by simpa using h0
    simp only [hb, Bool.false_eq_true, if_false, h0, List.append_nil]
    constructor
    · rintro ⟨_, h1, h2, h3⟩
      exact ⟨h1, h2.symm, h3.symm⟩
    · rintro ⟨h1, h2, h3⟩
      exact ⟨(), h1, h2.symm, h3.symm⟩

theorem now_call (st : Shm) (c : Call) : (st.call c).now = st.now + 1 := by
  simp [Shm.now, Shm.call]

theorem page_size_again (sys : Sys) (st st1 : Shm) (ps : Int)
    (h : page_size sys st = Except.ok (ps, st1)) : page_size sys st1 = Except.ok (ps, st1) := by
  rw [page_size_eq_ok] at h
  obtain ⟨h1, h2, h3⟩ := h
  rw [page_size_eq_ok]
  have hps : st1.page_size_size = ps := by rw [h3, h2]
  have hne : st1.page_size_size ≠ 0 := by omega
  have e1 : page_size_of sys st1 = ps := by unfold page_size_of; rw [if_neg hne, hps]
  have e2 : page_size_calls st1 = [] := by unfold page_size_calls; rw [if_neg hne]
  rw [e1, e2]
  refine ⟨by omega, rfl, ?_⟩
  rw [← hps]
  simp

theorem page_size_now (sys : Sys) (st st1 : Shm) (ps : Int)
    (h : page_size sys st = Except.ok (ps, st1)) :
    st1.now = st.now + (page_size_calls st).length := by
  rw [page_size_eq_ok] at h
  obtain ⟨_, _, h3⟩ := h
  subst h3
  simp [Shm.now]

theorem bind_ok_eq {ε α β : Type} (a : α) (f : α → Except ε β) :
    (Except.ok a >>= f) = f a := rfl

theorem assert_of_true (c : Bool) (line : Nat) (h : c = true) : assert c line = Except.ok () := by
  subst h; rfl

theorem instantiate_offset_eq_ok (sys : Sys) (st st2 : Shm) (buf buf2 : Buffer)
    (new_offset : Int) (r : Bool) :
    instantiate_offset sys st buf new_offset = Except.ok (r, buf2, st2) ↔
      InstantiateReturns sys st buf new_offset ∧ r = true ∧
      buf2 = instantiated sys (st.now + (page_size_calls st).length) (page_size_of sys st)
        buf new_offset ∧
      st2 = after_instantiate sys st buf new_offset := by
  constructor
  · intro h
    unfold instantiate_offset at h
    simp only [bind_eq_ok, assert_eq_ok, pure_eq_ok, ite_throw_eq_ok, decide_eq_true_eq,
      beq_iff_eq, Prod.exists] at h
    obtain ⟨_, h108, _, h109, _, h110, _, h111, _, h112, _, h113, ps1, st1, hp1,
      ps2, st1b, hp2, _, h126, _, h127, hm, hpool, hwl, hpx, hres⟩ := h
    have hp2b := page_size_again sys st st1 ps1 hp1
    rw [hp2b] at hp2
    simp only [Except.ok.injEq, Prod.mk.injEq] at hp2
    obtain ⟨rfl, rfl⟩ := hp2
    have hnow := page_size_now sys st st1 ps1 hp1
    rw [page_size_eq_ok] at hp1
    obtain ⟨hps, hps1, hst1⟩ := hp1
    simp only [now_call, hnow] at hm hpool hwl hpx hres
    simp only [Prod.mk.injEq] at hres
    obtain ⟨hr, hb, hs⟩ := hres
    subst hps1
    refine ⟨⟨h108, h109, h110, h111, h112, h113, hps, h126, h127, hm, hpool, hwl, hpx⟩,
      hr.symm, hb.symm, ?_⟩
    rw [← hs, hst1]
    simp [Shm.call, after_instantiate, instantiate_calls, mmap_size_of, aligned_offset_of,
      page_offset_of, pool_of, wl_buf_of, mmap_of]
  · rintro ⟨⟨h108, h109, h110, h111, h112, h113, hps, h126, h127, hm, hpool, hwl, hpx⟩,
      rfl, rfl, rfl⟩
    have hp1 : page_size sys st = Except.ok (page_size_of sys st,
        { st with page_size_size := page_size_of sys st,
                  calls := st.calls ++ page_size_calls st }) :=
      (page_size_eq_ok _ _ _ _).mpr ⟨hps, rfl, rfl⟩
    have hp2 := page_size_again _ _ _ _ hp1
    have hnow := page_size_now _ _ _ _ hp1
    unfold instantiate_offset
    rw [assert_of_true _ _ (by simpa using h108), bind_ok_eq,
      assert_of_true _ _ (by simpa using h109), bind_ok_eq,
      assert_of_true _ _ (by simpa using h110), bind_ok_eq,
      assert_of_true _ _ (by simpa using h111), bind_ok_eq,
      assert_of_true _ _ (by simpa using h112), bind_ok_eq,
      assert_of_true _ _ (by simpa using h113), bind_ok_eq, hp1, bind_ok_eq]
    simp only [hp2, bind_ok_eq]
    rw [assert_of_true _ _ (by simpa using h126), bind_ok_eq,
      assert_of_true _ _ (by simpa using h127), bind_ok_eq]
    simp only [now_call, hnow]
    rw [if_neg (by simpa using hm), if_neg (by simpa using hpool), if_neg (by simpa using hwl),
      if_neg (by simpa using hpx)]
    simp [Shm.call, after_instantiate, instantiate_calls, mmap_size_of, aligned_offset_of,
      page_offset_of, pool_of, wl_buf_of, mmap_of, instantiated, pix_of, pure, Except.pure]

theorem purge_marked_eq_ok (cookie : Nat) (l l2 : List Buffer) (cs : List Call) :
    purge_marked cookie l = Except.ok (l2, cs) ↔
      (∀ b ∈ l, b.cookie = cookie → b.purge = true → b.busy = false) ∧
      l2 = l.filter (kept cookie) ∧
      cs = fini_calls (l.filter fun b => !kept cookie b) := by
  induction l generalizing l2 cs with
  | nil => simp [purge_marked, pure_eq_ok, fini_calls]
  | cons it rest ih =>
    unfold purge_marked
    by_cases hc : it.cookie = cookie
    · by_cases hp : it.purge = true
      · have hk : kept cookie it = false := by simp [kept, hc, hp]
        simp only [hc, ne_eq, not_true_eq_false, if_false, hp, Bool.not_true, Bool.false_eq_true,
          bind_eq_ok, assert_eq_ok, Prod.exists, ih, pure_eq_ok, Prod.mk.injEq,
          List.mem_cons, forall_eq_or_imp, List.filter_cons, hk, Bool.not_false, if_true,
          fini_calls, Bool.not_eq_true', forall_const]
        constructor
        · rintro ⟨_, hb, a, b, ⟨h1, rfl, rfl⟩, rfl, rfl⟩
          exact ⟨⟨hb, h1⟩, rfl, rfl⟩
        · rintro ⟨⟨hb, h1⟩, rfl, rfl⟩
          exact ⟨(), hb, _, _, ⟨h1, rfl, rfl⟩, rfl, rfl⟩
      · have hk : kept cookie it = true := by simp [kept, hc, hp]
        simp only [hc, ne_eq, not_true_eq_false, if_false, hp, Bool.not_false, if_true,
          bind_eq_ok, Prod.exists, ih, pure_eq_ok, Prod.mk.injEq,
          List.mem_cons, forall_eq_or_imp, List.filter_cons, hk, Bool.not_true,
          Bool.false_eq_true, IsEmpty.forall_iff, implies_true, true_and]
        constructor
        · rintro ⟨a, b, ⟨h1, rfl, rfl⟩, rfl, rfl⟩
          exact ⟨h1, rfl, rfl⟩
        · rintro ⟨h1, rfl, rfl⟩
          exact ⟨_, _, ⟨h1, rfl, rfl⟩, rfl, rfl⟩
    · have hk : kept cookie it = true := by simp [kept, hc]
      simp only [hc, ne_eq, not_false_eq_true, if_true,
        bind_eq_ok, Prod.exists, ih, pure_eq_ok, Prod.mk.injEq,
        List.mem_cons, forall_eq_or_imp, List.filter_cons, hk, Bool.not_true,
        Bool.false_eq_true, if_false, IsEmpty.forall_iff, true_and]
      constructor
      · rintro ⟨a, b, ⟨h1, rfl, rfl⟩, rfl, rfl⟩
        exact ⟨h1, rfl, rfl⟩
      · rintro ⟨h1, rfl, rfl⟩
        exact ⟨_, _, ⟨h1, rfl, rfl⟩, rfl, rfl⟩

theorem purge_all_eq_ok (cookie : Nat) (l l2 : List Buffer) (cs : List Call) :
    purge_all cookie l = Except.ok (l2, cs) ↔
      (∀ b ∈ l, b.cookie = cookie → b.busy = false) ∧
      l2 = l.filter (fun b => b.cookie != cookie) ∧
      cs = fini_calls (l.filter fun b => b.cookie == cookie) := by
  induction l generalizing l2 cs with
  | nil => simp [purge_all, pure_eq_ok, fini_calls]
  | cons it rest ih =>
    unfold purge_all
    by_cases hc : it.cookie = cookie
    · simp only [hc, ne_eq, not_true_eq_false, if_false,
        bind_eq_ok, assert_eq_ok, Prod.exists, ih, pure_eq_ok, Prod.mk.injEq,
        List.mem_cons, forall_eq_or_imp, List.filter_cons, bne_self_eq_false, beq_self_eq_true,
        if_true, Bool.false_eq_true, fini_calls, Bool.not_eq_true', forall_const]
      constructor
      · rintro ⟨_, hb, a, b, ⟨h1, rfl, rfl⟩, rfl, rfl⟩
        exact ⟨⟨hb, h1⟩, rfl, rfl⟩
      · rintro ⟨⟨hb, h1⟩, rfl, rfl⟩
        exact ⟨(), hb, _, _, ⟨h1, rfl, rfl⟩, rfl, rfl⟩
    · have h1 : (it.cookie != cookie) = true := by simpa using hc
      have h2 : (it.cookie == cookie) = false := by simpa using hc
      simp only [hc, ne_eq, not_false_eq_true, if_true,
        bind_eq_ok, Prod.exists, ih, pure_eq_ok, Prod.mk.injEq,
        List.mem_cons, forall_eq_or_imp, List.filter_cons, h1, h2,
        Bool.false_eq_true, if_false, IsEmpty.forall_iff, true_and]
      constructor
      · rintro ⟨a, b, ⟨h1, rfl, rfl⟩, rfl, rfl⟩
        exact ⟨h1, rfl, rfl⟩
      · rintro ⟨h1, rfl, rfl⟩
        exact ⟨_, _, ⟨h1, rfl, rfl⟩, rfl, rfl⟩

theorem mark_for_purging_eq (width height : Int) (cookie : Nat) (l : List Buffer) :
    mark_for_purging width height cookie l = l.map (mark width height cookie) := by
  induction l with
  | nil => rfl
  | cons it rest ih =>
    unfold mark_for_purging
    rw [ih]
    by_cases hc : it.cookie = cookie <;> by_cases hb : it.busy = true <;>
      by_cases hw : it.width = width <;> by_cases hh : it.height = height <;>
      simp [mark, hc, hb, hw, hh]

theorem reuse_cached_eq_none (width height : Int) (cookie : Nat) (l : List Buffer) :
    reuse_cached width height cookie l = none ↔ ∀ b ∈ l, reusable width height cookie b = false := by
  induction l with
  | nil => simp [reuse_cached]
  | cons it rest ih =>
    unfold reuse_cached
    by_cases hw : it.width = width <;> by_cases hh : it.height = height <;>
      by_cases hc : it.cookie = cookie <;> by_cases hb : it.busy = true <;>
      simp [reusable, hc, hb, hw, hh, ih]

theorem reuse_cached_eq_some (width height : Int) (cookie : Nat) (l l2 : List Buffer) (i : Nat) :
    reuse_cached width height cookie l = some (i, l2) ↔
      ∃ pre e post, l = pre ++ e :: post ∧
        (∀ b ∈ pre, reusable width height cookie b = false) ∧
        reusable width height cookie e = true ∧ i = pre.length ∧
        l2 = pre ++ { e with busy := true, purge := false } :: post := by
  induction l generalizing l2 i with
  | nil => simp [reuse_cached]
  | cons it rest ih =>
    by_cases hr : reusable width height cookie it = true
    · have h1 : reuse_cached width height cookie (it :: rest) =
          some (0, { it with busy := true, purge := false } :: rest) := by
        unfold reuse_cached
        simp only [reusable, Bool.and_eq_true, beq_iff_eq, Bool.not_eq_true'] at hr
        simp [hr.1.1.1, hr.1.1.2, hr.1.2, hr.2]
      rw [h1]
      constructor
      · intro h
        simp only [Option.some.injEq, Prod.mk.injEq] at h
        exact ⟨[], it, rest, rfl, by simp, hr, h.1.symm, h.2.symm⟩
      · rintro ⟨pre, e, post, hl, hpre, he, rfl, rfl⟩
        cases pre with
        | nil =>
          simp only [List.nil_append, List.cons.injEq] at hl
          obtain ⟨rfl, rfl⟩ := hl
          rfl
        | cons p pre2 =>
          simp only [List.cons_append, List.cons.injEq] at hl
          have := hpre p (by simp)
          rw [← hl.1, hr] at this
          exact absurd this (by simp)
    · have hr2 : reusable width height cookie it = false := by simpa using hr
      have h1 : reuse_cached width height cookie (it :: rest) =
          (reuse_cached width height cookie rest).map fun r => (r.1 + 1, it :: r.2) := by
        rw [reuse_cached]
        simp only [reusable, Bool.and_eq_false_iff, Bool.not_eq_false', beq_eq_false_iff_ne,
          ne_eq] at hr2
        by_cases hw : it.width = width <;> by_cases hh : it.height = height <;>
          by_cases hc : it.cookie = cookie <;> by_cases hb : it.busy = true <;>
          simp [hc, hb, hw, hh] at hr2 ⊢
      rw [h1]
      simp only [Option.map_eq_some', Prod.exists, Prod.mk.injEq, ih]
      constructor
      · rintro ⟨j, l3, ⟨pre, e, post, rfl, hpre, he, rfl, rfl⟩, rfl, rfl⟩
        refine ⟨it :: pre, e, post, rfl, ?_, he, rfl, rfl⟩
        intro b hb
        rcases List.mem_cons.mp hb with rfl | hb
        · exact hr2
        · exact hpre b hb
      · rintro ⟨pre, e, post, hl, hpre, he, rfl, rfl⟩
        cases pre with
        | nil =>
          simp only [List.nil_append, List.cons.injEq] at hl
          rw [← hl.1, hr2] at he
          exact absurd he (by simp)
        | cons p pre2 =>
          simp only [List.cons_append, List.cons.injEq] at hl
          obtain ⟨rfl, rfl⟩ := hl
          exact ⟨pre2.length, _, ⟨pre2, e, post, rfl, fun b hb => hpre b (by simp [hb]), he, rfl,
            rfl⟩, rfl, rfl⟩

theorem shm_get_buffer_eq_ok (sys : Sys) (st st2 : Shm) (width height : Int) (cookie i : Nat) :
    shm_get_buffer sys st width height cookie = Except.ok (i, st2) ↔
      (∀ b ∈ st.buffers, b.cookie = cookie → b.purge = true → b.busy = false) ∧
      ((∃ l2, reuse_cached width height cookie (swept st cookie) = some (i, l2) ∧
          st2 = { st with buffers := l2, calls := st.calls ++ sweep_calls st cookie }) ∨
       (reuse_cached width height cookie (swept st cookie) = none ∧
          MissReturns sys st width height cookie ∧ i = (swept st cookie).length ∧
          st2 = after_miss sys st width height cookie)) := by
  unfold shm_get_buffer
  simp only [bind_eq_ok, Prod.exists, purge_marked_eq_ok]
  constructor
  · rintro ⟨l, cs, ⟨hsw, rfl, rfl⟩, h⟩
    refine ⟨hsw, ?_⟩
    cases hr : reuse_cached width height cookie (swept st cookie) with
    | some r =>
      obtain ⟨j, l2⟩ := r
      left
      unfold swept at hr
      rw [hr] at h
      simp only [pure_eq_ok, Prod.mk.injEq] at h
      obtain ⟨rfl, rfl⟩ := h
      exact ⟨l2, rfl, rfl⟩
    | none =>
      right
      unfold swept at hr
      rw [hr] at h
      simp only [bind_eq_ok, int_mul_eq_ok, ite_throw_eq_ok, beq_iff_eq, Prod.exists,
        instantiate_offset_eq_ok, pure_eq_ok, Prod.mk.injEq, Bool.not_eq_true'] at h
      obtain ⟨_, ⟨rfl, hrange⟩, hfd, htr, ok, ret, st3, ⟨hinst, rfl, rfl, rfl⟩, _, rfl, rfl⟩ := h
      by_cases hi : st.can_punch_hole_initialized = true
      · simp only [Shm.now, Shm.call, mark_for_purging_eq, List.length_append, hi,
          Bool.true_eq_false, if_false, List.length_cons, List.length_nil, Bool.not_true,
          List.append_assoc, List.cons_append, List.nil_append, zero_add, Nat.add_assoc, Nat.reduceAdd]
          at hfd htr hinst ⊢
        simp only [MissReturns, after_miss, fresh_entry, pushed_state, pushed, pool_fd_of, size_of, swept,
          sweep_calls, Shm.now, hi, if_true, List.append_nil, List.length_append,
          List.length_cons, List.length_nil, List.append_assoc, List.cons_append,
          List.nil_append, after_instantiate, zero_add, Nat.add_assoc, Nat.reduceAdd]
        refine ⟨trivial, ⟨hrange, hfd, htr, hinst⟩, ?_⟩
        simp
      · have hi2 : st.can_punch_hole_initialized = false := by simpa using hi
        simp only [Shm.now, Shm.call, mark_for_purging_eq, List.length_append, hi2,
          if_true, List.length_cons, List.length_nil, Bool.not_false,
          List.append_assoc, List.cons_append, List.nil_append, zero_add, Nat.add_assoc, Nat.reduceAdd]
          at hfd htr hinst ⊢
        simp only [MissReturns, after_miss, fresh_entry, pushed_state, pushed, pool_fd_of, size_of, swept,
          sweep_calls, Shm.now, hi2, Bool.false_eq_true, if_false, List.append_nil,
          List.length_append,
          List.length_cons, List.length_nil, List.append_assoc, List.cons_append,
          List.nil_append, after_instantiate, zero_add, Nat.add_assoc, Nat.reduceAdd]
        refine ⟨trivial, ⟨hrange, hfd, htr, hinst⟩, ?_⟩
        simp
  · rintro ⟨hsw, h⟩
    refine ⟨_, _, ⟨hsw, rfl, rfl⟩, ?_⟩
    rcases h with ⟨l2, hr, rfl⟩ | ⟨hr, ⟨hrange, hfd, htr, hinst⟩, rfl, rfl⟩
    · unfold swept at hr
      simp only [hr, pure_eq_ok, sweep_calls]
    · unfold swept at hr
      simp only [hr, bind_eq_ok, int_mul_eq_ok, ite_throw_eq_ok, beq_iff_eq, Prod.exists,
        instantiate_offset_eq_ok, pure_eq_ok, Prod.mk.injEq, Bool.not_eq_true']
      by_cases hi : st.can_punch_hole_initialized = true
      · simp only [MissReturns, after_miss, fresh_entry, pushed_state, pushed, pool_fd_of, size_of, swept,
          sweep_calls, Shm.now, hi, if_true, List.append_nil, List.length_append,
          List.length_cons, List.length_nil, List.append_assoc, List.cons_append,
          List.nil_append, after_instantiate, zero_add, Nat.add_assoc, Nat.reduceAdd]
          at hfd htr hinst ⊢
        simp only [Shm.now, Shm.call, mark_for_purging_eq, List.length_append, hi,
          Bool.true_eq_false, if_false, List.length_cons, List.length_nil, Bool.not_true,
          List.append_assoc, List.cons_append, List.nil_append, zero_add, Nat.add_assoc,
          Nat.reduceAdd]
        refine ⟨_, ⟨rfl, hrange⟩, hfd, htr, true, _, _, ⟨hinst, rfl, rfl, rfl⟩, ?_⟩
        simp
      · have hi2 : st.can_punch_hole_initialized = false := by simpa using hi
        simp only [MissReturns, after_miss, fresh_entry, pushed_state, pushed, pool_fd_of, size_of, swept,
          sweep_calls, Shm.now, hi2, Bool.false_eq_true, if_false, List.append_nil,
          List.length_append,
          List.length_cons, List.length_nil, List.append_assoc, List.cons_append,
          List.nil_append, after_instantiate, zero_add, Nat.add_assoc, Nat.reduceAdd]
          at hfd htr hinst ⊢
        simp only [Shm.now, Shm.call, mark_for_purging_eq, List.length_append, hi2,
          if_true, List.length_cons, List.length_nil, Bool.not_false,
          List.append_assoc, List.cons_append, List.nil_append, zero_add, Nat.add_assoc,
          Nat.reduceAdd]
        refine ⟨_, ⟨rfl, hrange⟩, hfd, htr, true, _, _, ⟨hinst, rfl, rfl, rfl⟩, ?_⟩
        simp

theorem SameEntry.se_refl (a : Buffer) : SameEntry a a := by simp [SameEntry]

theorem SameEntry.se_trans {a b c : Buffer} (h1 : SameEntry a b) (h2 : SameEntry b c) :
    SameEntry a c := by
  unfold SameEntry at *
  obtain ⟨a1, a2, a3, a4, a5, a6, a7, a8⟩ := h1
  obtain ⟨b1, b2, b3, b4, b5, b6, b7, b8⟩ := h2
  exact ⟨b1.trans a1, b2.trans a2, b3.trans a3, b4.trans a4, b5.trans a5, b6.trans a6,
    b7.trans a7, b8.trans a8⟩

theorem SameEntry.destroy (a : Buffer) : SameEntry a (buffer_destroy_dont_close a).1 := by
  simp [SameEntry, buffer_destroy_dont_close]

theorem SameEntry.instantiated (sys : Sys) (n : Nat) (ps : Int) (a : Buffer) (o : Int) :
    SameEntry a (instantiated sys n ps a o) := by
  simp [SameEntry, Foot.instantiated]

theorem Frame.fr_refl (st : Shm) : Frame st st := ⟨rfl, rfl, rfl, [], by simp⟩

theorem Frame.fr_trans {a b c : Shm} (h1 : Frame a b) (h2 : Frame b c) : Frame a c := by
  obtain ⟨a1, a2, a3, cs1, a4⟩ := h1
  obtain ⟨b1, b2, b3, cs2, b4⟩ := h2
  exact ⟨b1.trans a1, b2.trans a2, b3.trans a3, cs1 ++ cs2, by rw [b4, a4, List.append_assoc]⟩

theorem Frame.call (st : Shm) (c : Call) : Frame st (st.call c) :=
  ⟨rfl, rfl, rfl, [c], rfl⟩

theorem Frame.calls (st : Shm) (cs : List Call) : Frame st { st with calls := st.calls ++ cs } :=
  ⟨rfl, rfl, rfl, cs, rfl⟩

theorem Frame.page_size {sys : Sys} {st st2 : Shm} {ps : Int}
    (h : page_size sys st = Except.ok (ps, st2)) : Frame st st2 := by
  rw [page_size_eq_ok] at h
  obtain ⟨_, _, rfl⟩ := h
  exact ⟨rfl, rfl, rfl, _, rfl⟩

theorem Frame.after_instantiate (sys : Sys) (st : Shm) (buf : Buffer) (o : Int) :
    Frame st (after_instantiate sys st buf o) :=
  ⟨rfl, rfl, rfl, _, by simp [Foot.after_instantiate, List.append_assoc]; rfl⟩

theorem sys_ftruncate_eq_ok (sys : Sys) (st st2 : Shm) (fd len : Int) :
    sys_ftruncate sys st fd len = Except.ok st2 ↔
      ¬ sys.ftruncate st.now fd len < 0 ∧ st2 = st.call (Call.ftruncate fd len) := by
  unfold sys_ftruncate
  simp only [ite_throw_eq_ok, pure_eq_ok]
  constructor
  · rintro ⟨h1, h2⟩; exact ⟨h1, h2.symm⟩
  · rintro ⟨h1, h2⟩; exact ⟨h1, h2.symm⟩

/-- What `wrap_buffer` leaves when it returns. -/
theorem wrap_buffer_ok (sys : Sys) (st st2 : Shm) (buf buf2 : Buffer) (new_offset : Int)
    (r : Bool) (h : wrap_buffer sys st buf new_offset = Except.ok (r, buf2, st2)) :
    (r = false ∧ buf2 = buf ∧ Frame st st2) ∨
    (r = true ∧ ∃ stm, Frame st stm ∧
      InstantiateReturns sys stm (buffer_destroy_dont_close buf).1 new_offset ∧
      buf2 = instantiated sys (stm.now + (page_size_calls stm).length) (page_size_of sys stm)
        (buffer_destroy_dont_close buf).1 new_offset ∧
      st2 = after_instantiate sys stm (buffer_destroy_dont_close buf).1 new_offset) := by
  unfold wrap_buffer at h
  simp only [bind_eq_ok, assert_eq_ok, Prod.exists, decide_eq_true_eq] at h
  obtain ⟨ps1, st1, hp1, ps2, st1b, hp2, _, h347, _, h348, h⟩ := h
  have hp2b := page_size_again sys st st1 ps1 hp1
  rw [hp2b] at hp2
  simp only [Except.ok.injEq, Prod.mk.injEq] at hp2
  obtain ⟨rfl, rfl⟩ := hp2
  have hf1 := Frame.page_size hp1
  split at h
  · simp only [pure_eq_ok, Prod.mk.injEq] at h
    obtain ⟨rfl, rfl, rfl⟩ := h
    exact Or.inl ⟨rfl, rfl, hf1.fr_trans (Frame.call _ _)⟩
  · rw [instantiate_offset_eq_ok] at h
    obtain ⟨hi, rfl, rfl, rfl⟩ := h
    refine Or.inr ⟨rfl, _, ?_, hi, rfl, rfl⟩
    exact hf1.fr_trans ((Frame.call _ _).fr_trans ((Frame.call _ _).fr_trans
      ((Frame.call _ _).fr_trans (Frame.calls _ _))))

theorem int_add_eq_ok (a b r : Int) :
    int_add a b = Except.ok r ↔ r = a + b ∧ INT_MIN ≤ a + b ∧ a + b ≤ INT_MAX := by
  unfold int_add
  split
  · rename_i h
    simp only [pure_eq_ok]
    exact ⟨fun h1 => ⟨h1.symm, h⟩, fun h1 => h1.1.symm⟩
  · rename_i h
    simp only [throw_ne_ok, false_iff]
    exact fun h1 => h h1.2

/-- What `shm_scroll_forward` leaves when it returns: the entry re-instantiated
at `base + rows * stride`, `base` being 0 after a wrap and the old offset otherwise. -/
theorem shm_scroll_forward_ok (sys : Sys) (st st2 : Shm) (buf buf2 : Buffer)
    (rows tm tk bm bk : Int) (ret : Bool)
    (h : shm_scroll_forward sys st buf rows tm tk bm bk = Except.ok (ret, buf2, st2)) :
    ret = true ∧ st.can_punch_hole = true ∧ buf.busy = true ∧ 0 < rows ∧
    (INT_MIN ≤ rows * buf.stride ∧ rows * buf.stride ≤ INT_MAX) ∧
    u64 (rows * buf.stride) < buf.size ∧
    ∃ (base : Int) (bufd : Buffer) (stm : Shm),
      ((base = buf.offset ∧ ¬ u64 (buf.offset + rows * buf.stride + buf.size) > max_pool_size) ∨
       (base = 0 ∧ u64 (buf.offset + rows * buf.stride + buf.size) > max_pool_size ∧
         u64 buf.offset > buf.size)) ∧
      u64 (base + rows * buf.stride + buf.size) ≤ max_pool_size ∧
      SameEntry buf bufd ∧ Frame st stm ∧
      InstantiateReturns sys stm bufd (base + rows * buf.stride) ∧
      buf2 = instantiated sys (stm.now + (page_size_calls stm).length) (page_size_of sys stm)
        bufd (base + rows * buf.stride) ∧
      Frame st st2 := by
  unfold shm_scroll_forward at h
  simp only [bind_eq_ok, assert_eq_ok, Prod.exists, decide_eq_true_eq, bne_iff_ne] at h
  obtain ⟨_, h369, _, h370, _, h371, _, h372, _, h373, _, h374, h⟩ := h
  simp only [h369, Bool.not_true, Bool.false_eq_true, if_false, bind_eq_ok, assert_eq_ok,
    int_mul_eq_ok, Prod.exists, decide_eq_true_eq] at h
  obtain ⟨_, h381, _, ⟨rfl, hrange⟩, _, h382, bufw, stw, hwrap, _, h398, stt, htr, stk, hkeep,
    stp, hpunch, ret', buf', st', hinst, stb, hbot, hres⟩ := h
  -- the optional wrap
  have hw : SameEntry buf bufw ∧ Frame st stw ∧
      ((bufw.offset = buf.offset ∧
          ¬ u64 (buf.offset + rows * buf.stride + buf.size) > max_pool_size) ∨
       (bufw.offset = 0 ∧ u64 (buf.offset + rows * buf.stride + buf.size) > max_pool_size ∧
         u64 buf.offset > buf.size)) := by
    split at hwrap
    · rename_i hc
      simp only [bind_eq_ok, assert_eq_ok, decide_eq_true_eq, Prod.exists] at hwrap
      obtain ⟨_, h386, ok, b1, s1, hwb, hok⟩ := hwrap
      simp only [ite_throw_eq_ok, pure_eq_ok, Prod.mk.injEq, Bool.not_eq_true',
        Bool.not_eq_false] at hok
      obtain ⟨hok1, rfl, rfl⟩ := hok
      subst hok1
      rcases wrap_buffer_ok _ _ _ _ _ _ _ hwb with ⟨hf, _⟩ | ⟨_, stm, hfm, _, rfl, rfl⟩
      · exact absurd hf (by simp)
      · exact ⟨(SameEntry.destroy _).se_trans (SameEntry.instantiated _ _ _ _ _),
          hfm.fr_trans (Frame.after_instantiate _ _ _ _), Or.inr ⟨rfl, hc, h386⟩⟩
    · rename_i hc
      simp only [pure_eq_ok, Prod.mk.injEq] at hwrap
      obtain ⟨rfl, rfl⟩ := hwrap
      exact ⟨SameEntry.se_refl _, Frame.fr_refl _, Or.inl ⟨rfl, hc⟩⟩
  obtain ⟨hse, hfw, hbase⟩ := hw
  rw [sys_ftruncate_eq_ok] at htr
  obtain ⟨_, rfl⟩ := htr
  have hk : Frame (stw.call (Call.ftruncate bufw.fd
      (s64 (u64 (bufw.offset + rows * buf.stride + bufw.size))))) stk := by
    split at hkeep
    · simp only [bind_eq_ok, pure_eq_ok] at hkeep
      obtain ⟨_, _, _, _, _, _, _, _, _, _, rfl⟩ := hkeep
      exact Frame.call _ _
    · simp only [pure_eq_ok] at hkeep
      subst hkeep
      exact Frame.fr_refl _
  have hp : Frame stk stp := by
    split at hpunch
    · simp only [ite_throw_eq_ok, pure_eq_ok] at hpunch
      obtain ⟨_, rfl⟩ := hpunch
      exact (Frame.calls _ _).fr_trans (Frame.call _ _)
    · simp only [pure_eq_ok] at hpunch
      subst hpunch
      exact Frame.calls _ _
  rw [instantiate_offset_eq_ok] at hinst
  obtain ⟨hi, rfl, rfl, rfl⟩ := hinst
  have hb : Frame (after_instantiate sys stp (buffer_destroy_dont_close bufw).1
      (bufw.offset + rows * buf.stride)) stb := by
    split at hbot
    · simp only [bind_eq_ok, pure_eq_ok] at hbot
      obtain ⟨_, _, _, _, _, _, _, _, _, _, _, _, rfl⟩ := hbot
      exact Frame.call _ _
    · simp only [pure_eq_ok] at hbot
      subst hbot
      exact Frame.fr_refl _
  simp only [pure_eq_ok, Prod.mk.injEq] at hres
  obtain ⟨rfl, rfl, rfl⟩ := hres
  have hfm : Frame st stp := hfw.fr_trans ((Frame.call _ _).fr_trans (hk.fr_trans hp))
  have hsz : bufw.size = buf.size := hse.2.2.2.2.2.1
  rw [hsz] at h398
  refine ⟨rfl, h369, h370, h381, hrange, h382, bufw.offset, (buffer_destroy_dont_close bufw).1,
    stp, ?_, h398, hse.se_trans (SameEntry.destroy _), hfm, hi, rfl,
    hfm.fr_trans ((Frame.after_instantiate _ _ _ _).fr_trans hb)⟩
  rcases hbase with ⟨h1, h2⟩ | ⟨h1, h2, h3⟩
  · exact Or.inl ⟨h1, h2⟩
  · exact Or.inr ⟨h1, h2, h3⟩

/-- What `shm_scroll_reverse` leaves when it returns: the entry re-instantiated
at `base - rows * stride`, `base` being the wrap target after a wrap and the old
offset otherwise. -/
theorem shm_scroll_reverse_ok (sys : Sys) (st st2 : Shm) (buf buf2 : Buffer)
    (rows tm tk bm bk : Int) (ret : Bool)
    (h : shm_scroll_reverse sys st buf rows tm tk bm bk = Except.ok (ret, buf2, st2)) :
    ret = true ∧ 0 < rows ∧
    (INT_MIN ≤ rows * buf.stride ∧ rows * buf.stride ≤ INT_MAX) ∧
    ∃ (base : Int) (bufd : Buffer) (stm : Shm),
      ((base = buf.offset ∧ ¬ rows * buf.stride > buf.offset) ∨
       (rows * buf.stride > buf.offset ∧ ∃ (ps : Int) (stw : Shm) (bufw : Buffer),
         0 < ps ∧ base = s64 (and64 (max_pool_size - buf.size) (not64 (ps - 1))) ∧
         SameEntry buf bufw ∧ InstantiateReturns sys stw bufw base)) ∧
      base - rows * buf.stride ≤ max_pool_size ∧
      SameEntry buf bufd ∧ Frame st stm ∧
      InstantiateReturns sys stm bufd (base - rows * buf.stride) ∧
      buf2 = instantiated sys (stm.now + (page_size_calls stm).length) (page_size_of sys stm)
        bufd (base - rows * buf.stride) ∧
      Frame st st2 := by
  unfold shm_scroll_reverse at h
  simp only [bind_eq_ok, assert_eq_ok, Prod.exists, decide_eq_true_eq, int_mul_eq_ok] at h
  obtain ⟨_, h487, _, ⟨rfl, hrange⟩, bufw, stw, hwrap, _, h509, stk, hkeep, stt, htr,
    ret', buf', st', hinst, stb, htop, hres⟩ := h
  have hw : SameEntry buf bufw ∧ Frame st stw ∧
      ((bufw.offset = buf.offset ∧ ¬ rows * buf.stride > buf.offset) ∨
       (rows * buf.stride > buf.offset ∧ ∃ (ps : Int) (stw : Shm) (bw : Buffer),
         0 < ps ∧ bufw.offset = s64 (and64 (max_pool_size - buf.size) (not64 (ps - 1))) ∧
         SameEntry buf bw ∧ InstantiateReturns sys stw bw bufw.offset)) := by
    split at hwrap
    · rename_i hc
      simp only [bind_eq_ok, Prod.exists] at hwrap
      obtain ⟨s0, hs0, ps, s1, hps, ok, b1, s2, hwb, hok⟩ := hwrap
      simp only [ite_throw_eq_ok, pure_eq_ok, Prod.mk.injEq, Bool.not_eq_true',
        Bool.not_eq_false] at hok
      obtain ⟨hok1, rfl, rfl⟩ := hok
      subst hok1
      rw [sys_ftruncate_eq_ok] at hs0
      obtain ⟨_, rfl⟩ := hs0
      have hfp := Frame.page_size hps
      rw [page_size_eq_ok] at hps
      obtain ⟨hpos, rfl, _⟩ := hps
      rcases wrap_buffer_ok _ _ _ _ _ _ _ hwb with ⟨hf, _⟩ | ⟨_, stm, hfm, hir, rfl, rfl⟩
      · exact absurd hf (by simp)
      · exact ⟨(SameEntry.destroy _).se_trans (SameEntry.instantiated _ _ _ _ _),
          (Frame.call _ _).fr_trans (hfp.fr_trans (hfm.fr_trans (Frame.after_instantiate _ _ _ _))),
          Or.inr ⟨hc, _, stm, _, hpos, rfl, SameEntry.destroy _, hir⟩⟩
    · rename_i hc
      simp only [pure_eq_ok, Prod.mk.injEq] at hwrap
      obtain ⟨rfl, rfl⟩ := hwrap
      exact ⟨SameEntry.se_refl _, Frame.fr_refl _, Or.inl ⟨rfl, hc⟩⟩
  obtain ⟨hse, hfw, hbase⟩ := hw
  have hk : Frame stw stk := by
    split at hkeep
    · simp only [bind_eq_ok, pure_eq_ok] at hkeep
      obtain ⟨_, _, _, _, _, _, _, _, _, _, _, _, rfl⟩ := hkeep
      exact Frame.call _ _
    · simp only [pure_eq_ok] at hkeep
      subst hkeep
      exact Frame.fr_refl _
  rw [sys_ftruncate_eq_ok] at htr
  obtain ⟨_, rfl⟩ := htr
  rw [instantiate_offset_eq_ok] at hinst
  obtain ⟨hi, rfl, rfl, rfl⟩ := hinst
  have hb : Frame (after_instantiate sys
      (Shm.call { stk with calls := stk.calls ++ (buffer_destroy_dont_close bufw).2 }
        (Call.ftruncate (buffer_destroy_dont_close bufw).1.fd
          (s64 (u64 (bufw.offset - rows * buf.stride + (buffer_destroy_dont_close bufw).1.size)))))
      (buffer_destroy_dont_close bufw).1 (bufw.offset - rows * buf.stride)) stb := by
    split at htop
    · simp only [bind_eq_ok, pure_eq_ok] at htop
      obtain ⟨_, _, _, _, _, _, _, _, _, _, rfl⟩ := htop
      exact Frame.call _ _
    · simp only [pure_eq_ok] at htop
      subst htop
      exact Frame.fr_refl _
  simp only [pure_eq_ok, Prod.mk.injEq] at hres
  obtain ⟨rfl, rfl, rfl⟩ := hres
  have hfm : Frame st (Shm.call { stk with calls := stk.calls ++ (buffer_destroy_dont_close bufw).2 }
        (Call.ftruncate (buffer_destroy_dont_close bufw).1.fd
          (s64 (u64 (bufw.offset - rows * buf.stride + (buffer_destroy_dont_close bufw).1.size))))) :=
    hfw.fr_trans (hk.fr_trans ((Frame.calls _ _).fr_trans (Frame.call _ _)))
  exact ⟨rfl, h487, hrange, bufw.offset, (buffer_destroy_dont_close bufw).1, _, hbase, h509,
    hse.se_trans (SameEntry.destroy _), hfm, hi, rfl,
    hfm.fr_trans ((Frame.after_instantiate _ _ _ _).fr_trans hb)⟩

theorem bind_eq_error {ε α β : Type} (x : Except ε α) (f : α → Except ε β) (e : ε) :
    (x >>= f) = Except.error e ↔ x = Except.error e ∨ ∃ a, x = Except.ok a ∧ f a = Except.error e := by
  cases x with
  | error e2 => simp [bind, Except.bind]
  | ok a => simp [bind, Except.bind]

theorem assert_eq_error (c : Bool) (line : Nat) (e : Fault) :
    assert c line = Except.error e ↔ c = false ∧ e = Fault.assert line := by
  unfold assert
  cases c <;> simp [pure, Except.pure, throw, throwThe, MonadExceptOf.throw, eq_comm]

theorem pure_ne_error {α : Type} (a : α) (e : Fault) :
    (pure a : Except Fault α) = Except.error e ↔ False := by
  simp [pure, Except.pure]

theorem throw_eq_error {α : Type} (e e2 : Fault) :
    (throw e : Except Fault α) = Except.error e2 ↔ e = e2 := by
  simp [throw, throwThe, MonadExceptOf.throw]

theorem ite_throw_eq_error {α : Type} (c : Prop) [Decidable c] (e e2 : Fault)
    (x : Except Fault α) :
    (if c then throw e else x) = Except.error e2 ↔ (c ∧ e = e2) ∨ (¬ c ∧ x = Except.error e2) := by
  by_cases h : c <;> simp [h, throw, throwThe, MonadExceptOf.throw]

theorem page_size_eq_error (sys : Sys) (st : Shm) (e : Fault) :
    page_size sys st = Except.error e → e = Fault.assert 101 := by
  unfold page_size
  simp only [bind_eq_error, assert_eq_error, pure_ne_error]
  rintro (⟨_, h⟩ | ⟨_, _, h⟩)
  · exact h
  · exact h.elim

theorem int_mul_eq_error (a b : Int) (e : Fault) :
    int_mul a b = Except.error e → e = Fault.undefined := by
  unfold int_mul
  split
  · simp [pure_ne_error]
  · simp only [throw_eq_error]; exact fun h => h.symm

/-- Which assertions can stop `instantiate_offset`, and when the one of line 113 does. -/
theorem instantiate_offset_eq_error (sys : Sys) (st : Shm) (buf : Buffer) (new_offset : Int)
    (n : Nat) (h : instantiate_offset sys st buf new_offset = Except.error (Fault.assert n)) :
    101 ≤ n ∧ n ≤ 127 ∧ (n = 113 → ¬ u64 (new_offset + buf.size) ≤ max_pool_size) := by
  unfold instantiate_offset at h
  simp only [bind_eq_error, bind_eq_ok, assert_eq_error, assert_eq_ok, Prod.exists,
    ite_throw_eq_error, pure_ne_error, Fault.assert.injEq, decide_eq_false_iff_not,
    decide_eq_true_eq, reduceCtorEq, and_false, false_or, or_false, false_and] at h
  have hps : ∀ s, page_size sys s = Except.error (Fault.assert n) → n = 101 := by
    intro s hs
    have := page_size_eq_error _ _ _ hs
    simpa using this
  rcases h with ⟨_, rfl⟩ | ⟨_, _, ⟨_, rfl⟩ | ⟨_, _, ⟨_, rfl⟩ | ⟨_, _, ⟨_, rfl⟩ | ⟨_, _,
    ⟨_, rfl⟩ | ⟨_, _, ⟨h113, rfl⟩ | ⟨_, _, hp | ⟨_, _, _, hp | ⟨_, _, _, ⟨_, rfl⟩ | ⟨_, _,
    ⟨_, rfl⟩ | ⟨_, hf⟩⟩⟩⟩⟩⟩⟩⟩⟩⟩
  · exact ⟨by omega, by omega, fun h => by omega⟩
  · exact ⟨by omega, by omega, fun h => by omega⟩
  · exact ⟨by omega, by omega, fun h => by omega⟩
  · exact ⟨by omega, by omega, fun h => by omega⟩
  · exact ⟨by omega, by omega, fun h => by omega⟩
  · exact ⟨by omega, by omega, fun _ => h113⟩
  · have := hps _ hp
    exact ⟨by omega, by omega, fun h => by omega⟩
  · have := hps _ hp
    exact ⟨by omega, by omega, fun h => by omega⟩
  · exact ⟨by omega, by omega, fun h => by omega⟩
  · exact ⟨by omega, by omega, fun h => by omega⟩
  · exact hf.elim

/-- Which assertions can stop `wrap_buffer`, and when the one of line 113 does. -/
theorem wrap_buffer_eq_error (sys : Sys) (st : Shm) (buf : Buffer) (new_offset : Int)
    (n : Nat) (h : wrap_buffer sys st buf new_offset = Except.error (Fault.assert n)) :
    101 ≤ n ∧ n ≤ 348 ∧ n ≠ 198 ∧
    (n = 113 → ¬ u64 (new_offset + buf.size) ≤ max_pool_size) := by
  unfold wrap_buffer at h
  simp only [bind_eq_error, bind_eq_ok, assert_eq_error, assert_eq_ok, Prod.exists,
    pure_ne_error, Fault.assert.injEq, decide_eq_false_iff_not,
    decide_eq_true_eq, reduceCtorEq, and_false, false_or, or_false, false_and] at h
  have hps : ∀ s, page_size sys s = Except.error (Fault.assert n) → n = 101 := by
    intro s hs
    have := page_size_eq_error _ _ _ hs
    simpa using this
  rcases h with hp | ⟨_, _, _, hp | ⟨_, _, _, ⟨_, rfl⟩ | ⟨_, _, ⟨_, rfl⟩ | ⟨_, _, h⟩⟩⟩⟩
  · have := hps _ hp
    exact ⟨by omega, by omega, by omega, fun h => by omega⟩
  · have := hps _ hp
    exact ⟨by omega, by omega, by omega, fun h => by omega⟩
  · exact ⟨by omega, by omega, by omega, fun h => by omega⟩
  · exact ⟨by omega, by omega, by omega, fun h => by omega⟩
  · split at h
    · simp [pure_ne_error] at h
    · have := instantiate_offset_eq_error _ _ _ _ _ h
      exact ⟨this.1, by omega, by omega, this.2.2⟩

theorem purge_marked_eq_error (cookie : Nat) (l : List Buffer) (e : Fault)
    (h : purge_marked cookie l = Except.error e) :
    e = Fault.assert 198 ∧ ∃ b ∈ l, b.cookie = cookie ∧ b.purge = true ∧ b.busy = true := by
  induction l with
  | nil => simp [purge_marked, pure_ne_error] at h
  | cons it rest ih =>
    unfold purge_marked at h
    split at h
    · simp only [bind_eq_error, Prod.exists, pure_ne_error, and_false, exists_false,
        or_false] at h
      obtain ⟨h1, b, hb, h2⟩ := ih h
      exact ⟨h1, b, List.mem_cons_of_mem _ hb, h2⟩
    · split at h
      · simp only [bind_eq_error, Prod.exists, pure_ne_error, and_false, exists_false,
          or_false] at h
        obtain ⟨h1, b, hb, h2⟩ := ih h
        exact ⟨h1, b, List.mem_cons_of_mem _ hb, h2⟩
      · rename_i hc hp
        simp only [bind_eq_error, assert_eq_error, assert_eq_ok, Prod.exists, pure_ne_error,
          and_false, exists_false, or_false, Bool.not_eq_false', Bool.not_eq_true'] at h
        rcases h with ⟨hb, rfl⟩ | ⟨_, _, h⟩
        · refine ⟨rfl, it, List.mem_cons_self _ _, ?_, ?_, hb⟩
          · simpa using hc
          · simpa using hp
        · obtain ⟨h1, b, hb, h2⟩ := ih h
          exact ⟨h1, b, List.mem_cons_of_mem _ hb, h2⟩

/-- Which assertions can stop `shm_get_buffer`: the one of its first loop, on a
busy entry marked for purging, and the ones of `instantiate_offset`. -/
theorem shm_get_buffer_eq_error (sys : Sys) (st : Shm) (width height : Int) (cookie n : Nat)
    (h : shm_get_buffer sys st width height cookie = Except.error (Fault.assert n)) :
    (n = 198 ∧ ∃ b ∈ st.buffers, b.cookie = cookie ∧ b.purge = true ∧ b.busy = true) ∨
    (101 ≤ n ∧ n ≤ 127 ∧ (n = 113 → max_pool_size < size_of sys width height)) := by
  unfold shm_get_buffer at h
  simp only [bind_eq_error, Prod.exists] at h
  rcases h with h | ⟨l, cs, _, h⟩
  · obtain ⟨h1, h2⟩ := purge_marked_eq_error _ _ _ h
    simp only [Fault.assert.injEq] at h1
    exact Or.inl ⟨h1, h2⟩
  · right
    split at h
    · simp [pure_ne_error] at h
    · simp only [bind_eq_error, bind_eq_ok, int_mul_eq_ok, ite_throw_eq_error, Prod.exists,
        pure_ne_error, reduceCtorEq, and_false, false_or, or_false] at h
      rcases h with h | ⟨_, ⟨rfl, _⟩, _, _, h⟩
      · have := int_mul_eq_error _ _ _ h
        simp at this
      · rcases h with h | ⟨_, _, _, _, h⟩
        · obtain ⟨h1, h2, h3⟩ := instantiate_offset_eq_error _ _ _ _ _ h
          refine ⟨h1, h2, fun hn => ?_⟩
          have := h3 hn
          simp only [zero_add, not_le] at this
          unfold size_of
          have h0 := u64_nonneg (sys.stride_for_format_and_width width * height)
          have e : u64 (u64 (sys.stride_for_format_and_width width * height)) =
              u64 (sys.stride_for_format_and_width width * height) := by
            unfold u64; omega
          rw [e] at this
          exact this

/-- What a `wrap_buffer` that returns true leaves, call by call. -/
theorem wrap_buffer_returns (sys : Sys) (st st2 : Shm) (buf buf2 : Buffer) (new_offset : Int)
    (h : wrap_buffer sys st buf new_offset = Except.ok (true, buf2, st2)) :
    mmap_of sys (st.now + (page_size_calls st).length) (page_size_of sys st) buf new_offset
      ≠ MAP_FAILED ∧
    InstantiateReturns sys (wrap_state sys st buf new_offset)
      (buffer_destroy_dont_close buf).1 new_offset ∧
    buf2 = wrapped_entry sys st buf new_offset ∧ st2 = after_wrap sys st buf new_offset := by
  unfold wrap_buffer at h
  simp only [bind_eq_ok, assert_eq_ok, Prod.exists, decide_eq_true_eq] at h
  obtain ⟨ps1, st1, hp1, ps2, st1b, hp2, _, h347, _, h348, h⟩ := h
  have hp2b := page_size_again sys st st1 ps1 hp1
  rw [hp2b] at hp2
  simp only [Except.ok.injEq, Prod.mk.injEq] at hp2
  obtain ⟨rfl, rfl⟩ := hp2
  have hnow := page_size_now _ _ _ _ hp1
  rw [page_size_eq_ok] at hp1
  obtain ⟨_, rfl, rfl⟩ := hp1
  split at h
  · simp [pure_eq_ok] at h
  · rename_i hm
    rw [instantiate_offset_eq_ok] at h
    obtain ⟨hi, _, rfl, rfl⟩ := h
    refine ⟨?_, ?_, ?_, ?_⟩
    · simpa [mmap_of, mmap_size_of, page_offset_of, aligned_offset_of, Shm.now] using hm
    · simpa [wrap_state, Shm.call, Shm.now, mmap_of, mmap_size_of, page_offset_of,
        aligned_offset_of, List.append_assoc] using hi
    · simp [wrapped_entry, wrap_state, Shm.call, Shm.now, mmap_of, mmap_size_of,
        page_offset_of, aligned_offset_of, List.append_assoc]
    · simp [after_wrap, wrap_state, Shm.call, Shm.now, mmap_of, mmap_size_of, page_offset_of,
        aligned_offset_of, List.append_assoc]

/-- What a `shm_scroll_forward` that returns leaves, call by call. -/
theorem shm_scroll_forward_returns (sys : Sys) (st st2 : Shm) (buf buf2 : Buffer)
    (rows tm tk bm bk : Int) (ret : Bool)
    (h : shm_scroll_forward sys st buf rows tm tk bm bk = Except.ok (ret, buf2, st2)) :
    (forward_wraps buf rows → u64 buf.offset > buf.size ∧
      mmap_of sys (st.now + (page_size_calls st).length) (page_size_of sys st) buf 0
        ≠ MAP_FAILED ∧
      InstantiateReturns sys (wrap_state sys st buf 0) (buffer_destroy_dont_close buf).1 0) ∧
    InstantiateReturns sys (forward_remap_state sys st buf rows tm tk)
      (buffer_destroy_dont_close (forward_entry sys st buf rows)).1
      (forward_offset sys st buf rows) ∧
    ret = true ∧ buf2 = scrolled_forward sys st buf rows tm tk ∧
    st2 = after_scroll_forward sys st buf rows tm tk bm bk := by
  unfold shm_scroll_forward at h
  simp only [bind_eq_ok, assert_eq_ok, Prod.exists, decide_eq_true_eq, bne_iff_ne] at h
  obtain ⟨_, h369, _, h370, _, h371, _, h372, _, h373, _, h374, h⟩ := h
  simp only [h369, Bool.not_true, Bool.false_eq_true, if_false, bind_eq_ok, assert_eq_ok,
    int_mul_eq_ok, Prod.exists, decide_eq_true_eq] at h
  obtain ⟨_, h381, _, ⟨rfl, hrange⟩, _, h382, bufw, stw, hwrap, _, h398, stt, htr, stk, hkeep,
    stp, hpunch, ret', buf', st', hinst, stb, hbot, hres⟩ := h
  have hw : bufw = forward_entry sys st buf rows ∧ stw = forward_state sys st buf rows ∧
      (forward_wraps buf rows → u64 buf.offset > buf.size ∧
        mmap_of sys (st.now + (page_size_calls st).length) (page_size_of sys st) buf 0
          ≠ MAP_FAILED ∧
        InstantiateReturns sys (wrap_state sys st buf 0) (buffer_destroy_dont_close buf).1 0) := by
    split at hwrap
    · rename_i hc
      have hc2 : forward_wraps buf rows := hc
      simp only [bind_eq_ok, assert_eq_ok, decide_eq_true_eq, Prod.exists] at hwrap
      obtain ⟨_, h386, ok, b1, s1, hwb, hok⟩ := hwrap
      simp only [ite_throw_eq_ok, pure_eq_ok, Prod.mk.injEq, Bool.not_eq_true',
        Bool.not_eq_false] at hok
      obtain ⟨hok1, rfl, rfl⟩ := hok
      subst hok1
      obtain ⟨w1, w2, rfl, rfl⟩ := wrap_buffer_returns _ _ _ _ _ _ hwb
      simp only [forward_entry, forward_state, hc2, if_true]
      exact ⟨trivial, trivial, fun _ => ⟨h386, w1, w2⟩⟩
    · rename_i hc
      have hc2 : ¬ forward_wraps buf rows := hc
      simp only [pure_eq_ok, Prod.mk.injEq] at hwrap
      obtain ⟨rfl, rfl⟩ := hwrap
      simp only [forward_entry, forward_state, hc2, if_false]
      exact ⟨trivial, trivial, fun hx => hx.elim⟩
  obtain ⟨hbw, hsw, hwr⟩ := hw
  rw [sys_ftruncate_eq_ok] at htr
  obtain ⟨_, rfl⟩ := htr
  have hk : stk = { stw with calls := stw.calls ++
      ([Call.ftruncate bufw.fd (s64 (u64 (bufw.offset + rows * buf.stride + bufw.size)))] ++
        (forward_top_move bufw rows tm tk)) } := by
    unfold forward_top_move
    split at hkeep
    · rename_i hc
      simp only [bind_eq_ok, pure_eq_ok, int_mul_eq_ok, int_add_eq_ok] at hkeep
      obtain ⟨l1, ⟨rfl, _⟩, d, ⟨rfl, _⟩, l2, ⟨rfl, _⟩, s, ⟨rfl, _⟩, n, ⟨rfl, _⟩, rfl⟩ := hkeep
      simp [hc, Shm.call]
    · rename_i hc
      simp only [pure_eq_ok] at hkeep
      subst hkeep
      simp [hc, Shm.call]
  have hp : stp = forward_remap_state sys st buf rows tm tk := by
    unfold forward_remap_state forward_offset
    rw [← hbw, ← hsw]
    split at hpunch
    · rename_i hc
      simp only [ite_throw_eq_ok, pure_eq_ok] at hpunch
      obtain ⟨_, rfl⟩ := hpunch
      rw [hk]
      simp [hc, Shm.call, buffer_destroy_dont_close, List.append_assoc]
    · rename_i hc
      simp only [pure_eq_ok] at hpunch
      subst hpunch
      rw [hk]
      simp [hc, List.append_assoc]
  rw [instantiate_offset_eq_ok] at hinst
  obtain ⟨hi, rfl, rfl, rfl⟩ := hinst
  simp only [pure_eq_ok, Prod.mk.injEq] at hres
  obtain ⟨rfl, rfl, rfl⟩ := hres
  have hb2 : instantiated sys (stp.now + (page_size_calls stp).length) (page_size_of sys stp)
      (buffer_destroy_dont_close bufw).1 (bufw.offset + rows * buf.stride) =
      scrolled_forward sys st buf rows tm tk := by
    unfold scrolled_forward forward_offset
    rw [← hbw, ← hp]
  refine ⟨hwr, ?_, rfl, hb2, ?_⟩
  · rw [← hp, ← hbw]
    unfold forward_offset
    rw [← hbw]
    exact hi
  · unfold after_scroll_forward forward_bottom_move
    rw [← hb2]
    unfold forward_offset
    rw [← hbw, ← hp]
    by_cases hbk : bk > 0
    · simp only [hbk, decide_True, Bool.and_self, if_true, bind_eq_ok, pure_eq_ok,
        int_mul_eq_ok, int_add_eq_ok] at hbot
      obtain ⟨l1, ⟨rfl, _⟩, d, ⟨rfl, _⟩, l2, ⟨rfl, _⟩, l3, ⟨rfl, _⟩, s, ⟨rfl, _⟩, n, ⟨rfl, _⟩,
        rfl⟩ := hbot
      simp [hbk, Shm.call]
    · simp only [hbk, decide_False, Bool.and_false, Bool.false_eq_true, if_false,
        pure_eq_ok] at hbot
      subst hbot
      simp [hbk]

/-- What a `shm_scroll_reverse` that returns leaves, call by call. -/
theorem shm_scroll_reverse_returns (sys : Sys) (st st2 : Shm) (buf buf2 : Buffer)
    (rows tm tk bm bk : Int) (ret : Bool)
    (h : shm_scroll_reverse sys st buf rows tm tk bm bk = Except.ok (ret, buf2, st2)) :
    (reverse_wraps buf rows →
      0 < page_size_of sys (st.call (Call.ftruncate buf.fd max_pool_size)) ∧
      InstantiateReturns sys
        (wrap_state sys (reverse_wrap_state sys st buf) buf (reverse_target sys st buf))
        (buffer_destroy_dont_close buf).1 (reverse_target sys st buf)) ∧
    InstantiateReturns sys (reverse_remap_state sys st buf rows bm bk)
      (buffer_destroy_dont_close (reverse_entry sys st buf rows)).1
      (reverse_offset sys st buf rows) ∧
    ret = true ∧ buf2 = scrolled_reverse sys st buf rows bm bk ∧
    st2 = after_scroll_reverse sys st buf rows tm tk bm bk := by
  unfold shm_scroll_reverse at h
  simp only [bind_eq_ok, assert_eq_ok, Prod.exists, decide_eq_true_eq, int_mul_eq_ok] at h
  obtain ⟨_, h487, _, ⟨rfl, hrange⟩, bufw, stw, hwrap, _, h509, stk, hkeep, stt, htr,
    ret', buf', st', hinst, stb, htop, hres⟩ := h
  have hw : bufw = reverse_entry sys st buf rows ∧ stw = reverse_state sys st buf rows ∧
      (reverse_wraps buf rows →
        0 < page_size_of sys (st.call (Call.ftruncate buf.fd max_pool_size)) ∧
        InstantiateReturns sys
          (wrap_state sys (reverse_wrap_state sys st buf) buf (reverse_target sys st buf))
          (buffer_destroy_dont_close buf).1 (reverse_target sys st buf)) := by
    split at hwrap
    · rename_i hc
      have hc2 : reverse_wraps buf rows := hc
      simp only [bind_eq_ok, Prod.exists] at hwrap
      obtain ⟨s0, hs0, ps, s1, hps, ok, b1, s2, hwb, hok⟩ := hwrap
      simp only [ite_throw_eq_ok, pure_eq_ok, Prod.mk.injEq, Bool.not_eq_true',
        Bool.not_eq_false] at hok
      obtain ⟨hok1, rfl, rfl⟩ := hok
      subst hok1
      rw [sys_ftruncate_eq_ok] at hs0
      obtain ⟨_, rfl⟩ := hs0
      rw [page_size_eq_ok] at hps
      obtain ⟨hpos, rfl, rfl⟩ := hps
      have hst : ({ st.call (Call.ftruncate buf.fd max_pool_size) with
          page_size_size := page_size_of sys (st.call (Call.ftruncate buf.fd max_pool_size)),
          calls := (st.call (Call.ftruncate buf.fd max_pool_size)).calls ++
            page_size_calls (st.call (Call.ftruncate buf.fd max_pool_size)) } : Shm) =
          reverse_wrap_state sys st buf := by
        simp [reverse_wrap_state, Shm.call]
      rw [hst] at hwb
      have htg : s64 (and64 (max_pool_size - buf.size)
          (not64 (page_size_of sys (st.call (Call.ftruncate buf.fd max_pool_size)) - 1))) =
          reverse_target sys st buf := rfl
      rw [htg] at hwb
      obtain ⟨_, w2, rfl, rfl⟩ := wrap_buffer_returns _ _ _ _ _ _ hwb
      simp only [reverse_entry, reverse_state, hc2, if_true]
      exact ⟨trivial, trivial, fun _ => ⟨hpos, w2⟩⟩
    · rename_i hc
      have hc2 : ¬ reverse_wraps buf rows := hc
      simp only [pure_eq_ok, Prod.mk.injEq] at hwrap
      obtain ⟨rfl, rfl⟩ := hwrap
      simp only [reverse_entry, reverse_state, hc2, if_false]
      exact ⟨trivial, trivial, fun hx => hx.elim⟩
  obtain ⟨hbw, hsw, hwr⟩ := hw
  have hk : stk = { stw with calls := stw.calls ++ (reverse_bottom_move bufw rows bm bk) } := by
    unfold reverse_bottom_move
    by_cases hbk : bk > 0
    · simp only [hbk, if_true, bind_eq_ok, pure_eq_ok, int_mul_eq_ok, int_add_eq_ok] at hkeep
      obtain ⟨l1, ⟨rfl, _⟩, l2, ⟨rfl, _⟩, d, ⟨rfl, _⟩, l3, ⟨rfl, _⟩, s, ⟨rfl, _⟩, n, ⟨rfl, _⟩,
        rfl⟩ := hkeep
      simp [hbk, Shm.call]
    · simp only [hbk, if_false, pure_eq_ok] at hkeep
      subst hkeep
      simp [hbk]
  rw [sys_ftruncate_eq_ok] at htr
  obtain ⟨_, rfl⟩ := htr
  have hp : Shm.call { stk with calls := stk.calls ++ (buffer_destroy_dont_close bufw).2 }
      (Call.ftruncate (buffer_destroy_dont_close bufw).1.fd
        (s64 (u64 (bufw.offset - rows * buf.stride + (buffer_destroy_dont_close bufw).1.size)))) =
      reverse_remap_state sys st buf rows bm bk := by
    unfold reverse_remap_state reverse_offset
    rw [← hbw, ← hsw, hk]
    simp [Shm.call, buffer_destroy_dont_close, List.append_assoc]
  rw [hp] at hinst
  rw [instantiate_offset_eq_ok] at hinst
  obtain ⟨hi, rfl, rfl, rfl⟩ := hinst
  simp only [pure_eq_ok, Prod.mk.injEq] at hres
  obtain ⟨rfl, rfl, rfl⟩ := hres
  have hb2 : instantiated sys ((reverse_remap_state sys st buf rows bm bk).now +
        (page_size_calls (reverse_remap_state sys st buf rows bm bk)).length)
      (page_size_of sys (reverse_remap_state sys st buf rows bm bk))
      (buffer_destroy_dont_close bufw).1 (bufw.offset - rows * buf.stride) =
      scrolled_reverse sys st buf rows bm bk := by
    unfold scrolled_reverse reverse_offset
    rw [← hbw]
  refine ⟨hwr, ?_, rfl, hb2, ?_⟩
  · rw [← hbw]
    unfold reverse_offset
    rw [← hbw]
    exact hi
  · unfold after_scroll_reverse reverse_top_move
    rw [← hb2]
    unfold reverse_offset
    rw [← hbw]
    by_cases htk : tk > 0
    · simp only [htk, decide_True, Bool.and_self, if_true, bind_eq_ok, pure_eq_ok,
        int_mul_eq_ok, int_add_eq_ok] at htop
      obtain ⟨l1, ⟨rfl, _⟩, d, ⟨rfl, _⟩, l2, ⟨rfl, _⟩, s, ⟨rfl, _⟩, n, ⟨rfl, _⟩, rfl⟩ := htop
      simp [htk, Shm.call]
    · simp only [htk, decide_False, Bool.and_false, Bool.false_eq_true, if_false,
        pure_eq_ok] at htop
      subst htop
      simp [htk]

theorem Mem.write_maps (m : Mem) (a : Ptr) (v : Nat) : (m.write a v).maps = m.maps := by
  unfold Mem.write
  split <;> rfl

theorem Mem.resolve_of_maps {m1 m2 : Mem} (h : m1.maps = m2.maps) (a : Ptr) :
    m1.resolve a = m2.resolve a := by
  unfold Mem.resolve
  rw [h]

theorem Mem.write_file (m : Mem) (a : Ptr) (v : Nat) (fd off : Int)
    (h : m.resolve a = some (fd, off)) (f o : Int) :
    (m.write a v).file f o = if f = fd ∧ o = off then v else m.file f o := by
  unfold Mem.write
  rw [h]

theorem Mem.read_of_resolve (m : Mem) (a : Ptr) (fd off : Int)
    (h : m.resolve a = some (fd, off)) : m.read a = m.file fd off := by
  unfold Mem.read
  rw [h]

/-- A `memmove` between two ranges that show consecutive file bytes. -/
theorem Mem.memmove_affine (m : Mem) (d s : Ptr) (n fd od fs os : Int)
    (hd : ∀ k : Int, 0 ≤ k → k < n → m.resolve (d + k) = some (fd, od + k))
    (hs : ∀ k : Int, 0 ≤ k → k < n → m.resolve (s + k) = some (fs, os + k)) :
    (m.memmove d s n).maps = m.maps ∧
    ∀ f o, (m.memmove d s n).file f o =
      if f = fd ∧ od ≤ o ∧ o < od + n then m.file fs (os + (o - od)) else m.file f o := by
  have key : ∀ c : Nat, (c : Int) ≤ max n 0 →
      ((List.range c).foldl
        (fun acc (k : Nat) => acc.write (d + (k : Int)) (m.read (s + (k : Int)))) m).maps =
          m.maps ∧
      ∀ f o, ((List.range c).foldl
        (fun acc (k : Nat) => acc.write (d + (k : Int)) (m.read (s + (k : Int)))) m).file f o =
        if f = fd ∧ od ≤ o ∧ o < od + c then m.file fs (os + (o - od)) else m.file f o := by
    intro c
    induction c with
    | zero =>
      intro _
      refine ⟨rfl, fun f o => ?_⟩
      have : ¬ (f = fd ∧ od ≤ o ∧ o < od + ((0 : Nat) : Int)) := by
        intro h
        have := h.2.1
        have := h.2.2
        omega
      simp only [List.range_zero, List.foldl_nil]
      rw [if_neg this]
    | succ c ih =>
      intro hc
      have hc1 : (c : Int) < n := by omega
      obtain ⟨ihm, ihf⟩ := ih (by omega)
      rw [List.range_succ, List.foldl_append]
      simp only [List.foldl_cons, List.foldl_nil]
      have hr := hd c (by omega) hc1
      rw [← Mem.resolve_of_maps ihm] at hr
      refine ⟨by rw [Mem.write_maps, ihm], fun f o => ?_⟩
      rw [Mem.write_file _ _ _ _ _ hr, ihf, Mem.read_of_resolve _ _ _ _ (hs c (by omega) hc1)]
      by_cases h1 : f = fd ∧ o = od + c
      · obtain ⟨rfl, rfl⟩ := h1
        have e : os + (od + (c : Int) - od) = os + c := by omega
        have h2 : (f = f ∧ od ≤ od + (c : Int) ∧ od + (c : Int) < od + ((c + 1 : Nat) : Int)) :=
          ⟨rfl, by omega, by omega⟩
        rw [if_pos ⟨rfl, rfl⟩, if_pos h2, e]
      · rw [if_neg h1]
        by_cases h3 : f = fd ∧ od ≤ o ∧ o < od + (c : Int)
        · have h4 : f = fd ∧ od ≤ o ∧ o < od + ((c + 1 : Nat) : Int) :=
            ⟨h3.1, h3.2.1, by have := h3.2.2; omega⟩
          rw [if_pos h3, if_pos h4]
        · have h4 : ¬ (f = fd ∧ od ≤ o ∧ o < od + ((c + 1 : Nat) : Int)) := by
            intro h
            apply h3
            refine ⟨h.1, h.2.1, ?_⟩
            have h5 := h.2.2
            by_contra h6
            apply h1
            exact ⟨h.1, by omega⟩
          rw [if_neg h3, if_neg h4]
  unfold Mem.memmove
  obtain ⟨k1, k2⟩ := key n.toNat (by omega)
  refine ⟨k1, fun f o => ?_⟩
  rw [k2]
  by_cases hn : 0 ≤ n
  · rw [Int.toNat_of_nonneg hn]
  · have e : (n.toNat : Int) = 0 := by omega
    rw [e]
    have h1 : ¬ (f = fd ∧ od ≤ o ∧ o < od + 0) := by
      intro h
      have := h.2.1
      have := h.2.2
      omega
    have h2 : ¬ (f = fd ∧ od ≤ o ∧ o < od + n) := by
      intro h
      have := h.2.1
      have := h.2.2
      omega
    rw [if_neg h1, if_neg h2]

theorem Mem.run_append (sys : Sys) (n : Nat) (m : Mem) (cs1 cs2 : List Call) :
    Mem.run sys n m (cs1 ++ cs2) = Mem.run sys (n + cs1.length) (Mem.run sys n m cs1) cs2 := by
  induction cs1 generalizing n m with
  | nil => rfl
  | cons c cs1 ih =>
    show Mem.run sys (n + 1) (Mem.step sys n m c) (cs1 ++ cs2) =
      Mem.run sys (n + (cs1.length + 1)) (Mem.run sys (n + 1) (Mem.step sys n m c) cs1) cs2
    rw [ih, Nat.add_assoc, Nat.add_comm 1]

theorem Mem.run_page_size_calls (sys : Sys) (n : Nat) (m : Mem) (st : Shm) :
    Mem.run sys n m (page_size_calls st) = m := by
  unfold page_size_calls
  split <;> rfl

/-- The calls of an `instantiate_offset` that returns add one mapping. -/
theorem Mem.run_instantiate_calls (sys : Sys) (n : Nat) (m : Mem) (ps : Int) (b : Buffer)
    (o : Int) (h : mmap_of sys n ps b o ≠ MAP_FAILED) :
    Mem.run sys n m (instantiate_calls sys n ps b o) =
      { m with maps := ⟨mmap_of sys n ps b o, mmap_size_of ps b o, b.fd,
          aligned_offset_of ps o⟩ :: m.maps } := by
  have h2 : ¬ sys.mmap n (mmap_size_of ps b o) b.fd (aligned_offset_of ps o) = MAP_FAILED := h
  simp only [instantiate_calls, Mem.run, Mem.step, h2, if_false]
  rfl

/-- The calls of `buffer_destroy_dont_close` leave the bytes of the files. -/
theorem Mem.run_destroy_file (sys : Sys) (n : Nat) (m : Mem) (b : Buffer) :
    (Mem.run sys n m (buffer_destroy_dont_close b).2).file = m.file := by
  unfold buffer_destroy_dont_close
  simp only
  split <;> split <;> split <;> rfl

theorem Mem.step_ftruncate (sys : Sys) (n : Nat) (m : Mem) (fd len : Int) :
    (Mem.step sys n m (Call.ftruncate fd len)).maps = m.maps ∧
    ∀ f o, o < len → (Mem.step sys n m (Call.ftruncate fd len)).file f o = m.file f o := by
  have e : Mem.step sys n m (Call.ftruncate fd len) =
      if sys.ftruncate n fd len < 0 then m
      else { m with file := fun f o => if f = fd ∧ len ≤ o then 0 else m.file f o } := rfl
  rw [e]
  split
  · exact ⟨rfl, fun _ _ _ => rfl⟩
  · refine ⟨rfl, fun f o ho => ?_⟩
    have : ¬ (f = fd ∧ len ≤ o) := fun h => by have := h.2; omega
    simp only [this, if_false]

theorem Mem.step_fallocate (sys : Sys) (n : Nat) (m : Mem) (fd off len : Int) :
    (Mem.step sys n m (Call.fallocate fd off len)).maps = m.maps ∧
    ∀ f o, off + len ≤ o → (Mem.step sys n m (Call.fallocate fd off len)).file f o = m.file f o := by
  have e : Mem.step sys n m (Call.fallocate fd off len) =
      if sys.fallocate n fd off len < 0 then m
      else { m with
        file := fun f o => if f = fd ∧ off ≤ o ∧ o < off + len then 0 else m.file f o } := rfl
  rw [e]
  split
  · exact ⟨rfl, fun _ _ _ => rfl⟩
  · refine ⟨rfl, fun f o ho => ?_⟩
    have : ¬ (f = fd ∧ off ≤ o ∧ o < off + len) := fun h => by have := h.2.2; omega
    simp only [this, if_false]

/-- An address inside the most recent mapping shows the file through it. -/
theorem Mem.resolve_front (m : Mem) (p : Mapping) (rest : List Mapping) (x : Int)
    (hm : m.maps = p :: rest) (h1 : 0 ≤ x) (h2 : x < p.length) :
    m.resolve (p.addr + x) = some (p.fd, p.offset + x) := by
  unfold Mem.resolve
  rw [hm]
  have : p.covers (p.addr + x) = true := by
    simp only [Mapping.covers, decide_eq_true_eq]
    unfold Ptr
    omega
  have e : p.addr + x - p.addr = x := by
    unfold Ptr
    omega
  simp [List.find?_cons, this, e]

/-- An address outside the most recent mapping shows what it showed before. -/
theorem Mem.resolve_behind (m m0 : Mem) (p : Mapping) (a : Ptr)
    (hm : m.maps = p :: m0.maps) (h : a < p.addr ∨ p.addr + p.length ≤ a) :
    m.resolve a = m0.resolve a := by
  unfold Mem.resolve
  rw [hm]
  have : p.covers a = false := by
    simp only [Mapping.covers, decide_eq_false_iff_not]
    intro hc
    unfold Ptr at *
    omega
  simp [List.find?_cons, this]

/-- The bytes behind the calls `[ftruncate, memmove of the top region] ++ D ++ F
++ P ++ instantiate_calls`, where `D`, `F` and `P` leave the bytes from `no` on
as they are: read through the new mapping, the rows moved are the rows of the
old buffer. -/
theorem Mem.run_scroll_tail (sys : Sys) (n0 idx : Nat) (mw : Mem) (bw bd : Buffer)
    (rows keep len no ps : Int) (D F P : List Call)
    (hidx : idx = n0 + 2 + D.length + F.length + P.length)
    (hD : ∀ (n : Nat) (m : Mem), (Mem.run sys n m D).file = m.file)
    (hF : ∀ (n : Nat) (m : Mem) (f o : Int), no ≤ o → (Mem.run sys n m F).file f o = m.file f o)
    (hP : ∀ (n : Nat) (m : Mem), Mem.run sys n m P = m)
    (hmm : mmap_of sys idx ps bd no ≠ MAP_FAILED)
    (hfd : bd.fd = bw.fd)
    (hal : aligned_offset_of ps no + page_offset_of ps no = no)
    (hpo : 0 ≤ page_offset_of ps no)
    (hms : mmap_size_of ps bd no = bw.size + page_offset_of ps no)
    (hrows : 0 ≤ rows * bw.stride)
    (hfit : rows * bw.stride + keep * bw.stride ≤ bw.size)
    (hno : no = bw.offset + rows * bw.stride) (hlen : no + bw.size ≤ len)
    (hmapw : ∀ x : Int, 0 ≤ x → x < bw.size →
      mw.resolve (bw.mmapped + x) = some (bw.fd, bw.offset + x))
    (y : Int) (hy0 : 0 ≤ y) (hy1 : y < keep * bw.stride) :
    (Mem.run sys n0 mw
      (Call.ftruncate bw.fd len ::
        Call.memmove (bw.mmapped + (0 + rows) * bw.stride) (bw.mmapped + (0 + 0) * bw.stride)
          (keep * bw.stride) ::
        (D ++ (F ++ (P ++ instantiate_calls sys idx ps bd no))))).read
      (mmap_of sys idx ps bd no + page_offset_of ps no + y) =
    mw.file bw.fd (bw.offset + y) := by
  obtain ⟨t1, t2⟩ := Mem.step_ftruncate sys n0 mw bw.fd len
  -- the memmove
  have hd : ∀ k : Int, 0 ≤ k → k < keep * bw.stride →
      (Mem.step sys n0 mw (Call.ftruncate bw.fd len)).resolve
        (bw.mmapped + (0 + rows) * bw.stride + k) = some (bw.fd, bw.offset + rows * bw.stride + k) := by
    intro k k0 k1
    rw [Mem.resolve_of_maps t1]
    have e : bw.mmapped + (0 + rows) * bw.stride + k = bw.mmapped + (rows * bw.stride + k) := by
      unfold Ptr
      rw [Int.zero_add, Int.add_assoc]
    rw [e, hmapw _ (by omega) (by omega), ← Int.add_assoc]
  have hs : ∀ k : Int, 0 ≤ k → k < keep * bw.stride →
      (Mem.step sys n0 mw (Call.ftruncate bw.fd len)).resolve
        (bw.mmapped + (0 + 0) * bw.stride + k) = some (bw.fd, bw.offset + k) := by
    intro k k0 k1
    rw [Mem.resolve_of_maps t1]
    have e : bw.mmapped + (0 + 0) * bw.stride + k = bw.mmapped + k := by
      unfold Ptr
      rw [Int.zero_add, Int.zero_mul, Int.add_zero]
    rw [e, hmapw _ k0 (by omega)]
  obtain ⟨_, mv⟩ := Mem.memmove_affine _ _ _ _ _ _ _ _ hd hs
  -- the run
  simp only [Mem.run]
  rw [Mem.run_append, Mem.run_append, Mem.run_append, hP]
  have hi2 : n0 + 1 + 1 + D.length + F.length + P.length = idx := by omega
  rw [hi2, Mem.run_instantiate_calls _ _ _ _ _ _ hmm]
  have hres := Mem.resolve_front
    { Mem.run sys (n0 + 1 + 1 + D.length)
        (Mem.run sys (n0 + 1 + 1)
          (Mem.step sys (n0 + 1) (Mem.step sys n0 mw (Call.ftruncate bw.fd len))
            (Call.memmove (bw.mmapped + (0 + rows) * bw.stride)
              (bw.mmapped + (0 + 0) * bw.stride) (keep * bw.stride))) D) F with
      maps := ⟨mmap_of sys idx ps bd no, mmap_size_of ps bd no, bd.fd, aligned_offset_of ps no⟩ ::
        (Mem.run sys (n0 + 1 + 1 + D.length)
          (Mem.run sys (n0 + 1 + 1)
            (Mem.step sys (n0 + 1) (Mem.step sys n0 mw (Call.ftruncate bw.fd len))
              (Call.memmove (bw.mmapped + (0 + rows) * bw.stride)
                (bw.mmapped + (0 + 0) * bw.stride) (keep * bw.stride))) D) F).maps }
    ⟨mmap_of sys idx ps bd no, mmap_size_of ps bd no, bd.fd, aligned_offset_of ps no⟩ _
    (page_offset_of ps no + y) rfl (by omega)
    (by show page_offset_of ps no + y < mmap_size_of ps bd no
        rw [hms]
        omega)
  have eaddr : mmap_of sys idx ps bd no + page_offset_of ps no + y =
      mmap_of sys idx ps bd no + (page_offset_of ps no + y) := by
    unfold Ptr
    omega
  rw [eaddr, Mem.read_of_resolve _ _ _ _ hres]
  have eoff : aligned_offset_of ps no + (page_offset_of ps no + y) = no + y := by omega
  dsimp only
  rw [eoff, hfd, hF _ _ _ _ (by omega), hD]
  have est : ∀ (n : Nat) (m : Mem) (d s : Ptr) (c : Int),
      Mem.step sys n m (Call.memmove d s c) = m.memmove d s c := fun _ _ _ _ _ => rfl
  rw [est, mv]
  have hin : bw.fd = bw.fd ∧ bw.offset + rows * bw.stride ≤ no + y ∧
      no + y < bw.offset + rows * bw.stride + keep * bw.stride := ⟨rfl, by omega, by omega⟩
  have e : bw.offset + (no + y - (bw.offset + rows * bw.stride)) = bw.offset + y := by omega
  rw [if_pos hin, e, t2 _ _ (by omega)]

/-- The bytes behind the calls of a `wrap_buffer` that returns: the buffer
stands at the new offset of the file and is mapped there. -/
theorem Mem.run_wrap (sys : Sys) (n0 idx : Nat) (m0 : Mem) (b bd : Buffer)
    (o ps ps2 : Int) (D P : List Call)
    (hidx : idx = n0 + 3 + D.length + P.length)
    (hD : ∀ (n : Nat) (m : Mem), (Mem.run sys n m D).file = m.file)
    (hP : ∀ (n : Nat) (m : Mem), Mem.run sys n m P = m)
    (hT : mmap_of sys n0 ps b o ≠ MAP_FAILED)
    (hmm : mmap_of sys idx ps2 bd o ≠ MAP_FAILED)
    (hal : aligned_offset_of ps o + page_offset_of ps o = o)
    (hpo : 0 ≤ page_offset_of ps o)
    (hal2 : aligned_offset_of ps2 o + page_offset_of ps2 o = o)
    (hpo2 : 0 ≤ page_offset_of ps2 o)
    (hms : mmap_size_of ps b o = b.size + page_offset_of ps o)
    (hms2 : mmap_size_of ps2 bd o = b.size + page_offset_of ps2 o)
    (hmap : ∀ x : Int, 0 ≤ x → x < b.size →
      m0.resolve (b.mmapped + x) = some (b.fd, b.offset + x))
    (hfree : ∀ x : Int, 0 ≤ x → x < b.size →
      b.mmapped + x < mmap_of sys n0 ps b o ∨
      mmap_of sys n0 ps b o + mmap_size_of ps b o ≤ b.mmapped + x)
    (x : Int) (hx0 : 0 ≤ x) (hx1 : x < b.size) :
    (Mem.run sys n0 m0
      (Call.mmap (mmap_size_of ps b o) b.fd (aligned_offset_of ps o) ::
        Call.memcpy (mmap_of sys n0 ps b o + page_offset_of ps o) b.mmapped b.size ::
        Call.munmap (mmap_of sys n0 ps b o) (mmap_size_of ps b o) ::
        (D ++ (P ++ instantiate_calls sys idx ps2 bd o)))).resolve
      (mmap_of sys idx ps2 bd o + page_offset_of ps2 o + x) = some (bd.fd, o + x) ∧
    (Mem.run sys n0 m0
      (Call.mmap (mmap_size_of ps b o) b.fd (aligned_offset_of ps o) ::
        Call.memcpy (mmap_of sys n0 ps b o + page_offset_of ps o) b.mmapped b.size ::
        Call.munmap (mmap_of sys n0 ps b o) (mmap_size_of ps b o) ::
        (D ++ (P ++ instantiate_calls sys idx ps2 bd o)))).file b.fd (o + x) =
      m0.file b.fd (b.offset + x) := by
  have hT2 : ¬ sys.mmap n0 (mmap_size_of ps b o) b.fd (aligned_offset_of ps o) = MAP_FAILED := hT
  have e1 : Mem.step sys n0 m0 (Call.mmap (mmap_size_of ps b o) b.fd (aligned_offset_of ps o)) =
      { m0 with maps := ⟨mmap_of sys n0 ps b o, mmap_size_of ps b o, b.fd,
          aligned_offset_of ps o⟩ :: m0.maps } := by
    simp only [Mem.step, hT2, if_false]
    rfl
  -- the copy
  have hd : ∀ k : Int, 0 ≤ k → k < b.size →
      ({ m0 with maps := ⟨mmap_of sys n0 ps b o, mmap_size_of ps b o, b.fd,
          aligned_offset_of ps o⟩ :: m0.maps } : Mem).resolve
        (mmap_of sys n0 ps b o + page_offset_of ps o + k) = some (b.fd, o + k) := by
    intro k k0 k1
    have ea : mmap_of sys n0 ps b o + page_offset_of ps o + k =
        mmap_of sys n0 ps b o + (page_offset_of ps o + k) := by
      unfold Ptr
      omega
    have := Mem.resolve_front
      ({ m0 with maps := ⟨mmap_of sys n0 ps b o, mmap_size_of ps b o, b.fd,
          aligned_offset_of ps o⟩ :: m0.maps } : Mem)
      ⟨mmap_of sys n0 ps b o, mmap_size_of ps b o, b.fd, aligned_offset_of ps o⟩ _
      (page_offset_of ps o + k) rfl (by omega)
      (by show page_offset_of ps o + k < mmap_size_of ps b o
          rw [hms]
          omega)
    rw [ea, this]
    have : aligned_offset_of ps o + (page_offset_of ps o + k) = o + k := by omega
    simp only [this]
  have hs : ∀ k : Int, 0 ≤ k → k < b.size →
      ({ m0 with maps := ⟨mmap_of sys n0 ps b o, mmap_size_of ps b o, b.fd,
          aligned_offset_of ps o⟩ :: m0.maps } : Mem).resolve
        (b.mmapped + k) = some (b.fd, b.offset + k) := by
    intro k k0 k1
    rw [Mem.resolve_behind _ m0 ⟨mmap_of sys n0 ps b o, mmap_size_of ps b o, b.fd,
      aligned_offset_of ps o⟩ _ rfl (hfree k k0 k1)]
    exact hmap k k0 k1
  obtain ⟨_, mv⟩ := Mem.memmove_affine _ _ _ _ _ _ _ _ hd hs
  have est : ∀ (n : Nat) (m : Mem) (d s : Ptr) (c : Int),
      Mem.step sys n m (Call.memcpy d s c) = m.memmove d s c := fun _ _ _ _ _ => rfl
  simp only [Mem.run]
  rw [Mem.run_append, Mem.run_append, hP, e1, est]
  have hi2 : n0 + 1 + 1 + 1 + D.length + P.length = idx := by omega
  rw [hi2, Mem.run_instantiate_calls _ _ _ _ _ _ hmm]
  constructor
  · have ea : mmap_of sys idx ps2 bd o + page_offset_of ps2 o + x =
        mmap_of sys idx ps2 bd o + (page_offset_of ps2 o + x) := by
      unfold Ptr
      omega
    rw [ea]
    have := Mem.resolve_front
      { Mem.run sys (n0 + 1 + 1 + 1)
          (Mem.step sys (n0 + 1 + 1)
            (Mem.memmove { m0 with maps := ⟨mmap_of sys n0 ps b o, mmap_size_of ps b o, b.fd,
                aligned_offset_of ps o⟩ :: m0.maps }
              (mmap_of sys n0 ps b o + page_offset_of ps o) b.mmapped b.size)
            (Call.munmap (mmap_of sys n0 ps b o) (mmap_size_of ps b o))) D with
        maps := ⟨mmap_of sys idx ps2 bd o, mmap_size_of ps2 bd o, bd.fd,
          aligned_offset_of ps2 o⟩ ::
          (Mem.run sys (n0 + 1 + 1 + 1)
            (Mem.step sys (n0 + 1 + 1)
              (Mem.memmove { m0 with maps := ⟨mmap_of sys n0 ps b o, mmap_size_of ps b o, b.fd,
                  aligned_offset_of ps o⟩ :: m0.maps }
                (mmap_of sys n0 ps b o + page_offset_of ps o) b.mmapped b.size)
              (Call.munmap (mmap_of sys n0 ps b o) (mmap_size_of ps b o))) D).maps }
      ⟨mmap_of sys idx ps2 bd o, mmap_size_of ps2 bd o, bd.fd, aligned_offset_of ps2 o⟩ _
      (page_offset_of ps2 o + x) rfl (by omega)
      (by show page_offset_of ps2 o + x < mmap_size_of ps2 bd o
          rw [hms2]
          omega)
    rw [this]
    have : aligned_offset_of ps2 o + (page_offset_of ps2 o + x) = o + x := by omega
    simp only [this]
  · dsimp only
    rw [hD]
    have eun : ∀ (n : Nat) (m : Mem) (a : Ptr) (l : Int),
        (Mem.step sys n m (Call.munmap a l)).file = m.file := fun _ _ _ _ => rfl
    rw [eun, mv]
    have hin : b.fd = b.fd ∧ o ≤ o + x ∧ o + x < o + b.size := ⟨rfl, by omega, by omega⟩
    have e : b.offset + (o + x - o) = b.offset + x := by omega
    rw [if_pos hin, e]

theorem Cut.fds {fd : Int} {ps : List (List Char)} {t : List Written} (h : Cut fd ps t) :
    ∀ c ∈ t, c.fd = fd := by
  induction h with
  | done => intro c hc; cases hc
  | failed b bs c h1 h2 h3 =>
    intro d hd
    rw [List.mem_singleton] at hd
    rw [hd]; exact h1
  | wrote b bs c t h1 h2 h3 _ ih =>
    intro d hd
    rcases List.mem_cons.mp hd with rfl | hd
    · exact h1
    · exact ih d hd

/-- Writes that all succeeded are the writes of all the pieces. -/
theorem Cut.complete {fd : Int} {ps : List (List Char)} {t : List Written} (h : Cut fd ps t)
    (hok : ∀ c ∈ t, 0 ≤ c.ret) : t.map (fun c => c.buf) = ps := by
  induction h with
  | done => rfl
  | failed b bs c h1 h2 h3 =>
    have := hok c (List.mem_singleton.mpr rfl)
    omega
  | wrote b bs c t h1 h2 h3 _ ih =>
    rw [List.map_cons, h2, ih (fun d hd => hok d (List.mem_cons_of_mem _ hd))]

/-- The writes of one group and then, none of them having failed, of a second one. -/
theorem Cut.append {fd : Int} {ps qs : List (List Char)} {t u : List Written}
    (h : Cut fd ps t) (hok : ∀ c ∈ t, 0 ≤ c.ret) (h2 : Cut fd qs u) :
    Cut fd (ps ++ qs) (t ++ u) := by
  induction h with
  | done => exact h2
  | failed b bs c h1 h2 h3 =>
    have := hok c (List.mem_singleton.mpr rfl)
    omega
  | wrote b bs c t h1 h2 h3 _ ih =>
    exact Cut.wrote b _ c _ h1 h2 h3 (ih (fun d hd => hok d (List.mem_cons_of_mem _ hd)))

/-- The writes of a group that ended with a failure are writes of any longer group. -/
theorem Cut.stopped {fd : Int} {ps : List (List Char)} {t : List Written}
    (h : Cut fd ps t) (hf : ∃ c ∈ t, c.ret < 0) (qs : List (List Char)) :
    Cut fd (ps ++ qs) t := by
  induction h with
  | done =>
    obtain ⟨c, hc, _⟩ := hf
    cases hc
  | failed b bs c h1 h2 h3 => exact Cut.failed b _ c h1 h2 h3
  | wrote b bs c t h1 h2 h3 _ ih =>
    refine Cut.wrote b _ c _ h1 h2 h3 (ih ?_)
    obtain ⟨d, hd, hd2⟩ := hf
    rcases List.mem_cons.mp hd with rfl | hd
    · omega
    · exact ⟨d, hd, hd2⟩

theorem write_failed_eq (env : Tty) (s : Slave) :
    (write_failed env s).2 = s ∧
    (write_failed env s).1 ≠ user_notification_ret_t.UN_OK ∧
    ((write_failed env s).1 = user_notification_ret_t.UN_FAIL ↔
      s.errno ≠ env.EWOULDBLOCK ∧ s.errno ≠ env.EAGAIN) := by
  unfold write_failed
  by_cases h : (s.errno == env.EWOULDBLOCK || s.errno == env.EAGAIN) = true
  · rw [if_pos h]
    refine ⟨rfl, by simp, ?_⟩
    simp only [Bool.or_eq_true, beq_iff_eq] at h
    constructor
    · intro hx; cases hx
    · intro hx; rcases h with h | h
      · exact absurd h hx.1
      · exact absurd h hx.2
  · rw [if_neg h]
    refine ⟨rfl, by simp, ?_⟩
    simp only [Bool.or_eq_true, beq_iff_eq, not_or] at h
    exact ⟨fun _ => h, fun _ => rfl⟩

theorem Slave.write_record (env : Tty) (s : Slave) (fd : Int) (buf : List Char) :
    ∃ c : Written, c.fd = fd ∧ c.buf = buf ∧ c.ret = (s.write env fd buf).1 ∧
      c.errno = (s.write env fd buf).2.errno ∧
      (s.write env fd buf).2.writes = s.writes ++ [c] :=
  ⟨⟨fd, buf, (s.write env fd buf).1, (s.write env fd buf).2.errno⟩, rfl, rfl, rfl, rfl, rfl⟩

/-- What `emit_one_notification` does: it returns, having written the three
pieces of the notification up to the first write that failed. -/
theorem emit_one_notification_returns (env : Tty) (s : Slave) (fd : Int)
    (n : user_notification) :
    ∃ (r : user_notification_ret_t) (s2 : Slave) (t : List Written),
      emit_one_notification env s fd n = Except.ok (r, s2) ∧ s2.writes = s.writes ++ t ∧
      Cut fd [kind_label n.kind, n.text, reset_newline] t ∧
      (r = user_notification_ret_t.UN_OK ↔ ∀ c ∈ t, 0 ≤ c.ret) ∧
      (r = user_notification_ret_t.UN_FAIL ↔ ∃ c ∈ t, c.fatal env) := by
  have hpre : (match n.kind with
      | user_notification_kind.USER_NOTIFICATION_DEPRECATED =>
        some "\x1b[33;1mdeprecated\x1b[39;21m: ".toList
      | user_notification_kind.USER_NOTIFICATION_WARNING =>
        some "\x1b[33;1mwarning\x1b[39;21m: ".toList
      | user_notification_kind.USER_NOTIFICATION_ERROR =>
        some "\x1b[31;1merror\x1b[39;21m: ".toList) = some (kind_label n.kind) := by
    cases n.kind <;> rfl
  have hpost : "\x1b[m\n".toList = reset_newline := rfl
  unfold emit_one_notification
  simp only [hpre, hpost, Option.isSome_some, Option.getD_some, assert, if_true, bind_eq_ok,
    pure_eq_ok, exists_eq_left, Except.bind, pure, Except.pure, true_and, exists_const]
  obtain ⟨c1, f1, b1, r1, e1, w1⟩ := Slave.write_record env s fd (kind_label n.kind)
  obtain ⟨c2, f2, b2, r2, e2, w2⟩ :=
    Slave.write_record env (s.write env fd (kind_label n.kind)).2 fd n.text
  obtain ⟨c3, f3, b3, r3, e3, w3⟩ :=
    Slave.write_record env ((s.write env fd (kind_label n.kind)).2.write env fd n.text).2 fd
      reset_newline
  obtain ⟨q1, q2, q3⟩ := write_failed_eq env (s.write env fd (kind_label n.kind)).2
  obtain ⟨p1, p2, p3⟩ :=
    write_failed_eq env ((s.write env fd (kind_label n.kind)).2.write env fd n.text).2
  obtain ⟨o1, o2, o3⟩ := write_failed_eq env
    (((s.write env fd (kind_label n.kind)).2.write env fd n.text).2.write env fd reset_newline).2
  by_cases h1 : (s.write env fd (kind_label n.kind)).1 < 0
  · rw [if_pos h1]
    refine ⟨(write_failed env (s.write env fd (kind_label n.kind)).2).1, (write_failed env (s.write env fd (kind_label n.kind)).2).2, [c1], rfl,
      by rw [q1, w1], Cut.failed _ _ c1 f1 b1 (by rw [r1]; exact h1), ?_, ?_⟩
    · constructor
      · intro hx; exact absurd hx q2
      · intro hx
        have := hx c1 (List.mem_singleton.mpr rfl)
        omega
    · rw [q3]
      constructor
      · intro hx
        exact ⟨c1, List.mem_singleton.mpr rfl, by rw [r1]; exact h1, by rw [e1]; exact hx.1,
          by rw [e1]; exact hx.2⟩
      · rintro ⟨c, hc, _, hc2, hc3⟩
        rw [List.mem_singleton] at hc
        subst hc
        rw [e1] at hc2 hc3
        exact ⟨hc2, hc3⟩
  rw [if_neg h1]
  by_cases h2 : ((s.write env fd (kind_label n.kind)).2.write env fd n.text).1 < 0
  · rw [if_pos h2]
    refine ⟨(write_failed env ((s.write env fd (kind_label n.kind)).2.write env fd n.text).2).1,
      (write_failed env ((s.write env fd (kind_label n.kind)).2.write env fd n.text).2).2, [c1, c2], rfl, by rw [p1, w2, w1, List.append_assoc]; rfl,
      Cut.wrote _ _ c1 _ f1 b1 (by omega) (Cut.failed _ _ c2 f2 b2 (by rw [r2]; exact h2)), ?_, ?_⟩
    · constructor
      · intro hx; exact absurd hx p2
      · intro hx
        have := hx c2 (by simp)
        omega
    · rw [p3]
      constructor
      · intro hx
        exact ⟨c2, by simp, by rw [r2]; exact h2, by rw [e2]; exact hx.1,
          by rw [e2]; exact hx.2⟩
      · rintro ⟨c, hc, hc1, hc2, hc3⟩
        simp only [List.mem_cons, List.mem_singleton, List.not_mem_nil, or_false] at hc
        rcases hc with rfl | rfl
        · omega
        · rw [e2] at hc2 hc3
          exact ⟨hc2, hc3⟩
  rw [if_neg h2]
  by_cases h3 : (((s.write env fd (kind_label n.kind)).2.write env fd n.text).2.write env fd
      reset_newline).1 < 0
  · rw [if_pos h3]
    refine ⟨(write_failed env (((s.write env fd (kind_label n.kind)).2.write env fd n.text).2.write env fd
      reset_newline).2).1,
      (write_failed env (((s.write env fd (kind_label n.kind)).2.write env fd n.text).2.write env fd
      reset_newline).2).2, [c1, c2, c3], rfl, by rw [o1, w3, w2, w1, List.append_assoc, List.append_assoc]; rfl,
      Cut.wrote _ _ c1 _ f1 b1 (by omega) (Cut.wrote _ _ c2 _ f2 b2 (by omega)
        (Cut.failed _ _ c3 f3 b3 (by rw [r3]; exact h3))), ?_, ?_⟩
    · constructor
      · intro hx; exact absurd hx o2
      · intro hx
        have := hx c3 (by simp)
        omega
    · rw [o3]
      constructor
      · intro hx
        exact ⟨c3, by simp, by rw [r3]; exact h3, by rw [e3]; exact hx.1,
          by rw [e3]; exact hx.2⟩
      · rintro ⟨c, hc, hc1, hc2, hc3⟩
        simp only [List.mem_cons, List.mem_singleton, List.not_mem_nil, or_false] at hc
        rcases hc with rfl | rfl | rfl
        · omega
        · omega
        · rw [e3] at hc2 hc3
          exact ⟨hc2, hc3⟩
  rw [if_neg h3]
  refine ⟨user_notification_ret_t.UN_OK, (((s.write env fd (kind_label n.kind)).2.write env fd n.text).2.write env fd
      reset_newline).2, [c1, c2, c3], rfl,
    by rw [w3, w2, w1, List.append_assoc, List.append_assoc]; rfl,
    Cut.wrote _ _ c1 _ f1 b1 (by omega) (Cut.wrote _ _ c2 _ f2 b2 (by omega)
      (Cut.wrote _ _ c3 _ f3 b3 (by omega) Cut.done)), ?_, ?_⟩
  · constructor
    · intro _ c hc
      simp only [List.mem_cons, List.mem_singleton, List.not_mem_nil, or_false] at hc
      rcases hc with rfl | rfl | rfl <;> omega
    · intro _; rfl
  · constructor
    · intro hx; cases hx
    · rintro ⟨c, hc, hc1, _⟩
      simp only [List.mem_cons, List.mem_singleton, List.not_mem_nil, or_false] at hc
      rcases hc with rfl | rfl | rfl <;> omega

theorem group_pieces_cons_same (kind : user_notification_kind) (it : user_notification)
    (rest : List user_notification) (h : it.kind = kind) :
    group_pieces kind (it :: rest) =
      [kind_label it.kind, it.text, reset_newline] ++ group_pieces kind rest := by
  unfold group_pieces
  rw [List.filter_cons_of_pos (by simpa using h), List.flatMap_cons, h]

theorem group_pieces_cons_other (kind : user_notification_kind) (it : user_notification)
    (rest : List user_notification) (h : ¬ it.kind = kind) :
    group_pieces kind (it :: rest) = group_pieces kind rest := by
  unfold group_pieces
  rw [List.filter_cons_of_neg (by simpa using h)]

/-- What `emit_notifications_of_kind` does: it returns, having written the
pieces of the notifications of the kind up to the first write that failed, and
it returns false exactly when that write failed for good. -/
theorem emit_notifications_of_kind_returns (env : Tty) (fd : Int)
    (kind : user_notification_kind) (ns : List user_notification) (s : Slave) :
    ∃ (r : Bool) (s2 : Slave) (t : List Written),
      emit_notifications_of_kind env fd kind ns s = Except.ok (r, s2) ∧
      s2.writes = s.writes ++ t ∧ Cut fd (group_pieces kind ns) t ∧
      (r = false ↔ ∃ c ∈ t, c.fatal env) := by
  induction ns generalizing s with
  | nil =>
    refine ⟨true, s, [], rfl, by simp, Cut.done, ?_⟩
    constructor
    · intro hx; cases hx
    · rintro ⟨c, hc, _⟩; cases hc
  | cons it rest ih =>
    by_cases hk : it.kind = kind
    · obtain ⟨r1, s1, t1, h1, w1, c1, ok1, fail1⟩ := emit_one_notification_returns env s fd it
      have e : emit_notifications_of_kind env fd kind (it :: rest) s =
          (match r1 with
           | user_notification_ret_t.UN_OK => emit_notifications_of_kind env fd kind rest s1
           | user_notification_ret_t.UN_NO_MORE => pure (true, s1)
           | user_notification_ret_t.UN_FAIL => pure (false, s1)) := by
        show (if it.kind = kind then _ else _) = _
        rw [if_pos hk]
        simp only [h1, bind, Except.bind]
        cases r1 <;> rfl
      rw [e, group_pieces_cons_same kind it rest hk]
      cases r1 with
      | UN_OK =>
        have hok := ok1.mp rfl
        obtain ⟨r2, s2, t2, h2, w2, c2, f2⟩ := ih s1
        refine ⟨r2, s2, t1 ++ t2, h2, by rw [w2, w1, List.append_assoc], Cut.append c1 hok c2, ?_⟩
        rw [f2]
        constructor
        · rintro ⟨c, hc, hf⟩
          exact ⟨c, List.mem_append_right _ hc, hf⟩
        · rintro ⟨c, hc, hf⟩
          rcases List.mem_append.mp hc with hc | hc
          · have := hok c hc
            have := hf.1
            omega
          · exact ⟨c, hc, hf⟩
      | UN_NO_MORE =>
        have hnok : ¬ ∀ c ∈ t1, 0 ≤ c.ret := fun hx => by
          have := ok1.mpr hx
          cases this
        have hf : ∃ c ∈ t1, c.ret < 0 := by
          by_contra hx
          apply hnok
          intro c hc
          by_contra hy
          exact hx ⟨c, hc, by omega⟩
        refine ⟨true, s1, t1, rfl, w1, Cut.stopped c1 hf _, ?_⟩
        constructor
        · intro hx; cases hx
        · intro hx
          have := fail1.mpr hx
          cases this
      | UN_FAIL =>
        obtain ⟨c, hc, hf⟩ := fail1.mp rfl
        exact ⟨false, s1, t1, rfl, w1, Cut.stopped c1 ⟨c, hc, hf.1⟩ _,
          ⟨fun _ => ⟨c, hc, hf⟩, fun _ => rfl⟩⟩
    · have e : emit_notifications_of_kind env fd kind (it :: rest) s =
          emit_notifications_of_kind env fd kind rest s := by
        show (if it.kind = kind then _ else _) = _
        rw [if_neg hk]
      rw [e, group_pieces_cons_other kind it rest hk]
      exact ih s

/-- Two runs of `emit_notifications` on a warning followed by an error.  On a
terminal that takes every write, the error and then the warning arrive.  On a
terminal that is full after four writes, the fifth write, of the text of the
warning, fails with `EAGAIN`, and the result is still true. -/
theorem emit_notifications_samples :
    (∃ s2, emit_notifications takes_all ⟨0, []⟩ 5 two_notifications = Except.ok (true, s2) ∧
      s2.writes.length = 6 ∧
      received s2.writes =
        "\x1b[31;1merror\x1b[39;21m: e\x1b[m\n\x1b[33;1mwarning\x1b[39;21m: w\x1b[m\n".toList ∧
      received s2.writes = all_rendered two_notifications) ∧
    (∃ s2, emit_notifications full_after_four ⟨0, []⟩ 5 two_notifications =
        Except.ok (true, s2) ∧
      s2.writes.length = 5 ∧ s2.errno = full_after_four.EAGAIN ∧
      received s2.writes = "\x1b[31;1merror\x1b[39;21m: e\x1b[m\n\x1b[33;1mwarning\x1b[39;21m: ".toList) :=
  ⟨⟨_, rfl, rfl, rfl, rfl⟩, ⟨_, rfl, rfl, rfl, rfl⟩⟩

/-! ## C1: acquiring again after a release -/

theorem fini_calls_no_memfd (l : List Buffer) : Call.memfd_create ∉ fini_calls l := by
  induction l with
  | nil => simp [fini_calls]
  | cons it rest ih =>
    simp only [fini_calls, List.mem_append, not_or]
    refine ⟨?_, ih⟩
    simp only [buffer_destroy, buffer_destroy_dont_close, List.mem_append, not_or]
    refine ⟨⟨⟨?_, ?_⟩, ?_⟩, ?_⟩ <;> split <;> simp

theorem reusable_mark (width height : Int) (cookie : Nat) (w2 h2 : Int) (c2 : Nat) (b : Buffer) :
    reusable width height cookie (mark w2 h2 c2 b) = reusable width height cookie b := by
  unfold mark
  split <;> simp [reusable]

/-- The shape of the pool after `shm_get_buffer` returned: the returned entry is
busy, not marked, has the wanted key, no entry before it could have been taken
instead, and no entry of the cookie is both busy and marked. -/
theorem shm_get_buffer_shape (sys : Sys) (st st1 : Shm) (width height : Int) (cookie i : Nat)
    (h1 : shm_get_buffer sys st width height cookie = Except.ok (i, st1)) :
    ∃ P e Q, st1.buffers = P ++ e :: Q ∧ i = P.length ∧ e.busy = true ∧ e.purge = false ∧
      e.cookie = cookie ∧ e.width = width ∧ e.height = height ∧
      (∀ b ∈ P, reusable width height cookie b = false) ∧
      (∀ b ∈ st1.buffers, b.cookie = cookie → b.purge = true → b.busy = false) := by
  rw [shm_get_buffer_eq_ok] at h1
  obtain ⟨hsw, h⟩ := h1
  have hkept : ∀ b ∈ swept st cookie, b.cookie = cookie → b.purge = false := by
    intro b hb hc
    simp only [swept, List.mem_filter, kept, hc, beq_self_eq_true, Bool.true_and,
      Bool.not_eq_true'] at hb
    exact hb.2
  rcases h with ⟨l2, hr, rfl⟩ | ⟨hr, _, rfl, rfl⟩
  · rw [reuse_cached_eq_some] at hr
    obtain ⟨pre, e, post, hl, hpre, he, rfl, rfl⟩ := hr
    simp only [reusable, Bool.and_eq_true, beq_iff_eq, Bool.not_eq_true'] at he
    refine ⟨pre, _, post, rfl, rfl, rfl, rfl, he.1.2, he.1.1.1, he.1.1.2, hpre, ?_⟩
    intro b hb hc hp
    simp only [List.mem_append, List.mem_cons] at hb
    have hmem : b ∈ swept st cookie ∨ b = { e with busy := true, purge := false } := by
      rw [hl]
      simp only [List.mem_append, List.mem_cons]
      rcases hb with hb | hb | hb
      · exact Or.inl (Or.inl hb)
      · exact Or.inr hb
      · exact Or.inl (Or.inr (Or.inr hb))
    rcases hmem with hm | rfl
    · have := hkept b hm hc
      rw [hp] at this
      exact absurd this (by simp)
    · simp at hp
  · rw [reuse_cached_eq_none] at hr
    refine ⟨(swept st cookie).map (mark width height cookie),
      fresh_entry sys st width height cookie, [], ?_, by simp, ?_, ?_, ?_, ?_, ?_, ?_, ?_⟩
    · simp [after_miss]
    · simp [fresh_entry, instantiated, pushed]
    · simp [fresh_entry, instantiated, pushed]
    · simp [fresh_entry, instantiated, pushed]
    · simp [fresh_entry, instantiated, pushed]
    · simp [fresh_entry, instantiated, pushed]
    · intro b hb
      simp only [List.mem_map] at hb
      obtain ⟨a, ha, rfl⟩ := hb
      rw [reusable_mark]
      exact hr a ha
    · intro b hb hc hp
      simp only [after_miss, List.mem_append, List.mem_map, List.mem_singleton] at hb
      rcases hb with ⟨a, ha, rfl⟩ | rfl
      · unfold mark at hc hp ⊢
        split
        · rename_i hm; simp [hm.2.1]
        · rename_i hm
          simp only [hm, if_false] at hc hp
          have := hkept a ha hc
          rw [hp] at this
          exact absurd this (by simp)
      · simp [fresh_entry, instantiated, pushed] at hp

theorem release_eq_ok (st st2 : Shm) (i : Nat) (wl_buffer : Ptr) :
    release st i wl_buffer = Except.ok st2 ↔
      ∃ b, st.buffers[i]? = some b ∧ b.wl_buf = wl_buffer ∧ b.busy = true ∧
        st2 = { st with buffers := st.buffers.set i { b with busy := false } } := by
  unfold release
  cases hb : st.buffers[i]? with
  | none => simp [throw_ne_ok]
  | some b =>
    simp only [bind_eq_ok, buffer_release, assert_eq_ok, pure_eq_ok, beq_iff_eq,
      Option.some.injEq, exists_eq_left']
    constructor
    · rintro ⟨_, ⟨_, h1, _, h2, rfl⟩, rfl⟩
      exact ⟨h1, h2, rfl⟩
    · rintro ⟨h1, h2, rfl⟩
      exact ⟨_, ⟨(), h1, (), h2, rfl⟩, rfl⟩

theorem set_append_cons (P Q : List Buffer) (e x : Buffer) :
    (P ++ e :: Q).set P.length x = P ++ x :: Q := by
  induction P with
  | nil => rfl
  | cons p P ih => simp [ih]

theorem getElem?_append_cons (P Q : List Buffer) (e : Buffer) :
    (P ++ e :: Q)[P.length]? = some e := by
  induction P with
  | nil => simp
  | cons p P ih => simpa using ih

/-- C1 (amended): when `shm_get_buffer` returned the entry at position `i` and
that entry was released with no other operation in between, a second
`shm_get_buffer` with the same arguments returns, whatever the environment, the
identical entry with busy set again, and makes no new entry and no new backing
file; the pool it leaves is the pool the first call left, in the same order,
without the entries of the cookie that are marked for purging (the ones the
first call marked on a miss), which the second call destroys. -/
theorem C1_reacquire_after_release (sys sys2 : Sys) (st st1 st2 : Shm) (width height : Int)
    (cookie i : Nat) (wl_buffer : Ptr)
    (h1 : shm_get_buffer sys st width height cookie = Except.ok (i, st1))
    (h2 : release st1 i wl_buffer = Except.ok st2) :
    ∃ e, st1.buffers[i]? = some e ∧ e.busy = true ∧
      shm_get_buffer sys2 st2 width height cookie =
        Except.ok (((st1.buffers.take i).filter (kept cookie)).length,
          { st2 with buffers := st1.buffers.filter (kept cookie),
                     calls := st2.calls ++ sweep_calls st2 cookie }) ∧
      (st1.buffers.filter (kept cookie))[((st1.buffers.take i).filter (kept cookie)).length]?
        = some e ∧
      Call.memfd_create ∉ sweep_calls st2 cookie ∧
      ((∀ b ∈ st1.buffers, kept cookie b = true) →
        st1.buffers.filter (kept cookie) = st1.buffers ∧
        ((st1.buffers.take i).filter (kept cookie)).length = i) := by
  obtain ⟨P, e, Q, hl, rfl, hbusy, hpurge, hc, hw, hh, hP, hbp⟩ :=
    shm_get_buffer_shape sys st st1 width height cookie _ h1
  rw [release_eq_ok] at h2
  obtain ⟨b, hb, _, _, rfl⟩ := h2
  rw [hl, getElem?_append_cons] at hb
  simp only [Option.some.injEq] at hb
  subst hb
  have hke : kept cookie e = true := by simp [kept, hpurge]
  have hke2 : kept cookie { e with busy := false } = true := by simp [kept, hpurge]
  have htake : (P ++ e :: Q).take P.length = P := by simp
  have hfil : (P ++ e :: Q).filter (kept cookie) =
      P.filter (kept cookie) ++ e :: Q.filter (kept cookie) := by
    simp [List.filter_append, List.filter_cons, hke]
  refine ⟨e, by rw [hl, getElem?_append_cons], hbusy, ?_, ?_, fini_calls_no_memfd _, ?_⟩
  · rw [shm_get_buffer_eq_ok]
    constructor
    · intro b hb hcb hpb
      simp only [hl, set_append_cons, List.mem_append, List.mem_cons] at hb
      rcases hb with hb | rfl | hb
      · exact hbp b (by rw [hl]; simp [hb]) hcb hpb
      · rfl
      · exact hbp b (by rw [hl]; simp [hb]) hcb hpb
    · left
      refine ⟨P.filter (kept cookie) ++
        { ({ e with busy := false } : Buffer) with busy := true, purge := false } ::
          Q.filter (kept cookie), ?_, ?_⟩
      · rw [reuse_cached_eq_some]
        refine ⟨P.filter (kept cookie), { e with busy := false }, Q.filter (kept cookie), ?_, ?_,
          ?_, ?_, rfl⟩
        · simp [swept, hl, set_append_cons, List.filter_append, List.filter_cons, hke2]
        · intro b hb
          exact hP b (List.mem_filter.mp hb).1
        · simp [reusable, hc, hw, hh]
        · rw [hl, htake]
      · rw [hl, hfil]
        have : ({ e with busy := false } : Buffer) = { e with busy := false } := rfl
        cases e
        simp only at hbusy hpurge
        subst hbusy hpurge
        rfl
  · rw [hl, htake, hfil, getElem?_append_cons]
  · intro hall
    have : (P ++ e :: Q).filter (kept cookie) = P ++ e :: Q :=
      List.filter_eq_self.mpr (by rw [← hl]; exact hall)
    refine ⟨by rw [hl, this], ?_⟩
    rw [hl, htake]
    have hPk : P.filter (kept cookie) = P :=
      List.filter_eq_self.mpr fun b hb => hall b (by rw [hl]; simp [hb])
    rw [hPk]

/-- C1 as stated fails: after a miss that marked an idle entry of the cookie, the
second acquire returns the same entry but the pool does not hold the same entries
as before the call, the marked entry having been destroyed. -/
theorem C1_counterexample :
    shm_get_buffer sample_sys shm_init 2 2 7 = Except.ok (0, pool_a) ∧
    release pool_a 0 206 = Except.ok (all_released pool_a) ∧
    shm_get_buffer sample_sys (all_released pool_a) 1 1 7 = Except.ok (1, pool_ab) ∧
    release pool_ab 1 214 = Except.ok (all_released pool_ab) ∧
    (all_released pool_ab).buffers.length = 2 ∧
    (shm_get_buffer sample_sys (all_released pool_ab) 1 1 7).map (fun r => r.2.buffers.length)
      = Except.ok 1 :=
  ⟨rfl, rfl, rfl, rfl, rfl, rfl⟩

theorem C1_reacquire_after_release_witness :
    shm_get_buffer sample_sys (all_released pool_a) 1 1 7 = Except.ok (1, pool_ab) ∧
    release pool_ab 1 214 = Except.ok (all_released pool_ab) ∧
    ∃ e, pool_ab.buffers[1]? = some e ∧ e.busy = true ∧
      shm_get_buffer sample_sys (all_released pool_ab) 1 1 7 =
        Except.ok (((pool_ab.buffers.take 1).filter (kept 7)).length,
          { all_released pool_ab with
            buffers := pool_ab.buffers.filter (kept 7),
            calls := (all_released pool_ab).calls ++ sweep_calls (all_released pool_ab) 7 }) ∧
      (pool_ab.buffers.filter (kept 7))[((pool_ab.buffers.take 1).filter (kept 7)).length]?
        = some e ∧
      Call.memfd_create ∉ sweep_calls (all_released pool_ab) 7 ∧
      ((∀ b ∈ pool_ab.buffers, kept 7 b = true) →
        pool_ab.buffers.filter (kept 7) = pool_ab.buffers ∧
        ((pool_ab.buffers.take 1).filter (kept 7)).length = 1) :=
  ⟨rfl, rfl, C1_reacquire_after_release sample_sys sample_sys (all_released pool_a) pool_ab
    (all_released pool_ab) 1 1 7 1 214 rfl rfl⟩

/-! ## C2: an entry marked for purging is not reused -/

theorem miss_returns (sys : Sys) (st : Shm) (width height : Int) (cookie : Nat)
    (hsw : ∀ b ∈ st.buffers, b.cookie = cookie → b.purge = true → b.busy = false)
    (hnone : ∀ b ∈ swept st cookie, reusable width height cookie b = false)
    (m : MissReturns sys st width height cookie) :
    shm_get_buffer sys st width height cookie =
      Except.ok ((swept st cookie).length, after_miss sys st width height cookie) :=
  (shm_get_buffer_eq_ok _ _ _ _ _ _ _).mpr
    ⟨hsw, Or.inr ⟨(reuse_cached_eq_none _ _ _ _).mpr hnone, m, rfl, rfl⟩⟩

theorem clear_busy_at_append_cons (P Q : List Buffer) (e : Buffer) :
    clear_busy_at P.length (P ++ e :: Q) = P ++ { e with busy := false } :: Q := by
  induction P with
  | nil => rfl
  | cons p P ih => simp [clear_busy_at, ih]

theorem release_at (st : Shm) (P Q : List Buffer) (e : Buffer) (hl : st.buffers = P ++ e :: Q)
    (hb : e.busy = true) :
    release st P.length e.wl_buf = Except.ok (released st P.length) ∧
    (released st P.length).buffers = P ++ { e with busy := false } :: Q := by
  have h2 : (released st P.length).buffers = P ++ { e with busy := false } :: Q := by
    simp [released, hl, clear_busy_at_append_cons]
  refine ⟨?_, h2⟩
  rw [release_eq_ok]
  refine ⟨e, by rw [hl, getElem?_append_cons], rfl, hb, ?_⟩
  simp [released, hl, clear_busy_at_append_cons, set_append_cons]

theorem kept_of_ne (cookie : Nat) (b : Buffer) (h : b.cookie ≠ cookie) : kept cookie b = true := by
  simp [kept, h]

theorem mark_of_ne (width height : Int) (cookie : Nat) (b : Buffer) (h : b.cookie ≠ cookie) :
    mark width height cookie b = b := by
  simp [mark, h]

theorem reusable_of_ne (width height : Int) (cookie : Nat) (b : Buffer) (h : b.cookie ≠ cookie) :
    reusable width height cookie b = false := by
  simp [reusable, h]

theorem filter_kept_of_ne (cookie : Nat) (L : List Buffer) (h : ∀ b ∈ L, b.cookie ≠ cookie) :
    L.filter (kept cookie) = L :=
  List.filter_eq_self.mpr fun b hb => kept_of_ne _ _ (h b hb)

theorem filter_not_kept_of_ne (cookie : Nat) (L : List Buffer) (h : ∀ b ∈ L, b.cookie ≠ cookie) :
    L.filter (fun b => !kept cookie b) = [] :=
  List.filter_eq_nil_iff.mpr fun b hb => by simp [kept_of_ne _ _ (h b hb)]

theorem map_mark_of_ne (width height : Int) (cookie : Nat) (L : List Buffer)
    (h : ∀ b ∈ L, b.cookie ≠ cookie) : L.map (mark width height cookie) = L := by
  induction L with
  | nil => rfl
  | cons a L ih =>
    simp only [List.map_cons, List.cons.injEq]
    exact ⟨mark_of_ne _ _ _ _ (h a (by simp)), ih fun b hb => h b (by simp [hb])⟩

/-- An entry that `shm_get_buffer` returns is new or was in the pool, idle and
not marked for purging, when the call began. -/
theorem shm_get_buffer_returned (sys : Sys) (st st2 : Shm) (width height : Int) (cookie i : Nat)
    (h : shm_get_buffer sys st width height cookie = Except.ok (i, st2)) :
    ∃ e, st2.buffers[i]? = some e ∧
      (e = fresh_entry sys st width height cookie ∨
       ∃ e0 ∈ st.buffers, e0.purge = false ∧ e0.busy = false ∧
         e = { e0 with busy := true, purge := false }) := by
  rw [shm_get_buffer_eq_ok] at h
  obtain ⟨_, h⟩ := h
  rcases h with ⟨l2, hr, rfl⟩ | ⟨_, _, rfl, rfl⟩
  · rw [reuse_cached_eq_some] at hr
    obtain ⟨pre, e, post, hl, _, he, rfl, rfl⟩ := hr
    refine ⟨_, getElem?_append_cons _ _ _, Or.inr ⟨e, ?_, ?_, ?_, rfl⟩⟩
    · have : e ∈ swept st cookie := by rw [hl]; simp
      exact (List.mem_filter.mp this).1
    · have : e ∈ swept st cookie := by rw [hl]; simp
      have hk := (List.mem_filter.mp this).2
      simp only [reusable, Bool.and_eq_true, beq_iff_eq, Bool.not_eq_true'] at he
      simpa [kept, he.1.2] using hk
    · simp only [reusable, Bool.and_eq_true, beq_iff_eq, Bool.not_eq_true'] at he
      exact he.2
  · refine ⟨fresh_entry sys st width height cookie, ?_, Or.inl rfl⟩
    simp [after_miss]

theorem fresh_entry_fields (sys : Sys) (st : Shm) (width height : Int) (cookie : Nat) :
    (fresh_entry sys st width height cookie).cookie = cookie ∧
    (fresh_entry sys st width height cookie).width = width ∧
    (fresh_entry sys st width height cookie).height = height ∧
    (fresh_entry sys st width height cookie).stride = sys.stride_for_format_and_width width ∧
    (fresh_entry sys st width height cookie).size = size_of sys width height ∧
    (fresh_entry sys st width height cookie).offset = 0 ∧
    (fresh_entry sys st width height cookie).busy = true ∧
    (fresh_entry sys st width height cookie).purge = false ∧
    (fresh_entry sys st width height cookie).fd = pool_fd_of sys st cookie := by
  simp [fresh_entry, instantiated, pushed]

theorem after_miss_calls (sys : Sys) (st : Shm) (width height : Int) (cookie : Nat) :
    ∃ cs, (after_miss sys st width height cookie).calls =
      st.calls ++ sweep_calls st cookie ++ Call.memfd_create :: cs := by
  refine ⟨Call.ftruncate (pool_fd_of sys st cookie) (s64 (0 + size_of sys width height)) ::
    ((if st.can_punch_hole_initialized then []
      else [Call.fallocate (pool_fd_of sys st cookie) 0 1]) ++
     page_size_calls (pushed_state sys st width height cookie) ++
     instantiate_calls sys
       ((pushed_state sys st width height cookie).now +
         (page_size_calls (pushed_state sys st width height cookie)).length)
       (page_size_of sys (pushed_state sys st width height cookie))
       (pushed sys st width height cookie) 0), ?_⟩
  simp [after_miss, after_instantiate, pushed_state, List.append_assoc]

/-- C2: from a pool with no entry of cookie `T`, and with the external calls of
the three acquires succeeding: the first `shm_get_buffer (T, w, h)` returns a new
entry `A`; after its release `shm_get_buffer (T, w2, h2)` with `w2 ≠ w` returns a
new entry `B` and marks `A` for purging; after the release of `B` a third
`shm_get_buffer (T, w, h)` destroys `A` (closing its descriptor), unlinks it and
returns a new entry `C` with a new backing file at offset 0.  In general an entry
that `shm_get_buffer` returns is new or was not marked when the call began. -/
theorem C2_purged_entry_not_reused (sys1 sys2 sys3 : Sys) (st st1 st2 st3 st4 st5 : Shm)
    (T : Nat) (w h w2 h2 : Int)
    (hT : ∀ b ∈ st.buffers, b.cookie ≠ T) (hw : w2 ≠ w)
    (e1 : st1 = after_miss sys1 st w h T) (e2 : st2 = released st1 st.buffers.length)
    (e3 : st3 = after_miss sys2 st2 w2 h2 T)
    (e4 : st4 = released st3 (st.buffers.length + 1))
    (e5 : st5 = after_miss sys3 st4 w h T)
    (m1 : MissReturns sys1 st w h T) (m2 : MissReturns sys2 st2 w2 h2 T)
    (m3 : MissReturns sys3 st4 w h T) :
    (shm_get_buffer sys1 st w h T = Except.ok (st.buffers.length, st1) ∧
      st1.buffers = st.buffers ++ [fresh_entry sys1 st w h T] ∧
      release st1 st.buffers.length (fresh_entry sys1 st w h T).wl_buf = Except.ok st2 ∧
      shm_get_buffer sys2 st2 w2 h2 T = Except.ok (st.buffers.length + 1, st3) ∧
      st3.buffers = st.buffers ++
        [{ fresh_entry sys1 st w h T with busy := false, purge := true },
         fresh_entry sys2 st2 w2 h2 T] ∧
      release st3 (st.buffers.length + 1) (fresh_entry sys2 st2 w2 h2 T).wl_buf
        = Except.ok st4 ∧
      shm_get_buffer sys3 st4 w h T = Except.ok (st.buffers.length + 1, st5) ∧
      st5.buffers = st.buffers ++
        [{ fresh_entry sys2 st2 w2 h2 T with busy := false, purge := true },
         fresh_entry sys3 st4 w h T] ∧
      (fresh_entry sys3 st4 w h T).offset = 0 ∧
      (fresh_entry sys3 st4 w h T).fd = pool_fd_of sys3 st4 T ∧
      sweep_calls st4 T =
        (buffer_destroy { fresh_entry sys1 st w h T with busy := false, purge := true }).2 ∧
      Call.close (fresh_entry sys1 st w h T).fd ∈ sweep_calls st4 T ∧
      ∃ cs, st5.calls = st4.calls ++ sweep_calls st4 T ++ Call.memfd_create :: cs) ∧
    ∀ (sys : Sys) (s s2 : Shm) (width height : Int) (cookie i : Nat),
      shm_get_buffer sys s width height cookie = Except.ok (i, s2) →
      ∃ e, s2.buffers[i]? = some e ∧
        (e = fresh_entry sys s width height cookie ∨
         ∃ e0 ∈ s.buffers, e0.purge = false ∧ e0.busy = false ∧
           e = { e0 with busy := true, purge := false }) := by
  refine ⟨?_, fun sys s s2 width height cookie i hh =>
    shm_get_buffer_returned sys s s2 width height cookie i hh⟩
  obtain ⟨fA1, fA2, fA3, _, _, _, fA7, fA8, fA9⟩ := fresh_entry_fields sys1 st w h T
  obtain ⟨fB1, fB2, fB3, _, _, _, fB7, fB8, _⟩ := fresh_entry_fields sys2 st2 w2 h2 T
  obtain ⟨_, _, _, _, _, fC6, _, _, fC9⟩ := fresh_entry_fields sys3 st4 w h T
  -- first acquire
  have sw1 : swept st T = st.buffers := filter_kept_of_ne T _ hT
  have hb1 : st1.buffers = st.buffers ++ [fresh_entry sys1 st w h T] := by
    rw [e1]
    simp [after_miss, sw1, map_mark_of_ne _ _ _ _ hT]
  have g1 : shm_get_buffer sys1 st w h T = Except.ok (st.buffers.length, st1) := by
    have := miss_returns sys1 st w h T (fun b hb hc => absurd hc (hT b hb))
      (fun b hb => reusable_of_ne _ _ _ _ (hT b (by rw [← sw1]; exact hb))) m1
    rw [sw1] at this
    rw [e1]
    exact this
  -- first release
  obtain ⟨r1, hb2⟩ := release_at st1 st.buffers [] _ hb1 fA7
  rw [← e2] at r1 hb2
  -- second acquire
  have kA : kept T { fresh_entry sys1 st w h T with busy := false } = true := by
    simp [kept, fA8]
  have sw2 : swept st2 T = st2.buffers := by
    rw [swept, hb2, List.filter_append, filter_kept_of_ne T _ hT]
    simp [kA]
  have hb3 : st3.buffers = st.buffers ++
      [{ fresh_entry sys1 st w h T with busy := false, purge := true },
       fresh_entry sys2 st2 w2 h2 T] := by
    rw [e3]
    simp only [after_miss, sw2, hb2, List.map_append, map_mark_of_ne _ _ _ _ hT, List.map_cons,
      List.map_nil, List.append_assoc, List.singleton_append]
    congr 2
    simp [mark, fA1, fA2, hw.symm]
  have g2 : shm_get_buffer sys2 st2 w2 h2 T = Except.ok (st.buffers.length + 1, st3) := by
    have := miss_returns sys2 st2 w2 h2 T ?_ ?_ m2
    · rw [sw2, hb2] at this
      rw [e3]
      simpa using this
    · intro b hb hc hp
      rw [hb2] at hb
      simp only [List.mem_append, List.mem_singleton] at hb
      rcases hb with hb | rfl
      · exact absurd hc (hT b hb)
      · rfl
    · intro b hb
      rw [sw2, hb2] at hb
      simp only [List.mem_append, List.mem_singleton] at hb
      rcases hb with hb | rfl
      · exact reusable_of_ne _ _ _ _ (hT b hb)
      · simp [reusable, fA2, hw.symm]
  -- second release
  have hb3b : st3.buffers = (st.buffers ++
      [{ fresh_entry sys1 st w h T with busy := false, purge := true }]) ++
       fresh_entry sys2 st2 w2 h2 T :: [] := by
    rw [hb3]; simp
  obtain ⟨r2, hb4⟩ := release_at st3 _ [] _ hb3b fB7
  simp only [List.length_append, List.length_singleton] at r2 hb4
  rw [← e4] at r2 hb4
  -- third acquire
  have hA1 : kept T { fresh_entry sys1 st w h T with busy := false, purge := true } = false := by
    simp [kept, fA1]
  have kB : kept T { fresh_entry sys2 st2 w2 h2 T with busy := false } = true := by
    simp [kept, fB8]
  have sw4 : swept st4 T = st.buffers ++ [{ fresh_entry sys2 st2 w2 h2 T with busy := false }] := by
    rw [swept, hb4]
    simp [List.filter_append, filter_kept_of_ne T _ hT, hA1, kB]
  have sc4 : sweep_calls st4 T =
      (buffer_destroy { fresh_entry sys1 st w h T with busy := false, purge := true }).2 := by
    rw [sweep_calls, hb4]
    simp [List.filter_append, filter_not_kept_of_ne T _ hT, hA1, kB, fini_calls]
  have hb5 : st5.buffers = st.buffers ++
      [{ fresh_entry sys2 st2 w2 h2 T with busy := false, purge := true },
       fresh_entry sys3 st4 w h T] := by
    rw [e5]
    simp only [after_miss, sw4, List.map_append, map_mark_of_ne _ _ _ _ hT, List.map_cons,
      List.map_nil, List.append_assoc, List.singleton_append]
    congr 2
    simp [mark, fB1, fB2, hw]
  have g3 : shm_get_buffer sys3 st4 w h T = Except.ok (st.buffers.length + 1, st5) := by
    have := miss_returns sys3 st4 w h T ?_ ?_ m3
    · rw [sw4] at this
      rw [e5]
      simpa using this
    · intro b hb hc hp
      rw [hb4] at hb
      simp only [List.mem_append, List.mem_singleton] at hb
      rcases hb with (hb | rfl) | rfl
      · exact absurd hc (hT b hb)
      · rfl
      · rfl
    · intro b hb
      rw [sw4] at hb
      simp only [List.mem_append, List.mem_singleton] at hb
      rcases hb with hb | rfl
      · exact reusable_of_ne _ _ _ _ (hT b hb)
      · simp [reusable, fB2, hw]
  have hfd : 0 ≤ (fresh_entry sys1 st w h T).fd := by
    rw [fA9]
    exact m1.2.2.2.1
  refine ⟨g1, hb1, r1, g2, hb3, r2, g3, hb5, fC6, fC9, sc4, ?_, ?_⟩
  · rw [sc4]
    simp [buffer_destroy, buffer_destroy_dont_close, hfd]
  · rw [e5]
    exact after_miss_calls sys3 st4 w h T

theorem C2_purged_entry_not_reused_witness :
    (shm_get_buffer sample_sys shm_init 2 2 7 = Except.ok (0, pool_a) ∧
     release pool_a 0 206 = Except.ok (released pool_a 0) ∧
     shm_get_buffer sample_sys (released pool_a 0) 1 1 7 =
       Except.ok (1, after_miss sample_sys (released pool_a 0) 1 1 7) ∧
     (after_miss sample_sys (released
        (after_miss sample_sys (released pool_a 0) 1 1 7) 1) 2 2 7).buffers.map
        (fun b => (b.width, b.purge, b.offset, b.fd)) = [(1, true, 0, 13), (2, false, 0, 25)]) :=
  have hh := (C2_purged_entry_not_reused sample_sys sample_sys sample_sys shm_init pool_a
    (released pool_a 0) (after_miss sample_sys (released pool_a 0) 1 1 7)
    (released (after_miss sample_sys (released pool_a 0) 1 1 7) 1)
    (after_miss sample_sys (released (after_miss sample_sys (released pool_a 0) 1 1 7) 1) 2 2 7)
    7 2 2 1 1 (by simp [shm_init]) (by decide) rfl rfl rfl rfl rfl (by decide) (by decide)
    (by decide)).1
  ⟨hh.1, hh.2.2.1, hh.2.2.2.1, by rfl⟩

/-! ## C3: busy entries are not destroyed, except at shutdown -/

theorem purge_all_fails (cookie : Nat) (l : List Buffer)
    (h : ∃ b ∈ l, b.cookie = cookie ∧ b.busy = true) :
    purge_all cookie l = Except.error (Fault.assert 595) := by
  induction l with
  | nil => simp at h
  | cons it rest ih =>
    unfold purge_all
    by_cases hc : it.cookie = cookie
    · by_cases hb : it.busy = true
      · simp [hc, hb, assert, bind, Except.bind, throw, throwThe, MonadExceptOf.throw]
      · have hr : ∃ b ∈ rest, b.cookie = cookie ∧ b.busy = true := by
          obtain ⟨b, hm, h1, h2⟩ := h
          rcases List.mem_cons.mp hm with rfl | hm
          · exact absurd h2 hb
          · exact ⟨b, hm, h1, h2⟩
        have hb2 : it.busy = false := by simpa using hb
        simp [hc, hb2, assert, bind, Except.bind, ih hr, pure, Except.pure]
    · have hr : ∃ b ∈ rest, b.cookie = cookie ∧ b.busy = true := by
        obtain ⟨b, hm, h1, h2⟩ := h
        rcases List.mem_cons.mp hm with rfl | hm
        · exact absurd h1 hc
        · exact ⟨b, hm, h1, h2⟩
      simp [hc, bind, Except.bind, ih hr]

theorem shm_purge_eq_ok (st st2 : Shm) (cookie : Nat) :
    shm_purge st cookie = Except.ok st2 ↔
      (∀ b ∈ st.buffers, b.cookie = cookie → b.busy = false) ∧
      st2 = { st with buffers := st.buffers.filter (fun b => b.cookie != cookie),
                      calls := st.calls ++
                        fini_calls (st.buffers.filter fun b => b.cookie == cookie) } := by
  unfold shm_purge
  simp only [bind_eq_ok, Prod.exists, purge_all_eq_ok, pure_eq_ok]
  constructor
  · rintro ⟨l, cs, ⟨h1, rfl, rfl⟩, rfl⟩
    exact ⟨h1, rfl⟩
  · rintro ⟨h1, rfl⟩
    exact ⟨_, _, ⟨h1, rfl, rfl⟩, rfl⟩

theorem filter_busy_map_mark (width height : Int) (cookie : Nat) (l : List Buffer) :
    (l.map (mark width height cookie)).filter (fun b => b.busy) = l.filter (fun b => b.busy) := by
  induction l with
  | nil => rfl
  | cons a l ih =>
    simp only [List.map_cons, List.filter_cons, ih]
    unfold mark
    split
    · rename_i hm
      simp [hm.2.1]
    · rfl

/-- The busy entries of the pool, in order, are still in the pool, unchanged,
after `shm_get_buffer` returned. -/
theorem shm_get_buffer_keeps_busy (sys : Sys) (st st2 : Shm) (width height : Int)
    (cookie i : Nat) (h : shm_get_buffer sys st width height cookie = Except.ok (i, st2)) :
    List.Sublist (st.buffers.filter fun b => b.busy) st2.buffers := by
  rw [shm_get_buffer_eq_ok] at h
  obtain ⟨hsw, h⟩ := h
  have h0 : st.buffers.filter (fun b => b.busy) = (swept st cookie).filter (fun b => b.busy) := by
    unfold swept
    rw [List.filter_filter]
    apply List.filter_congr
    intro b hb
    by_cases hbb : b.busy = true
    · simp only [hbb, Bool.true_and]
      by_cases hc : b.cookie = cookie
      · by_cases hp : b.purge = true
        · have := hsw b hb hc hp
          rw [hbb] at this
          exact absurd this (by simp)
        · simp [kept, hp]
      · simp [kept, hc]
    · simp [hbb]
  rw [h0]
  rcases h with ⟨l2, hr, rfl⟩ | ⟨_, _, _, rfl⟩
  · rw [reuse_cached_eq_some] at hr
    obtain ⟨pre, e, post, hl, _, he, _, rfl⟩ := hr
    simp only [reusable, Bool.and_eq_true, beq_iff_eq, Bool.not_eq_true'] at he
    rw [hl, List.filter_append, List.filter_cons]
    simp only [he.2, Bool.false_eq_true, if_false]
    exact List.Sublist.append (List.filter_sublist _)
      (List.Sublist.cons _ (List.filter_sublist _))
  · simp only [after_miss]
    rw [← filter_busy_map_mark width height cookie]
    exact (List.filter_sublist _).trans (List.sublist_append_left _ _)

theorem purge_marked_fails (cookie : Nat) (l : List Buffer)
    (h : ∃ b ∈ l, b.cookie = cookie ∧ b.purge = true ∧ b.busy = true) :
    purge_marked cookie l = Except.error (Fault.assert 198) := by
  cases hr : purge_marked cookie l with
  | error e => rw [(purge_marked_eq_error _ _ _ hr).1]
  | ok r =>
    obtain ⟨l2, cs⟩ := r
    rw [purge_marked_eq_ok] at hr
    obtain ⟨b, hb, h1, h2, h3⟩ := h
    have := hr.1 b hb h1 h2
    rw [h3] at this
    exact absurd this (by simp)

theorem shm_get_buffer_calls (sys : Sys) (st st2 : Shm) (width height : Int) (cookie i : Nat)
    (h : shm_get_buffer sys st width height cookie = Except.ok (i, st2)) :
    ∃ cs, st2.calls = st.calls ++ sweep_calls st cookie ++ cs ∧
      ∀ c ∈ cs, Call.tears_down c = false := by
  rw [shm_get_buffer_eq_ok] at h
  obtain ⟨_, h⟩ := h
  rcases h with ⟨l2, _, rfl⟩ | ⟨_, _, _, rfl⟩
  · exact ⟨[], by simp, by simp⟩
  · refine ⟨[Call.memfd_create,
       Call.ftruncate (pool_fd_of sys st cookie) (s64 (0 + size_of sys width height))] ++
      (if st.can_punch_hole_initialized then []
        else [Call.fallocate (pool_fd_of sys st cookie) 0 1]) ++
      page_size_calls (pushed_state sys st width height cookie) ++
      instantiate_calls sys
        ((pushed_state sys st width height cookie).now +
          (page_size_calls (pushed_state sys st width height cookie)).length)
        (page_size_of sys (pushed_state sys st width height cookie))
        (pushed sys st width height cookie) 0, ?_, ?_⟩
    · simp [after_miss, after_instantiate, pushed_state, List.append_assoc]
    · intro c hc
      simp only [List.mem_append] at hc
      rcases hc with ((hc | hc) | hc) | hc
      · simp only [List.mem_cons, List.mem_singleton, List.not_mem_nil, or_false] at hc
        rcases hc with rfl | rfl <;> rfl
      · split at hc
        · simp at hc
        · simp only [List.mem_singleton] at hc; subst hc; rfl
      · unfold page_size_calls at hc
        split at hc
        · simp only [List.mem_singleton] at hc; subst hc; rfl
        · simp at hc
      · simp only [instantiate_calls, List.mem_cons, List.mem_singleton, List.not_mem_nil,
          or_false] at hc
        rcases hc with rfl | rfl | rfl | rfl | rfl | rfl <;> rfl

/-- C3 (amended): `shm_get_buffer` and `shm_purge` never destroy a busy entry:
when they return, the entries that were busy are still in the pool, in order and
unchanged in every field, and the entries they destroyed were idle; on a busy
entry that they would have to destroy they fail an assertion instead (line 198,
line 595).  `shm_fini` destroys and unlinks every entry, busy or not. -/
theorem C3_busy_entries_kept (st : Shm) :
    (∀ (sys : Sys) (width height : Int) (cookie i : Nat) (st2 : Shm),
      shm_get_buffer sys st width height cookie = Except.ok (i, st2) →
        List.Sublist (st.buffers.filter fun b => b.busy) st2.buffers ∧
        (∀ b ∈ st.buffers.filter (fun b => !kept cookie b), b.busy = false) ∧
        ∃ cs, st2.calls = st.calls ++ fini_calls (st.buffers.filter fun b => !kept cookie b)
            ++ cs ∧
          ∀ c ∈ cs, Call.tears_down c = false) ∧
    (∀ (sys : Sys) (width height : Int) (cookie : Nat),
      (∃ b ∈ st.buffers, b.cookie = cookie ∧ b.purge = true ∧ b.busy = true) →
        shm_get_buffer sys st width height cookie = Except.error (Fault.assert 198)) ∧
    (∀ (cookie : Nat) (st2 : Shm), shm_purge st cookie = Except.ok st2 →
        List.Sublist (st.buffers.filter fun b => b.busy) st2.buffers ∧
        (∀ b ∈ st.buffers.filter (fun b => b.cookie == cookie), b.busy = false) ∧
        st2.calls = st.calls ++ fini_calls (st.buffers.filter fun b => b.cookie == cookie)) ∧
    (∀ (cookie : Nat), (∃ b ∈ st.buffers, b.cookie = cookie ∧ b.busy = true) →
        shm_purge st cookie = Except.error (Fault.assert 595)) ∧
    ((shm_fini st).buffers = [] ∧ (shm_fini st).calls = st.calls ++ fini_calls st.buffers) := by
  refine ⟨?_, ?_, ?_, ?_, rfl, rfl⟩
  · intro sys width height cookie i st2 h
    refine ⟨shm_get_buffer_keeps_busy _ _ _ _ _ _ _ h, ?_, shm_get_buffer_calls _ _ _ _ _ _ _ h⟩
    rw [shm_get_buffer_eq_ok] at h
    intro b hb
    obtain ⟨hm, hk⟩ := List.mem_filter.mp hb
    simp only [kept, Bool.not_not, Bool.and_eq_true, beq_iff_eq] at hk
    exact h.1 b hm hk.1 hk.2
  · intro sys width height cookie h
    unfold shm_get_buffer
    rw [purge_marked_fails cookie st.buffers h]
    rfl
  · intro cookie st2 h
    rw [shm_purge_eq_ok] at h
    obtain ⟨h1, rfl⟩ := h
    refine ⟨?_, ?_, rfl⟩
    · have : st.buffers.filter (fun b => b.busy) =
          (st.buffers.filter (fun b => b.cookie != cookie)).filter (fun b => b.busy) := by
        rw [List.filter_filter]
        apply List.filter_congr
        intro b hb
        by_cases hbb : b.busy = true
        · by_cases hc : b.cookie = cookie
          · have := h1 b hb hc
            rw [hbb] at this
            exact absurd this (by simp)
          · simp [hbb, hc]
        · simp [hbb]
      rw [this]
      exact List.filter_sublist _
    · intro b hb
      obtain ⟨hm, hk⟩ := List.mem_filter.mp hb
      exact h1 b hm (by simpa using hk)
  · intro cookie h
    unfold shm_purge
    rw [purge_all_fails cookie st.buffers h]
    rfl

/-- C3 as stated fails for shutdown: `shm_fini` destroys the busy entry of the
pool, unmapping it and closing its descriptor. -/
theorem C3_counterexample :
    shm_get_buffer sample_sys shm_init 2 2 7 = Except.ok (0, pool_a) ∧
    pool_a.buffers.map (fun b => (b.busy, b.fd, b.real_mmapped)) = [(true, 3, 20480)] ∧
    exec pool_a Op.fini = Except.ok (shm_fini pool_a) ∧
    (shm_fini pool_a).buffers = [] ∧
    Call.munmap 20480 16 ∈ (shm_fini pool_a).calls ∧
    Call.close 3 ∈ (shm_fini pool_a).calls :=
  ⟨rfl, rfl, rfl, rfl, by decide, by decide⟩

theorem C3_busy_entries_kept_witness :
    shm_get_buffer sample_sys pool_a 2 2 7 =
      Except.ok (1, after_miss sample_sys pool_a 2 2 7) ∧
    List.Sublist (pool_a.buffers.filter fun b => b.busy)
      (after_miss sample_sys pool_a 2 2 7).buffers ∧
    shm_purge pool_a 7 = Except.error (Fault.assert 595) ∧
    shm_purge pool_a 8 = Except.ok pool_a ∧
    List.Sublist (pool_a.buffers.filter fun b => b.busy) pool_a.buffers :=
  ⟨rfl,
   ((C3_busy_entries_kept pool_a).1 sample_sys 2 2 7 1 (after_miss sample_sys pool_a 2 2 7)
     rfl).1,
   (C3_busy_entries_kept pool_a).2.2.2.1 7 (by decide),
   rfl,
   ((C3_busy_entries_kept pool_a).2.2.1 8 pool_a rfl).1⟩

/-! ## C4: busy entries are never marked for purging -/

theorem int_neg_eq_ok (a r : Int) :
    int_neg a = Except.ok r ↔ r = -a ∧ INT_MIN ≤ -a ∧ -a ≤ INT_MAX := by
  unfold int_neg
  split
  · rename_i h
    simp only [pure_eq_ok]
    exact ⟨fun h1 => ⟨h1.symm, h⟩, fun h1 => h1.1.symm⟩
  · rename_i h
    simp only [throw_ne_ok, false_iff]
    exact fun h1 => h h1.2

/-- The two ways `shm_scroll` returns. -/
theorem shm_scroll_ok (sys : Sys) (st st2 : Shm) (i : Nat) (rows tm tk bm bk : Int) (ret : Bool)
    (h : shm_scroll sys st i rows tm tk bm bk = Except.ok (ret, st2)) :
    ∃ buf buf2 stx, st.buffers[i]? = some buf ∧ rows ≠ 0 ∧
      ((0 < rows ∧ shm_scroll_forward sys st buf rows tm tk bm bk = Except.ok (ret, buf2, stx)) ∨
       (¬ 0 < rows ∧
         shm_scroll_reverse sys st buf (-rows) tm tk bm bk = Except.ok (ret, buf2, stx))) ∧
      st2 = { stx with buffers := stx.buffers.set i buf2 } := by
  unfold shm_scroll at h
  cases hb : st.buffers[i]? with
  | none => rw [hb] at h; simp [throw_ne_ok] at h
  | some buf =>
    rw [hb] at h
    simp only [bind_eq_ok, assert_eq_ok, bne_iff_ne, ne_eq, Prod.exists, pure_eq_ok,
      Prod.mk.injEq] at h
    obtain ⟨_, h579, r, buf2, stx, hs, rfl, rfl⟩ := h
    refine ⟨buf, buf2, stx, rfl, h579, ?_, rfl⟩
    split at hs
    · rename_i hpos
      exact Or.inl ⟨hpos, hs⟩
    · rename_i hpos
      simp only [bind_eq_ok, int_neg_eq_ok] at hs
      obtain ⟨_, ⟨rfl, _⟩, hs⟩ := hs
      exact Or.inr ⟨hpos, hs⟩

/-- What `shm_scroll` does to the pool when it returns: the entry at position
`i` is re-instantiated, every other entry and the hole-punch flags are left alone. -/
theorem shm_scroll_entry (sys : Sys) (st st2 : Shm) (i : Nat) (rows tm tk bm bk : Int)
    (ret : Bool) (h : shm_scroll sys st i rows tm tk bm bk = Except.ok (ret, st2)) :
    ∃ (buf bufd : Buffer) (stm : Shm) (o : Int), st.buffers[i]? = some buf ∧
      SameEntry buf bufd ∧ Frame st stm ∧ InstantiateReturns sys stm bufd o ∧
      st2.buffers = st.buffers.set i
        (instantiated sys (stm.now + (page_size_calls stm).length) (page_size_of sys stm) bufd o) ∧
      Frame { st with buffers := st2.buffers } st2 := by
  obtain ⟨buf, buf2, stx, hb, _, hcase, rfl⟩ := shm_scroll_ok _ _ _ _ _ _ _ _ _ _ h
  rcases hcase with ⟨_, hf⟩ | ⟨_, hr⟩
  · obtain ⟨_, _, _, _, _, _, base, bufd, stm, _, _, hse, hfm, hi, rfl, hfr⟩ :=
      shm_scroll_forward_ok _ _ _ _ _ _ _ _ _ _ _ hf
    refine ⟨buf, bufd, stm, _, hb, hse, hfm, hi, ?_, ?_⟩
    · simp only [hfr.1]
    · exact ⟨rfl, hfr.2.1, hfr.2.2.1, hfr.2.2.2⟩
  · obtain ⟨_, _, _, base, bufd, stm, _, _, hse, hfm, hi, rfl, hfr⟩ :=
      shm_scroll_reverse_ok _ _ _ _ _ _ _ _ _ _ _ hr
    refine ⟨buf, bufd, stm, _, hb, hse, hfm, hi, ?_, ?_⟩
    · simp only [hfr.1]
    · exact ⟨rfl, hfr.2.1, hfr.2.2.1, hfr.2.2.2⟩

theorem exec_acquire_eq_ok (st st2 : Shm) (sys : Sys) (width height : Int) (cookie : Nat) :
    exec st (Op.acquire sys width height cookie) = Except.ok st2 ↔
      ∃ i, shm_get_buffer sys st width height cookie = Except.ok (i, st2) := by
  unfold exec
  cases h : shm_get_buffer sys st width height cookie with
  | error e => simp [Except.map, h]
  | ok r =>
    obtain ⟨j, s⟩ := r
    simp only [Except.map, h, Except.ok.injEq, Prod.mk.injEq]
    exact ⟨fun h1 => ⟨j, rfl, h1⟩, fun ⟨_, _, h1⟩ => h1⟩

theorem exec_scroll_eq_ok (st st2 : Shm) (sys : Sys) (i : Nat) (rows tm tk bm bk : Int) :
    exec st (Op.scroll sys i rows tm tk bm bk) = Except.ok st2 ↔
      ∃ r, shm_scroll sys st i rows tm tk bm bk = Except.ok (r, st2) := by
  unfold exec
  cases h : shm_scroll sys st i rows tm tk bm bk with
  | error e => simp [Except.map, h]
  | ok r =>
    obtain ⟨j, s⟩ := r
    simp only [Except.map, h, Except.ok.injEq, Prod.mk.injEq]
    exact ⟨fun h1 => ⟨j, rfl, h1⟩, fun ⟨_, _, h1⟩ => h1⟩

/-- Where the entries of the pool come from after one operation. -/
theorem exec_mem (st st2 : Shm) (op : Op) (h : exec st op = Except.ok st2) (b : Buffer)
    (hb : b ∈ st2.buffers) :
    b ∈ st.buffers ∨
    (∃ e0 ∈ st.buffers, e0.busy = false ∧ e0.purge = false ∧
      b = { e0 with busy := true, purge := false }) ∨
    (∃ e0 ∈ st.buffers, e0.busy = false ∧ b = { e0 with purge := true }) ∨
    (∃ sys width height cookie, op = Op.acquire sys width height cookie ∧
      MissReturns sys st width height cookie ∧ b = fresh_entry sys st width height cookie) ∨
    (∃ e0 ∈ st.buffers, b = { e0 with busy := false }) ∨
    (∃ (sys : Sys) (e0 bufd : Buffer) (stm : Shm) (o : Int) (i : Nat) (r t k m n : Int),
      op = Op.scroll sys i r t k m n ∧ e0 ∈ st.buffers ∧
      SameEntry e0 bufd ∧ InstantiateReturns sys stm bufd o ∧
      b = instantiated sys (stm.now + (page_size_calls stm).length) (page_size_of sys stm)
        bufd o) := by
  cases op with
  | acquire sys width height cookie =>
    rw [exec_acquire_eq_ok] at h
    obtain ⟨i, h⟩ := h
    rw [shm_get_buffer_eq_ok] at h
    obtain ⟨_, h⟩ := h
    have hsw : ∀ x ∈ swept st cookie, x ∈ st.buffers := fun x hx => (List.mem_filter.mp hx).1
    rcases h with ⟨l2, hr, rfl⟩ | ⟨_, hm, _, rfl⟩
    · rw [reuse_cached_eq_some] at hr
      obtain ⟨pre, e, post, hl, _, he, _, rfl⟩ := hr
      simp only [List.mem_append, List.mem_cons] at hb
      have he_mem : e ∈ swept st cookie := by rw [hl]; simp
      simp only [reusable, Bool.and_eq_true, beq_iff_eq, Bool.not_eq_true'] at he
      rcases hb with hb | rfl | hb
      · exact Or.inl (hsw b (by rw [hl]; simp [hb]))
      · refine Or.inr (Or.inl ⟨e, hsw e he_mem, he.2, ?_, rfl⟩)
        simpa [kept, he.1.2] using (List.mem_filter.mp he_mem).2
      · exact Or.inl (hsw b (by rw [hl]; simp [hb]))
    · simp only [after_miss, List.mem_append, List.mem_map, List.mem_singleton] at hb
      rcases hb with ⟨a, ha, rfl⟩ | rfl
      · unfold mark
        split
        · rename_i hc
          exact Or.inr (Or.inr (Or.inl ⟨a, hsw a ha, hc.2.1, rfl⟩))
        · exact Or.inl (hsw a ha)
      · exact Or.inr (Or.inr (Or.inr (Or.inl ⟨sys, width, height, cookie, rfl, hm, rfl⟩)))
  | release i wl_buffer =>
    simp only [exec] at h
    rw [release_eq_ok] at h
    obtain ⟨e, he, _, _, rfl⟩ := h
    rcases List.mem_or_eq_of_mem_set hb with hb | rfl
    · exact Or.inl hb
    · exact Or.inr (Or.inr (Or.inr (Or.inr (Or.inl ⟨e, List.getElem?_mem he, rfl⟩))))
  | scroll sys i rows tm tk bm bk =>
    rw [exec_scroll_eq_ok] at h
    obtain ⟨r, h⟩ := h
    obtain ⟨buf, bufd, stm, o, hbuf, hse, _, hi, hset, _⟩ := shm_scroll_entry _ _ _ _ _ _ _ _ _ _ h
    rw [hset] at hb
    rcases List.mem_or_eq_of_mem_set hb with hb | rfl
    · exact Or.inl hb
    · exact Or.inr (Or.inr (Or.inr (Or.inr (Or.inr
        ⟨sys, buf, bufd, stm, o, i, rows, tm, tk, bm, bk, rfl, List.getElem?_mem hbuf, hse, hi,
          rfl⟩))))
  | purge cookie =>
    simp only [exec] at h
    rw [shm_purge_eq_ok] at h
    obtain ⟨_, rfl⟩ := h
    exact Or.inl (List.mem_filter.mp hb).1
  | fini =>
    simp only [exec, pure_eq_ok] at h
    subst h
    simp [shm_fini] at hb

/-- C4: in every state the pool reaches from the start of the process through
`shm_get_buffer`, release notifications, `shm_scroll`, `shm_purge` (and
`shm_fini`), no entry is both busy and marked for purging; so the assertion of
line 198, that a marked entry is idle, never fails. -/
theorem C4_busy_never_purged (st : Shm) (hr : Reachable (fun _ _ => True) st) :
    (∀ b ∈ st.buffers, ¬ (b.busy = true ∧ b.purge = true)) ∧
    ∀ (sys : Sys) (width height : Int) (cookie : Nat),
      shm_get_buffer sys st width height cookie ≠ Except.error (Fault.assert 198) := by
  have inv : ∀ b ∈ st.buffers, ¬ (b.busy = true ∧ b.purge = true) := by
    induction hr with
    | init => simp [shm_init]
    | step op _ _ hex ih =>
      intro b hb
      rcases exec_mem _ _ _ hex b hb with h | ⟨e0, _, _, _, rfl⟩ | ⟨e0, _, h0, rfl⟩ |
        ⟨sys, w, h, c, _, _, rfl⟩ | ⟨e0, _, rfl⟩ |
        ⟨sys, e0, bufd, stm, o, i, r, t, k, m, n, _, he0, hse, _, rfl⟩
      · exact ih b h
      · simp
      · simp [h0]
      · simp [(fresh_entry_fields sys _ w h c).2.2.2.2.2.2.2.1]
      · simp
      · have := ih e0 he0
        obtain ⟨_, _, _, _, h5, _, _, h8⟩ := hse
        simpa [instantiated, h5, h8] using this
  refine ⟨inv, ?_⟩
  intro sys width height cookie herr
  rcases shm_get_buffer_eq_error _ _ _ _ _ _ herr with ⟨_, b, hb, _, hp, hbusy⟩ | ⟨_, h2, _⟩
  · exact inv b hb ⟨hbusy, hp⟩
  · omega

theorem C4_busy_never_purged_witness :
    Reachable (fun _ _ => True) pool_ab ∧
    (∀ b ∈ pool_ab.buffers, ¬ (b.busy = true ∧ b.purge = true)) ∧
    ∀ (sys : Sys) (width height : Int) (cookie : Nat),
      shm_get_buffer sys pool_ab width height cookie ≠ Except.error (Fault.assert 198) :=
  have hr : Reachable (fun _ _ => True) pool_ab :=
    Reachable.step (Op.acquire sample_sys 1 1 7)
      (Reachable.step (Op.release 0 206)
        (Reachable.step (Op.acquire sample_sys 2 2 7) Reachable.init trivial
          (rfl : exec shm_init (Op.acquire sample_sys 2 2 7) = Except.ok pool_a))
        trivial (rfl : exec pool_a (Op.release 0 206) = Except.ok (all_released pool_a)))
      trivial
      (rfl : exec (all_released pool_a) (Op.acquire sample_sys 1 1 7) = Except.ok pool_ab)
  ⟨hr, C4_busy_never_purged pool_ab hr⟩

/-! ## C5: one entry per key that is not marked for purging -/

theorem split_at_getElem? (l : List Buffer) (i : Nat) (e : Buffer) (h : l[i]? = some e) :
    ∃ P Q, l = P ++ e :: Q ∧ P.length = i := by
  induction l generalizing i with
  | nil => simp at h
  | cons a l ih =>
    cases i with
    | zero =>
      simp only [List.getElem?_cons_zero, Option.some.injEq] at h
      subst h
      exact ⟨[], l, rfl, rfl⟩
    | succ i =>
      simp only [List.getElem?_cons_succ] at h
      obtain ⟨P, Q, rfl, rfl⟩ := ih i h
      exact ⟨a :: P, Q, rfl, rfl⟩

theorem countP_set_of_eq (p : Buffer → Bool) (l : List Buffer) (i : Nat) (e x : Buffer)
    (h : l[i]? = some e) (hp : p x = p e) : (l.set i x).countP p = l.countP p := by
  obtain ⟨P, Q, rfl, rfl⟩ := split_at_getElem? l i e h
  rw [set_append_cons]
  simp [List.countP_append, List.countP_cons, hp]

theorem countP_filter_le (p q : Buffer → Bool) (l : List Buffer) :
    (l.filter q).countP p ≤ l.countP p :=
  (List.filter_sublist l).countP_le p

theorem countP_map_mark_le (cookie : Nat) (width height : Int) (w2 h2 : Int) (c2 : Nat)
    (l : List Buffer) :
    (l.map (mark w2 h2 c2)).countP (live cookie width height) ≤
      l.countP (live cookie width height) := by
  induction l with
  | nil => simp
  | cons a l ih =>
    simp only [List.map_cons, List.countP_cons]
    have : (if live cookie width height (mark w2 h2 c2 a) = true then 1 else 0) ≤
        (if live cookie width height a = true then 1 else 0) := by
      unfold mark
      split
      · simp [live]
      · exact Nat.le_refl _
    omega

theorem live_instantiated (cookie : Nat) (width height : Int) (sys : Sys) (n : Nat) (ps : Int)
    (e0 bufd : Buffer) (o : Int) (hse : SameEntry e0 bufd) :
    live cookie width height (instantiated sys n ps bufd o) = live cookie width height e0 := by
  obtain ⟨h1, h2, h3, _, _, _, _, h8⟩ := hse
  simp [live, instantiated, h1, h2, h3, h8]

/-- C5 (amended): in every state the pool reaches from the start of the process
through `shm_get_buffer`, release notifications, `shm_scroll`, `shm_purge` and
`shm_fini`, provided `shm_get_buffer` is called for a key `(cookie, width,
height)` only while no entry with that key is busy, there is for every key at
most one entry with that key that is not marked for purging. -/
theorem C5_one_live_entry_per_key (st : Shm) (hr : Reachable acquire_when_idle st)
    (cookie : Nat) (width height : Int) :
    (st.buffers.filter (live cookie width height)).length ≤ 1 := by
  rw [← List.countP_eq_length_filter]
  induction hr with
  | init => simp [shm_init]
  | @step st st2 op _ hok hex ih =>
    cases op with
    | acquire sys w h c =>
      rw [exec_acquire_eq_ok] at hex
      obtain ⟨i, hex⟩ := hex
      rw [shm_get_buffer_eq_ok] at hex
      obtain ⟨_, hex⟩ := hex
      have hsw : (swept st c).countP (live cookie width height) ≤ 1 :=
        Nat.le_trans (countP_filter_le _ _ _) ih
      rcases hex with ⟨l2, hrc, rfl⟩ | ⟨hrc, _, _, rfl⟩
      · rw [reuse_cached_eq_some] at hrc
        obtain ⟨pre, e, post, hl, _, he, _, rfl⟩ := hrc
        have he_mem : e ∈ swept st c := by rw [hl]; simp
        simp only [reusable, Bool.and_eq_true, beq_iff_eq, Bool.not_eq_true'] at he
        have hp : e.purge = false := by
          simpa [kept, he.1.2] using (List.mem_filter.mp he_mem).2
        have hlive : live cookie width height { e with busy := true, purge := false } =
            live cookie width height e := by
          simp [live, hp]
        rw [hl] at hsw
        simp only [List.countP_append, List.countP_cons, hlive] at hsw ⊢
        exact hsw
      · rw [reuse_cached_eq_none] at hrc
        simp only [after_miss, List.countP_append, List.countP_cons, List.countP_nil]
        have hmap := countP_map_mark_le cookie width height w h c (swept st c)
        by_cases hkey : live cookie width height (fresh_entry sys st w h c) = true
        · have hf := fresh_entry_fields sys st w h c
          simp only [live, hf.1, hf.2.1, hf.2.2.1, Bool.and_eq_true, beq_iff_eq] at hkey
          obtain ⟨⟨⟨rfl, rfl⟩, rfl⟩, _⟩ := hkey
          have hzero : (swept st c).countP (live c w h) = 0 := by
            rw [List.countP_eq_zero]
            intro b hb hlv
            have hbm : b ∈ st.buffers := (List.mem_filter.mp hb).1
            simp only [live, Bool.and_eq_true, beq_iff_eq, Bool.not_eq_true'] at hlv
            have hidle := hok b hbm hlv.1.1.1 hlv.1.1.2 hlv.1.2
            have := hrc b hb
            simp [reusable, hlv.1.1.1, hlv.1.1.2, hlv.1.2, hidle] at this
          have hf2 : live c w h (fresh_entry sys st w h c) = true := by
            simp [live, hf.1, hf.2.1, hf.2.2.1, hf.2.2.2.2.2.2.2.1]
          simp only [hf2, if_true]
          omega
        · simp only [hkey, Bool.false_eq_true, if_false]
          omega
    | release i wl_buffer =>
      simp only [exec] at hex
      rw [release_eq_ok] at hex
      obtain ⟨e, he, _, _, rfl⟩ := hex
      simp only
      rw [countP_set_of_eq _ _ _ e _ he (by simp [live])]
      exact ih
    | scroll sys i rows tm tk bm bk =>
      rw [exec_scroll_eq_ok] at hex
      obtain ⟨r, hex⟩ := hex
      obtain ⟨buf, bufd, stm, o, hbuf, hse, _, _, hset, _⟩ :=
        shm_scroll_entry _ _ _ _ _ _ _ _ _ _ hex
      rw [hset, countP_set_of_eq _ _ _ buf _ hbuf (live_instantiated _ _ _ _ _ _ _ _ _ hse)]
      exact ih
    | purge c =>
      simp only [exec] at hex
      rw [shm_purge_eq_ok] at hex
      obtain ⟨_, rfl⟩ := hex
      exact Nat.le_trans (countP_filter_le _ _ _) ih
    | fini =>
      simp only [exec, pure_eq_ok] at hex
      subst hex
      simp [shm_fini]

/-- C5 as stated fails: acquiring a second buffer with the same key while the
first is still busy leaves two entries with that key, neither marked. -/
theorem C5_counterexample :
    Reachable (fun _ _ => True) pool_aa ∧
    pool_aa.buffers.map (fun b => (b.cookie, b.width, b.height, b.purge))
      = [(7, 2, 2, false), (7, 2, 2, false)] ∧
    (pool_aa.buffers.filter (live 7 2 2)).length = 2 :=
  ⟨Reachable.step (Op.acquire sample_sys 2 2 7)
      (Reachable.step (Op.acquire sample_sys 2 2 7) Reachable.init trivial
        (rfl : exec shm_init (Op.acquire sample_sys 2 2 7) = Except.ok pool_a))
      trivial (rfl : exec pool_a (Op.acquire sample_sys 2 2 7) = Except.ok pool_aa),
    rfl, rfl⟩

theorem C5_one_live_entry_per_key_witness :
    Reachable acquire_when_idle pool_ab ∧
    (pool_ab.buffers.filter (live 7 1 1)).length ≤ 1 :=
  have h1 : Reachable acquire_when_idle pool_a :=
    Reachable.step (Op.acquire sample_sys 2 2 7) Reachable.init
      (by simp [acquire_when_idle, shm_init])
      (rfl : exec shm_init (Op.acquire sample_sys 2 2 7) = Except.ok pool_a)
  have h2 : Reachable acquire_when_idle (all_released pool_a) :=
    Reachable.step (Op.release 0 206) h1 trivial
      (rfl : exec pool_a (Op.release 0 206) = Except.ok (all_released pool_a))
  have h3 : acquire_when_idle (all_released pool_a) (Op.acquire sample_sys 1 1 7) := by
    show ∀ b ∈ (all_released pool_a).buffers, b.cookie = 7 → b.width = 1 → b.height = 1 →
      b.busy = false
    decide
  have hr : Reachable acquire_when_idle pool_ab :=
    Reachable.step (Op.acquire sample_sys 1 1 7) h2 h3
      (rfl : exec (all_released pool_a) (Op.acquire sample_sys 1 1 7) = Except.ok pool_ab)
  ⟨hr, C5_one_live_entry_per_key pool_ab hr 7 1 1⟩

theorem int_add_ne_assert (a b : Int) (n : Nat) :
    int_add a b = Except.error (Fault.assert n) ↔ False := by
  unfold int_add
  split <;> simp [pure_ne_error, throw_eq_error]

theorem int_mul_ne_assert (a b : Int) (n : Nat) :
    int_mul a b = Except.error (Fault.assert n) ↔ False := by
  unfold int_mul
  split <;> simp [pure_ne_error, throw_eq_error]

theorem int_neg_ne_assert (a : Int) (n : Nat) :
    int_neg a = Except.error (Fault.assert n) ↔ False := by
  unfold int_neg
  split <;> simp [pure_ne_error, throw_eq_error]

theorem sys_ftruncate_ne_assert (sys : Sys) (st : Shm) (fd len : Int) (n : Nat) :
    sys_ftruncate sys st fd len = Except.error (Fault.assert n) ↔ False := by
  unfold sys_ftruncate
  simp [ite_throw_eq_error, pure_ne_error]

theorem u64_of_range (x : Int) (h0 : 0 ≤ x) (h1 : x < 2 ^ 64) : u64 x = x := by
  unfold u64; omega

theorem max_pool_size_eq : max_pool_size = 268435456 := by
  unfold max_pool_size; norm_num

theorem shm_scroll_forward_asserts (sys : Sys) (st : Shm) (buf : Buffer)
    (rows tm tk bm bk : Int) (n : Nat)
    (hinv : 0 ≤ buf.offset ∧ 0 ≤ buf.size ∧ buf.offset + buf.size ≤ max_pool_size)
    (h : shm_scroll_forward sys st buf rows tm tk bm bk = Except.error (Fault.assert n)) :
    n ≠ 113 ∧ n ≠ 398 := by
  unfold shm_scroll_forward at h
  simp only [bind_eq_error, bind_eq_ok, assert_eq_error, assert_eq_ok, Prod.exists,
    decide_eq_true_eq, decide_eq_false_iff_not, bne_iff_ne, Fault.assert.injEq,
    int_mul_eq_ok] at h
  rcases h with ⟨_, rfl⟩ | ⟨_, h369, ⟨_, rfl⟩ | ⟨_, _, ⟨_, rfl⟩ | ⟨_, _, ⟨_, rfl⟩ | ⟨_, _,
    ⟨_, rfl⟩ | ⟨_, _, ⟨_, rfl⟩ | ⟨_, _, h⟩⟩⟩⟩⟩⟩
  · omega
  · omega
  · omega
  · omega
  · omega
  · omega
  simp only [h369, Bool.not_true, Bool.false_eq_true, if_false, bind_eq_error, bind_eq_ok,
    assert_eq_error, assert_eq_ok, int_mul_eq_ok, Prod.exists, decide_eq_true_eq,
    decide_eq_false_iff_not, Fault.assert.injEq, int_mul_ne_assert, sys_ftruncate_ne_assert,
    false_or, pure_ne_error, and_false, exists_false, or_false] at h
  rcases h with ⟨_, rfl⟩ | ⟨_, hrows, scrolled, ⟨rfl, hrange⟩, ⟨_, rfl⟩ | ⟨_, h382, hwe |
    ⟨bufw, stw, hwok, ⟨h398, rfl⟩ | ⟨_, h398, stt, _, hke | ⟨stk, _, hpe | ⟨stp, _, hie |
    ⟨_, _, _, _, hbe⟩⟩⟩⟩⟩⟩⟩
  · omega
  · omega
  · -- the wrap fails
    split at hwe
    · simp only [bind_eq_error, bind_eq_ok, assert_eq_error, assert_eq_ok, Prod.exists,
        ite_throw_eq_error, pure_ne_error, Fault.assert.injEq, reduceCtorEq, and_false,
        or_false, false_or] at hwe
      rcases hwe with ⟨_, rfl⟩ | ⟨_, _, hwe | ⟨_, _, _, _, hf⟩⟩
      · omega
      · obtain ⟨_, h2, _, h4⟩ := wrap_buffer_eq_error _ _ _ _ _ hwe
        refine ⟨fun hn => h4 hn ?_, by omega⟩
        rw [zero_add, u64_of_range _ hinv.2.1 (by rw [max_pool_size_eq] at hinv; omega)]
        omega
    · simp [pure_ne_error] at hwe
  · -- the assertion of line 398
    exfalso
    apply h398
    unfold INT_MIN INT_MAX at hrange
    rw [max_pool_size_eq] at hinv ⊢
    split at hwok
    · simp only [bind_eq_ok, assert_eq_ok, decide_eq_true_eq, Prod.exists, ite_throw_eq_ok,
        pure_eq_ok, Prod.mk.injEq, Bool.not_eq_true', Bool.not_eq_false] at hwok
      obtain ⟨_, h386, ok, b1, s1, hwb, hok1, rfl, rfl⟩ := hwok
      subst hok1
      rcases wrap_buffer_ok _ _ _ _ _ _ _ hwb with ⟨hf, _⟩ | ⟨_, stm, _, _, rfl, rfl⟩
      · exact absurd hf (by simp)
      · simp only [instantiated, buffer_destroy_dont_close]
        unfold u64 at h382 h386 ⊢
        omega
    · rename_i hc
      simp only [pure_eq_ok, Prod.mk.injEq] at hwok
      obtain ⟨rfl, rfl⟩ := hwok
      rw [max_pool_size_eq] at hc
      omega
  · split at hke
    · simp only [bind_eq_error, int_add_ne_assert, int_mul_ne_assert, pure_ne_error,
        and_false, exists_false, or_false] at hke
    · simp [pure_ne_error] at hke
  · split at hpe
    · simp [ite_throw_eq_error, pure_ne_error] at hpe
    · simp [pure_ne_error] at hpe
  · obtain ⟨_, h2, h3⟩ := instantiate_offset_eq_error _ _ _ _ _ hie
    exact ⟨fun hn => h3 hn h398, by omega⟩
  · split at hbe
    · simp only [bind_eq_error, int_add_ne_assert, int_mul_ne_assert, pure_ne_error,
        and_false, exists_false, or_false] at hbe
    · simp [pure_ne_error] at hbe

theorem and64_le (a b : Int) (h0 : 0 ≤ a) (h1 : a < 2 ^ 64) :
    0 ≤ and64 a b ∧ and64 a b ≤ a := by
  unfold and64
  rw [u64_of_range a h0 h1]
  have h := @Nat.and_le_left a.toNat (u64 b).toNat
  have h2 : ((a.toNat : Nat) : Int) = a := Int.toNat_of_nonneg h0
  constructor
  · exact Int.ofNat_nonneg _
  · calc ((a.toNat &&& (u64 b).toNat : Nat) : Int) ≤ ((a.toNat : Nat) : Int) := by
          exact_mod_cast h
      _ = a := h2

/-- The offset a reverse scroll wraps to lies inside the pool bound. -/
theorem wrap_target_bounds (size ps : Int) (h0 : 0 ≤ size) (h1 : size ≤ max_pool_size) :
    0 ≤ s64 (and64 (max_pool_size - size) (not64 (ps - 1))) ∧
    s64 (and64 (max_pool_size - size) (not64 (ps - 1))) + size ≤ max_pool_size := by
  rw [max_pool_size_eq] at h1 ⊢
  obtain ⟨h2, h3⟩ := and64_le (268435456 - size) (not64 (ps - 1)) (by omega) (by omega)
  unfold s64
  omega

theorem shm_scroll_reverse_asserts (sys : Sys) (st : Shm) (buf : Buffer)
    (rows tm tk bm bk : Int) (n : Nat)
    (henv : ∀ n fd len, len < 0 → sys.ftruncate n fd len < 0)
    (hinv : 0 ≤ buf.offset ∧ 0 ≤ buf.size ∧ buf.offset + buf.size ≤ max_pool_size ∧
      0 ≤ buf.stride)
    (h : shm_scroll_reverse sys st buf rows tm tk bm bk = Except.error (Fault.assert n)) :
    n ≠ 113 ∧ n ≠ 398 := by
  unfold shm_scroll_reverse at h
  simp only [bind_eq_error, bind_eq_ok, assert_eq_error, assert_eq_ok, Prod.exists,
    decide_eq_true_eq, decide_eq_false_iff_not, Fault.assert.injEq, int_mul_eq_ok,
    int_mul_ne_assert, sys_ftruncate_ne_assert, false_or, pure_ne_error, and_false,
    exists_false, or_false] at h
  rcases h with ⟨_, rfl⟩ | ⟨_, hrows, diff, ⟨rfl, hrange⟩, hwe | ⟨bufw, stw, hwok,
    ⟨_, rfl⟩ | ⟨_, _, hke | ⟨stk, _, stt, htr, hie | ⟨_, _, _, _, hte⟩⟩⟩⟩⟩
  · omega
  · -- the wrap fails
    split at hwe
    · simp only [bind_eq_error, bind_eq_ok, Prod.exists, sys_ftruncate_ne_assert,
        ite_throw_eq_error, pure_ne_error, reduceCtorEq, and_false, or_false, false_or] at hwe
      obtain ⟨_, _, hwe⟩ := hwe
      rcases hwe with hp | ⟨ps, s1, _, hwe⟩
      · have := page_size_eq_error _ _ _ hp
        simp only [Fault.assert.injEq] at this
        omega
      · rcases hwe with hwe | ⟨_, _, _, _, hf⟩
        · obtain ⟨_, h2, _, h4⟩ := wrap_buffer_eq_error _ _ _ _ _ hwe
          refine ⟨fun hn => h4 hn ?_, by omega⟩
          obtain ⟨b1, b2⟩ := wrap_target_bounds buf.size ps hinv.2.1 (by omega)
          have hm := max_pool_size_eq
          rw [u64_of_range _ (by omega) (by omega)]
          exact b2
    · simp [pure_ne_error] at hwe
  · omega
  · split at hke
    · simp only [bind_eq_error, int_add_ne_assert, int_mul_ne_assert, pure_ne_error,
        and_false, exists_false, or_false] at hke
    · simp [pure_ne_error] at hke
  · -- the final instantiation
    obtain ⟨_, h2, h3⟩ := instantiate_offset_eq_error _ _ _ _ _ hie
    refine ⟨fun hn => h3 hn ?_, by omega⟩
    rw [sys_ftruncate_eq_ok] at htr
    have hpos : 0 ≤ rows * buf.stride := Int.mul_nonneg (by omega) hinv.2.2.2
    have hb : 0 ≤ bufw.offset ∧ bufw.offset + buf.size ≤ max_pool_size ∧
        bufw.size = buf.size := by
      split at hwok
      · simp only [bind_eq_ok, Prod.exists, ite_throw_eq_ok, pure_eq_ok, Prod.mk.injEq,
          Bool.not_eq_true', Bool.not_eq_false] at hwok
        obtain ⟨_, _, ps, s1, _, ok, b1, s2, hwb, hok1, rfl, rfl⟩ := hwok
        subst hok1
        rcases wrap_buffer_ok _ _ _ _ _ _ _ hwb with ⟨hf, _⟩ | ⟨_, stm, _, _, rfl, rfl⟩
        · exact absurd hf (by simp)
        · obtain ⟨b1, b2⟩ := wrap_target_bounds buf.size ps hinv.2.1 (by omega)
          exact ⟨b1, b2, rfl⟩
      · simp only [pure_eq_ok, Prod.mk.injEq] at hwok
        obtain ⟨rfl, rfl⟩ := hwok
        exact ⟨hinv.1, hinv.2.2.1, rfl⟩
    obtain ⟨hb1, hb2, hb3⟩ := hb
    have hlen : ¬ s64 (u64 (bufw.offset - rows * buf.stride + buf.size)) < 0 := by
      intro hneg
      apply htr.1
      apply henv
      show s64 (u64 (bufw.offset - rows * buf.stride + bufw.size)) < 0
      rw [hb3]
      exact hneg
    show u64 (bufw.offset - rows * buf.stride + bufw.size) ≤ max_pool_size
    rw [hb3]
    unfold INT_MIN INT_MAX at hrange
    have hm := max_pool_size_eq
    unfold s64 u64 at hlen
    unfold u64
    omega
  · split at hte
    · simp only [bind_eq_error, int_add_ne_assert, int_mul_ne_assert, pure_ne_error,
        and_false, exists_false, or_false] at hte
    · simp [pure_ne_error] at hte

theorem shm_scroll_asserts (sys : Sys) (st : Shm) (i : Nat) (rows tm tk bm bk : Int) (n : Nat)
    (henv : ∀ n fd len, len < 0 → sys.ftruncate n fd len < 0)
    (hinv : ∀ b ∈ st.buffers, 0 ≤ b.offset ∧ 0 ≤ b.size ∧ b.offset + b.size ≤ max_pool_size ∧
      0 ≤ b.stride)
    (h : shm_scroll sys st i rows tm tk bm bk = Except.error (Fault.assert n)) :
    n ≠ 113 ∧ n ≠ 398 := by
  unfold shm_scroll at h
  cases hb : st.buffers[i]? with
  | none => rw [hb] at h; simp [throw_eq_error] at h
  | some buf =>
    rw [hb] at h
    have hbi := hinv buf (List.getElem?_mem hb)
    simp only [bind_eq_error, bind_eq_ok, assert_eq_error, assert_eq_ok, Prod.exists,
      Fault.assert.injEq, pure_ne_error, and_false, exists_false, or_false] at h
    rcases h with ⟨_, rfl⟩ | ⟨_, _, h⟩
    · omega
    · split at h
      · exact shm_scroll_forward_asserts _ _ _ _ _ _ _ _ _ ⟨hbi.1, hbi.2.1, hbi.2.2.1⟩ h
      · simp only [bind_eq_error, bind_eq_ok, int_neg_ne_assert, int_neg_eq_ok, false_or] at h
        obtain ⟨_, _, h⟩ := h
        exact shm_scroll_reverse_asserts _ _ _ _ _ _ _ _ _ henv hbi h

theorem instantiate_offset_nonneg (sys : Sys) (st : Shm) (buf : Buffer) (o : Int)
    (henv : ∀ n len fd off, off < 0 → sys.mmap n len fd off = MAP_FAILED)
    (h : InstantiateReturns sys st buf o) : 0 ≤ o := by
  obtain ⟨_, _, _, _, _, _, _, h8, _, h10, _⟩ := h
  by_contra hneg
  apply h10
  unfold mmap_of
  apply henv
  omega

/-- The bounds every entry of the pool satisfies in a `Posix` environment. -/
theorem posix_bounds (st : Shm) (hr : Reachable posix_ops st) :
    ∀ b ∈ st.buffers, 0 ≤ b.offset ∧ 0 ≤ b.size ∧ b.offset + b.size ≤ max_pool_size ∧
      0 ≤ b.stride := by
  induction hr with
  | init => simp [shm_init]
  | @step st st2 op _ hok hex ih =>
    intro b hb
    have hm := max_pool_size_eq
    cases op with
    | scroll sys i rows tm tk bm bk =>
      rw [exec_scroll_eq_ok] at hex
      obtain ⟨r, hex⟩ := hex
      obtain ⟨buf, buf2, stx, hbuf, _, hcase, rfl⟩ := shm_scroll_ok _ _ _ _ _ _ _ _ _ _ hex
      have hbi := ih buf (List.getElem?_mem hbuf)
      have hposix : sys.Posix := hok
      rcases hcase with ⟨_, hf⟩ | ⟨_, hrv⟩
      · obtain ⟨_, _, _, _, hrange, _, base, bufd, stm, hbase, h398, hse, _, hi, rfl, hfr⟩ :=
          shm_scroll_forward_ok _ _ _ _ _ _ _ _ _ _ _ hf
        simp only [hfr.1] at hb
        rcases List.mem_or_eq_of_mem_set hb with hb | rfl
        · exact ih b hb
        · have ho := instantiate_offset_nonneg _ _ _ _ hposix.1 hi
          obtain ⟨_, _, _, h4, _, h6, _, _⟩ := hse
          simp only [instantiated, h4, h6]
          unfold INT_MIN INT_MAX at hrange
          unfold u64 at h398
          refine ⟨ho, hbi.2.1, ?_, hbi.2.2.2⟩
          rcases hbase with ⟨hbeq, _⟩ | ⟨hbeq, _, _⟩ <;> omega
      · obtain ⟨_, _, hrange, base, bufd, stm, hbase, _, hse, _, hi, rfl, hfr⟩ :=
          shm_scroll_reverse_ok _ _ _ _ _ _ _ _ _ _ _ hrv
        simp only [hfr.1] at hb
        rcases List.mem_or_eq_of_mem_set hb with hb | rfl
        · exact ih b hb
        · have ho := instantiate_offset_nonneg _ _ _ _ hposix.1 hi
          have h6' := hi.2.2.2.2.2.1
          obtain ⟨_, _, _, h4, _, h6, _, _⟩ := hse
          simp only [instantiated, h4, h6]
          rw [h6] at h6'
          unfold INT_MIN INT_MAX at hrange
          unfold u64 at h6'
          refine ⟨ho, hbi.2.1, ?_, hbi.2.2.2⟩
          rcases hbase with ⟨hbeq, _⟩ | ⟨_, ps, _, _, _, hbeq, _, _⟩
          · omega
          · obtain ⟨b1, b2⟩ := wrap_target_bounds buf.size ps hbi.2.1 (by omega)
            rw [← hbeq] at b1 b2
            clear hbeq
            omega
    | acquire sys w h c =>
      rcases exec_mem _ _ _ hex b hb with h | ⟨e0, he0, _, _, rfl⟩ | ⟨e0, he0, _, rfl⟩ |
        ⟨sys2, w2, h2, c2, hop, hmr, rfl⟩ | ⟨e0, he0, rfl⟩ |
        ⟨_, _, _, _, _, _, _, _, _, _, _, hop, _⟩
      · exact ih b h
      · exact ih e0 he0
      · exact ih e0 he0
      · simp only [Op.acquire.injEq] at hop
        obtain ⟨rfl, rfl, rfl, rfl⟩ := hop
        have hposix : sys.Posix ∧ 0 ≤ w := hok
        obtain ⟨_, _, _, f4, f5, f6, _, _, _⟩ := fresh_entry_fields sys st w h c
        have h6 := hmr.2.2.2.2.2.2.2.2.1
        simp only [pushed, zero_add] at h6
        have hs0 := u64_nonneg (sys.stride_for_format_and_width w * h)
        rw [f4, f5, f6]
        unfold size_of at h6 ⊢
        refine ⟨le_refl _, hs0, ?_, hposix.1.2.2.2 w hposix.2⟩
        rw [u64_of_range _ hs0 (by unfold u64; omega)] at h6
        omega
      · exact ih e0 he0
      · simp at hop
    | release i wl =>
      rcases exec_mem _ _ _ hex b hb with h | ⟨e0, he0, _, _, rfl⟩ | ⟨e0, he0, _, rfl⟩ |
        ⟨_, _, _, _, hop, _⟩ | ⟨e0, he0, rfl⟩ | ⟨_, _, _, _, _, _, _, _, _, _, _, hop, _⟩
      · exact ih b h
      · exact ih e0 he0
      · exact ih e0 he0
      · simp at hop
      · exact ih e0 he0
      · simp at hop
    | purge c =>
      rcases exec_mem _ _ _ hex b hb with h | ⟨e0, he0, _, _, rfl⟩ | ⟨e0, he0, _, rfl⟩ |
        ⟨_, _, _, _, hop, _⟩ | ⟨e0, he0, rfl⟩ | ⟨_, _, _, _, _, _, _, _, _, _, _, hop, _⟩
      · exact ih b h
      · exact ih e0 he0
      · exact ih e0 he0
      · simp at hop
      · exact ih e0 he0
      · simp at hop
    | fini =>
      simp only [exec, pure_eq_ok] at hex
      subst hex
      simp [shm_fini] at hb

theorem sample_sys_posix : sample_sys.Posix := by
  refine ⟨?_, ?_, ?_, ?_⟩
  · intro n len fd off h
    simp [sample_sys, h]
  · intro n len fd off
    by_cases h : off < 0
    · left; simp [sample_sys, h]
    · right
      simp only [sample_sys, h, if_false]
      show (0 : Int) < 4096 * ((n : Int) + 1)
      omega
  · intro n fd len h
    simp [sample_sys, h]
  · intro w h
    simp only [sample_sys]
    omega

/-- In an environment that refuses to map a file at a negative offset and to
truncate it to a negative length, widths being non-negative, every entry of
every state the pool reaches satisfies `0 ≤ offset` and `offset + size ≤
max_pool_size`; the assertion `new_offset + size ≤ max_pool_size` made at the
start of `instantiate_offset` (line 113) and after the wrap check of
`shm_scroll_forward` (line 398) never fails in a scroll, forward or reverse; in
`shm_get_buffer` the assertion of line 113 fails only for a buffer larger than
`max_pool_size`. -/
theorem offsets_within_pool_bound (st : Shm) (hr : Reachable posix_ops st) :
    (∀ b ∈ st.buffers, 0 ≤ b.offset ∧ b.offset + b.size ≤ max_pool_size) ∧
    (∀ (sys : Sys) (i : Nat) (rows tm tk bm bk : Int), sys.Posix →
      shm_scroll sys st i rows tm tk bm bk ≠ Except.error (Fault.assert 113) ∧
      shm_scroll sys st i rows tm tk bm bk ≠ Except.error (Fault.assert 398)) ∧
    (∀ (sys : Sys) (width height : Int) (cookie : Nat),
      shm_get_buffer sys st width height cookie = Except.error (Fault.assert 113) →
        max_pool_size < size_of sys width height) := by
  have hb := posix_bounds st hr
  refine ⟨fun b hm => ⟨(hb b hm).1, (hb b hm).2.2.1⟩, ?_, ?_⟩
  · intro sys i rows tm tk bm bk hposix
    constructor
    · intro h
      exact (shm_scroll_asserts _ _ _ _ _ _ _ _ _ hposix.2.2.1 hb h).1 rfl
    · intro h
      exact (shm_scroll_asserts _ _ _ _ _ _ _ _ _ hposix.2.2.1 hb h).2 rfl
  · intro sys width height cookie h
    rcases shm_get_buffer_eq_error _ _ _ _ _ _ h with ⟨h1, _⟩ | ⟨_, _, h3⟩
    · omega
    · exact h3 rfl

/-- C6: the precondition `new_offset + size <= max_pool_size` asserted at the
start of `instantiate_offset` does not hold at the call `shm_get_buffer` makes
for a buffer of 10000 by 10000 pixels, 400000000 bytes, from the empty pool:
the acquire stops at the assertion of line 113. -/
theorem C6_oversized_acquire_fails_assertion :
    sample_sys.Posix ∧ Reachable posix_ops shm_init ∧
    size_of sample_sys 10000 10000 = 400000000 ∧ max_pool_size = 268435456 ∧
    shm_get_buffer sample_sys shm_init 10000 10000 7 = Except.error (Fault.assert 113) :=
  ⟨sample_sys_posix, Reachable.init, rfl, rfl, rfl⟩

theorem and64_nonneg (a b : Int) : 0 ≤ and64 a b := by
  unfold and64
  exact Int.ofNat_nonneg _

/-- In a `Posix` environment an instantiated entry has its mapping, its pixel
view and its peer handle. -/
theorem instantiated_present (sys : Sys) (st : Shm) (buf : Buffer) (o : Int)
    (hp : sys.Posix) (h : InstantiateReturns sys st buf o) :
    (instantiated sys (st.now + (page_size_calls st).length) (page_size_of sys st)
      buf o).real_mmapped ≠ NULL ∧
    (instantiated sys (st.now + (page_size_calls st).length) (page_size_of sys st)
      buf o).mmapped ≠ NULL ∧
    (instantiated sys (st.now + (page_size_calls st).length) (page_size_of sys st)
      buf o).pix ≠ NULL ∧
    (instantiated sys (st.now + (page_size_calls st).length) (page_size_of sys st)
      buf o).wl_buf ≠ NULL := by
  obtain ⟨_, _, _, _, _, _, _, _, _, h10, _, h12, h13⟩ := h
  have hpos : (0 : Int) < mmap_of sys (st.now + (page_size_calls st).length) (page_size_of sys st)
      buf o := by
    rcases hp.2.1 (st.now + (page_size_calls st).length)
      (mmap_size_of (page_size_of sys st) buf o) buf.fd
      (aligned_offset_of (page_size_of sys st) o) with hf | hpos
    · exact absurd hf h10
    · exact hpos
  have hoff := and64_nonneg o (page_size_of sys st - 1)
  refine ⟨?_, ?_, h13, h12⟩
  · exact ne_of_gt hpos
  · exact ne_of_gt (add_pos_of_pos_of_nonneg hpos hoff)

theorem pool_ab_reachable : Reachable posix_ops pool_ab :=
  have h1 : Reachable posix_ops pool_a :=
    Reachable.step (Op.acquire sample_sys 2 2 7) Reachable.init
      ⟨sample_sys_posix, by decide⟩
      (rfl : exec shm_init (Op.acquire sample_sys 2 2 7) = Except.ok pool_a)
  have h2 : Reachable posix_ops (all_released pool_a) :=
    Reachable.step (Op.release 0 206) h1 trivial
      (rfl : exec pool_a (Op.release 0 206) = Except.ok (all_released pool_a))
  Reachable.step (Op.acquire sample_sys 1 1 7) h2 ⟨sample_sys_posix, by decide⟩
    (rfl : exec (all_released pool_a) (Op.acquire sample_sys 1 1 7) = Except.ok pool_ab)

/-- C7: in every state the pool reaches, in an environment whose `mmap` returns
`MAP_FAILED` or a non-null address, every entry has all of its mapping
(`real_mmapped`, `mmapped`), its pixel view and its peer handle, so no operation
that returns, a scroll included, leaves a proper subset of them; an
`instantiate_offset` that returns has set all of them and the offset, and left
cookie, width, height, stride, size, descriptor, `busy` and `purge` as they
were; `buffer_destroy_dont_close` clears all of them and leaves the other fields
as they were. -/
theorem C7_mapping_view_handle_together (st : Shm) (hr : Reachable posix_ops st) :
    (∀ b ∈ st.buffers,
      b.real_mmapped ≠ NULL ∧ b.mmapped ≠ NULL ∧ b.pix ≠ NULL ∧ b.wl_buf ≠ NULL) ∧
    (∀ (sys : Sys) (s s2 : Shm) (buf buf2 : Buffer) (new_offset : Int) (r : Bool),
      sys.Posix → instantiate_offset sys s buf new_offset = Except.ok (r, buf2, s2) →
        r = true ∧
        (buf.real_mmapped = NULL ∧ buf.mmapped = NULL ∧ buf.pix = NULL ∧ buf.wl_buf = NULL) ∧
        (buf2.real_mmapped ≠ NULL ∧ buf2.mmapped ≠ NULL ∧ buf2.pix ≠ NULL ∧
          buf2.wl_buf ≠ NULL) ∧
        buf2.offset = new_offset ∧ buf2.cookie = buf.cookie ∧ buf2.width = buf.width ∧
        buf2.height = buf.height ∧ buf2.stride = buf.stride ∧ buf2.size = buf.size ∧
        buf2.fd = buf.fd ∧ buf2.busy = buf.busy ∧ buf2.purge = buf.purge) ∧
    (∀ buf : Buffer,
      (buffer_destroy_dont_close buf).1 =
        { buf with pix := NULL, wl_buf := NULL, real_mmapped := NULL, mmapped := NULL }) := by
  refine ⟨?_, ?_, fun buf => rfl⟩
  · induction hr with
    | init => simp [shm_init]
    | @step st st2 op _ hok hex ih =>
      intro b hb
      rcases exec_mem _ _ _ hex b hb with h | ⟨e0, he0, _, _, rfl⟩ | ⟨e0, he0, _, rfl⟩ |
        ⟨sys, w, h, c, rfl, hmr, rfl⟩ | ⟨e0, he0, rfl⟩ |
        ⟨sys, e0, bufd, stm, o, i, r, t, k, m, n, rfl, _, _, hi, rfl⟩
      · exact ih b h
      · exact ih e0 he0
      · exact ih e0 he0
      · have hposix : sys.Posix ∧ 0 ≤ w := hok
        exact instantiated_present sys _ _ 0 hposix.1 hmr.2.2.2
      · exact ih e0 he0
      · have hposix : sys.Posix := hok
        exact instantiated_present sys _ _ o hposix hi
  · intro sys s s2 buf buf2 new_offset r hp h
    rw [instantiate_offset_eq_ok] at h
    obtain ⟨hi, hr2, rfl, _⟩ := h
    refine ⟨hr2, ⟨hi.2.2.1, hi.2.1, hi.2.2.2.2.1, hi.2.2.2.1⟩,
      instantiated_present sys s buf new_offset hp hi, rfl, rfl, rfl, rfl, rfl, rfl, rfl, rfl, rfl⟩

theorem C7_mapping_view_handle_together_witness :
    Reachable posix_ops pool_ab ∧
    ((∀ b ∈ pool_ab.buffers,
      b.real_mmapped ≠ NULL ∧ b.mmapped ≠ NULL ∧ b.pix ≠ NULL ∧ b.wl_buf ≠ NULL) ∧
    (∀ (sys : Sys) (s s2 : Shm) (buf buf2 : Buffer) (new_offset : Int) (r : Bool),
      sys.Posix → instantiate_offset sys s buf new_offset = Except.ok (r, buf2, s2) →
        r = true ∧
        (buf.real_mmapped = NULL ∧ buf.mmapped = NULL ∧ buf.pix = NULL ∧ buf.wl_buf = NULL) ∧
        (buf2.real_mmapped ≠ NULL ∧ buf2.mmapped ≠ NULL ∧ buf2.pix ≠ NULL ∧
          buf2.wl_buf ≠ NULL) ∧
        buf2.offset = new_offset ∧ buf2.cookie = buf.cookie ∧ buf2.width = buf.width ∧
        buf2.height = buf.height ∧ buf2.stride = buf.stride ∧ buf2.size = buf.size ∧
        buf2.fd = buf.fd ∧ buf2.busy = buf.busy ∧ buf2.purge = buf.purge) ∧
    (∀ buf : Buffer,
      (buffer_destroy_dont_close buf).1 =
        { buf with pix := NULL, wl_buf := NULL, real_mmapped := NULL, mmapped := NULL })) :=
  ⟨pool_ab_reachable, C7_mapping_view_handle_together pool_ab pool_ab_reachable⟩

theorem and64_zero_left (b : Int) : and64 0 b = 0 := by
  simp [and64, u64]

theorem page_offset_of_zero (ps : Int) : page_offset_of ps 0 = 0 := and64_zero_left _

theorem aligned_offset_of_zero (ps : Int) : aligned_offset_of ps 0 = 0 := by
  unfold aligned_offset_of
  rw [and64_zero_left]
  rfl

/-- When `shm_get_buffer` returns on a miss, the size it computed is the
product of stride and height: a negative product fails the assertion of
`instantiate_offset`. -/
theorem miss_size (sys : Sys) (st : Shm) (width height : Int) (cookie : Nat)
    (m : MissReturns sys st width height cookie) :
    size_of sys width height = sys.stride_for_format_and_width width * height := by
  obtain ⟨⟨h1, h2⟩, _, _, hi⟩ := m
  have h6 := hi.2.2.2.2.2.1
  simp only [pushed, zero_add] at h6
  have hm := max_pool_size_eq
  unfold size_of u64 at h6 ⊢
  unfold INT_MIN at h1
  unfold INT_MAX at h2
  omega

theorem mmap_size_of_zero (sys : Sys) (st : Shm) (width height : Int) (cookie : Nat) (ps : Int) :
    mmap_size_of ps (pushed sys st width height cookie) 0 = size_of sys width height := by
  unfold mmap_size_of
  rw [page_offset_of_zero]
  simp only [pushed, add_zero]
  unfold size_of u64
  omega

/-- C8: when the pool holds no idle, unmarked entry with the key
`(cookie, width, height)`, then `shm_get_buffer` returns whenever its external
calls succeed, and whenever it returns it has appended exactly one entry at the
tail of the pool, the entries it kept standing before it in their order; the
new entry has the cookie, width and height asked for, the stride derived from
the width, `size = stride * height`, offset 0, `busy` set and `purge` clear, it
is mapped with `mmap` of exactly `size` bytes at file offset 0, and it is the
entry returned. -/
theorem C8_miss_appends_one_entry (sys : Sys) (st : Shm) (width height : Int) (cookie : Nat)
    (hmiss : ∀ b ∈ st.buffers, b.width = width → b.height = height → b.cookie = cookie →
      b.busy = false → b.purge = true) :
    ((∀ b ∈ st.buffers, b.cookie = cookie → b.purge = true → b.busy = false) →
      MissReturns sys st width height cookie →
      ∃ i st2, shm_get_buffer sys st width height cookie = Except.ok (i, st2)) ∧
    (∀ (i : Nat) (st2 : Shm),
      shm_get_buffer sys st width height cookie = Except.ok (i, st2) →
      ∃ e : Buffer,
        st2.buffers = (swept st cookie).map (mark width height cookie) ++ [e] ∧
        i = (swept st cookie).length ∧ st2.buffers[i]? = some e ∧
        e.cookie = cookie ∧ e.width = width ∧ e.height = height ∧
        e.stride = sys.stride_for_format_and_width width ∧ e.size = e.stride * height ∧
        e.offset = 0 ∧ e.busy = true ∧ e.purge = false ∧
        e.mmap_size = e.size ∧ e.mmapped = e.real_mmapped ∧
        e.real_mmapped ≠ MAP_FAILED ∧ e.wl_buf ≠ NULL ∧ e.pix ≠ NULL ∧
        (∃ cs cs2, st2.calls = st.calls ++ cs ++ Call.mmap e.size e.fd 0 :: cs2)) := by
  have hnone : ∀ b ∈ swept st cookie, reusable width height cookie b = false := by
    intro b hb
    obtain ⟨hb1, hb2⟩ := List.mem_filter.mp hb
    by_contra hre
    simp only [reusable, Bool.not_eq_false, Bool.and_eq_true, beq_iff_eq,
      Bool.not_eq_true'] at hre
    have hp := hmiss b hb1 hre.1.1.1 hre.1.1.2 hre.1.2 hre.2
    simp [kept, hre.1.2, hp] at hb2
  constructor
  · intro hsw m
    exact ⟨_, _, miss_returns sys st width height cookie hsw hnone m⟩
  · intro i st2 h
    rw [shm_get_buffer_eq_ok] at h
    obtain ⟨_, h⟩ := h
    rcases h with ⟨l2, hr, _⟩ | ⟨_, m, rfl, rfl⟩
    · rw [(reuse_cached_eq_none _ _ _ _).mpr hnone] at hr
      exact absurd hr (by simp)
    · have hi := m.2.2.2
      refine ⟨fresh_entry sys st width height cookie, rfl, rfl, ?_, rfl, rfl, rfl, rfl, ?_, rfl,
        rfl, rfl, ?_, ?_, hi.2.2.2.2.2.2.2.2.2.1, hi.2.2.2.2.2.2.2.2.2.2.2.1,
        hi.2.2.2.2.2.2.2.2.2.2.2.2, ?_⟩
      · show ((swept st cookie).map (mark width height cookie) ++
          [fresh_entry sys st width height cookie])[(swept st cookie).length]? = _
        rw [← List.length_map (swept st cookie) (mark width height cookie)]
        exact getElem?_append_cons _ _ _
      · exact miss_size sys st width height cookie m
      · exact mmap_size_of_zero sys st width height cookie _
      · show _ + page_offset_of _ 0 = _
        rw [page_offset_of_zero]
        exact add_zero _
      · refine ⟨sweep_calls st cookie ++
          [Call.memfd_create,
            Call.ftruncate (pool_fd_of sys st cookie) (s64 (0 + size_of sys width height))] ++
          (if st.can_punch_hole_initialized then []
            else [Call.fallocate (pool_fd_of sys st cookie) 0 1]) ++
          page_size_calls (pushed_state sys st width height cookie),
          (instantiate_calls sys ((pushed_state sys st width height cookie).now +
            (page_size_calls (pushed_state sys st width height cookie)).length)
            (page_size_of sys (pushed_state sys st width height cookie))
            (pushed sys st width height cookie) 0).tail, ?_⟩
        simp only [after_miss, after_instantiate, pushed_state, instantiate_calls,
          fresh_entry, instantiated, mmap_size_of_zero, aligned_offset_of_zero,
          List.append_assoc, List.cons_append, List.nil_append, List.tail_cons]
        rfl

theorem C8_miss_appends_one_entry_witness :
    (∀ b ∈ (all_released pool_a).buffers, b.width = 1 → b.height = 1 → b.cookie = 7 →
      b.busy = false → b.purge = true) ∧
    shm_get_buffer sample_sys (all_released pool_a) 1 1 7 = Except.ok (1, pool_ab) ∧
    ∃ e : Buffer,
      pool_ab.buffers = (swept (all_released pool_a) 7).map (mark 1 1 7) ++ [e] ∧
      1 = (swept (all_released pool_a) 7).length ∧ pool_ab.buffers[1]? = some e ∧
      e.cookie = 7 ∧ e.width = 1 ∧ e.height = 1 ∧
      e.stride = sample_sys.stride_for_format_and_width 1 ∧ e.size = e.stride * 1 ∧
      e.offset = 0 ∧ e.busy = true ∧ e.purge = false ∧
      e.mmap_size = e.size ∧ e.mmapped = e.real_mmapped ∧
      e.real_mmapped ≠ MAP_FAILED ∧ e.wl_buf ≠ NULL ∧ e.pix ≠ NULL ∧
      (∃ cs cs2, pool_ab.calls =
        (all_released pool_a).calls ++ cs ++ Call.mmap e.size e.fd 0 :: cs2) :=
  have hmiss : ∀ b ∈ (all_released pool_a).buffers, b.width = 1 → b.height = 1 → b.cookie = 7 →
      b.busy = false → b.purge = true := by decide
  ⟨hmiss, rfl,
    (C8_miss_appends_one_entry sample_sys (all_released pool_a) 1 1 7 hmiss).2 1 pool_ab rfl⟩

theorem filter_cookie_kept (T U : Nat) (hTU : T ≠ U) (L : List Buffer) :
    (L.filter (kept T)).filter (fun b => b.cookie == U) = L.filter (fun b => b.cookie == U) := by
  induction L with
  | nil => rfl
  | cons a L ih =>
    by_cases ha : a.cookie = U
    · have hk : kept T a = true := kept_of_ne _ _ (by rw [ha]; exact fun h => hTU h.symm)
      simp [List.filter_cons, hk, ha, ih]
    · by_cases hk : kept T a = true
      · simp [List.filter_cons, hk, ha, ih]
      · simp [List.filter_cons, hk, ha, ih]

theorem filter_cookie_mark (T U : Nat) (hTU : T ≠ U) (width height : Int) (L : List Buffer) :
    (L.map (mark width height T)).filter (fun b => b.cookie == U) =
      L.filter (fun b => b.cookie == U) := by
  induction L with
  | nil => rfl
  | cons a L ih =>
    by_cases ha : a.cookie = U
    · have hm : mark width height T a = a :=
        mark_of_ne _ _ _ _ (by rw [ha]; exact fun h => hTU h.symm)
      simp [List.filter_cons, hm, ha, ih]
    · have hc : (mark width height T a).cookie = a.cookie := by
        unfold mark
        split <;> rfl
      simp [List.filter_cons, hc, ha, ih]

theorem filter_cookie_purged (T U : Nat) (hTU : T ≠ U) (L : List Buffer) :
    (L.filter (fun b => b.cookie != T)).filter (fun b => b.cookie == U) =
      L.filter (fun b => b.cookie == U) := by
  induction L with
  | nil => rfl
  | cons a L ih =>
    by_cases ha : a.cookie = U
    · have hk : a.cookie ≠ T := by rw [ha]; exact fun h => hTU h.symm
      have hUT : ¬ U = T := fun h => hTU h.symm
      simp [List.filter_cons, ha, ih, hUT]
    · by_cases hk : a.cookie = T
      · simp [List.filter_cons, hk, ih, hTU]
      · simp [List.filter_cons, hk, ha, ih]

/-- C9: for cookies `T ≠ U`, a `shm_get_buffer` for `T` and a `shm_purge` of
`T` that return leave the entries of cookie `U` as they were, every field
included, and in the same order; the entry `shm_get_buffer` returns for
`(T, width, height)` has cookie `T`, that width and that height. -/
theorem C9_other_cookie_entries_unchanged (T U : Nat) (hTU : T ≠ U) (st : Shm) :
    (∀ (sys : Sys) (width height : Int) (i : Nat) (st2 : Shm),
      shm_get_buffer sys st width height T = Except.ok (i, st2) →
        st2.buffers.filter (fun b => b.cookie == U) =
          st.buffers.filter (fun b => b.cookie == U) ∧
        ∃ e, st2.buffers[i]? = some e ∧ e.cookie = T ∧ e.width = width ∧ e.height = height) ∧
    (∀ st2 : Shm, shm_purge st T = Except.ok st2 →
        st2.buffers.filter (fun b => b.cookie == U) =
          st.buffers.filter (fun b => b.cookie == U)) := by
  constructor
  · intro sys width height i st2 h
    constructor
    · rw [shm_get_buffer_eq_ok] at h
      obtain ⟨_, h⟩ := h
      rcases h with ⟨l2, hr, rfl⟩ | ⟨_, _, _, rfl⟩
      · rw [reuse_cached_eq_some] at hr
        obtain ⟨pre, e, post, hl, _, he, _, rfl⟩ := hr
        simp only [reusable, Bool.and_eq_true, beq_iff_eq, Bool.not_eq_true'] at he
        have hne : ¬ e.cookie = U := by rw [he.1.2]; exact hTU
        rw [← filter_cookie_kept T U hTU st.buffers]
        show List.filter _ (pre ++ _ :: post) = List.filter _ (swept st T)
        rw [hl]
        simp [List.filter_cons, hne]
      · show List.filter _ ((swept st T).map (mark width height T) ++
          [fresh_entry sys st width height T]) = _
        have hne : ¬ (fresh_entry sys st width height T).cookie = U := hTU
        rw [List.filter_append, filter_cookie_mark T U hTU, swept, filter_cookie_kept T U hTU]
        simp [List.filter_cons, hne]
    · obtain ⟨P, e, Q, hl, rfl, _, _, hc, hw, hh, _⟩ := shm_get_buffer_shape _ _ _ _ _ _ _ h
      exact ⟨e, by rw [hl]; exact getElem?_append_cons _ _ _, hc, hw, hh⟩
  · intro st2 h
    rw [shm_purge_eq_ok] at h
    obtain ⟨_, rfl⟩ := h
    exact filter_cookie_purged T U hTU st.buffers

theorem C9_other_cookie_entries_unchanged_witness :
    (7 : Nat) ≠ 8 ∧
    ((∀ (sys : Sys) (width height : Int) (i : Nat) (st2 : Shm),
      shm_get_buffer sys pool_ab width height 7 = Except.ok (i, st2) →
        st2.buffers.filter (fun b => b.cookie == 8) =
          pool_ab.buffers.filter (fun b => b.cookie == 8) ∧
        ∃ e, st2.buffers[i]? = some e ∧ e.cookie = 7 ∧ e.width = width ∧ e.height = height) ∧
    (∀ st2 : Shm, shm_purge pool_ab 7 = Except.ok st2 →
        st2.buffers.filter (fun b => b.cookie == 8) =
          pool_ab.buffers.filter (fun b => b.cookie == 8))) :=
  ⟨by decide, C9_other_cookie_entries_unchanged 7 8 (by decide) pool_ab⟩

theorem land_low_mask (n k : Nat) : n &&& (2 ^ k - 1) = n % 2 ^ k :=
  Nat.and_pow_two_sub_one_eq_mod n k

theorem land_high_mask (n k : Nat) (hk : k ≤ 64) (hn : n < 2 ^ 64) :
    n &&& (2 ^ 64 - 2 ^ k) = n - n % 2 ^ k := by
  have hpos := Nat.two_pow_pos k
  have hle : 2 ^ k ≤ 2 ^ 64 := Nat.pow_le_pow_right (by decide) hk
  have h1 : 2 ^ 64 - 2 ^ k = 2 ^ 64 - ((2 ^ k - 1) + 1) := by omega
  have h2 : n - n % 2 ^ k = (n >>> k) <<< k := by
    rw [Nat.shiftLeft_eq, Nat.shiftRight_eq_div_pow]
    have := Nat.div_add_mod n (2 ^ k)
    rw [Nat.mul_comm] at this
    omega
  apply Nat.eq_of_testBit_eq
  intro i
  rw [Nat.testBit_and, h1, Nat.testBit_two_pow_sub_succ (by omega), Nat.testBit_two_pow_sub_one,
    h2, Nat.testBit_shiftLeft, Nat.testBit_shiftRight]
  by_cases hik : k ≤ i
  · have e : k + (i - k) = i := by omega
    by_cases hi : i < 64
    · simp [hik, hi, e, Nat.not_lt.mpr hik]
    · have hf : n.testBit i = false :=
        Nat.testBit_eq_false_of_lt (lt_of_lt_of_le hn (Nat.pow_le_pow_right (by decide) (by omega)))
      simp [hik, hi, e, hf]
  · have : i < k := by omega
    simp [hik, this]

theorem u64_mask (k : Nat) (hk : k < 64) :
    u64 ((2 : Int) ^ k - 1) = ((2 ^ k - 1 : Nat) : Int) ∧
    u64 (not64 ((2 : Int) ^ k - 1)) = ((2 ^ 64 - 2 ^ k : Nat) : Int) := by
  have hpos := Nat.two_pow_pos k
  have hle : 2 ^ k ≤ 2 ^ 63 := Nat.pow_le_pow_right (by decide) (by omega)
  have hc : ((2 ^ k : Nat) : Int) = (2 : Int) ^ k := by push_cast; rfl
  unfold not64 u64
  omega

theorem and64_low_mask (off : Int) (k : Nat) (hk : k < 64) (h0 : 0 ≤ off) (h1 : off < 2 ^ 64) :
    and64 off (2 ^ k - 1) = off % 2 ^ k := by
  lift off to Nat using h0
  have e1 : u64 (off : Int) = off := by
    unfold u64
    omega
  unfold and64
  rw [e1, (u64_mask k hk).1, Int.toNat_ofNat, Int.toNat_ofNat, land_low_mask]
  push_cast
  rfl

theorem and64_high_mask (off : Int) (k : Nat) (hk : k < 64) (h0 : 0 ≤ off) (h1 : off < 2 ^ 64) :
    and64 off (not64 (2 ^ k - 1)) = off - off % 2 ^ k := by
  lift off to Nat using h0
  have hn : off < 2 ^ 64 := by omega
  have e1 : u64 (off : Int) = off := by
    unfold u64
    omega
  unfold and64
  rw [e1, (u64_mask k hk).2, Int.toNat_ofNat, Int.toNat_ofNat,
    land_high_mask off k (by omega) hn, Nat.cast_sub (Nat.mod_le _ _)]
  push_cast
  rfl

/-- When the assertions of lines 126 and 127 stop `instantiate_offset`. -/
theorem instantiate_offset_alignment_asserts (sys : Sys) (st : Shm) (buf : Buffer)
    (new_offset : Int) (n : Nat)
    (h : instantiate_offset sys st buf new_offset = Except.error (Fault.assert n)) :
    (n = 126 → ¬ aligned_offset_of (page_size_of sys st) new_offset ≤ new_offset) ∧
    (n = 127 → ¬ buf.size ≤ mmap_size_of (page_size_of sys st) buf new_offset) := by
  unfold instantiate_offset at h
  simp only [bind_eq_error, bind_eq_ok, assert_eq_error, assert_eq_ok, Prod.exists,
    ite_throw_eq_error, pure_ne_error, Fault.assert.injEq, decide_eq_false_iff_not,
    decide_eq_true_eq, reduceCtorEq, and_false, false_or, or_false, false_and] at h
  have hps : ∀ s, page_size sys s = Except.error (Fault.assert n) → n = 101 := by
    intro s hs
    have := page_size_eq_error _ _ _ hs
    simpa using this
  rcases h with ⟨_, rfl⟩ | ⟨_, _, ⟨_, rfl⟩ | ⟨_, _, ⟨_, rfl⟩ | ⟨_, _, ⟨_, rfl⟩ | ⟨_, _,
    ⟨_, rfl⟩ | ⟨_, _, ⟨h113, rfl⟩ | ⟨_, _, hp | ⟨ps1, st1, hp1, hp | ⟨ps2, st2, hp2,
    ⟨h126, rfl⟩ | ⟨_, _, ⟨h127, rfl⟩ | ⟨_, hf⟩⟩⟩⟩⟩⟩⟩⟩⟩⟩
  · exact ⟨fun h => by omega, fun h => by omega⟩
  · exact ⟨fun h => by omega, fun h => by omega⟩
  · exact ⟨fun h => by omega, fun h => by omega⟩
  · exact ⟨fun h => by omega, fun h => by omega⟩
  · exact ⟨fun h => by omega, fun h => by omega⟩
  · exact ⟨fun h => by omega, fun h => by omega⟩
  · have := hps _ hp
    exact ⟨fun h => by omega, fun h => by omega⟩
  · have := hps _ hp
    exact ⟨fun h => by omega, fun h => by omega⟩
  · refine ⟨fun _ => ?_, fun h => by omega⟩
    rw [page_size_eq_ok] at hp1
    rw [← hp1.2.1]
    exact h126
  · refine ⟨fun h => by omega, fun _ => ?_⟩
    have hp3 := page_size_again _ _ _ _ hp1
    rw [hp3] at hp2
    simp only [Except.ok.injEq, Prod.mk.injEq] at hp2
    rw [page_size_eq_ok] at hp1
    rw [← hp1.2.1, hp2.1]
    intro hle
    exact h127 hle
  · exact hf.elim

/-- The values `instantiate_offset` computes for a page size `2 ^ k`. -/
theorem alignment_values (k : Nat) (hk : k < 64) (new_offset size : Int) (h0 : 0 ≤ new_offset)
    (hs : 0 ≤ size) (h1 : new_offset + size ≤ max_pool_size) :
    aligned_offset_of (2 ^ k) new_offset = new_offset - new_offset % 2 ^ k ∧
    page_offset_of (2 ^ k) new_offset = new_offset % 2 ^ k ∧
    u64 (size + page_offset_of (2 ^ k) new_offset) = size + new_offset % 2 ^ k := by
  have hm := max_pool_size_eq
  have hlt : new_offset < 2 ^ 64 := by omega
  have hpos : (0 : Int) < 2 ^ k := by positivity
  have hmod0 := Int.emod_nonneg new_offset (ne_of_gt hpos)
  have hmodle : new_offset % 2 ^ k ≤ new_offset := by
    by_cases hc : new_offset < 2 ^ k
    · rw [Int.emod_eq_of_lt h0 hc]
    · have := Int.emod_lt_of_pos new_offset hpos
      omega
  refine ⟨?_, and64_low_mask new_offset k hk h0 hlt, ?_⟩
  · unfold aligned_offset_of
    rw [and64_high_mask new_offset k hk h0 hlt]
    unfold s64
    omega
  · unfold page_offset_of
    rw [and64_low_mask new_offset k hk h0 hlt]
    unfold u64
    omega

/-- C10: for a page size `2 ^ k` and `new_offset ≥ 0` with `new_offset + size ≤
max_pool_size`, the `aligned_offset` of `instantiate_offset` is the largest
multiple of the page size that is `≤ new_offset`, its `page_offset` is
`new_offset - aligned_offset` and lies in `[0, page size)`, and its `mmap_size`
is `size + page_offset`; the assertions `aligned_offset <= new_offset` (line
126) and `mmap_size >= buf->size` (line 127) do not fail; and when
`instantiate_offset` returns it has called `mmap` for exactly
`size + page_offset` bytes of the file at `aligned_offset`, and the pixel data
starts `page_offset` bytes into the mapping. -/
theorem C10_page_aligned_mapping (sys : Sys) (st : Shm) (buf : Buffer) (new_offset : Int)
    (k : Nat) (hk : k < 64) (hps : page_size_of sys st = 2 ^ k) (h0 : 0 ≤ new_offset)
    (hs : 0 ≤ buf.size) (h1 : new_offset + buf.size ≤ max_pool_size) :
    ((2 : Int) ^ k ∣ aligned_offset_of (2 ^ k) new_offset ∧
      aligned_offset_of (2 ^ k) new_offset ≤ new_offset ∧
      ∀ m : Int, (2 : Int) ^ k ∣ m → m ≤ new_offset → m ≤ aligned_offset_of (2 ^ k) new_offset) ∧
    (page_offset_of (2 ^ k) new_offset = new_offset - aligned_offset_of (2 ^ k) new_offset ∧
      0 ≤ page_offset_of (2 ^ k) new_offset ∧ page_offset_of (2 ^ k) new_offset < 2 ^ k) ∧
    (mmap_size_of (2 ^ k) buf new_offset = buf.size + page_offset_of (2 ^ k) new_offset ∧
      buf.size ≤ mmap_size_of (2 ^ k) buf new_offset) ∧
    instantiate_offset sys st buf new_offset ≠ Except.error (Fault.assert 126) ∧
    instantiate_offset sys st buf new_offset ≠ Except.error (Fault.assert 127) ∧
    (∀ (r : Bool) (buf2 : Buffer) (st2 : Shm),
      instantiate_offset sys st buf new_offset = Except.ok (r, buf2, st2) →
        (∃ cs cs2, st2.calls = st.calls ++ cs ++
          Call.mmap (buf.size + page_offset_of (2 ^ k) new_offset) buf.fd
            (aligned_offset_of (2 ^ k) new_offset) :: cs2) ∧
        buf2.mmap_size = buf.size + page_offset_of (2 ^ k) new_offset ∧
        buf2.mmapped = buf2.real_mmapped + page_offset_of (2 ^ k) new_offset ∧
        buf2.offset = new_offset) := by
  obtain ⟨ha, hp, hmm⟩ := alignment_values k hk new_offset buf.size h0 hs h1
  have hpos : (0 : Int) < 2 ^ k := by positivity
  have hmod0 := Int.emod_nonneg new_offset (ne_of_gt hpos)
  have hmodlt := Int.emod_lt_of_pos new_offset hpos
  have hdef : new_offset - new_offset % 2 ^ k = 2 ^ k * (new_offset / 2 ^ k) := by
    rw [Int.emod_def]
    omega
  have hsz : mmap_size_of (2 ^ k) buf new_offset = buf.size + page_offset_of (2 ^ k) new_offset := by
    unfold mmap_size_of
    rw [hmm, hp]
  refine ⟨⟨?_, ?_, ?_⟩, ⟨?_, ?_, ?_⟩, ⟨hsz, ?_⟩, ?_, ?_, ?_⟩
  · rw [ha, hdef]
    exact Dvd.intro _ rfl
  · rw [ha]
    omega
  · rintro m ⟨c, rfl⟩ hle
    rw [ha, hdef]
    exact Int.mul_le_mul_of_nonneg_left (Int.le_ediv_of_mul_le hpos (by rw [Int.mul_comm]; exact hle))
      (le_of_lt hpos)
  · rw [ha, hp]
    omega
  · rw [hp]
    exact hmod0
  · rw [hp]
    exact hmodlt
  · rw [hsz, hp]
    omega
  · intro h
    have h126 := (instantiate_offset_alignment_asserts _ _ _ _ _ h).1 rfl
    rw [hps, ha] at h126
    omega
  · intro h
    have h127 := (instantiate_offset_alignment_asserts _ _ _ _ _ h).2 rfl
    rw [hps, hsz, hp] at h127
    omega
  · intro r buf2 st2 h
    rw [instantiate_offset_eq_ok] at h
    obtain ⟨_, _, rfl, rfl⟩ := h
    refine ⟨⟨page_size_calls st,
      (instantiate_calls sys (st.now + (page_size_calls st).length) (page_size_of sys st)
        buf new_offset).tail, ?_⟩, ?_, ?_, rfl⟩
    · simp only [after_instantiate, instantiate_calls, List.tail_cons, hps, hsz]
    · show mmap_size_of (page_size_of sys st) buf new_offset = _
      rw [hps, hsz]
    · show _ + page_offset_of (page_size_of sys st) new_offset = _
      rw [hps]
      rfl

theorem C10_page_aligned_mapping_witness :
    (12 < 64 ∧ page_size_of sample_sys shm_init = 2 ^ 12 ∧ (0 : Int) ≤ 5000 ∧
      0 ≤ (pushed sample_sys shm_init 2 2 7).size ∧
      5000 + (pushed sample_sys shm_init 2 2 7).size ≤ max_pool_size) ∧
    aligned_offset_of (2 ^ 12) 5000 = 4096 ∧ page_offset_of (2 ^ 12) 5000 = 904 ∧
    mmap_size_of (2 ^ 12) (pushed sample_sys shm_init 2 2 7) 5000 = 920 ∧
    (((2 : Int) ^ 12 ∣ aligned_offset_of (2 ^ 12) 5000 ∧
      aligned_offset_of (2 ^ 12) 5000 ≤ 5000 ∧
      ∀ m : Int, (2 : Int) ^ 12 ∣ m → m ≤ 5000 → m ≤ aligned_offset_of (2 ^ 12) 5000) ∧
    (page_offset_of (2 ^ 12) 5000 = 5000 - aligned_offset_of (2 ^ 12) 5000 ∧
      0 ≤ page_offset_of (2 ^ 12) 5000 ∧ page_offset_of (2 ^ 12) 5000 < 2 ^ 12) ∧
    (mmap_size_of (2 ^ 12) (pushed sample_sys shm_init 2 2 7) 5000 =
        (pushed sample_sys shm_init 2 2 7).size + page_offset_of (2 ^ 12) 5000 ∧
      (pushed sample_sys shm_init 2 2 7).size ≤
        mmap_size_of (2 ^ 12) (pushed sample_sys shm_init 2 2 7) 5000) ∧
    instantiate_offset sample_sys shm_init (pushed sample_sys shm_init 2 2 7) 5000 ≠
      Except.error (Fault.assert 126) ∧
    instantiate_offset sample_sys shm_init (pushed sample_sys shm_init 2 2 7) 5000 ≠
      Except.error (Fault.assert 127) ∧
    (∀ (r : Bool) (buf2 : Buffer) (st2 : Shm),
      instantiate_offset sample_sys shm_init (pushed sample_sys shm_init 2 2 7) 5000 =
          Except.ok (r, buf2, st2) →
        (∃ cs cs2, st2.calls = shm_init.calls ++ cs ++
          Call.mmap ((pushed sample_sys shm_init 2 2 7).size + page_offset_of (2 ^ 12) 5000)
            (pushed sample_sys shm_init 2 2 7).fd (aligned_offset_of (2 ^ 12) 5000) :: cs2) ∧
        buf2.mmap_size =
          (pushed sample_sys shm_init 2 2 7).size + page_offset_of (2 ^ 12) 5000 ∧
        buf2.mmapped = buf2.real_mmapped + page_offset_of (2 ^ 12) 5000 ∧
        buf2.offset = 5000)) :=
  ⟨⟨by decide, rfl, by decide, by decide, by decide⟩, rfl, rfl, rfl,
    C10_page_aligned_mapping sample_sys shm_init (pushed sample_sys shm_init 2 2 7) 5000 12
      (by decide) rfl (by decide) (by decide) (by decide)⟩

/-- C11: after an `instantiate_offset` that returns, at `new_offset ≥ 0` with
`new_offset + size ≤ max_pool_size`, for a page size `2 ^ k` and an entry with
`size = stride * height`, the pixel view is
made over `mmapped = real_mmapped + page_offset`, so its row `r` starts
`page_offset + r * stride` bytes into the mapping, for every `0 ≤ r < height`;
the row lies inside the `size + page_offset` bytes mapped, and the byte it
starts at is byte `new_offset + r * stride` of the backing file. -/
theorem C11_pixel_rows_in_mapping (sys : Sys) (st st2 : Shm) (buf buf2 : Buffer)
    (new_offset : Int) (ret : Bool) (k : Nat) (hk : k < 64)
    (hps : page_size_of sys st = 2 ^ k) (h0 : 0 ≤ new_offset) (hs : 0 ≤ buf.size)
    (hsz : buf.size = buf.stride * buf.height) (h1 : new_offset + buf.size ≤ max_pool_size)
    (h : instantiate_offset sys st buf new_offset = Except.ok (ret, buf2, st2)) :
    buf2.mmapped = buf2.real_mmapped + page_offset_of (2 ^ k) new_offset ∧
    buf2.mmap_size = buf.size + page_offset_of (2 ^ k) new_offset ∧
    (∃ cs cs2, st2.calls = st.calls ++ cs ++
      Call.pixman_image_create_bits_no_clear buf.width buf.height buf2.mmapped buf.stride ::
        cs2) ∧
    ∀ r : Int, 0 ≤ r → r < buf.height →
      row_address buf2.mmapped buf2.stride r =
        buf2.real_mmapped + (page_offset_of (2 ^ k) new_offset + r * buf.stride) ∧
      0 ≤ page_offset_of (2 ^ k) new_offset + r * buf.stride ∧
      page_offset_of (2 ^ k) new_offset + (r + 1) * buf.stride ≤ buf2.mmap_size ∧
      mapped_file_offset (aligned_offset_of (2 ^ k) new_offset)
        (page_offset_of (2 ^ k) new_offset + r * buf.stride) = new_offset + r * buf.stride := by
  rw [instantiate_offset_eq_ok] at h
  obtain ⟨hi, _, rfl, rfl⟩ := h
  have hm := max_pool_size_eq
  obtain ⟨ha, hp, hmm⟩ := alignment_values k hk new_offset buf.size h0 hs h1
  have hpos : (0 : Int) < 2 ^ k := by positivity
  have hmod0 := Int.emod_nonneg new_offset (ne_of_gt hpos)
  have hms : mmap_size_of (2 ^ k) buf new_offset = buf.size + page_offset_of (2 ^ k) new_offset := by
    unfold mmap_size_of
    rw [hmm, hp]
  refine ⟨?_, ?_, ⟨page_size_calls st ++
      (instantiate_calls sys (st.now + (page_size_calls st).length) (page_size_of sys st)
        buf new_offset).take 4,
      (instantiate_calls sys (st.now + (page_size_calls st).length) (page_size_of sys st)
        buf new_offset).drop 5, ?_⟩, ?_⟩
  · show _ + page_offset_of (page_size_of sys st) new_offset = _
    rw [hps]
    rfl
  · show mmap_size_of (page_size_of sys st) buf new_offset = _
    rw [hps, hms]
  · simp [after_instantiate, instantiate_calls, instantiated, List.append_assoc]
  · intro r hr0 hrh
    have hst : 0 ≤ buf.stride := by
      by_contra hneg
      have : buf.stride * buf.height < 0 :=
        Int.mul_neg_of_neg_of_pos (by omega) (by omega)
      omega
    have hrs : 0 ≤ r * buf.stride := Int.mul_nonneg hr0 hst
    have hle : (r + 1) * buf.stride ≤ buf.height * buf.stride :=
      Int.mul_le_mul_of_nonneg_right (by omega) hst
    have hcomm : buf.height * buf.stride = buf.stride * buf.height := Int.mul_comm _ _
    refine ⟨?_, ?_, ?_, ?_⟩
    · show (_ + page_offset_of (page_size_of sys st) new_offset) + r * buf.stride = _
      rw [hps]
      exact Int.add_assoc _ _ _
    · rw [hp]
      omega
    · show _ ≤ mmap_size_of (page_size_of sys st) buf new_offset
      rw [hps, hms, hp]
      omega
    · unfold mapped_file_offset
      rw [ha, hp]
      omega

theorem C11_pixel_rows_in_mapping_witness :
    (12 < 64 ∧ page_size_of sample_sys shm_init = 2 ^ 12 ∧ (0 : Int) ≤ 5000 ∧
      0 ≤ (pushed sample_sys shm_init 2 2 7).size ∧
      (pushed sample_sys shm_init 2 2 7).size =
        (pushed sample_sys shm_init 2 2 7).stride * (pushed sample_sys shm_init 2 2 7).height ∧
      5000 + (pushed sample_sys shm_init 2 2 7).size ≤ max_pool_size) ∧
    instantiate_offset sample_sys shm_init (pushed sample_sys shm_init 2 2 7) 5000 =
      Except.ok (true,
        instantiated sample_sys 1 4096 (pushed sample_sys shm_init 2 2 7) 5000,
        after_instantiate sample_sys shm_init (pushed sample_sys shm_init 2 2 7) 5000) ∧
    row_address (instantiated sample_sys 1 4096 (pushed sample_sys shm_init 2 2 7) 5000).mmapped
      8 1 = 8192 + 904 + 8 ∧
    ∀ r : Int, 0 ≤ r → r < (pushed sample_sys shm_init 2 2 7).height →
      row_address (instantiated sample_sys 1 4096 (pushed sample_sys shm_init 2 2 7) 5000).mmapped
        (instantiated sample_sys 1 4096 (pushed sample_sys shm_init 2 2 7) 5000).stride r =
        (instantiated sample_sys 1 4096 (pushed sample_sys shm_init 2 2 7) 5000).real_mmapped +
          (page_offset_of (2 ^ 12) 5000 + r * (pushed sample_sys shm_init 2 2 7).stride) ∧
      0 ≤ page_offset_of (2 ^ 12) 5000 + r * (pushed sample_sys shm_init 2 2 7).stride ∧
      page_offset_of (2 ^ 12) 5000 + (r + 1) * (pushed sample_sys shm_init 2 2 7).stride ≤
        (instantiated sample_sys 1 4096 (pushed sample_sys shm_init 2 2 7) 5000).mmap_size ∧
      mapped_file_offset (aligned_offset_of (2 ^ 12) 5000)
        (page_offset_of (2 ^ 12) 5000 + r * (pushed sample_sys shm_init 2 2 7).stride) =
        5000 + r * (pushed sample_sys shm_init 2 2 7).stride :=
  have h : instantiate_offset sample_sys shm_init (pushed sample_sys shm_init 2 2 7) 5000 =
      Except.ok (true,
        instantiated sample_sys 1 4096 (pushed sample_sys shm_init 2 2 7) 5000,
        after_instantiate sample_sys shm_init (pushed sample_sys shm_init 2 2 7) 5000) := rfl
  ⟨⟨by decide, rfl, by decide, by decide, rfl, by decide⟩, h, rfl,
    (C11_pixel_rows_in_mapping sample_sys shm_init _ (pushed sample_sys shm_init 2 2 7) _ 5000
      true 12 (by decide) rfl (by decide) (by decide) rfl (by decide) h).2.2.2⟩

theorem countP_memcpy_destroy (b : Buffer) :
    (buffer_destroy_dont_close b).2.countP Call.is_memcpy = 0 := by
  unfold buffer_destroy_dont_close
  simp only [List.countP_append]
  split <;> split <;> split <;> simp [Call.is_memcpy]

theorem countP_memcpy_page_size (st : Shm) : (page_size_calls st).countP Call.is_memcpy = 0 := by
  unfold page_size_calls
  split <;> simp [Call.is_memcpy]

theorem countP_memcpy_instantiate (sys : Sys) (n : Nat) (ps : Int) (b : Buffer) (o : Int) :
    (instantiate_calls sys n ps b o).countP Call.is_memcpy = 0 := by
  simp [instantiate_calls, Call.is_memcpy]

theorem countP_memcpy_top_move (b : Buffer) (rows tm tk : Int) :
    (forward_top_move b rows tm tk).countP Call.is_memcpy = 0 := by
  unfold forward_top_move
  split <;> simp [Call.is_memcpy]

theorem countP_memcpy_bottom_move (b : Buffer) (rows bm bk : Int) :
    (forward_bottom_move b rows bm bk).countP Call.is_memcpy = 0 := by
  unfold forward_bottom_move
  split <;> simp [Call.is_memcpy]

/-- The mapping of a buffer at offset 0 has the size of the buffer. -/
theorem mmap_size_of_zero_offset (ps : Int) (b : Buffer) (h0 : 0 ≤ b.size)
    (h1 : b.size ≤ max_pool_size) : mmap_size_of ps b 0 = b.size := by
  unfold mmap_size_of
  rw [page_offset_of_zero]
  have hm := max_pool_size_eq
  unfold u64
  omega

theorem after_wrap_calls (sys : Sys) (st : Shm) (buf : Buffer) (o : Int) :
    (after_wrap sys st buf o).calls = st.calls ++ wrap_calls sys st buf o := by
  have e : (wrap_state sys st buf o).calls = st.calls ++ (page_size_calls st ++
      [Call.mmap (mmap_size_of (page_size_of sys st) buf o) buf.fd
         (aligned_offset_of (page_size_of sys st) o),
       Call.memcpy
         (mmap_of sys (st.now + (page_size_calls st).length) (page_size_of sys st) buf o +
           page_offset_of (page_size_of sys st) o) buf.mmapped buf.size,
       Call.munmap
         (mmap_of sys (st.now + (page_size_calls st).length) (page_size_of sys st) buf o)
         (mmap_size_of (page_size_of sys st) buf o)] ++
      (buffer_destroy_dont_close buf).2) := by
    simp [wrap_state, List.append_assoc]
  unfold after_wrap after_instantiate wrap_calls
  show (wrap_state sys st buf o).calls ++ _ ++ _ = _
  rw [e]
  simp only [List.append_assoc]

theorem after_scroll_forward_calls (sys : Sys) (st : Shm) (buf : Buffer)
    (rows tm tk bm bk : Int) :
    (after_scroll_forward sys st buf rows tm tk bm bk).calls =
      (forward_state sys st buf rows).calls ++
        Call.ftruncate (forward_entry sys st buf rows).fd
          (s64 (u64 (forward_offset sys st buf rows + (forward_entry sys st buf rows).size))) ::
        forward_rest_calls sys st buf rows tm tk bm bk := by
  have e : (forward_remap_state sys st buf rows tm tk).calls =
      (forward_state sys st buf rows).calls ++
      [Call.ftruncate (forward_entry sys st buf rows).fd
        (s64 (u64 (forward_offset sys st buf rows + (forward_entry sys st buf rows).size)))] ++
      forward_top_move (forward_entry sys st buf rows) rows tm tk ++
      (buffer_destroy_dont_close (forward_entry sys st buf rows)).2 ++
      (if forward_offset sys st buf rows > 0 then
        [Call.fallocate (forward_entry sys st buf rows).fd 0 (forward_offset sys st buf rows)]
       else []) := rfl
  unfold after_scroll_forward after_instantiate forward_rest_calls
  show (forward_remap_state sys st buf rows tm tk).calls ++ _ ++ _ ++ _ = _
  rw [e]
  simp only [List.append_assoc, List.singleton_append, List.cons_append, List.nil_append]

theorem countP_memcpy_wrap (sys : Sys) (st : Shm) (buf : Buffer) (o : Int) :
    (wrap_calls sys st buf o).countP Call.is_memcpy = 1 := by
  unfold wrap_calls
  simp only [List.countP_append, countP_memcpy_destroy, countP_memcpy_page_size,
    countP_memcpy_instantiate]
  simp [Call.is_memcpy]

theorem countP_memcpy_forward_rest (sys : Sys) (st : Shm) (buf : Buffer)
    (rows tm tk bm bk : Int) :
    (forward_rest_calls sys st buf rows tm tk bm bk).countP Call.is_memcpy = 0 := by
  unfold forward_rest_calls
  simp only [List.countP_append, countP_memcpy_top_move, countP_memcpy_destroy,
    countP_memcpy_page_size, countP_memcpy_instantiate, countP_memcpy_bottom_move]
  split <;> simp [Call.is_memcpy]

/-- C13 (amended): a forward scroll of `rows > 0` that returns, on an entry
within the pool bound, has wrapped exactly when `offset + rows * stride + size >
max_pool_size`: then it made one `memcpy` of the buffer to a mapping of the
file at offset 0, before the `ftruncate` to the new end, and the entry ends at
offset `rows * stride`; otherwise it made no call before that `ftruncate`, no
`memcpy` at all, and the entry ends at `offset + rows * stride`.  In both cases
`rows * stride < size`. -/
theorem C13_forward_wrap_once (sys : Sys) (st st2 : Shm) (buf buf2 : Buffer)
    (rows tm tk bm bk : Int) (ret : Bool)
    (hinv : 0 ≤ buf.offset ∧ 0 ≤ buf.size ∧ buf.offset + buf.size ≤ max_pool_size ∧
      0 ≤ buf.stride)
    (h : shm_scroll_forward sys st buf rows tm tk bm bk = Except.ok (ret, buf2, st2)) :
    0 < rows ∧ rows * buf.stride < buf.size ∧
    ∃ W R : List Call,
      st2.calls = st.calls ++ W ++ Call.ftruncate buf.fd (buf2.offset + buf.size) :: R ∧
      R.countP Call.is_memcpy = 0 ∧
      (buf.offset + rows * buf.stride + buf.size > max_pool_size →
        buf.offset > buf.size ∧ W.countP Call.is_memcpy = 1 ∧
        Call.mmap buf.size buf.fd 0 ∈ W ∧
        Call.memcpy (mmap_of sys (st.now + (page_size_calls st).length) (page_size_of sys st)
          buf 0) buf.mmapped buf.size ∈ W ∧
        buf2.offset = rows * buf.stride) ∧
      (¬ buf.offset + rows * buf.stride + buf.size > max_pool_size →
        W = [] ∧ buf2.offset = buf.offset + rows * buf.stride) := by
  obtain ⟨_, _, _, hrows, hrange, h382, _⟩ := shm_scroll_forward_ok _ _ _ _ _ _ _ _ _ _ _ h
  obtain ⟨hwr, hi, _, rfl, rfl⟩ := shm_scroll_forward_returns _ _ _ _ _ _ _ _ _ _ _ h
  obtain ⟨ho, hs, hos, hst⟩ := hinv
  have hm := max_pool_size_eq
  have hmul : 0 ≤ rows * buf.stride := Int.mul_nonneg (le_of_lt hrows) hst
  have hiff : forward_wraps buf rows ↔ buf.offset + rows * buf.stride + buf.size > max_pool_size := by
    unfold forward_wraps u64
    unfold INT_MIN INT_MAX at hrange
    omega
  have h382b : rows * buf.stride < buf.size := by
    unfold u64 at h382
    unfold INT_MIN INT_MAX at hrange
    omega
  refine ⟨hrows, h382b, ?_⟩
  have h6 := hi.2.2.2.2.2.1
  by_cases hw : forward_wraps buf rows
  · have hfe : forward_entry sys st buf rows = wrapped_entry sys st buf 0 := by
      simp [forward_entry, hw]
    have hfs : forward_state sys st buf rows = after_wrap sys st buf 0 := by
      simp [forward_state, hw]
    have hoff : forward_offset sys st buf rows = rows * buf.stride := by
      simp [forward_offset, hfe, wrapped_entry, instantiated]
    have hlen : s64 (u64 (forward_offset sys st buf rows +
        (forward_entry sys st buf rows).size)) = rows * buf.stride + buf.size := by
      rw [hoff, hfe]
      simp only [wrapped_entry, instantiated, buffer_destroy_dont_close]
      unfold s64 u64
      omega
    have e2 : (forward_entry sys st buf rows).fd = buf.fd := by
      simp [hfe, wrapped_entry, instantiated, buffer_destroy_dont_close]
    have e3 : (scrolled_forward sys st buf rows tm tk).offset = rows * buf.stride := by
      simp [scrolled_forward, instantiated, hoff]
    obtain ⟨h386, _, _⟩ := hwr hw
    refine ⟨wrap_calls sys st buf 0, forward_rest_calls sys st buf rows tm tk bm bk, ?_,
      countP_memcpy_forward_rest _ _ _ _ _ _ _ _, ?_, ?_⟩
    · rw [after_scroll_forward_calls, hfs, after_wrap_calls, hlen, e2, e3]
    · intro _
      have hu : u64 buf.offset = buf.offset := by unfold u64; omega
      rw [hu] at h386
      refine ⟨h386, countP_memcpy_wrap _ _ _ _, ?_, ?_, e3⟩
      · unfold wrap_calls
        rw [mmap_size_of_zero_offset _ _ hs (by omega), aligned_offset_of_zero]
        simp
      · unfold wrap_calls
        rw [page_offset_of_zero, add_zero]
        simp
    · intro hn
      exact absurd (hiff.mp hw) hn
  · have hfe : forward_entry sys st buf rows = buf := by simp [forward_entry, hw]
    have hfs : forward_state sys st buf rows = st := by simp [forward_state, hw]
    have hoff : forward_offset sys st buf rows = buf.offset + rows * buf.stride := by
      simp [forward_offset, hfe]
    have hnw : ¬ buf.offset + rows * buf.stride + buf.size > max_pool_size :=
      fun hx => hw (hiff.mpr hx)
    have hlen : s64 (u64 (forward_offset sys st buf rows +
        (forward_entry sys st buf rows).size)) = buf.offset + rows * buf.stride + buf.size := by
      rw [hoff, hfe]
      unfold s64 u64
      omega
    have e3 : (scrolled_forward sys st buf rows tm tk).offset =
        buf.offset + rows * buf.stride := by
      simp [scrolled_forward, instantiated, hoff]
    refine ⟨[], forward_rest_calls sys st buf rows tm tk bm bk, ?_,
      countP_memcpy_forward_rest _ _ _ _ _ _ _ _, ?_, ?_⟩
    · rw [after_scroll_forward_calls, hfs, hlen, hfe, e3, List.append_nil]
    · intro hx
      exact absurd hx hnw
    · intro _
      exact ⟨rfl, e3⟩

/-- C13 as stated fails at its instance: on an entry of size 300 and stride 100
at offset 700, a forward scroll of 4 rows does not wrap and end at offset 400;
it stops at the assertion `rows * buf->stride < buf->size` (line 382), which
precedes the wrap check, and so it does for the entry that ends at the pool
bound. -/
theorem C13_counterexample :
    (instance_entry.size = 300 ∧ instance_entry.stride = 100 ∧ instance_entry.offset = 700) ∧
    shm_scroll_forward sample_sys scroll_state instance_entry 4 0 0 0 0 =
      Except.error (Fault.assert 382) ∧
    shm_scroll_forward sample_sys scroll_state last_entry 4 0 0 0 0 =
      Except.error (Fault.assert 382) :=
  ⟨⟨rfl, rfl, rfl⟩, rfl, rfl⟩

theorem C13_forward_wrap_once_witness :
    (0 ≤ last_entry.offset ∧ 0 ≤ last_entry.size ∧
      last_entry.offset + last_entry.size ≤ max_pool_size ∧ 0 ≤ last_entry.stride) ∧
    last_entry.offset + 2 * last_entry.stride + last_entry.size > max_pool_size ∧
    ∃ buf2 st2,
      shm_scroll_forward sample_sys scroll_state last_entry 2 0 0 0 0 =
        Except.ok (true, buf2, st2) ∧
      buf2.offset = 200 ∧
      0 < (2 : Int) ∧ 2 * last_entry.stride < last_entry.size ∧
      ∃ W R : List Call,
        st2.calls = scroll_state.calls ++ W ++
          Call.ftruncate last_entry.fd (buf2.offset + last_entry.size) :: R ∧
        R.countP Call.is_memcpy = 0 ∧
        (last_entry.offset + 2 * last_entry.stride + last_entry.size > max_pool_size →
          last_entry.offset > last_entry.size ∧ W.countP Call.is_memcpy = 1 ∧
          Call.mmap last_entry.size last_entry.fd 0 ∈ W ∧
          Call.memcpy (mmap_of sample_sys
            (scroll_state.now + (page_size_calls scroll_state).length)
            (page_size_of sample_sys scroll_state) last_entry 0) last_entry.mmapped
            last_entry.size ∈ W ∧
          buf2.offset = 2 * last_entry.stride) ∧
        (¬ last_entry.offset + 2 * last_entry.stride + last_entry.size > max_pool_size →
          W = [] ∧ buf2.offset = last_entry.offset + 2 * last_entry.stride) :=
  have hinv : 0 ≤ last_entry.offset ∧ 0 ≤ last_entry.size ∧
      last_entry.offset + last_entry.size ≤ max_pool_size ∧ 0 ≤ last_entry.stride := by decide
  ⟨hinv, by decide,
    (fun (b : Buffer) (s : Shm)
        (h : shm_scroll_forward sample_sys scroll_state last_entry 2 0 0 0 0 =
          Except.ok (true, b, s)) (ho : b.offset = 200) =>
      ⟨b, s, h, ho,
        C13_forward_wrap_once sample_sys scroll_state s last_entry b 2 0 0 0 0 true hinv h⟩)
      _ _ rfl rfl⟩

theorem after_scroll_reverse_calls (sys : Sys) (st : Shm) (buf : Buffer)
    (rows tm tk bm bk : Int) :
    (after_scroll_reverse sys st buf rows tm tk bm bk).calls =
      (reverse_state sys st buf rows).calls ++ reverse_rest_calls sys st buf rows tm tk bm bk := by
  have e : (reverse_remap_state sys st buf rows bm bk).calls =
      (reverse_state sys st buf rows).calls ++
      reverse_bottom_move (reverse_entry sys st buf rows) rows bm bk ++
      (buffer_destroy_dont_close (reverse_entry sys st buf rows)).2 ++
      [Call.ftruncate (reverse_entry sys st buf rows).fd
        (s64 (u64 (reverse_offset sys st buf rows + (reverse_entry sys st buf rows).size)))] := rfl
  unfold after_scroll_reverse after_instantiate reverse_rest_calls
  show (reverse_remap_state sys st buf rows bm bk).calls ++ _ ++ _ ++ _ = _
  rw [e]
  simp only [List.append_assoc, List.singleton_append, List.cons_append, List.nil_append]

theorem countP_memcpy_reverse_rest (sys : Sys) (st : Shm) (buf : Buffer)
    (rows tm tk bm bk : Int) :
    (reverse_rest_calls sys st buf rows tm tk bm bk).countP Call.is_memcpy = 0 := by
  have h1 : ∀ b r m k, (reverse_bottom_move b r m k).countP Call.is_memcpy = 0 := by
    intro b r m k
    unfold reverse_bottom_move
    split <;> simp [Call.is_memcpy]
  have h2 : ∀ b r m k, (reverse_top_move b r m k).countP Call.is_memcpy = 0 := by
    intro b r m k
    unfold reverse_top_move
    split <;> simp [Call.is_memcpy]
  unfold reverse_rest_calls
  simp only [List.countP_append, h1, h2, countP_memcpy_destroy, countP_memcpy_page_size,
    countP_memcpy_instantiate]
  simp [Call.is_memcpy]

/-- Once the page size is known, asking for it again gives the same value. -/
theorem page_size_of_known (sys : Sys) (st st1 : Shm) (h : 0 < page_size_of sys st)
    (h1 : st1.page_size_size = page_size_of sys st) :
    page_size_of sys st1 = page_size_of sys st ∧ page_size_calls st1 = [] := by
  have hne : st1.page_size_size ≠ 0 := by omega
  constructor
  · show (if st1.page_size_size = 0 then _ else _) = _
    rw [if_neg hne, h1]
  · unfold page_size_calls
    rw [if_neg hne]

/-- The wrap target of a reverse scroll is a page boundary. -/
theorem wrap_target_aligned (k : Nat) (hk : k < 64) (size : Int) (h0 : 0 ≤ size)
    (h1 : size ≤ max_pool_size) :
    aligned_offset_of (2 ^ k) (max_pool_size - size) =
      (max_pool_size - size) - (max_pool_size - size) % 2 ^ k ∧
    aligned_offset_of (2 ^ k) (aligned_offset_of (2 ^ k) (max_pool_size - size)) =
      aligned_offset_of (2 ^ k) (max_pool_size - size) ∧
    page_offset_of (2 ^ k) (aligned_offset_of (2 ^ k) (max_pool_size - size)) = 0 := by
  obtain ⟨a1, _, _⟩ := alignment_values k hk (max_pool_size - size) 0 (by omega) (le_refl _)
    (by omega)
  have hpos : (0 : Int) < 2 ^ k := by positivity
  have hmod0 := Int.emod_nonneg (max_pool_size - size) (ne_of_gt hpos)
  have hmodle : (max_pool_size - size) % 2 ^ k ≤ max_pool_size - size := by
    by_cases hc : max_pool_size - size < 2 ^ k
    · rw [Int.emod_eq_of_lt (by omega) hc]
    · have := Int.emod_lt_of_pos (max_pool_size - size) hpos
      omega
  have hz : ((max_pool_size - size) - (max_pool_size - size) % 2 ^ k) % 2 ^ k = 0 := by
    rw [Int.emod_def (max_pool_size - size) (2 ^ k)]
    have : max_pool_size - size - (max_pool_size - size - 2 ^ k * ((max_pool_size - size) / 2 ^ k)) =
        2 ^ k * ((max_pool_size - size) / 2 ^ k) := by omega
    rw [this]
    exact Int.mul_emod_right _ _
  obtain ⟨b1, b2, _⟩ := alignment_values k hk
    ((max_pool_size - size) - (max_pool_size - size) % 2 ^ k) 0 (by omega) (le_refl _) (by omega)
  refine ⟨a1, ?_, ?_⟩
  · rw [a1, b1, hz]
    omega
  · rw [a1, b2, hz]

/-- A reverse scroll by `rows > 0` that returns, in an environment whose
`mmap` refuses a negative file offset, has wrapped exactly when
`rows * stride > offset`: then it made one `memcpy`, of the `size` bytes of the
buffer, to a mapping of the file at the wrap target
`(max_pool_size - size) & ~(page size - 1)`, which for a page size `2 ^ k` is
`max_pool_size - size` rounded down to a multiple of the page size, and the
entry ends at that target minus `rows * stride`; otherwise it made no `memcpy`
and the entry ends at `offset - rows * stride`.  The offset it ends at is
never negative. -/
theorem reverse_wrap_offsets (sys : Sys) (st st2 : Shm) (buf buf2 : Buffer)
    (rows tm tk bm bk : Int) (ret : Bool) (hp : sys.Posix)
    (h : shm_scroll_reverse sys st buf rows tm tk bm bk = Except.ok (ret, buf2, st2)) :
    0 < rows ∧ 0 ≤ buf2.offset ∧
    ∃ cs : List Call, st2.calls = st.calls ++ cs ∧
      (rows * buf.stride > buf.offset →
        buf2.offset = reverse_target sys st buf - rows * buf.stride ∧
        cs.countP Call.is_memcpy = 1 ∧
        Call.ftruncate buf.fd max_pool_size ∈ cs ∧
        Call.mmap (mmap_size_of (page_size_of sys (reverse_wrap_state sys st buf)) buf
            (reverse_target sys st buf)) buf.fd
          (aligned_offset_of (page_size_of sys (reverse_wrap_state sys st buf))
            (reverse_target sys st buf)) ∈ cs ∧
        Call.memcpy
          (mmap_of sys ((reverse_wrap_state sys st buf).now +
              (page_size_calls (reverse_wrap_state sys st buf)).length)
            (page_size_of sys (reverse_wrap_state sys st buf)) buf (reverse_target sys st buf) +
            page_offset_of (page_size_of sys (reverse_wrap_state sys st buf))
              (reverse_target sys st buf))
          buf.mmapped buf.size ∈ cs ∧
        ∀ k : Nat, k < 64 →
          page_size_of sys (st.call (Call.ftruncate buf.fd max_pool_size)) = 2 ^ k →
          0 ≤ buf.size → buf.size ≤ max_pool_size →
            reverse_target sys st buf =
              (max_pool_size - buf.size) - (max_pool_size - buf.size) % 2 ^ k ∧
            aligned_offset_of (page_size_of sys (reverse_wrap_state sys st buf))
              (reverse_target sys st buf) = reverse_target sys st buf ∧
            page_offset_of (page_size_of sys (reverse_wrap_state sys st buf))
              (reverse_target sys st buf) = 0) ∧
      (¬ rows * buf.stride > buf.offset →
        cs.countP Call.is_memcpy = 0 ∧ buf2.offset = buf.offset - rows * buf.stride) := by
  obtain ⟨_, hrows, _⟩ := shm_scroll_reverse_ok _ _ _ _ _ _ _ _ _ _ _ h
  obtain ⟨hwr, hi, _, rfl, rfl⟩ := shm_scroll_reverse_returns _ _ _ _ _ _ _ _ _ _ _ h
  have hnn := instantiate_offset_nonneg _ _ _ _ hp.1 hi
  have hoff : (scrolled_reverse sys st buf rows bm bk).offset = reverse_offset sys st buf rows := rfl
  refine ⟨hrows, by rw [hoff]; exact hnn, ?_⟩
  by_cases hw : reverse_wraps buf rows
  · have hw2 : rows * buf.stride > buf.offset := hw
    obtain ⟨hps, _⟩ := hwr hw
    have hknown := page_size_of_known sys (st.call (Call.ftruncate buf.fd max_pool_size))
      (reverse_wrap_state sys st buf) hps rfl
    have hfs : reverse_state sys st buf rows =
        after_wrap sys (reverse_wrap_state sys st buf) buf (reverse_target sys st buf) := by
      simp [reverse_state, hw]
    have hro : reverse_offset sys st buf rows = reverse_target sys st buf - rows * buf.stride := by
      simp [reverse_offset, reverse_entry, hw, wrapped_entry, instantiated]
    refine ⟨[Call.ftruncate buf.fd max_pool_size] ++
      page_size_calls (st.call (Call.ftruncate buf.fd max_pool_size)) ++
      wrap_calls sys (reverse_wrap_state sys st buf) buf (reverse_target sys st buf) ++
      reverse_rest_calls sys st buf rows tm tk bm bk, ?_, ?_, ?_⟩
    · rw [after_scroll_reverse_calls, hfs, after_wrap_calls]
      simp [reverse_wrap_state, List.append_assoc]
    · intro _
      refine ⟨by rw [hoff, hro], ?_, ?_, ?_, ?_, ?_⟩
      · simp only [List.countP_append, countP_memcpy_wrap, countP_memcpy_reverse_rest,
          countP_memcpy_page_size]
        simp [Call.is_memcpy]
      · simp
      · simp [wrap_calls]
      · simp [wrap_calls]
      · intro k hk hpk h0 h1
        obtain ⟨t1, t2, t3⟩ := wrap_target_aligned k hk buf.size h0 h1
        rw [hknown.1, hpk]
        unfold reverse_target
        rw [hpk]
        exact ⟨t1, t2, t3⟩
    · intro hn
      exact absurd hw2 hn
  · have hw2 : ¬ rows * buf.stride > buf.offset := hw
    have hfs : reverse_state sys st buf rows = st := by simp [reverse_state, hw]
    have hro : reverse_offset sys st buf rows = buf.offset - rows * buf.stride := by
      simp [reverse_offset, reverse_entry, hw]
    refine ⟨reverse_rest_calls sys st buf rows tm tk bm bk, ?_, ?_, ?_⟩
    · rw [after_scroll_reverse_calls, hfs]
    · intro hx
      exact absurd hx hw2
    · intro _
      exact ⟨countP_memcpy_reverse_rest _ _ _ _ _ _ _ _, by rw [hoff, hro]⟩

/-- The reverse scroll by one row of `first_entry`, which wraps. -/
theorem reverse_wrap_offsets_sample :
    sample_sys.Posix ∧
    reverse_target sample_sys scroll_state first_entry = 268431360 ∧
    ∃ buf2 st2,
      shm_scroll_reverse sample_sys scroll_state first_entry 1 0 0 0 0 =
        Except.ok (true, buf2, st2) ∧
      buf2.offset = 268431260 ∧
      0 < (1 : Int) ∧ 0 ≤ buf2.offset ∧
      ∃ cs : List Call, st2.calls = scroll_state.calls ++ cs ∧
        (1 * first_entry.stride > first_entry.offset →
          buf2.offset =
            reverse_target sample_sys scroll_state first_entry - 1 * first_entry.stride ∧
          cs.countP Call.is_memcpy = 1 ∧
          Call.ftruncate first_entry.fd max_pool_size ∈ cs ∧
          Call.mmap (mmap_size_of
              (page_size_of sample_sys (reverse_wrap_state sample_sys scroll_state first_entry))
              first_entry (reverse_target sample_sys scroll_state first_entry)) first_entry.fd
            (aligned_offset_of
              (page_size_of sample_sys (reverse_wrap_state sample_sys scroll_state first_entry))
              (reverse_target sample_sys scroll_state first_entry)) ∈ cs ∧
          Call.memcpy
            (mmap_of sample_sys ((reverse_wrap_state sample_sys scroll_state first_entry).now +
                (page_size_calls
                  (reverse_wrap_state sample_sys scroll_state first_entry)).length)
              (page_size_of sample_sys (reverse_wrap_state sample_sys scroll_state first_entry))
              first_entry (reverse_target sample_sys scroll_state first_entry) +
              page_offset_of
                (page_size_of sample_sys
                  (reverse_wrap_state sample_sys scroll_state first_entry))
                (reverse_target sample_sys scroll_state first_entry))
            first_entry.mmapped first_entry.size ∈ cs ∧
          ∀ k : Nat, k < 64 →
            page_size_of sample_sys
              (scroll_state.call (Call.ftruncate first_entry.fd max_pool_size)) = 2 ^ k →
            0 ≤ first_entry.size → first_entry.size ≤ max_pool_size →
              reverse_target sample_sys scroll_state first_entry =
                (max_pool_size - first_entry.size) -
                  (max_pool_size - first_entry.size) % 2 ^ k ∧
              aligned_offset_of
                (page_size_of sample_sys
                  (reverse_wrap_state sample_sys scroll_state first_entry))
                (reverse_target sample_sys scroll_state first_entry) =
                  reverse_target sample_sys scroll_state first_entry ∧
              page_offset_of
                (page_size_of sample_sys
                  (reverse_wrap_state sample_sys scroll_state first_entry))
                (reverse_target sample_sys scroll_state first_entry) = 0) ∧
        (¬ 1 * first_entry.stride > first_entry.offset →
          cs.countP Call.is_memcpy = 0 ∧
          buf2.offset = first_entry.offset - 1 * first_entry.stride) :=
  ⟨sample_sys_posix, rfl,
    (fun (b : Buffer) (s : Shm)
        (h : shm_scroll_reverse sample_sys scroll_state first_entry 1 0 0 0 0 =
          Except.ok (true, b, s)) (ho : b.offset = 268431260) =>
      ⟨b, s, h, ho,
        reverse_wrap_offsets sample_sys scroll_state s first_entry b 1 0 0 0 0 true
          sample_sys_posix h⟩) _ _ rfl rfl⟩

set_option maxHeartbeats 4000000 in
/-- C15: on the pool of a system without hole punching `shm_can_scroll` answers
false and a forward scroll stops at the assertion `can_punch_hole` (line 369),
but a reverse scroll (`rows = -1`) does not fail fast: `shm_scroll_reverse` has
no such test, it returns true and has moved the entry from offset 0 to offset
268431260. -/
theorem C15_reverse_scroll_ignores_hole_punching :
    shm_get_buffer no_punch_sys shm_init 25 3 7 = Except.ok (0, no_punch_pool) ∧
    shm_can_scroll no_punch_pool = false ∧
    no_punch_pool.buffers.map (fun b => b.offset) = [0] ∧
    shm_scroll no_punch_sys no_punch_pool 0 1 0 0 0 0 = Except.error (Fault.assert 369) ∧
    ∃ st2, shm_scroll no_punch_sys no_punch_pool 0 (-1) 0 0 0 0 = Except.ok (true, st2) ∧
      st2.buffers.map (fun b => b.offset) = [268431260] :=
  ⟨rfl, rfl, rfl, rfl, _, rfl, rfl⟩

/-- C16: the release callback on a busy entry, called with the entry's own peer
handle, clears `busy` and changes nothing else: the other fields of the entry,
the other entries, their order and the external calls made stay as they were;
for an entry that is not busy it fails the assertion of line 82 and for another
peer handle the assertion of line 81, whatever the state of the entry. -/
theorem C16_release_clears_busy_only (st : Shm) (i : Nat) (b : Buffer) (wl_buffer : Ptr)
    (hb : st.buffers[i]? = some b) :
    (b.wl_buf = wl_buffer → b.busy = true →
      buffer_release b wl_buffer = Except.ok { b with busy := false } ∧
      release st i wl_buffer =
        Except.ok { st with buffers := st.buffers.set i { b with busy := false } }) ∧
    (b.wl_buf = wl_buffer → b.busy = false →
      buffer_release b wl_buffer = Except.error (Fault.assert 82) ∧
      release st i wl_buffer = Except.error (Fault.assert 82)) ∧
    (b.wl_buf ≠ wl_buffer →
      buffer_release b wl_buffer = Except.error (Fault.assert 81) ∧
      release st i wl_buffer = Except.error (Fault.assert 81)) := by
  refine ⟨fun h1 h2 => ?_, fun h1 h2 => ?_, fun h1 => ?_⟩
  · have e : buffer_release b wl_buffer = Except.ok { b with busy := false } := by
      simp [buffer_release, assert, h1, h2, bind, Except.bind, pure, Except.pure]
    refine ⟨e, ?_⟩
    unfold release
    rw [hb]
    simp [e, bind, Except.bind, pure, Except.pure]
  · have e : buffer_release b wl_buffer = Except.error (Fault.assert 82) := by
      simp [buffer_release, assert, h1, h2, bind, Except.bind, pure, Except.pure, throw,
        throwThe, MonadExceptOf.throw]
    refine ⟨e, ?_⟩
    unfold release
    rw [hb]
    simp [e, bind, Except.bind]
  · have e : buffer_release b wl_buffer = Except.error (Fault.assert 81) := by
      simp [buffer_release, assert, h1, bind, Except.bind, throw, throwThe,
        MonadExceptOf.throw]
    refine ⟨e, ?_⟩
    unfold release
    rw [hb]
    simp [e, bind, Except.bind]

theorem C16_release_clears_busy_only_witness :
    pool_a.buffers[0]? = some entry_a ∧
    entry_a.wl_buf = 206 ∧
    entry_a.busy = true ∧
    release pool_a 0 206 = Except.ok (all_released pool_a) ∧
    release (all_released pool_a) 0 206 = Except.error (Fault.assert 82) ∧
    release pool_a 0 207 = Except.error (Fault.assert 81) ∧
    (entry_a.wl_buf = 206 →
      entry_a.busy = true →
      buffer_release entry_a 206 =
        Except.ok { entry_a with busy := false } ∧
      release pool_a 0 206 =
        Except.ok
          { pool_a with buffers := pool_a.buffers.set 0 { entry_a with busy := false } }) ∧
    (entry_a.wl_buf = 206 →
      entry_a.busy = false →
      buffer_release entry_a 206 =
        Except.error (Fault.assert 82) ∧
      release pool_a 0 206 = Except.error (Fault.assert 82)) ∧
    (entry_a.wl_buf ≠ 206 →
      buffer_release entry_a 206 =
        Except.error (Fault.assert 81) ∧
      release pool_a 0 206 = Except.error (Fault.assert 81)) :=
  ⟨rfl, rfl, rfl, rfl, rfl, rfl,
    C16_release_clears_busy_only pool_a 0 entry_a 206 rfl⟩

/-- C17: `shm_purge` of a cookie none of whose entries is busy returns, having
destroyed every entry of the cookie, whatever its `purge` flag, and removed it:
the pool then holds no entry of the cookie and holds exactly the entries of the
other cookies, in their order; when an entry of the cookie is busy the call
fails the assertion of line 595. -/
theorem C17_purge_removes_every_entry (st : Shm) (cookie : Nat) :
    ((∀ b ∈ st.buffers, b.cookie = cookie → b.busy = false) →
      ∃ st2, shm_purge st cookie = Except.ok st2 ∧
        (∀ b ∈ st2.buffers, b.cookie ≠ cookie) ∧
        st2.buffers = st.buffers.filter (fun b => b.cookie != cookie) ∧
        st2.calls = st.calls ++ fini_calls (st.buffers.filter fun b => b.cookie == cookie)) ∧
    ((∃ b ∈ st.buffers, b.cookie = cookie ∧ b.busy = true) →
      shm_purge st cookie = Except.error (Fault.assert 595)) := by
  constructor
  · intro h
    refine ⟨_, (shm_purge_eq_ok st _ cookie).mpr ⟨h, rfl⟩, ?_, rfl, rfl⟩
    intro b hb
    have := (List.mem_filter.mp hb).2
    simpa using this
  · intro h
    unfold shm_purge
    rw [purge_all_fails cookie st.buffers h]
    rfl

theorem C17_purge_removes_every_entry_witness :
    (∀ b ∈ (all_released pool_ab).buffers, b.cookie = 7 → b.busy = false) ∧
    (all_released pool_ab).buffers.length = 2 ∧
    (∃ b ∈ pool_ab.buffers, b.cookie = 7 ∧ b.busy = true) ∧
    (((∀ b ∈ (all_released pool_ab).buffers, b.cookie = 7 → b.busy = false) →
      ∃ st2, shm_purge (all_released pool_ab) 7 = Except.ok st2 ∧
        (∀ b ∈ st2.buffers, b.cookie ≠ 7) ∧
        st2.buffers = (all_released pool_ab).buffers.filter (fun b => b.cookie != 7) ∧
        st2.calls = (all_released pool_ab).calls ++
          fini_calls ((all_released pool_ab).buffers.filter fun b => b.cookie == 7)) ∧
    ((∃ b ∈ (all_released pool_ab).buffers, b.cookie = 7 ∧ b.busy = true) →
      shm_purge (all_released pool_ab) 7 = Except.error (Fault.assert 595))) ∧
    shm_purge pool_ab 7 = Except.error (Fault.assert 595) :=
  ⟨by decide, rfl, by decide, C17_purge_removes_every_entry (all_released pool_ab) 7,
    (C17_purge_removes_every_entry pool_ab 7).2 (by decide)⟩

theorem countP_fallocate_destroy (b : Buffer) :
    (buffer_destroy b).2.countP Call.is_fallocate = 0 := by
  unfold buffer_destroy buffer_destroy_dont_close
  simp only [List.countP_append]
  split <;> split <;> split <;> split <;> simp [Call.is_fallocate]

theorem countP_fallocate_fini (l : List Buffer) :
    (fini_calls l).countP Call.is_fallocate = 0 := by
  induction l with
  | nil => rfl
  | cons a l ih =>
    unfold fini_calls
    rw [List.countP_append, countP_fallocate_destroy, ih]

theorem countP_fallocate_page_size (st : Shm) :
    (page_size_calls st).countP Call.is_fallocate = 0 := by
  unfold page_size_calls
  split <;> simp [Call.is_fallocate]

theorem countP_fallocate_instantiate (sys : Sys) (n : Nat) (ps : Int) (b : Buffer) (o : Int) :
    (instantiate_calls sys n ps b o).countP Call.is_fallocate = 0 := by
  simp [instantiate_calls, Call.is_fallocate]

/-- The external calls of a `shm_get_buffer` that returns on a miss. -/
theorem after_miss_new_calls (sys : Sys) (st : Shm) (width height : Int) (cookie : Nat) :
    (after_miss sys st width height cookie).calls = st.calls ++
      (sweep_calls st cookie ++
        [Call.memfd_create,
         Call.ftruncate (pool_fd_of sys st cookie) (s64 (0 + size_of sys width height))] ++
        (if st.can_punch_hole_initialized then []
         else [Call.fallocate (pool_fd_of sys st cookie) 0 1]) ++
        page_size_calls (pushed_state sys st width height cookie) ++
        instantiate_calls sys
          ((pushed_state sys st width height cookie).now +
            (page_size_calls (pushed_state sys st width height cookie)).length)
          (page_size_of sys (pushed_state sys st width height cookie))
          (pushed sys st width height cookie) 0) := by
  simp [after_miss, after_instantiate, pushed_state, List.append_assoc]

/-- What one operation does to the record of the hole-punch probe. -/
theorem exec_probe (st s2 : Shm) (op : Op) (h : exec st op = Except.ok s2) :
    (s2.can_punch_hole_initialized = st.can_punch_hole_initialized ∧
      s2.can_punch_hole = st.can_punch_hole ∧
      ∀ sys width height cookie, op = Op.acquire sys width height cookie →
        ∃ cs, s2.calls = st.calls ++ cs ∧ cs.countP Call.is_fallocate = 0) ∨
    (st.can_punch_hole_initialized = false ∧ s2.can_punch_hole_initialized = true ∧
      ∃ sys width height cookie, op = Op.acquire sys width height cookie ∧
        s2.can_punch_hole =
          (sys.fallocate (st.now + (sweep_calls st cookie).length + 2)
            (pool_fd_of sys st cookie) 0 1 == 0) ∧
        ∃ cs, s2.calls = st.calls ++ cs ∧ cs.countP Call.is_fallocate = 1 ∧
          Call.fallocate (pool_fd_of sys st cookie) 0 1 ∈ cs) := by
  cases op with
  | acquire sys width height cookie =>
    rw [exec_acquire_eq_ok] at h
    obtain ⟨i, h⟩ := h
    rw [shm_get_buffer_eq_ok] at h
    obtain ⟨_, h⟩ := h
    rcases h with ⟨l2, _, rfl⟩ | ⟨_, _, _, rfl⟩
    · left
      refine ⟨rfl, rfl, fun _ _ _ c hop => ?_⟩
      simp only [Op.acquire.injEq] at hop
      obtain ⟨_, _, _, rfl⟩ := hop
      exact ⟨_, rfl, countP_fallocate_fini _⟩
    · by_cases hinit : st.can_punch_hole_initialized = true
      · left
        refine ⟨?_, ?_, fun _ _ _ _ hop => ?_⟩
        · simp [after_miss, after_instantiate, pushed_state, hinit]
        · simp [after_miss, after_instantiate, pushed_state, hinit]
        · simp only [Op.acquire.injEq] at hop
          obtain ⟨rfl, rfl, rfl, rfl⟩ := hop
          refine ⟨_, after_miss_new_calls _ _ _ _ _, ?_⟩
          simp only [List.countP_append, sweep_calls, countP_fallocate_fini,
            countP_fallocate_page_size, countP_fallocate_instantiate, hinit, if_true]
          simp [Call.is_fallocate]
      · right
        have hf : st.can_punch_hole_initialized = false := by simpa using hinit
        refine ⟨hf, ?_, sys, width, height, cookie, rfl, ?_, _,
          after_miss_new_calls _ _ _ _ _, ?_, ?_⟩
        · simp [after_miss, after_instantiate, pushed_state]
        · simp [after_miss, after_instantiate, pushed_state, hf]
        · simp only [List.countP_append, sweep_calls, countP_fallocate_fini,
            countP_fallocate_page_size, countP_fallocate_instantiate, hf]
          simp [Call.is_fallocate]
        · simp [hf]
  | release i wl =>
    left
    simp only [exec] at h
    rw [release_eq_ok] at h
    obtain ⟨b, _, _, _, rfl⟩ := h
    exact ⟨rfl, rfl, fun _ _ _ _ hop => by simp at hop⟩
  | scroll sys i rows tm tk bm bk =>
    left
    rw [exec_scroll_eq_ok] at h
    obtain ⟨r, h⟩ := h
    obtain ⟨buf, buf2, stx, _, _, hcase, rfl⟩ := shm_scroll_ok _ _ _ _ _ _ _ _ _ _ h
    have hfr : Frame st stx := by
      rcases hcase with ⟨_, hf⟩ | ⟨_, hrv⟩
      · obtain ⟨_, _, _, _, _, _, _, _, _, _, _, _, _, _, _, hfr⟩ :=
          shm_scroll_forward_ok _ _ _ _ _ _ _ _ _ _ _ hf
        exact hfr
      · obtain ⟨_, _, _, _, _, _, _, _, _, _, _, _, hfr⟩ :=
          shm_scroll_reverse_ok _ _ _ _ _ _ _ _ _ _ _ hrv
        exact hfr
    exact ⟨hfr.2.2.1, hfr.2.1, fun _ _ _ _ hop => by simp at hop⟩
  | purge c =>
    left
    simp only [exec] at h
    rw [shm_purge_eq_ok] at h
    obtain ⟨_, rfl⟩ := h
    exact ⟨rfl, rfl, fun _ _ _ _ hop => by simp at hop⟩
  | fini =>
    left
    simp only [exec, pure_eq_ok] at h
    subst h
    exact ⟨rfl, rfl, fun _ _ _ _ hop => by simp at hop⟩

/-- Once the probe is recorded, no run of operations changes the record. -/
theorem run_probe (ops : List Op) (st s2 : Shm) (hinit : st.can_punch_hole_initialized = true)
    (h : run st ops = Except.ok s2) :
    s2.can_punch_hole_initialized = true ∧ s2.can_punch_hole = st.can_punch_hole := by
  induction ops generalizing st with
  | nil =>
    simp only [run, pure_eq_ok] at h
    subst h
    exact ⟨hinit, rfl⟩
  | cons op ops ih =>
    simp only [run, bind_eq_ok] at h
    obtain ⟨s1, h1, h2⟩ := h
    rcases exec_probe st s1 op h1 with ⟨e1, e2, _⟩ | ⟨hf, _⟩
    · obtain ⟨i1, i2⟩ := ih s1 (by rw [e1]; exact hinit) h2
      exact ⟨i1, by rw [i2, e2]⟩
    · rw [hinit] at hf
      exact absurd hf (by simp)

/-- C19: the probe `fallocate(fd, PUNCH_HOLE, 0, 1)` is made only by a
`shm_get_buffer` that misses while `can_punch_hole_initialized` is false; that
call probes once, records the answer in `can_punch_hole` and sets
`can_punch_hole_initialized`.  Every other operation that returns leaves both
flags as they were, and a `shm_get_buffer` that starts with the flag set makes
no `fallocate` call.  So once the flag is set, after every run of acquire,
release, scroll, `shm_purge` and `shm_fini` operations the flag is set, the
recorded `can_punch_hole` is the same and `shm_can_scroll` gives the same
answer. -/
theorem C19_hole_punch_probed_once (st : Shm) :
    (∀ (op : Op) (s2 : Shm), exec st op = Except.ok s2 →
      (s2.can_punch_hole_initialized = st.can_punch_hole_initialized ∧
        s2.can_punch_hole = st.can_punch_hole ∧
        ∀ sys width height cookie, op = Op.acquire sys width height cookie →
          ∃ cs, s2.calls = st.calls ++ cs ∧ cs.countP Call.is_fallocate = 0) ∨
      (st.can_punch_hole_initialized = false ∧ s2.can_punch_hole_initialized = true ∧
        ∃ sys width height cookie, op = Op.acquire sys width height cookie ∧
          s2.can_punch_hole =
            (sys.fallocate (st.now + (sweep_calls st cookie).length + 2)
              (pool_fd_of sys st cookie) 0 1 == 0) ∧
          ∃ cs, s2.calls = st.calls ++ cs ∧ cs.countP Call.is_fallocate = 1 ∧
            Call.fallocate (pool_fd_of sys st cookie) 0 1 ∈ cs)) ∧
    (st.can_punch_hole_initialized = true →
      ∀ (ops : List Op) (s2 : Shm), run st ops = Except.ok s2 →
        s2.can_punch_hole_initialized = true ∧ s2.can_punch_hole = st.can_punch_hole ∧
        shm_can_scroll s2 = shm_can_scroll st) := by
  refine ⟨fun op s2 h => exec_probe st s2 op h, fun hinit ops s2 h => ?_⟩
  obtain ⟨h1, h2⟩ := run_probe ops st s2 hinit h
  exact ⟨h1, h2, h2⟩

theorem C19_hole_punch_probed_once_witness :
    exec shm_init (Op.acquire sample_sys 2 2 7) = Except.ok pool_a ∧
    shm_init.can_punch_hole_initialized = false ∧ pool_a.can_punch_hole_initialized = true ∧
    pool_a.can_punch_hole = true ∧
    run pool_a [Op.release 0 206, Op.acquire sample_sys 1 1 7, Op.purge 8] = Except.ok pool_ab ∧
    (pool_ab.can_punch_hole_initialized = true ∧ pool_ab.can_punch_hole = pool_a.can_punch_hole ∧
      shm_can_scroll pool_ab = shm_can_scroll pool_a) ∧
    ((pool_a.can_punch_hole_initialized = shm_init.can_punch_hole_initialized ∧
        pool_a.can_punch_hole = shm_init.can_punch_hole ∧
        ∀ sys width height cookie,
          Op.acquire sample_sys 2 2 7 = Op.acquire sys width height cookie →
          ∃ cs, pool_a.calls = shm_init.calls ++ cs ∧ cs.countP Call.is_fallocate = 0) ∨
      (shm_init.can_punch_hole_initialized = false ∧ pool_a.can_punch_hole_initialized = true ∧
        ∃ sys width height cookie,
          Op.acquire sample_sys 2 2 7 = Op.acquire sys width height cookie ∧
          pool_a.can_punch_hole =
            (sys.fallocate (shm_init.now + (sweep_calls shm_init cookie).length + 2)
              (pool_fd_of sys shm_init cookie) 0 1 == 0) ∧
          ∃ cs, pool_a.calls = shm_init.calls ++ cs ∧ cs.countP Call.is_fallocate = 1 ∧
            Call.fallocate (pool_fd_of sys shm_init cookie) 0 1 ∈ cs)) :=
  ⟨rfl, rfl, rfl, rfl, rfl,
    (C19_hole_punch_probed_once pool_a).2 rfl
      [Op.release 0 206, Op.acquire sample_sys 1 1 7, Op.purge 8] pool_ab rfl,
    (C19_hole_punch_probed_once shm_init).1 (Op.acquire sample_sys 2 2 7) pool_a rfl⟩

/-- A page size that was looked up is not looked up again. -/
theorem page_size_known (sys : Sys) (st : Shm) (k : Nat) (h : st.page_size_size = 2 ^ k) :
    page_size_of sys st = 2 ^ k ∧ page_size_calls st = [] := by
  have hpos : (0 : Int) < 2 ^ k := by positivity
  have hne : st.page_size_size ≠ 0 := by omega
  constructor
  · show (if st.page_size_size = 0 then _ else _) = _
    rw [if_neg hne, h]
  · unfold page_size_calls
    rw [if_neg hne]

/-- The rows a forward scroll by one row keeps when `top_keep_rows = height - 1`:
read through the new mapping they are the bytes the entry had at the same
places after the wrap check. -/
theorem forward_tail_rows (sys : Sys) (st : Shm) (buf : Buffer) (mw : Mem) (k : Nat)
    (hk : k < 64) (hps : (forward_state sys st buf 1).page_size_size = 2 ^ k)
    (hh : 2 ≤ buf.height) (hst : 0 < buf.stride) (hsz : buf.size = buf.stride * buf.height)
    (hmax : buf.size ≤ max_pool_size)
    (hbw : (forward_entry sys st buf 1).stride = buf.stride ∧
      (forward_entry sys st buf 1).size = buf.size ∧ 0 ≤ (forward_entry sys st buf 1).offset ∧
      (forward_entry sys st buf 1).offset + buf.size ≤ max_pool_size)
    (hi : InstantiateReturns sys (forward_remap_state sys st buf 1 0 (buf.height - 1))
      (buffer_destroy_dont_close (forward_entry sys st buf 1)).1 (forward_offset sys st buf 1))
    (hmapw : ∀ x : Int, 0 ≤ x → x < buf.size →
      mw.resolve ((forward_entry sys st buf 1).mmapped + x) =
        some ((forward_entry sys st buf 1).fd, (forward_entry sys st buf 1).offset + x))
    (y : Int) (hy0 : 0 ≤ y) (hy1 : y < (buf.height - 1) * buf.stride) :
    (Mem.run sys (forward_state sys st buf 1).now mw
      (Call.ftruncate (forward_entry sys st buf 1).fd
          (s64 (u64 (forward_offset sys st buf 1 + (forward_entry sys st buf 1).size))) ::
        forward_rest_calls sys st buf 1 0 (buf.height - 1) 0 0)).read
      ((scrolled_forward sys st buf 1 0 (buf.height - 1)).mmapped + y) =
    mw.file (forward_entry sys st buf 1).fd ((forward_entry sys st buf 1).offset + y) := by
  obtain ⟨hb1, hb2, hb3, hb4⟩ := hbw
  have hm := max_pool_size_eq
  have hps2 : (forward_remap_state sys st buf 1 0 (buf.height - 1)).page_size_size = 2 ^ k := hps
  obtain ⟨hp1, hp2⟩ := page_size_known sys _ k hps2
  have hprod : buf.stride * buf.height = (buf.height - 1) * buf.stride + buf.stride := by ring
  have hkeep0 : 0 ≤ (buf.height - 1) * buf.stride := Int.mul_nonneg (by omega) (le_of_lt hst)
  have hno : forward_offset sys st buf 1 = (forward_entry sys st buf 1).offset + 1 * buf.stride := rfl
  have hbd : (buffer_destroy_dont_close (forward_entry sys st buf 1)).1.size = buf.size := hb2
  have hkp : buf.height - 1 > 0 := by omega
  have hb0 : ¬ ((0 : Int) > 0) := by omega
  have hno0 : 0 ≤ forward_offset sys st buf 1 := by omega
  have hnomax : forward_offset sys st buf 1 + buf.size ≤ max_pool_size := by
    have hi6 := hi.2.2.2.2.2.1
    rw [hbd] at hi6
    unfold u64 at hi6
    omega
  have hu : u64 ((buf.height - 1) * (forward_entry sys st buf 1).stride) =
      (buf.height - 1) * (forward_entry sys st buf 1).stride := by
    rw [hb1]
    exact u64_of_range _ hkeep0 (by omega)
  have hlen : s64 (u64 (forward_offset sys st buf 1 + (forward_entry sys st buf 1).size)) =
      forward_offset sys st buf 1 + buf.size := by
    rw [hb2]
    unfold s64 u64
    omega
  have f1 : 0 ≤ 1 * (forward_entry sys st buf 1).stride := by rw [hb1]; omega
  have f2 : 1 * (forward_entry sys st buf 1).stride +
      (buf.height - 1) * (forward_entry sys st buf 1).stride ≤
      (forward_entry sys st buf 1).size := by rw [hb1, hb2]; omega
  have f3 : forward_offset sys st buf 1 =
      (forward_entry sys st buf 1).offset + 1 * (forward_entry sys st buf 1).stride := by
    rw [hb1, hno]
  have f4 : forward_offset sys st buf 1 + (forward_entry sys st buf 1).size ≤
      s64 (u64 (forward_offset sys st buf 1 + (forward_entry sys st buf 1).size)) := by
    rw [hlen, hb2]
  have f5 : y < (buf.height - 1) * (forward_entry sys st buf 1).stride := by rw [hb1]; exact hy1
  have f6 : (forward_remap_state sys st buf 1 0 (buf.height - 1)).now +
      (page_size_calls (forward_remap_state sys st buf 1 0 (buf.height - 1))).length =
      (forward_state sys st buf 1).now + 2 +
        (buffer_destroy_dont_close (forward_entry sys st buf 1)).2.length +
        (if forward_offset sys st buf 1 > 0 then
          [Call.fallocate (forward_entry sys st buf 1).fd 0 (forward_offset sys st buf 1)]
         else []).length +
        (page_size_calls (forward_remap_state sys st buf 1 0 (buf.height - 1))).length := by
    simp only [Shm.now, forward_remap_state, forward_top_move, hkp, if_true, List.length_append,
      List.length_cons, List.length_nil, hp2]
  have f7 : ∀ (n : Nat) (m : Mem) (f o : Int), forward_offset sys st buf 1 ≤ o →
      (Mem.run sys n m (if forward_offset sys st buf 1 > 0 then
          [Call.fallocate (forward_entry sys st buf 1).fd 0 (forward_offset sys st buf 1)]
         else [])).file f o = m.file f o := by
    intro n m f o ho
    split
    · exact (Mem.step_fallocate sys n m _ 0 _).2 f o (by omega)
    · rfl
  have hpos : (0 : Int) < 2 ^ k := by positivity
  have hmod0 := Int.emod_nonneg (forward_offset sys st buf 1) (ne_of_gt hpos)
  have hsz0 : 0 ≤ buf.size := by omega
  obtain ⟨ha, hp, hmm2⟩ := alignment_values k hk (forward_offset sys st buf 1) buf.size
    hno0 hsz0 hnomax
  have g1 : aligned_offset_of (page_size_of sys (forward_remap_state sys st buf 1 0
      (buf.height - 1))) (forward_offset sys st buf 1) +
      page_offset_of (page_size_of sys (forward_remap_state sys st buf 1 0 (buf.height - 1)))
        (forward_offset sys st buf 1) = forward_offset sys st buf 1 := by
    rw [hp1, ha, hp]
    exact Int.sub_add_cancel _ _
  have g2 : 0 ≤ page_offset_of (page_size_of sys (forward_remap_state sys st buf 1 0
      (buf.height - 1))) (forward_offset sys st buf 1) := by
    rw [hp1, hp]
    exact hmod0
  have g3 : mmap_size_of (page_size_of sys (forward_remap_state sys st buf 1 0
      (buf.height - 1))) (buffer_destroy_dont_close (forward_entry sys st buf 1)).1
      (forward_offset sys st buf 1) = (forward_entry sys st buf 1).size +
      page_offset_of (page_size_of sys (forward_remap_state sys st buf 1 0 (buf.height - 1)))
        (forward_offset sys st buf 1) := by
    rw [hp1]
    unfold mmap_size_of
    rw [hbd, hmm2, hb2, hp]
  have ecalls : (Call.ftruncate (forward_entry sys st buf 1).fd
          (s64 (u64 (forward_offset sys st buf 1 + (forward_entry sys st buf 1).size))) ::
        forward_rest_calls sys st buf 1 0 (buf.height - 1) 0 0) =
      Call.ftruncate (forward_entry sys st buf 1).fd
          (s64 (u64 (forward_offset sys st buf 1 + (forward_entry sys st buf 1).size))) ::
        Call.memmove ((forward_entry sys st buf 1).mmapped + (0 + 1) * (forward_entry sys st buf 1).stride)
          ((forward_entry sys st buf 1).mmapped + (0 + 0) * (forward_entry sys st buf 1).stride)
          ((buf.height - 1) * (forward_entry sys st buf 1).stride) ::
        ((buffer_destroy_dont_close (forward_entry sys st buf 1)).2 ++
          ((if forward_offset sys st buf 1 > 0 then
              [Call.fallocate (forward_entry sys st buf 1).fd 0 (forward_offset sys st buf 1)]
            else []) ++
            (page_size_calls (forward_remap_state sys st buf 1 0 (buf.height - 1)) ++
              instantiate_calls sys
                ((forward_remap_state sys st buf 1 0 (buf.height - 1)).now +
                  (page_size_calls (forward_remap_state sys st buf 1 0 (buf.height - 1))).length)
                (page_size_of sys (forward_remap_state sys st buf 1 0 (buf.height - 1)))
                (buffer_destroy_dont_close (forward_entry sys st buf 1)).1
                (forward_offset sys st buf 1)))) := by
    simp only [forward_rest_calls, forward_top_move, forward_bottom_move, hkp, if_true, hb0,
      if_false, hu, List.append_assoc, List.append_nil, List.singleton_append, List.cons_append,
      List.nil_append]
  rw [ecalls]
  exact Mem.run_scroll_tail sys (forward_state sys st buf 1).now
    ((forward_remap_state sys st buf 1 0 (buf.height - 1)).now +
      (page_size_calls (forward_remap_state sys st buf 1 0 (buf.height - 1))).length)
    mw (forward_entry sys st buf 1) (buffer_destroy_dont_close (forward_entry sys st buf 1)).1
    1 (buf.height - 1)
    (s64 (u64 (forward_offset sys st buf 1 + (forward_entry sys st buf 1).size)))
    (forward_offset sys st buf 1)
    (page_size_of sys (forward_remap_state sys st buf 1 0 (buf.height - 1)))
    (buffer_destroy_dont_close (forward_entry sys st buf 1)).2
    (if forward_offset sys st buf 1 > 0 then
      [Call.fallocate (forward_entry sys st buf 1).fd 0 (forward_offset sys st buf 1)]
     else [])
    (page_size_calls (forward_remap_state sys st buf 1 0 (buf.height - 1)))
    f6 (fun n m => Mem.run_destroy_file sys n m _) f7
    (fun n m => Mem.run_page_size_calls sys n m _)
    hi.2.2.2.2.2.2.2.2.2.1 rfl g1 g2 g3 f1 f2 f3 f4
    (by rw [hb2]; exact hmapw) y hy0 f5

/-- The bytes behind the calls of the wrap of a forward scroll: the buffer
stands at the start of its file and is mapped there. -/
theorem forward_wrap_rows (sys : Sys) (st : Shm) (buf : Buffer) (m0 : Mem) (k : Nat)
    (hps : st.page_size_size = 2 ^ k) (hs0 : 0 ≤ buf.size) (hmax : buf.size ≤ max_pool_size)
    (hT : mmap_of sys (st.now + (page_size_calls st).length) (page_size_of sys st) buf 0
      ≠ MAP_FAILED)
    (hi : InstantiateReturns sys (wrap_state sys st buf 0) (buffer_destroy_dont_close buf).1 0)
    (hmap : ∀ x : Int, 0 ≤ x → x < buf.size →
      m0.resolve (buf.mmapped + x) = some (buf.fd, buf.offset + x))
    (hfree : ∀ x : Int, 0 ≤ x → x < buf.size →
      buf.mmapped + x <
        mmap_of sys (st.now + (page_size_calls st).length) (page_size_of sys st) buf 0 ∨
      mmap_of sys (st.now + (page_size_calls st).length) (page_size_of sys st) buf 0 +
        mmap_size_of (page_size_of sys st) buf 0 ≤ buf.mmapped + x)
    (x : Int) (hx0 : 0 ≤ x) (hx1 : x < buf.size) :
    (Mem.run sys st.now m0 (wrap_calls sys st buf 0)).resolve
      ((wrapped_entry sys st buf 0).mmapped + x) = some (buf.fd, 0 + x) ∧
    (Mem.run sys st.now m0 (wrap_calls sys st buf 0)).file buf.fd (0 + x) =
      m0.file buf.fd (buf.offset + x) := by
  obtain ⟨hp1, hp2⟩ := page_size_known sys st k hps
  have hpw : (wrap_state sys st buf 0).page_size_size = 2 ^ k := hp1
  obtain ⟨hq1, hq2⟩ := page_size_known sys _ k hpw
  have hnow : st.now + (page_size_calls st).length = st.now := by rw [hp2]; rfl
  rw [hnow] at hT hfree
  have hd : (buffer_destroy_dont_close buf).1.size = buf.size := rfl
  have hms2 : mmap_size_of (page_size_of sys (wrap_state sys st buf 0))
      (buffer_destroy_dont_close buf).1 0 = buf.size +
      page_offset_of (page_size_of sys (wrap_state sys st buf 0)) 0 := by
    rw [mmap_size_of_zero_offset _ _ (by rw [hd]; exact hs0) (by rw [hd]; exact hmax),
      page_offset_of_zero, hd, Int.add_zero]
  have hms : mmap_size_of (page_size_of sys st) buf 0 =
      buf.size + page_offset_of (page_size_of sys st) 0 := by
    rw [mmap_size_of_zero_offset _ _ hs0 hmax, page_offset_of_zero, Int.add_zero]
  have hal : ∀ ps : Int, aligned_offset_of ps 0 + page_offset_of ps 0 = 0 := by
    intro ps
    rw [aligned_offset_of_zero, page_offset_of_zero]
    rfl
  have hpo : ∀ ps : Int, 0 ≤ page_offset_of ps 0 := by
    intro ps
    rw [page_offset_of_zero]
  have hidx : (wrap_state sys st buf 0).now + (page_size_calls (wrap_state sys st buf 0)).length =
      st.now + 3 + (buffer_destroy_dont_close buf).2.length +
        (page_size_calls (wrap_state sys st buf 0)).length := by
    simp only [Shm.now, wrap_state, hp2, List.length_append, List.length_cons, List.length_nil]
  have ecalls : wrap_calls sys st buf 0 =
      Call.mmap (mmap_size_of (page_size_of sys st) buf 0) buf.fd
          (aligned_offset_of (page_size_of sys st) 0) ::
        Call.memcpy (mmap_of sys st.now (page_size_of sys st) buf 0 +
          page_offset_of (page_size_of sys st) 0) buf.mmapped buf.size ::
        Call.munmap (mmap_of sys st.now (page_size_of sys st) buf 0)
          (mmap_size_of (page_size_of sys st) buf 0) ::
        ((buffer_destroy_dont_close buf).2 ++
          (page_size_calls (wrap_state sys st buf 0) ++
            instantiate_calls sys
              ((wrap_state sys st buf 0).now +
                (page_size_calls (wrap_state sys st buf 0)).length)
              (page_size_of sys (wrap_state sys st buf 0))
              (buffer_destroy_dont_close buf).1 0)) := by
    unfold wrap_calls
    rw [hnow, hp2]
    simp only [List.nil_append, List.append_assoc, List.cons_append]
  rw [ecalls]
  have hmain := Mem.run_wrap sys st.now
    ((wrap_state sys st buf 0).now + (page_size_calls (wrap_state sys st buf 0)).length)
    m0 buf (buffer_destroy_dont_close buf).1 0 (page_size_of sys st)
    (page_size_of sys (wrap_state sys st buf 0))
    (buffer_destroy_dont_close buf).2 (page_size_calls (wrap_state sys st buf 0))
    hidx (fun n m => Mem.run_destroy_file sys n m _)
    (fun n m => Mem.run_page_size_calls sys n m _)
    hT hi.2.2.2.2.2.2.2.2.2.1 (hal _) (hpo _) (hal _) (hpo _) hms hms2 hmap hfree x hx0 hx1
  exact hmain

/-- C12 (amended): for a busy, instantiated buffer of height `h ≥ 2`, whatever
its content, a forward scroll by one row with `top_margin = 0`, `top_keep_rows =
h - 1`, `bottom_margin = 0` and `bottom_keep_rows = 0` that returns keeps the
top `h - 1` rows where they are: read through the new mapping, row `i` of the
resulting buffer holds the bytes row `i` of the input buffer held, for all
`0 ≤ i < h - 1`, with or without wrap-around.  The page size is `2 ^ k`, the
entry lies inside the pool bound with `size = stride * height`, its mapping
shows its bytes of the file, and the temporary mapping of a wrap-around does
not meet it. -/
theorem C12_kept_rows_stay_in_place (sys : Sys) (st st2 : Shm) (buf buf2 : Buffer)
    (ret : Bool) (m0 : Mem) (k : Nat) (hk : k < 64) (hps : st.page_size_size = 2 ^ k)
    (hh : 2 ≤ buf.height) (hsz : buf.size = buf.stride * buf.height)
    (hinv : 0 ≤ buf.offset ∧ buf.offset + buf.size ≤ max_pool_size)
    (hmap : ∀ x : Int, 0 ≤ x → x < buf.size →
      m0.resolve (buf.mmapped + x) = some (buf.fd, buf.offset + x))
    (hfree : ∀ x : Int, 0 ≤ x → x < buf.size →
      buf.mmapped + x <
        mmap_of sys (st.now + (page_size_calls st).length) (page_size_of sys st) buf 0 ∨
      mmap_of sys (st.now + (page_size_calls st).length) (page_size_of sys st) buf 0 +
        mmap_size_of (page_size_of sys st) buf 0 ≤ buf.mmapped + x)
    (h : shm_scroll_forward sys st buf 1 0 (buf.height - 1) 0 0 = Except.ok (ret, buf2, st2)) :
    ∀ i j : Int, 0 ≤ i → i < buf.height - 1 → 0 ≤ j → j < buf.stride →
      (Mem.run sys st.now m0 (st2.calls.drop st.calls.length)).read
        (row_address buf2.mmapped buf2.stride i + j) =
      m0.read (row_address buf.mmapped buf.stride i + j) := by
  intro i j hi0 hi1 hj0 hj1
  obtain ⟨_, _, _, _, _, h382, _⟩ := shm_scroll_forward_ok _ _ _ _ _ _ _ _ _ _ _ h
  obtain ⟨hwr, hi, _, rfl, rfl⟩ := shm_scroll_forward_returns _ _ _ _ _ _ _ _ _ _ _ h
  obtain ⟨ho0, homax⟩ := hinv
  have hm := max_pool_size_eq
  -- the stride is positive
  have hu0 := u64_nonneg (1 * buf.stride)
  have hs0 : 0 < buf.size := by omega
  have hst : 0 < buf.stride := by
    by_contra hneg
    have : buf.stride * buf.height ≤ 0 :=
      Int.mul_nonpos_of_nonpos_of_nonneg (by omega) (by omega)
    omega
  have hprod : buf.stride * buf.height = (buf.height - 1) * buf.stride + buf.stride := by ring
  have hrow : (i + 1) * buf.stride ≤ (buf.height - 1) * buf.stride :=
    Int.mul_le_mul_of_nonneg_right (by omega) (le_of_lt hst)
  have hrow2 : (i + 1) * buf.stride = i * buf.stride + buf.stride := by ring
  have hi_nonneg : 0 ≤ i * buf.stride := Int.mul_nonneg hi0 (le_of_lt hst)
  have hy0 : 0 ≤ i * buf.stride + j := by omega
  have hy1 : i * buf.stride + j < (buf.height - 1) * buf.stride := by omega
  have hy2 : i * buf.stride + j < buf.size := by omega
  have hmaxs : buf.size ≤ max_pool_size := by omega
  -- the addresses of the rows
  have es : (scrolled_forward sys st buf 1 0 (buf.height - 1)).stride =
      (forward_entry sys st buf 1).stride := rfl
  have erhs : m0.read (row_address buf.mmapped buf.stride i + j) =
      m0.file buf.fd (buf.offset + (i * buf.stride + j)) := by
    have e : row_address buf.mmapped buf.stride i + j = buf.mmapped + (i * buf.stride + j) := by
      unfold row_address Ptr
      omega
    rw [e]
    exact Mem.read_of_resolve _ _ _ _ (hmap _ hy0 hy2)
  rw [erhs, after_scroll_forward_calls]
  by_cases hw : forward_wraps buf 1
  · -- with wrap-around
    obtain ⟨_, hT, hiw⟩ := hwr hw
    have hfe : forward_entry sys st buf 1 = wrapped_entry sys st buf 0 := by
      simp [forward_entry, hw]
    have hfs : forward_state sys st buf 1 = after_wrap sys st buf 0 := by
      simp [forward_state, hw]
    have hfacts : (wrapped_entry sys st buf 0).stride = buf.stride ∧
        (wrapped_entry sys st buf 0).size = buf.size ∧ (wrapped_entry sys st buf 0).offset = 0 ∧
        (wrapped_entry sys st buf 0).fd = buf.fd := ⟨rfl, rfl, rfl, rfl⟩
    obtain ⟨w1, w2, w3, w4⟩ := hfacts
    have hpsw : (forward_state sys st buf 1).page_size_size = 2 ^ k := by
      rw [hfs]
      have h1 := (page_size_known sys st k hps).1
      have h2 : (wrap_state sys st buf 0).page_size_size = 2 ^ k := h1
      exact (page_size_known sys _ k h2).1
    have hnoww : (after_wrap sys st buf 0).now = st.now + (wrap_calls sys st buf 0).length := by
      simp only [Shm.now, after_wrap_calls, List.length_append]
    have hdrop : ((forward_state sys st buf 1).calls ++
        Call.ftruncate (forward_entry sys st buf 1).fd
          (s64 (u64 (forward_offset sys st buf 1 + (forward_entry sys st buf 1).size))) ::
        forward_rest_calls sys st buf 1 0 (buf.height - 1) 0 0).drop st.calls.length =
        wrap_calls sys st buf 0 ++
        Call.ftruncate (forward_entry sys st buf 1).fd
          (s64 (u64 (forward_offset sys st buf 1 + (forward_entry sys st buf 1).size))) ::
        forward_rest_calls sys st buf 1 0 (buf.height - 1) 0 0 := by
      rw [hfs, after_wrap_calls, List.append_assoc, List.drop_left]
    rw [hdrop, Mem.run_append, ← hnoww, ← hfs]
    have e : row_address (scrolled_forward sys st buf 1 0 (buf.height - 1)).mmapped
        (scrolled_forward sys st buf 1 0 (buf.height - 1)).stride i + j =
        (scrolled_forward sys st buf 1 0 (buf.height - 1)).mmapped + (i * buf.stride + j) := by
      rw [es, hfe, w1]
      unfold row_address Ptr
      omega
    rw [e]
    have hmapw : ∀ x : Int, 0 ≤ x → x < buf.size →
        (Mem.run sys st.now m0 (wrap_calls sys st buf 0)).resolve
          ((forward_entry sys st buf 1).mmapped + x) =
          some ((forward_entry sys st buf 1).fd, (forward_entry sys st buf 1).offset + x) := by
      intro x hx0 hx1
      rw [hfe, w3, w4]
      exact (forward_wrap_rows sys st buf m0 k hps (le_of_lt hs0) hmaxs hT hiw hmap hfree
        x hx0 hx1).1
    rw [forward_tail_rows sys st buf _ k hk hpsw hh hst hsz hmaxs
      (by rw [hfe]; exact ⟨w1, w2, by rw [w3], by rw [w3]; omega⟩) hi hmapw _ hy0 hy1]
    rw [hfe, w3, w4]
    exact (forward_wrap_rows sys st buf m0 k hps (le_of_lt hs0) hmaxs hT hiw hmap hfree
      _ hy0 hy2).2
  · -- without wrap-around
    have hfe : forward_entry sys st buf 1 = buf := by simp [forward_entry, hw]
    have hfs : forward_state sys st buf 1 = st := by simp [forward_state, hw]
    have hpsw : (forward_state sys st buf 1).page_size_size = 2 ^ k := by rw [hfs]; exact hps
    have hdrop : ((forward_state sys st buf 1).calls ++
        Call.ftruncate (forward_entry sys st buf 1).fd
          (s64 (u64 (forward_offset sys st buf 1 + (forward_entry sys st buf 1).size))) ::
        forward_rest_calls sys st buf 1 0 (buf.height - 1) 0 0).drop st.calls.length =
        Call.ftruncate (forward_entry sys st buf 1).fd
          (s64 (u64 (forward_offset sys st buf 1 + (forward_entry sys st buf 1).size))) ::
        forward_rest_calls sys st buf 1 0 (buf.height - 1) 0 0 := by
      rw [hfs, List.drop_left]
    have hnow : st.now = (forward_state sys st buf 1).now := by rw [hfs]
    rw [hdrop, hnow]
    have e : row_address (scrolled_forward sys st buf 1 0 (buf.height - 1)).mmapped
        (scrolled_forward sys st buf 1 0 (buf.height - 1)).stride i + j =
        (scrolled_forward sys st buf 1 0 (buf.height - 1)).mmapped + (i * buf.stride + j) := by
      rw [es, hfe]
      unfold row_address Ptr
      omega
    rw [e]
    have hmapw : ∀ x : Int, 0 ≤ x → x < buf.size →
        m0.resolve ((forward_entry sys st buf 1).mmapped + x) =
          some ((forward_entry sys st buf 1).fd, (forward_entry sys st buf 1).offset + x) := by
      rw [hfe]
      exact hmap
    rw [forward_tail_rows sys st buf m0 k hk hpsw hh hst hsz hmaxs
      (by rw [hfe]; exact ⟨rfl, rfl, ho0, homax⟩) hi hmapw _ hy0 hy1, hfe]

/-- C12 as stated fails: for the buffer of two rows whose file byte `o` holds
`10 + o`, the forward scroll by one row with `top_keep_rows = 1` leaves in row
0 of the resulting buffer the bytes of row 0 of the input buffer (10, 11, ...),
not those of row 1 (14, 15, ...). -/
theorem C12_counterexample :
    two_rows.height = 2 ∧
    two_rows_mem.read (row_address two_rows.mmapped two_rows.stride 0 + 0) = 10 ∧
    two_rows_mem.read (row_address two_rows.mmapped two_rows.stride 1 + 0) = 14 ∧
    ∃ buf2 st2,
      shm_scroll_forward sample_sys scroll_state two_rows 1 0 (two_rows.height - 1) 0 0 =
        Except.ok (true, buf2, st2) ∧
      (Mem.run sample_sys scroll_state.now two_rows_mem
        (st2.calls.drop scroll_state.calls.length)).read
        (row_address buf2.mmapped buf2.stride 0 + 0) = 10 :=
  ⟨rfl, rfl, rfl, _, _, rfl, rfl⟩

theorem C12_kept_rows_stay_in_place_witness :
    (12 < 64 ∧ scroll_state.page_size_size = 2 ^ 12 ∧ 2 ≤ two_rows.height ∧
      two_rows.size = two_rows.stride * two_rows.height ∧
      (0 ≤ two_rows.offset ∧ two_rows.offset + two_rows.size ≤ max_pool_size) ∧
      (∀ x : Int, 0 ≤ x → x < two_rows.size →
        two_rows_mem.resolve (two_rows.mmapped + x) = some (two_rows.fd, two_rows.offset + x)) ∧
      (∀ x : Int, 0 ≤ x → x < two_rows.size →
        two_rows.mmapped + x <
          mmap_of sample_sys (scroll_state.now + (page_size_calls scroll_state).length)
            (page_size_of sample_sys scroll_state) two_rows 0 ∨
        mmap_of sample_sys (scroll_state.now + (page_size_calls scroll_state).length)
            (page_size_of sample_sys scroll_state) two_rows 0 +
          mmap_size_of (page_size_of sample_sys scroll_state) two_rows 0 ≤
            two_rows.mmapped + x)) ∧
    ∃ buf2 st2,
      shm_scroll_forward sample_sys scroll_state two_rows 1 0 (two_rows.height - 1) 0 0 =
        Except.ok (true, buf2, st2) ∧
      ∀ i j : Int, 0 ≤ i → i < two_rows.height - 1 → 0 ≤ j → j < two_rows.stride →
        (Mem.run sample_sys scroll_state.now two_rows_mem
          (st2.calls.drop scroll_state.calls.length)).read
          (row_address buf2.mmapped buf2.stride i + j) =
        two_rows_mem.read (row_address two_rows.mmapped two_rows.stride i + j) :=
  have hmap : ∀ x : Int, 0 ≤ x → x < two_rows.size →
      two_rows_mem.resolve (two_rows.mmapped + x) = some (two_rows.fd, two_rows.offset + x) :=
    fun x h0 h1 => Mem.resolve_front two_rows_mem ⟨65536, 8, 3, 0⟩ [] x rfl h0 h1
  have hfree : ∀ x : Int, 0 ≤ x → x < two_rows.size →
      two_rows.mmapped + x <
        mmap_of sample_sys (scroll_state.now + (page_size_calls scroll_state).length)
          (page_size_of sample_sys scroll_state) two_rows 0 ∨
      mmap_of sample_sys (scroll_state.now + (page_size_calls scroll_state).length)
          (page_size_of sample_sys scroll_state) two_rows 0 +
        mmap_size_of (page_size_of sample_sys scroll_state) two_rows 0 ≤
          two_rows.mmapped + x :=
    fun x h0 _ => Or.inr (by
      show (4104 : Int) ≤ 65536 + x
      omega)
  ⟨⟨by decide, rfl, by decide, rfl, by decide, hmap, hfree⟩,
    (fun (b : Buffer) (s : Shm)
        (h : shm_scroll_forward sample_sys scroll_state two_rows 1 0 (two_rows.height - 1) 0 0 =
          Except.ok (true, b, s)) =>
      ⟨b, s, h, C12_kept_rows_stay_in_place sample_sys scroll_state s two_rows b true
        two_rows_mem 12 (by decide) rfl (by decide) rfl (by decide) hmap hfree h⟩) _ _ rfl⟩

/-- The assertion of line 386 stops `shm_scroll_forward` only when it is false. -/
theorem shm_scroll_forward_assert_386 (sys : Sys) (st : Shm) (buf : Buffer)
    (rows tm tk bm bk : Int)
    (h : shm_scroll_forward sys st buf rows tm tk bm bk = Except.error (Fault.assert 386)) :
    ¬ u64 buf.offset > buf.size := by
  unfold shm_scroll_forward at h
  simp only [bind_eq_error, bind_eq_ok, assert_eq_error, assert_eq_ok, Prod.exists,
    decide_eq_true_eq, decide_eq_false_iff_not, bne_iff_ne, Fault.assert.injEq,
    int_mul_eq_ok] at h
  rcases h with ⟨_, h0⟩ | ⟨_, h369, ⟨_, h0⟩ | ⟨_, _, ⟨_, h0⟩ | ⟨_, _, ⟨_, h0⟩ | ⟨_, _,
    ⟨_, h0⟩ | ⟨_, _, ⟨_, h0⟩ | ⟨_, _, h⟩⟩⟩⟩⟩⟩
  · omega
  · omega
  · omega
  · omega
  · omega
  · omega
  simp only [h369, Bool.not_true, Bool.false_eq_true, if_false, bind_eq_error, bind_eq_ok,
    assert_eq_error, assert_eq_ok, int_mul_eq_ok, Prod.exists, decide_eq_true_eq,
    decide_eq_false_iff_not, Fault.assert.injEq, int_mul_ne_assert, sys_ftruncate_ne_assert,
    false_or, pure_ne_error, and_false, exists_false, or_false] at h
  rcases h with ⟨_, h0⟩ | ⟨_, hrows, scrolled, ⟨rfl, hrange⟩, ⟨_, h0⟩ | ⟨_, h382, hwe |
    ⟨bufw, stw, hwok, ⟨h398, h0⟩ | ⟨_, h398, stt, _, hke | ⟨stk, _, hpe | ⟨stp, _, hie |
    ⟨_, _, _, _, hbe⟩⟩⟩⟩⟩⟩⟩
  · omega
  · omega
  · -- the wrap fails
    split at hwe
    · simp only [bind_eq_error, bind_eq_ok, assert_eq_error, assert_eq_ok, Prod.exists,
        ite_throw_eq_error, pure_ne_error, Fault.assert.injEq, reduceCtorEq, and_false,
        or_false, false_or, decide_eq_false_iff_not] at hwe
      rcases hwe with ⟨h386, _⟩ | ⟨_, _, hwe | ⟨_, _, _, _, hf⟩⟩
      · exact h386
      · obtain ⟨_, h2, _⟩ := wrap_buffer_eq_error _ _ _ _ _ hwe
        omega
    · simp [pure_ne_error] at hwe
  · omega
  · split at hke
    · simp only [bind_eq_error, int_add_ne_assert, int_mul_ne_assert, pure_ne_error,
        and_false, exists_false, or_false] at hke
    · simp [pure_ne_error] at hke
  · split at hpe
    · simp [ite_throw_eq_error, pure_ne_error] at hpe
    · simp [pure_ne_error] at hpe
  · obtain ⟨_, h2, h3⟩ := instantiate_offset_eq_error _ _ _ _ _ hie
    omega
  · split at hbe
    · simp only [bind_eq_error, int_add_ne_assert, int_mul_ne_assert, pure_ne_error,
        and_false, exists_false, or_false] at hbe
    · simp [pure_ne_error] at hbe


/-- C23: for an entry with `offset + size ≤ max_pool_size`, `rows * stride <
size` and `3 * size ≤ max_pool_size`, a forward scroll for which `offset + rows
* stride + size > max_pool_size` takes the wrap-around branch of line 384, and
there `offset > size`: `shm_scroll_forward` never stops at the assertion of
line 386, nor at the one of line 398.  So no byte of the destination `[0,
size)` of the wrap copy lies in its source `[offset, offset + size)`, and
after the wrap `rows * stride + size ≤ max_pool_size`.  A scroll that returns
has made that copy, with `memcpy`, from the buffer to a mapping of `size` bytes
of the file at offset 0, and leaves the entry at offset `rows * stride`. -/
theorem C23_wrap_copy_ranges_disjoint (sys : Sys) (st : Shm) (buf : Buffer)
    (rows tm tk bm bk : Int)
    (hinv : buf.offset + buf.size ≤ max_pool_size)
    (hsz : rows * buf.stride < buf.size)
    (h3 : 3 * buf.size ≤ max_pool_size)
    (hw : buf.offset + rows * buf.stride + buf.size > max_pool_size) :
    forward_wraps buf rows ∧
    (buf.offset > buf.size ∧ u64 buf.offset > buf.size) ∧
    (∀ n : Nat,
      shm_scroll_forward sys st buf rows tm tk bm bk = Except.error (Fault.assert n) →
        n ≠ 386 ∧ n ≠ 398) ∧
    (∀ x : Int, 0 ≤ x → x < buf.size → ¬ (buf.offset ≤ x ∧ x < buf.offset + buf.size)) ∧
    (rows * buf.stride + buf.size ≤ max_pool_size ∧
      u64 (0 + rows * buf.stride + buf.size) ≤ max_pool_size) ∧
    ∀ (ret : Bool) (buf2 : Buffer) (st2 : Shm),
      shm_scroll_forward sys st buf rows tm tk bm bk = Except.ok (ret, buf2, st2) →
        Call.mmap buf.size buf.fd 0 ∈ st2.calls.drop st.calls.length ∧
        Call.memcpy (mmap_of sys (st.now + (page_size_calls st).length) (page_size_of sys st)
          buf 0) buf.mmapped buf.size ∈ st2.calls.drop st.calls.length ∧
        (st2.calls.drop st.calls.length).countP Call.is_memcpy = 1 ∧
        buf2.offset = rows * buf.stride := by
  have hm := max_pool_size_eq
  have hos : buf.offset > buf.size := by omega
  have hs0 : 0 ≤ buf.size := by omega
  have hu : u64 buf.offset = buf.offset := u64_of_range _ (by omega) (by omega)
  have hwr : forward_wraps buf rows := by
    unfold forward_wraps u64
    omega
  refine ⟨hwr, ⟨hos, by rw [hu]; exact hos⟩, ?_, ?_, ⟨by omega, ?_⟩, ?_⟩
  · intro n h
    refine ⟨?_, (shm_scroll_forward_asserts sys st buf rows tm tk bm bk n
      ⟨by omega, hs0, hinv⟩ h).2⟩
    intro hn
    subst hn
    exact shm_scroll_forward_assert_386 sys st buf rows tm tk bm bk h (by rw [hu]; exact hos)
  · intro x _ hx1 hx
    omega
  · unfold u64
    omega
  · intro ret buf2 st2 h
    obtain ⟨_, _, _, rfl, rfl⟩ := shm_scroll_forward_returns _ _ _ _ _ _ _ _ _ _ _ h
    have hfe : forward_entry sys st buf rows = wrapped_entry sys st buf 0 := by
      simp [forward_entry, hwr]
    have hfs : forward_state sys st buf rows = after_wrap sys st buf 0 := by
      simp [forward_state, hwr]
    have hoff : forward_offset sys st buf rows = rows * buf.stride := by
      simp [forward_offset, hfe, wrapped_entry, instantiated]
    have e3 : (scrolled_forward sys st buf rows tm tk).offset = rows * buf.stride := by
      simp [scrolled_forward, instantiated, hoff]
    have hdrop : (after_scroll_forward sys st buf rows tm tk bm bk).calls.drop st.calls.length =
        wrap_calls sys st buf 0 ++
        Call.ftruncate (forward_entry sys st buf rows).fd
          (s64 (u64 (forward_offset sys st buf rows + (forward_entry sys st buf rows).size))) ::
        forward_rest_calls sys st buf rows tm tk bm bk := by
      rw [after_scroll_forward_calls, hfs, after_wrap_calls, List.append_assoc, List.drop_left]
    rw [hdrop]
    refine ⟨List.mem_append_left _ ?_, List.mem_append_left _ ?_, ?_, e3⟩
    · unfold wrap_calls
      rw [mmap_size_of_zero_offset _ _ hs0 (by omega), aligned_offset_of_zero]
      simp
    · unfold wrap_calls
      rw [page_offset_of_zero, add_zero]
      simp
    · rw [List.countP_append, countP_memcpy_wrap, List.countP_cons, countP_memcpy_forward_rest]
      rfl

theorem C23_wrap_copy_ranges_disjoint_witness :
    (last_entry.offset + last_entry.size ≤ max_pool_size ∧
      2 * last_entry.stride < last_entry.size ∧ 3 * last_entry.size ≤ max_pool_size ∧
      last_entry.offset + 2 * last_entry.stride + last_entry.size > max_pool_size) ∧
    (∃ buf2 st2, shm_scroll_forward sample_sys scroll_state last_entry 2 0 0 0 0 =
      Except.ok (true, buf2, st2)) ∧
    forward_wraps last_entry 2 ∧
    (last_entry.offset > last_entry.size ∧ u64 last_entry.offset > last_entry.size) ∧
    (∀ n : Nat,
      shm_scroll_forward sample_sys scroll_state last_entry 2 0 0 0 0 =
        Except.error (Fault.assert n) → n ≠ 386 ∧ n ≠ 398) ∧
    (∀ x : Int, 0 ≤ x → x < last_entry.size →
      ¬ (last_entry.offset ≤ x ∧ x < last_entry.offset + last_entry.size)) ∧
    (2 * last_entry.stride + last_entry.size ≤ max_pool_size ∧
      u64 (0 + 2 * last_entry.stride + last_entry.size) ≤ max_pool_size) ∧
    ∀ (ret : Bool) (buf2 : Buffer) (st2 : Shm),
      shm_scroll_forward sample_sys scroll_state last_entry 2 0 0 0 0 =
        Except.ok (ret, buf2, st2) →
        Call.mmap last_entry.size last_entry.fd 0 ∈ st2.calls.drop scroll_state.calls.length ∧
        Call.memcpy (mmap_of sample_sys (scroll_state.now + (page_size_calls scroll_state).length)
          (page_size_of sample_sys scroll_state) last_entry 0) last_entry.mmapped
          last_entry.size ∈ st2.calls.drop scroll_state.calls.length ∧
        (st2.calls.drop scroll_state.calls.length).countP Call.is_memcpy = 1 ∧
        buf2.offset = 2 * last_entry.stride :=
  ⟨⟨by decide, by decide, by decide, by decide⟩, ⟨_, _, rfl⟩,
    C23_wrap_copy_ranges_disjoint sample_sys scroll_state last_entry 2 0 0 0 0
      (by decide) (by decide) (by decide) (by decide)⟩

/-- A `memmove` inside a range of addresses that shows consecutive bytes of a file. -/
theorem Mem.memmove_within (m : Mem) (base : Ptr) (fd off size d s n : Int)
    (hmap : ∀ x : Int, 0 ≤ x → x < size → m.resolve (base + x) = some (fd, off + x))
    (hd : 0 ≤ d) (hs : 0 ≤ s) (hdn : d + n ≤ size) (hsn : s + n ≤ size) :
    (m.memmove (base + d) (base + s) n).maps = m.maps ∧
    ∀ o, (m.memmove (base + d) (base + s) n).file fd o =
      moved_up (m.file fd) (off + d) n (d - s) o := by
  have h1 : ∀ k : Int, 0 ≤ k → k < n → m.resolve (base + d + k) = some (fd, off + d + k) := by
    intro k k0 k1
    have e : base + d + k = base + (d + k) := by
      unfold Ptr
      omega
    rw [e, hmap _ (by omega) (by omega), Int.add_assoc]
  have h2 : ∀ k : Int, 0 ≤ k → k < n → m.resolve (base + s + k) = some (fd, off + s + k) := by
    intro k k0 k1
    have e : base + s + k = base + (s + k) := by
      unfold Ptr
      omega
    rw [e, hmap _ (by omega) (by omega), Int.add_assoc]
  obtain ⟨a1, a2⟩ := Mem.memmove_affine m (base + d) (base + s) n fd (off + d) fd (off + s) h1 h2
  refine ⟨a1, fun o => ?_⟩
  rw [a2]
  unfold moved_up
  by_cases hc : off + d ≤ o ∧ o < off + d + n
  · have e : off + s + (o - (off + d)) = o - (d - s) := by omega
    rw [if_pos ⟨rfl, hc⟩, if_pos hc, e]
  · have hc2 : ¬ (fd = fd ∧ off + d ≤ o ∧ o < off + d + n) := fun hx => hc hx.2
    rw [if_neg hc, if_neg hc2]

/-- The bytes after the `memmove` of the top region of a forward scroll. -/
theorem Mem.run_forward_top_move (sys : Sys) (n : Nat) (m : Mem) (b : Buffer)
    (rows tm tk : Int)
    (hmap : ∀ x : Int, 0 ≤ x → x < b.size → m.resolve (b.mmapped + x) = some (b.fd, b.offset + x))
    (hst : 0 ≤ b.stride) (hrows : 0 ≤ rows) (hsize : b.size < 2 ^ 64)
    (hin : tk > 0 → 0 ≤ tm ∧ (tm + rows) * b.stride + tk * b.stride ≤ b.size) :
    (Mem.run sys n m (forward_top_move b rows tm tk)).maps = m.maps ∧
    ∀ o, (Mem.run sys n m (forward_top_move b rows tm tk)).file b.fd o =
      moved_up (m.file b.fd) (b.offset + (tm + rows) * b.stride) (tk * b.stride)
        (rows * b.stride) o := by
  unfold forward_top_move
  by_cases hk : tk > 0
  · obtain ⟨h0, h1⟩ := hin hk
    have p1 : 0 ≤ tm * b.stride := Int.mul_nonneg h0 hst
    have p2 : 0 ≤ rows * b.stride := Int.mul_nonneg hrows hst
    have p3 : 0 ≤ tk * b.stride := Int.mul_nonneg (le_of_lt hk) hst
    have e1 : (tm + rows) * b.stride = tm * b.stride + rows * b.stride := Int.add_mul _ _ _
    have e2 : (tm + 0) * b.stride = tm * b.stride := by rw [Int.add_zero]
    have hu : u64 (tk * b.stride) = tk * b.stride := u64_of_range _ p3 (by omega)
    rw [if_pos hk, hu]
    obtain ⟨a1, a2⟩ := Mem.memmove_within m b.mmapped b.fd b.offset b.size
      ((tm + rows) * b.stride) ((tm + 0) * b.stride) (tk * b.stride) hmap (by omega) (by omega)
      h1 (by omega)
    have e3 : (tm + rows) * b.stride - (tm + 0) * b.stride = rows * b.stride := by omega
    rw [e3] at a2
    exact ⟨a1, a2⟩
  · rw [if_neg hk]
    refine ⟨rfl, fun o => ?_⟩
    have p3 : tk * b.stride ≤ 0 := Int.mul_nonpos_of_nonpos_of_nonneg (by omega) hst
    unfold moved_up
    have hc : ¬ (b.offset + (tm + rows) * b.stride ≤ o ∧
        o < b.offset + (tm + rows) * b.stride + tk * b.stride) := fun hx => by
      have := hx.1
      have := hx.2
      omega
    rw [if_neg hc]
    rfl

/-- The bytes after the `memmove` of the bottom region of a forward scroll. -/
theorem Mem.run_forward_bottom_move (sys : Sys) (n : Nat) (m : Mem) (b : Buffer)
    (rows bm bk : Int)
    (hmap : ∀ x : Int, 0 ≤ x → x < b.size → m.resolve (b.mmapped + x) = some (b.fd, b.offset + x))
    (hst : 0 ≤ b.stride) (hrows : 0 ≤ rows) (hsize : b.size < 2 ^ 64)
    (hin : bk > 0 → 0 ≤ bm ∧ (bm + rows + bk) * b.stride ≤ b.size) :
    (Mem.run sys n m (forward_bottom_move b rows bm bk)).maps = m.maps ∧
    ∀ o, (Mem.run sys n m (forward_bottom_move b rows bm bk)).file b.fd o =
      moved_up (m.file b.fd) (b.offset + (b.size - (bm + bk) * b.stride)) (bk * b.stride)
        (rows * b.stride) o := by
  unfold forward_bottom_move
  by_cases hk : bk > 0
  · obtain ⟨h0, h1⟩ := hin hk
    have p1 : 0 ≤ bm * b.stride := Int.mul_nonneg h0 hst
    have p2 : 0 ≤ rows * b.stride := Int.mul_nonneg hrows hst
    have p3 : 0 ≤ bk * b.stride := Int.mul_nonneg (le_of_lt hk) hst
    have e1 : (bm + rows + bk) * b.stride = bm * b.stride + rows * b.stride + bk * b.stride := by
      rw [Int.add_mul, Int.add_mul]
    have e2 : (bm + bk) * b.stride = bm * b.stride + bk * b.stride := Int.add_mul _ _ _
    have hu : u64 (bk * b.stride) = bk * b.stride := u64_of_range _ p3 (by omega)
    have ed : b.mmapped + b.size - (bm + bk) * b.stride =
        b.mmapped + (b.size - (bm + bk) * b.stride) := by
      unfold Ptr
      omega
    have es : b.mmapped + b.size - (bm + rows + bk) * b.stride =
        b.mmapped + (b.size - (bm + rows + bk) * b.stride) := by
      unfold Ptr
      omega
    rw [if_pos hk, hu, ed, es]
    obtain ⟨a1, a2⟩ := Mem.memmove_within m b.mmapped b.fd b.offset b.size
      (b.size - (bm + bk) * b.stride) (b.size - (bm + rows + bk) * b.stride) (bk * b.stride)
      hmap (by omega) (by omega) (by omega) (by omega)
    have e3 : b.size - (bm + bk) * b.stride - (b.size - (bm + rows + bk) * b.stride) =
        rows * b.stride := by omega
    rw [e3] at a2
    exact ⟨a1, a2⟩
  · rw [if_neg hk]
    refine ⟨rfl, fun o => ?_⟩
    have p3 : bk * b.stride ≤ 0 := Int.mul_nonpos_of_nonpos_of_nonneg (by omega) hst
    unfold moved_up
    have hc : ¬ (b.offset + (b.size - (bm + bk) * b.stride) ≤ o ∧
        o < b.offset + (b.size - (bm + bk) * b.stride) + bk * b.stride) := fun hx => by
      have := hx.1
      have := hx.2
      omega
    rw [if_neg hc]
    rfl

/-- The bytes behind the calls of a forward scroll from its `ftruncate` on:
`[ftruncate] ++ top move ++ D ++ F ++ P ++ instantiate_calls ++ bottom move`,
where `D`, `F` and `P` leave the bytes from `no` on as they are.  The new
mapping shows the file from `no` on, and the content is `forward_content` of
the content before. -/
theorem Mem.run_forward_rest (sys : Sys) (n0 idx : Nat) (mw : Mem) (bw bd bn : Buffer)
    (rows tm tk bm bk len no ps : Int) (D F P : List Call)
    (hidx : idx = n0 + 1 + (forward_top_move bw rows tm tk).length + D.length + F.length +
      P.length)
    (hD : ∀ (n : Nat) (m : Mem), (Mem.run sys n m D).file = m.file)
    (hF : ∀ (n : Nat) (m : Mem) (f o : Int), no ≤ o → (Mem.run sys n m F).file f o = m.file f o)
    (hP : ∀ (n : Nat) (m : Mem), Mem.run sys n m P = m)
    (hmm : mmap_of sys idx ps bd no ≠ MAP_FAILED)
    (hal : aligned_offset_of ps no + page_offset_of ps no = no)
    (hpo : 0 ≤ page_offset_of ps no)
    (hms : mmap_size_of ps bd no = bw.size + page_offset_of ps no)
    (hbn : bn.mmapped = mmap_of sys idx ps bd no + page_offset_of ps no ∧ bn.size = bw.size ∧
      bn.stride = bw.stride ∧ bn.fd = bw.fd ∧ bd.fd = bw.fd ∧ bn.offset = no)
    (hst : 0 ≤ bw.stride) (hrows : 0 ≤ rows) (hsize : bw.size < 2 ^ 64)
    (htop : tk > 0 → 0 ≤ tm ∧ (tm + rows) * bw.stride + tk * bw.stride ≤ bw.size)
    (hbot : bk > 0 → 0 ≤ bm ∧ (bm + rows + bk) * bw.stride ≤ bw.size)
    (hno : no = bw.offset + rows * bw.stride) (hlen : no + bw.size ≤ len)
    (hmapw : ∀ x : Int, 0 ≤ x → x < bw.size →
      mw.resolve (bw.mmapped + x) = some (bw.fd, bw.offset + x))
    (y : Int) (hy0 : 0 ≤ y) (hy1 : y < bw.size) :
    (Mem.run sys n0 mw
      (Call.ftruncate bw.fd len :: (forward_top_move bw rows tm tk ++ (D ++ (F ++ (P ++
        (instantiate_calls sys idx ps bd no ++ forward_bottom_move bn rows bm bk))))))).resolve
      (bn.mmapped + y) = some (bw.fd, no + y) ∧
    (Mem.run sys n0 mw
      (Call.ftruncate bw.fd len :: (forward_top_move bw rows tm tk ++ (D ++ (F ++ (P ++
        (instantiate_calls sys idx ps bd no ++ forward_bottom_move bn rows bm bk))))))).file
      bw.fd (no + y) =
    forward_content (fun z => mw.file bw.fd (bw.offset + z)) bw.stride bw.size rows tm tk bm bk
      y := by
  obtain ⟨hb1, hb2, hb3, hb4, hb5, hb6⟩ := hbn
  have prs : 0 ≤ rows * bw.stride := Int.mul_nonneg hrows hst
  simp only [Mem.run]
  rw [Mem.run_append, Mem.run_append, Mem.run_append, Mem.run_append, Mem.run_append]
  have hi2 : n0 + 1 + (forward_top_move bw rows tm tk).length + D.length + F.length + P.length
      = idx := by omega
  rw [hi2, hP, Mem.run_instantiate_calls _ _ _ _ _ _ hmm]
  -- the ftruncate
  obtain ⟨t1, t2⟩ := Mem.step_ftruncate sys n0 mw bw.fd len
  have hmap1 : ∀ x : Int, 0 ≤ x → x < bw.size →
      (Mem.step sys n0 mw (Call.ftruncate bw.fd len)).resolve (bw.mmapped + x) =
        some (bw.fd, bw.offset + x) := by
    intro x x0 x1
    rw [Mem.resolve_of_maps t1]
    exact hmapw x x0 x1
  generalize Mem.step sys n0 mw (Call.ftruncate bw.fd len) = M1 at t1 t2 hmap1 ⊢
  -- the top region
  obtain ⟨_, a2⟩ := Mem.run_forward_top_move sys (n0 + 1) M1 bw rows tm tk hmap1 hst hrows hsize
    htop
  generalize Mem.run sys (n0 + 1) M1 (forward_top_move bw rows tm tk) = M2 at a2 ⊢
  -- the calls in between
  have d1 := hD (n0 + 1 + (forward_top_move bw rows tm tk).length) M2
  generalize Mem.run sys (n0 + 1 + (forward_top_move bw rows tm tk).length) M2 D = M3 at d1 ⊢
  have f1 := hF (n0 + 1 + (forward_top_move bw rows tm tk).length + D.length) M3
  generalize Mem.run sys (n0 + 1 + (forward_top_move bw rows tm tk).length + D.length) M3 F
    = M4 at f1 ⊢
  -- the new mapping
  have hmap6 : ∀ x : Int, 0 ≤ x → x < bn.size →
      ({ M4 with maps := ⟨mmap_of sys idx ps bd no, mmap_size_of ps bd no, bd.fd,
        aligned_offset_of ps no⟩ :: M4.maps } : Mem).resolve (bn.mmapped + x) =
        some (bn.fd, bn.offset + x) := by
    intro x x0 x1
    have hres := Mem.resolve_front
      ({ M4 with maps := ⟨mmap_of sys idx ps bd no, mmap_size_of ps bd no, bd.fd,
        aligned_offset_of ps no⟩ :: M4.maps } : Mem)
      ⟨mmap_of sys idx ps bd no, mmap_size_of ps bd no, bd.fd, aligned_offset_of ps no⟩ _
      (page_offset_of ps no + x) rfl (by omega)
      (by show page_offset_of ps no + x < mmap_size_of ps bd no
          rw [hms]
          omega)
    have ea : bn.mmapped + x = mmap_of sys idx ps bd no + (page_offset_of ps no + x) := by
      rw [hb1]
      unfold Ptr
      omega
    have eo : aligned_offset_of ps no + (page_offset_of ps no + x) = bn.offset + x := by omega
    rw [ea, hres]
    show some (bd.fd, aligned_offset_of ps no + (page_offset_of ps no + x)) = _
    rw [eo, hb5, hb4]
  have hf6 : ({ M4 with maps := ⟨mmap_of sys idx ps bd no, mmap_size_of ps bd no, bd.fd,
        aligned_offset_of ps no⟩ :: M4.maps } : Mem).file = M4.file := rfl
  generalize ({ M4 with maps := ⟨mmap_of sys idx ps bd no, mmap_size_of ps bd no, bd.fd,
        aligned_offset_of ps no⟩ :: M4.maps } : Mem) = M6 at hmap6 hf6 ⊢
  -- the bottom region
  obtain ⟨b1, b2⟩ := Mem.run_forward_bottom_move sys
    (idx + (instantiate_calls sys idx ps bd no).length) M6 bn rows bm bk hmap6
    (by rw [hb3]; exact hst) hrows (by rw [hb2]; exact hsize) (by rw [hb3, hb2]; exact hbot)
  constructor
  · rw [Mem.resolve_of_maps b1, hmap6 y hy0 (by rw [hb2]; exact hy1), hb4, hb6]
  · have b3 := b2 (no + y)
    rw [hb4, hb6, hb2, hb3] at b3
    rw [b3]
    unfold forward_content moved_up
    dsimp only
    by_cases hc : bw.size - (bm + bk) * bw.stride ≤ y ∧
        y < bw.size - (bm + bk) * bw.stride + bk * bw.stride
    · have hc2 : no + (bw.size - (bm + bk) * bw.stride) ≤ no + y ∧
          no + y < no + (bw.size - (bm + bk) * bw.stride) + bk * bw.stride := by
        have := hc.1
        have := hc.2
        constructor <;> omega
      have hbk : bk > 0 := by
        by_contra hx
        have : bk * bw.stride ≤ 0 := Int.mul_nonpos_of_nonpos_of_nonneg (by omega) hst
        have := hc.1
        have := hc.2
        omega
      obtain ⟨q0, q1⟩ := hbot hbk
      have e1 : (bm + rows + bk) * bw.stride =
          bm * bw.stride + rows * bw.stride + bk * bw.stride := by
        rw [Int.add_mul, Int.add_mul]
      have e2 : (bm + bk) * bw.stride = bm * bw.stride + bk * bw.stride := Int.add_mul _ _ _
      have q2 : 0 ≤ bm * bw.stride := Int.mul_nonneg q0 hst
      have hge : no ≤ no + y - rows * bw.stride := by
        have := hc.1
        omega
      rw [if_pos hc2, if_pos hc, hf6, f1 _ _ hge, d1, a2]
      unfold moved_up
      have e3 : no + y - rows * bw.stride = bw.offset + (y - rows * bw.stride + rows * bw.stride)
          := by omega
      rw [e3]
      by_cases ht : (tm + rows) * bw.stride ≤ y - rows * bw.stride + rows * bw.stride ∧
          y - rows * bw.stride + rows * bw.stride < (tm + rows) * bw.stride + tk * bw.stride
      · have ht2 : bw.offset + (tm + rows) * bw.stride ≤
            bw.offset + (y - rows * bw.stride + rows * bw.stride) ∧
            bw.offset + (y - rows * bw.stride + rows * bw.stride) <
              bw.offset + (tm + rows) * bw.stride + tk * bw.stride := by
          have := ht.1
          have := ht.2
          constructor <;> omega
        have e4 : bw.offset + (y - rows * bw.stride + rows * bw.stride) - rows * bw.stride =
            bw.offset + (y - rows * bw.stride + rows * bw.stride - rows * bw.stride) := by omega
        rw [if_pos ht2, if_pos ht, e4, t2 _ _ (by omega)]
      · have ht2 : ¬ (bw.offset + (tm + rows) * bw.stride ≤
            bw.offset + (y - rows * bw.stride + rows * bw.stride) ∧
            bw.offset + (y - rows * bw.stride + rows * bw.stride) <
              bw.offset + (tm + rows) * bw.stride + tk * bw.stride) := fun hx => by
          apply ht
          have := hx.1
          have := hx.2
          constructor <;> omega
        rw [if_neg ht2, if_neg ht, t2 _ _ (by omega)]
    · have hc2 : ¬ (no + (bw.size - (bm + bk) * bw.stride) ≤ no + y ∧
          no + y < no + (bw.size - (bm + bk) * bw.stride) + bk * bw.stride) := fun hx => by
        apply hc
        have := hx.1
        have := hx.2
        constructor <;> omega
      rw [if_neg hc2, if_neg hc, hf6, f1 _ _ (by omega), d1, a2]
      unfold moved_up
      have e3 : no + y = bw.offset + (y + rows * bw.stride) := by omega
      rw [e3]
      by_cases ht : (tm + rows) * bw.stride ≤ y + rows * bw.stride ∧
          y + rows * bw.stride < (tm + rows) * bw.stride + tk * bw.stride
      · have ht2 : bw.offset + (tm + rows) * bw.stride ≤ bw.offset + (y + rows * bw.stride) ∧
            bw.offset + (y + rows * bw.stride) <
              bw.offset + (tm + rows) * bw.stride + tk * bw.stride := by
          have := ht.1
          have := ht.2
          constructor <;> omega
        have e4 : bw.offset + (y + rows * bw.stride) - rows * bw.stride =
            bw.offset + (y + rows * bw.stride - rows * bw.stride) := by omega
        rw [if_pos ht2, if_pos ht, e4, t2 _ _ (by omega)]
      · have ht2 : ¬ (bw.offset + (tm + rows) * bw.stride ≤ bw.offset + (y + rows * bw.stride) ∧
            bw.offset + (y + rows * bw.stride) <
              bw.offset + (tm + rows) * bw.stride + tk * bw.stride) := fun hx => by
          apply ht
          have := hx.1
          have := hx.2
          constructor <;> omega
        rw [if_neg ht2, if_neg ht, t2 _ _ (by omega)]

/-- The bytes behind a forward scroll from its `ftruncate` on (lines 400-463):
the new mapping shows the file from the new offset on, and the content is
`forward_content` of the content the entry had after the wrap check. -/
theorem forward_rest_content (sys : Sys) (st : Shm) (buf : Buffer) (mw : Mem) (k : Nat)
    (rows tm tk bm bk : Int)
    (hk : k < 64) (hps : (forward_state sys st buf rows).page_size_size = 2 ^ k)
    (hst : 0 ≤ buf.stride) (hrows : 0 ≤ rows) (hs0 : 0 ≤ buf.size)
    (hmax : buf.size ≤ max_pool_size)
    (hbw : (forward_entry sys st buf rows).stride = buf.stride ∧
      (forward_entry sys st buf rows).size = buf.size ∧
      0 ≤ (forward_entry sys st buf rows).offset ∧
      (forward_entry sys st buf rows).offset + buf.size ≤ max_pool_size)
    (hr : rows * buf.stride ≤ buf.size)
    (hi : InstantiateReturns sys (forward_remap_state sys st buf rows tm tk)
      (buffer_destroy_dont_close (forward_entry sys st buf rows)).1
      (forward_offset sys st buf rows))
    (htop : tk > 0 → 0 ≤ tm ∧ (tm + rows) * buf.stride + tk * buf.stride ≤ buf.size)
    (hbot : bk > 0 → 0 ≤ bm ∧ (bm + rows + bk) * buf.stride ≤ buf.size)
    (hmapw : ∀ x : Int, 0 ≤ x → x < buf.size →
      mw.resolve ((forward_entry sys st buf rows).mmapped + x) =
        some ((forward_entry sys st buf rows).fd, (forward_entry sys st buf rows).offset + x))
    (y : Int) (hy0 : 0 ≤ y) (hy1 : y < buf.size) :
    (Mem.run sys (forward_state sys st buf rows).now mw
      (Call.ftruncate (forward_entry sys st buf rows).fd
          (s64 (u64 (forward_offset sys st buf rows + (forward_entry sys st buf rows).size))) ::
        forward_rest_calls sys st buf rows tm tk bm bk)).resolve
      ((scrolled_forward sys st buf rows tm tk).mmapped + y) =
      some ((forward_entry sys st buf rows).fd, forward_offset sys st buf rows + y) ∧
    (Mem.run sys (forward_state sys st buf rows).now mw
      (Call.ftruncate (forward_entry sys st buf rows).fd
          (s64 (u64 (forward_offset sys st buf rows + (forward_entry sys st buf rows).size))) ::
        forward_rest_calls sys st buf rows tm tk bm bk)).file
      (forward_entry sys st buf rows).fd (forward_offset sys st buf rows + y) =
    forward_content
      (fun z => mw.file (forward_entry sys st buf rows).fd
        ((forward_entry sys st buf rows).offset + z))
      buf.stride buf.size rows tm tk bm bk y := by
  obtain ⟨hb1, hb2, hb3, hb4⟩ := hbw
  have hm := max_pool_size_eq
  have hps2 : (forward_remap_state sys st buf rows tm tk).page_size_size = 2 ^ k := hps
  obtain ⟨hp1, hp2⟩ := page_size_known sys _ k hps2
  have prs : 0 ≤ rows * buf.stride := Int.mul_nonneg hrows hst
  have hno : forward_offset sys st buf rows =
      (forward_entry sys st buf rows).offset + rows * buf.stride := rfl
  have hbd : (buffer_destroy_dont_close (forward_entry sys st buf rows)).1.size = buf.size := hb2
  have hno0 : 0 ≤ forward_offset sys st buf rows := by omega
  have hnomax : forward_offset sys st buf rows + buf.size ≤ max_pool_size := by
    have hi6 := hi.2.2.2.2.2.1
    rw [hbd] at hi6
    unfold u64 at hi6
    omega
  have hlen : s64 (u64 (forward_offset sys st buf rows + (forward_entry sys st buf rows).size)) =
      forward_offset sys st buf rows + buf.size := by
    rw [hb2]
    unfold s64 u64
    omega
  have f3 : forward_offset sys st buf rows =
      (forward_entry sys st buf rows).offset + rows * (forward_entry sys st buf rows).stride := by
    rw [hb1, hno]
  have f4 : forward_offset sys st buf rows + (forward_entry sys st buf rows).size ≤
      s64 (u64 (forward_offset sys st buf rows + (forward_entry sys st buf rows).size)) := by
    rw [hlen, hb2]
  have f6 : (forward_remap_state sys st buf rows tm tk).now +
      (page_size_calls (forward_remap_state sys st buf rows tm tk)).length =
      (forward_state sys st buf rows).now + 1 +
        (forward_top_move (forward_entry sys st buf rows) rows tm tk).length +
        (buffer_destroy_dont_close (forward_entry sys st buf rows)).2.length +
        (if forward_offset sys st buf rows > 0 then
          [Call.fallocate (forward_entry sys st buf rows).fd 0 (forward_offset sys st buf rows)]
         else []).length +
        (page_size_calls (forward_remap_state sys st buf rows tm tk)).length := by
    simp only [Shm.now, forward_remap_state, List.length_append, List.length_cons,
      List.length_nil, hp2]
  have f7 : ∀ (n : Nat) (m : Mem) (f o : Int), forward_offset sys st buf rows ≤ o →
      (Mem.run sys n m (if forward_offset sys st buf rows > 0 then
          [Call.fallocate (forward_entry sys st buf rows).fd 0 (forward_offset sys st buf rows)]
         else [])).file f o = m.file f o := by
    intro n m f o ho
    split
    · exact (Mem.step_fallocate sys n m _ 0 _).2 f o (by omega)
    · rfl
  have hsize : (forward_entry sys st buf rows).size < 2 ^ 64 := by rw [hb2]; omega
  have hpos : (0 : Int) < 2 ^ k := by positivity
  have hmod0 := Int.emod_nonneg (forward_offset sys st buf rows) (ne_of_gt hpos)
  obtain ⟨ha, hp, hmm2⟩ := alignment_values k hk (forward_offset sys st buf rows) buf.size
    hno0 hs0 hnomax
  have g1 : aligned_offset_of (page_size_of sys (forward_remap_state sys st buf rows tm tk))
      (forward_offset sys st buf rows) +
      page_offset_of (page_size_of sys (forward_remap_state sys st buf rows tm tk))
        (forward_offset sys st buf rows) = forward_offset sys st buf rows := by
    rw [hp1, ha, hp]
    exact Int.sub_add_cancel _ _
  have g2 : 0 ≤ page_offset_of (page_size_of sys (forward_remap_state sys st buf rows tm tk))
      (forward_offset sys st buf rows) := by
    rw [hp1, hp]
    exact hmod0
  have g3 : mmap_size_of (page_size_of sys (forward_remap_state sys st buf rows tm tk))
      (buffer_destroy_dont_close (forward_entry sys st buf rows)).1
      (forward_offset sys st buf rows) = (forward_entry sys st buf rows).size +
      page_offset_of (page_size_of sys (forward_remap_state sys st buf rows tm tk))
        (forward_offset sys st buf rows) := by
    rw [hp1]
    unfold mmap_size_of
    rw [hbd, hmm2, hb2, hp]
  have ecalls : (Call.ftruncate (forward_entry sys st buf rows).fd
          (s64 (u64 (forward_offset sys st buf rows + (forward_entry sys st buf rows).size))) ::
        forward_rest_calls sys st buf rows tm tk bm bk) =
      Call.ftruncate (forward_entry sys st buf rows).fd
          (s64 (u64 (forward_offset sys st buf rows + (forward_entry sys st buf rows).size))) ::
        (forward_top_move (forward_entry sys st buf rows) rows tm tk ++
        ((buffer_destroy_dont_close (forward_entry sys st buf rows)).2 ++
          ((if forward_offset sys st buf rows > 0 then
              [Call.fallocate (forward_entry sys st buf rows).fd 0 (forward_offset sys st buf rows)]
            else []) ++
            (page_size_calls (forward_remap_state sys st buf rows tm tk) ++
              (instantiate_calls sys
                ((forward_remap_state sys st buf rows tm tk).now +
                  (page_size_calls (forward_remap_state sys st buf rows tm tk)).length)
                (page_size_of sys (forward_remap_state sys st buf rows tm tk))
                (buffer_destroy_dont_close (forward_entry sys st buf rows)).1
                (forward_offset sys st buf rows) ++
              forward_bottom_move (scrolled_forward sys st buf rows tm tk) rows bm bk))))) := by
    simp only [forward_rest_calls, List.append_assoc]
  rw [ecalls]
  have hmain := Mem.run_forward_rest sys (forward_state sys st buf rows).now
    ((forward_remap_state sys st buf rows tm tk).now +
      (page_size_calls (forward_remap_state sys st buf rows tm tk)).length)
    mw (forward_entry sys st buf rows) (buffer_destroy_dont_close (forward_entry sys st buf rows)).1
    (scrolled_forward sys st buf rows tm tk)
    rows tm tk bm bk
    (s64 (u64 (forward_offset sys st buf rows + (forward_entry sys st buf rows).size)))
    (forward_offset sys st buf rows)
    (page_size_of sys (forward_remap_state sys st buf rows tm tk))
    (buffer_destroy_dont_close (forward_entry sys st buf rows)).2
    (if forward_offset sys st buf rows > 0 then
      [Call.fallocate (forward_entry sys st buf rows).fd 0 (forward_offset sys st buf rows)]
     else [])
    (page_size_calls (forward_remap_state sys st buf rows tm tk))
    f6 (fun n m => Mem.run_destroy_file sys n m _) f7
    (fun n m => Mem.run_page_size_calls sys n m _)
    hi.2.2.2.2.2.2.2.2.2.1 g1 g2 g3 ⟨rfl, rfl, rfl, rfl, rfl, rfl⟩
    (by rw [hb1]; exact hst) hrows hsize
    (by rw [hb1, hb2]; exact htop) (by rw [hb1, hb2]; exact hbot) f3 f4
    (by rw [hb2]; exact hmapw) y hy0 (by rw [hb2]; exact hy1)
  simp only [hb1, hb2] at hmain ⊢
  exact hmain

/-- The bytes behind a forward scroll that returns, with or without
wrap-around: the new mapping of the entry shows `size` bytes of its file from
the new offset on, and the content of the buffer is `forward_content` of the
content it had. -/
theorem forward_scroll_content (sys : Sys) (st st2 : Shm) (buf buf2 : Buffer) (ret : Bool)
    (m0 : Mem) (k : Nat) (rows tm tk bm bk : Int)
    (hk : k < 64) (hps : st.page_size_size = 2 ^ k) (hst : 0 ≤ buf.stride)
    (hinv : 0 ≤ buf.offset ∧ buf.offset + buf.size ≤ max_pool_size)
    (htop : tk > 0 → 0 ≤ tm ∧ (tm + rows) * buf.stride + tk * buf.stride ≤ buf.size)
    (hbot : bk > 0 → 0 ≤ bm ∧ (bm + rows + bk) * buf.stride ≤ buf.size)
    (hmap : ∀ x : Int, 0 ≤ x → x < buf.size →
      m0.resolve (buf.mmapped + x) = some (buf.fd, buf.offset + x))
    (hfree : ∀ x : Int, 0 ≤ x → x < buf.size →
      buf.mmapped + x <
        mmap_of sys (st.now + (page_size_calls st).length) (page_size_of sys st) buf 0 ∨
      mmap_of sys (st.now + (page_size_calls st).length) (page_size_of sys st) buf 0 +
        mmap_size_of (page_size_of sys st) buf 0 ≤ buf.mmapped + x)
    (h : shm_scroll_forward sys st buf rows tm tk bm bk = Except.ok (ret, buf2, st2)) :
    buf2.stride = buf.stride ∧ buf2.size = buf.size ∧
    rows * buf.stride ≤ buf2.offset ∧ buf2.offset + buf.size ≤ max_pool_size ∧
    ∃ c : Int → Nat, (∀ z : Int, 0 ≤ z → z < buf.size → c z = m0.read (buf.mmapped + z)) ∧
      ∀ y : Int, 0 ≤ y → y < buf.size →
        (Mem.run sys st.now m0 (st2.calls.drop st.calls.length)).resolve (buf2.mmapped + y) =
          some (buf.fd, buf2.offset + y) ∧
        (Mem.run sys st.now m0 (st2.calls.drop st.calls.length)).read (buf2.mmapped + y) =
          forward_content c buf.stride buf.size rows tm tk bm bk y := by
  obtain ⟨_, _, _, hrows, hrange, h382, _⟩ := shm_scroll_forward_ok _ _ _ _ _ _ _ _ _ _ _ h
  obtain ⟨hwr, hi, _, rfl, rfl⟩ := shm_scroll_forward_returns _ _ _ _ _ _ _ _ _ _ _ h
  obtain ⟨ho0, homax⟩ := hinv
  have hm := max_pool_size_eq
  have prs : 0 ≤ rows * buf.stride := Int.mul_nonneg (le_of_lt hrows) hst
  have hr : rows * buf.stride < buf.size := by
    unfold u64 at h382
    unfold INT_MIN INT_MAX at hrange
    omega
  have hs0 : 0 ≤ buf.size := by omega
  have hmaxs : buf.size ≤ max_pool_size := by omega
  have hoff2 : (scrolled_forward sys st buf rows tm tk).offset = forward_offset sys st buf rows :=
    rfl
  have hno : forward_offset sys st buf rows =
      (forward_entry sys st buf rows).offset + rows * buf.stride := rfl
  have hnomax : forward_offset sys st buf rows + buf.size ≤ max_pool_size := by
    have hi6 := hi.2.2.2.2.2.1
    have hbd : (buffer_destroy_dont_close (forward_entry sys st buf rows)).1.size =
        (forward_entry sys st buf rows).size := rfl
    have hfs : (forward_entry sys st buf rows).size = buf.size := by
      unfold forward_entry
      split <;> rfl
    have hfo : 0 ≤ (forward_entry sys st buf rows).offset ∧
        (forward_entry sys st buf rows).offset ≤ buf.offset := by
      unfold forward_entry
      split
      · exact ⟨le_refl _, ho0⟩
      · exact ⟨ho0, le_refl _⟩
    rw [hbd, hfs] at hi6
    unfold u64 at hi6
    omega
  have hread : ∀ z : Int, 0 ≤ z → z < buf.size →
      m0.file buf.fd (buf.offset + z) = m0.read (buf.mmapped + z) := fun z z0 z1 =>
    (Mem.read_of_resolve _ _ _ _ (hmap z z0 z1)).symm
  have es : (scrolled_forward sys st buf rows tm tk).stride =
      (forward_entry sys st buf rows).stride := rfl
  have ez : (scrolled_forward sys st buf rows tm tk).size =
      (forward_entry sys st buf rows).size := rfl
  rw [after_scroll_forward_calls]
  by_cases hw : forward_wraps buf rows
  · -- with wrap-around
    obtain ⟨_, hT, hiw⟩ := hwr hw
    have hfe : forward_entry sys st buf rows = wrapped_entry sys st buf 0 := by
      simp [forward_entry, hw]
    have hfs : forward_state sys st buf rows = after_wrap sys st buf 0 := by
      simp [forward_state, hw]
    have hfacts : (wrapped_entry sys st buf 0).stride = buf.stride ∧
        (wrapped_entry sys st buf 0).size = buf.size ∧ (wrapped_entry sys st buf 0).offset = 0 ∧
        (wrapped_entry sys st buf 0).fd = buf.fd := ⟨rfl, rfl, rfl, rfl⟩
    obtain ⟨w1, w2, w3, w4⟩ := hfacts
    have hpsw : (forward_state sys st buf rows).page_size_size = 2 ^ k := by
      rw [hfs]
      have h1 := (page_size_known sys st k hps).1
      have h2 : (wrap_state sys st buf 0).page_size_size = 2 ^ k := h1
      exact (page_size_known sys _ k h2).1
    have hnoww : (after_wrap sys st buf 0).now = st.now + (wrap_calls sys st buf 0).length := by
      simp only [Shm.now, after_wrap_calls, List.length_append]
    have hdrop : ((forward_state sys st buf rows).calls ++
        Call.ftruncate (forward_entry sys st buf rows).fd
          (s64 (u64 (forward_offset sys st buf rows + (forward_entry sys st buf rows).size))) ::
        forward_rest_calls sys st buf rows tm tk bm bk).drop st.calls.length =
        wrap_calls sys st buf 0 ++
        Call.ftruncate (forward_entry sys st buf rows).fd
          (s64 (u64 (forward_offset sys st buf rows + (forward_entry sys st buf rows).size))) ::
        forward_rest_calls sys st buf rows tm tk bm bk := by
      rw [hfs, after_wrap_calls, List.append_assoc, List.drop_left]
    rw [hdrop, Mem.run_append, ← hnoww, ← hfs]
    have hmapw : ∀ x : Int, 0 ≤ x → x < buf.size →
        (Mem.run sys st.now m0 (wrap_calls sys st buf 0)).resolve
          ((forward_entry sys st buf rows).mmapped + x) =
          some ((forward_entry sys st buf rows).fd, (forward_entry sys st buf rows).offset + x) := by
      intro x hx0 hx1
      rw [hfe, w3, w4]
      exact (forward_wrap_rows sys st buf m0 k hps hs0 hmaxs hT hiw hmap hfree x hx0 hx1).1
    have efd : (forward_entry sys st buf rows).fd = buf.fd := by rw [hfe, w4]
    have eoff : (forward_entry sys st buf rows).offset = 0 := by rw [hfe, w3]
    refine ⟨by rw [es, hfe, w1], by rw [ez, hfe, w2], by rw [hoff2, hno, hfe, w3]; omega,
      by rw [hoff2]; exact hnomax,
      fun z => (Mem.run sys st.now m0 (wrap_calls sys st buf 0)).file buf.fd (0 + z), ?_, ?_⟩
    · intro z z0 z1
      rw [← hread z z0 z1]
      exact (forward_wrap_rows sys st buf m0 k hps hs0 hmaxs hT hiw hmap hfree z z0 z1).2
    · intro y hy0 hy1
      obtain ⟨r1, r2⟩ := forward_rest_content sys st buf
        (Mem.run sys st.now m0 (wrap_calls sys st buf 0)) k rows tm tk bm bk hk hpsw hst
        (le_of_lt hrows) hs0 hmaxs
        (by rw [hfe]; exact ⟨w1, w2, by rw [w3], by rw [w3]; omega⟩) (le_of_lt hr) hi htop hbot
        hmapw y hy0 hy1
      exact ⟨by rw [hoff2]; exact r1.trans (by rw [efd]),
        (Mem.read_of_resolve _ _ _ _ r1).trans (r2.trans (by rw [efd, eoff]))⟩
  · -- without wrap-around
    have hfe : forward_entry sys st buf rows = buf := by simp [forward_entry, hw]
    have hfs : forward_state sys st buf rows = st := by simp [forward_state, hw]
    have hpsw : (forward_state sys st buf rows).page_size_size = 2 ^ k := by rw [hfs]; exact hps
    have hdrop : ((forward_state sys st buf rows).calls ++
        Call.ftruncate (forward_entry sys st buf rows).fd
          (s64 (u64 (forward_offset sys st buf rows + (forward_entry sys st buf rows).size))) ::
        forward_rest_calls sys st buf rows tm tk bm bk).drop st.calls.length =
        Call.ftruncate (forward_entry sys st buf rows).fd
          (s64 (u64 (forward_offset sys st buf rows + (forward_entry sys st buf rows).size))) ::
        forward_rest_calls sys st buf rows tm tk bm bk := by
      rw [hfs, List.drop_left]
    have hnow : st.now = (forward_state sys st buf rows).now := by rw [hfs]
    rw [hdrop, hnow]
    have hmapw : ∀ x : Int, 0 ≤ x → x < buf.size →
        m0.resolve ((forward_entry sys st buf rows).mmapped + x) =
          some ((forward_entry sys st buf rows).fd, (forward_entry sys st buf rows).offset + x) := by
      rw [hfe]
      exact hmap
    have efd : (forward_entry sys st buf rows).fd = buf.fd := by rw [hfe]
    have eoff : (forward_entry sys st buf rows).offset = buf.offset := by rw [hfe]
    refine ⟨by rw [es, hfe], by rw [ez, hfe], by rw [hoff2, hno, hfe]; omega,
      by rw [hoff2]; exact hnomax, fun z => m0.file buf.fd (buf.offset + z), hread, ?_⟩
    intro y hy0 hy1
    obtain ⟨r1, r2⟩ := forward_rest_content sys st buf m0 k rows tm tk bm bk hk hpsw hst
      (le_of_lt hrows) hs0 hmaxs (by rw [hfe]; exact ⟨rfl, rfl, ho0, homax⟩) (le_of_lt hr) hi
      htop hbot hmapw y hy0 hy1
    exact ⟨by rw [hoff2]; exact r1.trans (by rw [efd]),
      (Mem.read_of_resolve _ _ _ _ r1).trans (r2.trans (by rw [efd, eoff]))⟩

theorem countP_memmove_destroy (b : Buffer) :
    (buffer_destroy_dont_close b).2.countP Call.is_memmove = 0 := by
  unfold buffer_destroy_dont_close
  simp only [List.countP_append]
  split <;> split <;> split <;> simp [Call.is_memmove]

theorem countP_memmove_page_size (st : Shm) :
    (page_size_calls st).countP Call.is_memmove = 0 := by
  unfold page_size_calls
  split <;> simp [Call.is_memmove]

theorem countP_memmove_instantiate (sys : Sys) (n : Nat) (ps : Int) (b : Buffer) (o : Int) :
    (instantiate_calls sys n ps b o).countP Call.is_memmove = 0 := by
  simp [instantiate_calls, Call.is_memmove]

/-- The stride of an entry that a forward scroll accepts is not negative. -/
theorem forward_scroll_stride (sys : Sys) (st st2 : Shm) (buf buf2 : Buffer) (ret : Bool)
    (rows tm tk bm bk : Int)
    (hinv : 0 ≤ buf.offset ∧ buf.offset + buf.size ≤ max_pool_size)
    (h : shm_scroll_forward sys st buf rows tm tk bm bk = Except.ok (ret, buf2, st2)) :
    0 < rows ∧ 0 ≤ buf.stride ∧ 0 ≤ rows * buf.stride ∧ rows * buf.stride < buf.size := by
  obtain ⟨_, _, _, hrows, hrange, h382, _⟩ := shm_scroll_forward_ok _ _ _ _ _ _ _ _ _ _ _ h
  have hm := max_pool_size_eq
  have h0 : 0 ≤ rows * buf.stride := by
    unfold u64 at h382
    unfold INT_MIN INT_MAX at hrange
    omega
  have hst : 0 ≤ buf.stride := by
    by_contra hneg
    have : rows * buf.stride < 0 := Int.mul_neg_of_pos_of_neg hrows (by omega)
    omega
  refine ⟨hrows, hst, h0, ?_⟩
  unfold u64 at h382
  unfold INT_MIN INT_MAX at hrange
  omega

/-- A forward scroll that returns, with non-negative margins and keep
counts and `top_margin + top_keep_rows + rows + bottom_keep_rows +
bottom_margin ≤ height`, keeps the rows of both keep ranges in place, with or
without wrap-around: read through the new mapping, the rows `[top_margin,
top_margin + top_keep_rows)` and `[height - bottom_margin - bottom_keep_rows,
height - bottom_margin)` of the resulting buffer hold the bytes the rows with
the same numbers held in the input buffer.  Both regions are moved with
`memmove`, the scroll makes no `memcpy` after its wrap check, and the place the
top region is moved to ends no later than the bottom region to be moved
begins.  The page size is `2 ^ k`, the entry lies inside the pool bound with
`size = stride * height`, its mapping shows its bytes of the file, and the
temporary mapping of a wrap-around does not meet it. -/
theorem forward_keep_rows_preserved (sys : Sys) (st st2 : Shm) (buf buf2 : Buffer)
    (ret : Bool) (m0 : Mem) (k : Nat) (rows tm tk bm bk : Int)
    (hk : k < 64) (hps : st.page_size_size = 2 ^ k)
    (hsz : buf.size = buf.stride * buf.height)
    (hinv : 0 ≤ buf.offset ∧ buf.offset + buf.size ≤ max_pool_size)
    (hpos : 0 ≤ tm ∧ 0 ≤ tk ∧ 0 ≤ bm ∧ 0 ≤ bk)
    (hfit : tm + tk + rows + bk + bm ≤ buf.height)
    (hmap : ∀ x : Int, 0 ≤ x → x < buf.size →
      m0.resolve (buf.mmapped + x) = some (buf.fd, buf.offset + x))
    (hfree : ∀ x : Int, 0 ≤ x → x < buf.size →
      buf.mmapped + x <
        mmap_of sys (st.now + (page_size_calls st).length) (page_size_of sys st) buf 0 ∨
      mmap_of sys (st.now + (page_size_calls st).length) (page_size_of sys st) buf 0 +
        mmap_size_of (page_size_of sys st) buf 0 ≤ buf.mmapped + x)
    (h : shm_scroll_forward sys st buf rows tm tk bm bk = Except.ok (ret, buf2, st2)) :
    (∀ i j : Int, tm ≤ i → i < tm + tk → 0 ≤ j → j < buf.stride →
      (Mem.run sys st.now m0 (st2.calls.drop st.calls.length)).read
        (row_address buf2.mmapped buf2.stride i + j) =
      m0.read (row_address buf.mmapped buf.stride i + j)) ∧
    (∀ i j : Int, buf.height - bm - bk ≤ i → i < buf.height - bm → 0 ≤ j → j < buf.stride →
      (Mem.run sys st.now m0 (st2.calls.drop st.calls.length)).read
        (row_address buf2.mmapped buf2.stride i + j) =
      m0.read (row_address buf.mmapped buf.stride i + j)) ∧
    (tm + rows + tk) * buf.stride ≤ buf.size - (bm + bk) * buf.stride ∧
    ∃ R : List Call,
      st2.calls = (forward_state sys st buf rows).calls ++ R ∧ R.countP Call.is_memcpy = 0 ∧
      (tk > 0 →
        Call.memmove ((forward_entry sys st buf rows).mmapped + (tm + rows) * buf.stride)
          ((forward_entry sys st buf rows).mmapped + (tm + 0) * buf.stride)
          (u64 (tk * buf.stride)) ∈ R) ∧
      (bk > 0 →
        Call.memmove (buf2.mmapped + buf.size - (bm + bk) * buf.stride)
          (buf2.mmapped + buf.size - (bm + rows + bk) * buf.stride)
          (u64 (bk * buf.stride)) ∈ R) := by
  obtain ⟨hrows, hst, prs, hr⟩ := forward_scroll_stride _ _ _ _ _ _ _ _ _ _ _ hinv h
  obtain ⟨h0tm, h0tk, h0bm, h0bk⟩ := hpos
  -- the products with the stride
  have pa : 0 ≤ tm * buf.stride := Int.mul_nonneg h0tm hst
  have pb : 0 ≤ tk * buf.stride := Int.mul_nonneg h0tk hst
  have pd : 0 ≤ bk * buf.stride := Int.mul_nonneg h0bk hst
  have pe : 0 ≤ bm * buf.stride := Int.mul_nonneg h0bm hst
  have hH : buf.size = buf.height * buf.stride := by rw [hsz, Int.mul_comm]
  have hsum : tm * buf.stride + tk * buf.stride + rows * buf.stride + bk * buf.stride +
      bm * buf.stride ≤ buf.size := by
    have := Int.mul_le_mul_of_nonneg_right hfit hst
    rw [Int.add_mul, Int.add_mul, Int.add_mul, Int.add_mul] at this
    rw [hH]
    exact this
  have e1 : (tm + rows) * buf.stride = tm * buf.stride + rows * buf.stride := Int.add_mul _ _ _
  have e2 : (bm + bk) * buf.stride = bm * buf.stride + bk * buf.stride := Int.add_mul _ _ _
  have e3 : (bm + rows + bk) * buf.stride =
      bm * buf.stride + rows * buf.stride + bk * buf.stride := by
    rw [Int.add_mul, Int.add_mul]
  have e4 : (tm + rows + tk) * buf.stride =
      tm * buf.stride + rows * buf.stride + tk * buf.stride := by
    rw [Int.add_mul, Int.add_mul]
  have htop : tk > 0 → 0 ≤ tm ∧ (tm + rows) * buf.stride + tk * buf.stride ≤ buf.size :=
    fun _ => ⟨h0tm, by omega⟩
  have hbot : bk > 0 → 0 ≤ bm ∧ (bm + rows + bk) * buf.stride ≤ buf.size :=
    fun _ => ⟨h0bm, by omega⟩
  obtain ⟨s2, z2, _, _, c, hc, hrow⟩ := forward_scroll_content sys st st2 buf buf2 ret m0 k
    rows tm tk bm bk hk hps hst hinv htop hbot hmap hfree h
  refine ⟨?_, ?_, by omega, ?_⟩
  · -- the top region
    intro i j i0 i1 j0 j1
    have q1 : tm * buf.stride ≤ i * buf.stride := Int.mul_le_mul_of_nonneg_right i0 hst
    have q2 : (i + 1) * buf.stride ≤ (tm + tk) * buf.stride :=
      Int.mul_le_mul_of_nonneg_right (by omega) hst
    rw [Int.add_mul, Int.add_mul, Int.one_mul] at q2
    have ea : row_address buf2.mmapped buf2.stride i + j = buf2.mmapped + (i * buf.stride + j) := by
      rw [s2]
      unfold row_address Ptr
      omega
    have eb : row_address buf.mmapped buf.stride i + j = buf.mmapped + (i * buf.stride + j) := by
      unfold row_address Ptr
      omega
    rw [ea, eb, (hrow _ (by omega) (by omega)).2, ← hc _ (by omega) (by omega)]
    unfold forward_content moved_up
    dsimp only
    have n1 : ¬ (buf.size - (bm + bk) * buf.stride ≤ i * buf.stride + j ∧
        i * buf.stride + j < buf.size - (bm + bk) * buf.stride + bk * buf.stride) :=
      fun hx => by
        have := hx.1
        omega
    have n2 : (tm + rows) * buf.stride ≤ i * buf.stride + j + rows * buf.stride ∧
        i * buf.stride + j + rows * buf.stride < (tm + rows) * buf.stride + tk * buf.stride :=
      ⟨by omega, by omega⟩
    have e5 : i * buf.stride + j + rows * buf.stride - rows * buf.stride = i * buf.stride + j :=
      by omega
    rw [if_neg n1, if_pos n2, e5]
  · -- the bottom region
    intro i j i0 i1 j0 j1
    have q1 : (buf.height - bm - bk) * buf.stride ≤ i * buf.stride :=
      Int.mul_le_mul_of_nonneg_right i0 hst
    have q2 : (i + 1) * buf.stride ≤ (buf.height - bm) * buf.stride :=
      Int.mul_le_mul_of_nonneg_right (by omega) hst
    rw [Int.sub_mul, Int.sub_mul, ← hH] at q1
    rw [Int.add_mul, Int.one_mul, Int.sub_mul, ← hH] at q2
    have ea : row_address buf2.mmapped buf2.stride i + j = buf2.mmapped + (i * buf.stride + j) := by
      rw [s2]
      unfold row_address Ptr
      omega
    have eb : row_address buf.mmapped buf.stride i + j = buf.mmapped + (i * buf.stride + j) := by
      unfold row_address Ptr
      omega
    rw [ea, eb, (hrow _ (by omega) (by omega)).2, ← hc _ (by omega) (by omega)]
    unfold forward_content moved_up
    dsimp only
    have n1 : buf.size - (bm + bk) * buf.stride ≤ i * buf.stride + j ∧
        i * buf.stride + j < buf.size - (bm + bk) * buf.stride + bk * buf.stride :=
      ⟨by omega, by omega⟩
    have n2 : ¬ ((tm + rows) * buf.stride ≤
        i * buf.stride + j - rows * buf.stride + rows * buf.stride ∧
        i * buf.stride + j - rows * buf.stride + rows * buf.stride <
          (tm + rows) * buf.stride + tk * buf.stride) :=
      fun hx => by
        have := hx.2
        omega
    have e5 : i * buf.stride + j - rows * buf.stride + rows * buf.stride = i * buf.stride + j :=
      by omega
    rw [if_pos n1, if_neg n2, e5]
  · -- the calls
    obtain ⟨_, _, _, hb2, hs2⟩ := shm_scroll_forward_returns _ _ _ _ _ _ _ _ _ _ _ h
    have hfst : (forward_entry sys st buf rows).stride = buf.stride := by
      unfold forward_entry
      split <;> rfl
    refine ⟨Call.ftruncate (forward_entry sys st buf rows).fd
        (s64 (u64 (forward_offset sys st buf rows + (forward_entry sys st buf rows).size))) ::
      forward_rest_calls sys st buf rows tm tk bm bk, ?_, ?_, ?_, ?_⟩
    · rw [hs2, after_scroll_forward_calls]
    · rw [List.countP_cons, countP_memcpy_forward_rest]
      rfl
    · intro htk
      apply List.mem_cons_of_mem
      unfold forward_rest_calls forward_top_move
      rw [if_pos htk, hfst]
      simp
    · intro hbk
      apply List.mem_cons_of_mem
      unfold forward_rest_calls forward_bottom_move
      rw [if_pos hbk, ← hb2, s2, z2]
      simp

/-- The forward scroll of `four_rows` by one row that keeps the top row and,
above a margin of one row, one row at the bottom. -/
theorem forward_keep_rows_sample :
    (12 < 64 ∧ scroll_state.page_size_size = 2 ^ 12 ∧
      four_rows.size = four_rows.stride * four_rows.height ∧
      (0 ≤ four_rows.offset ∧ four_rows.offset + four_rows.size ≤ max_pool_size) ∧
      ((0 : Int) ≤ 0 ∧ (0 : Int) ≤ 1 ∧ (0 : Int) ≤ 1 ∧ (0 : Int) ≤ 1) ∧
      (0 : Int) + 1 + 1 + 1 + 1 ≤ four_rows.height ∧
      (∀ x : Int, 0 ≤ x → x < four_rows.size →
        four_rows_mem.resolve (four_rows.mmapped + x) =
          some (four_rows.fd, four_rows.offset + x)) ∧
      (∀ x : Int, 0 ≤ x → x < four_rows.size →
        four_rows.mmapped + x <
          mmap_of sample_sys (scroll_state.now + (page_size_calls scroll_state).length)
            (page_size_of sample_sys scroll_state) four_rows 0 ∨
        mmap_of sample_sys (scroll_state.now + (page_size_calls scroll_state).length)
            (page_size_of sample_sys scroll_state) four_rows 0 +
          mmap_size_of (page_size_of sample_sys scroll_state) four_rows 0 ≤
            four_rows.mmapped + x)) ∧
    ∃ buf2 st2,
      shm_scroll_forward sample_sys scroll_state four_rows 1 0 1 1 1 =
        Except.ok (true, buf2, st2) ∧
      (∀ i j : Int, 0 ≤ i → i < 0 + 1 → 0 ≤ j → j < four_rows.stride →
        (Mem.run sample_sys scroll_state.now four_rows_mem
          (st2.calls.drop scroll_state.calls.length)).read
          (row_address buf2.mmapped buf2.stride i + j) =
        four_rows_mem.read (row_address four_rows.mmapped four_rows.stride i + j)) ∧
      (∀ i j : Int, four_rows.height - 1 - 1 ≤ i → i < four_rows.height - 1 → 0 ≤ j →
        j < four_rows.stride →
        (Mem.run sample_sys scroll_state.now four_rows_mem
          (st2.calls.drop scroll_state.calls.length)).read
          (row_address buf2.mmapped buf2.stride i + j) =
        four_rows_mem.read (row_address four_rows.mmapped four_rows.stride i + j)) ∧
      (0 + 1 + 1) * four_rows.stride ≤ four_rows.size - (1 + 1) * four_rows.stride ∧
      ∃ R : List Call,
        st2.calls = (forward_state sample_sys scroll_state four_rows 1).calls ++ R ∧
        R.countP Call.is_memcpy = 0 ∧
        ((1 : Int) > 0 →
          Call.memmove
            ((forward_entry sample_sys scroll_state four_rows 1).mmapped +
              (0 + 1) * four_rows.stride)
            ((forward_entry sample_sys scroll_state four_rows 1).mmapped +
              (0 + 0) * four_rows.stride)
            (u64 (1 * four_rows.stride)) ∈ R) ∧
        ((1 : Int) > 0 →
          Call.memmove (buf2.mmapped + four_rows.size - (1 + 1) * four_rows.stride)
            (buf2.mmapped + four_rows.size - (1 + 1 + 1) * four_rows.stride)
            (u64 (1 * four_rows.stride)) ∈ R) :=
  have hmap : ∀ x : Int, 0 ≤ x → x < four_rows.size →
      four_rows_mem.resolve (four_rows.mmapped + x) =
        some (four_rows.fd, four_rows.offset + x) :=
    fun x h0 h1 => Mem.resolve_front four_rows_mem ⟨65536, 16, 3, 0⟩ [] x rfl h0 h1
  have hfree : ∀ x : Int, 0 ≤ x → x < four_rows.size →
      four_rows.mmapped + x <
        mmap_of sample_sys (scroll_state.now + (page_size_calls scroll_state).length)
          (page_size_of sample_sys scroll_state) four_rows 0 ∨
      mmap_of sample_sys (scroll_state.now + (page_size_calls scroll_state).length)
          (page_size_of sample_sys scroll_state) four_rows 0 +
        mmap_size_of (page_size_of sample_sys scroll_state) four_rows 0 ≤
          four_rows.mmapped + x :=
    fun x h0 _ => Or.inr (by
      show (4112 : Int) ≤ 65536 + x
      omega)
  ⟨⟨by decide, rfl, rfl, by decide, by decide, by decide, hmap, hfree⟩,
    (fun (b : Buffer) (s : Shm)
        (h : shm_scroll_forward sample_sys scroll_state four_rows 1 0 1 1 1 =
          Except.ok (true, b, s)) =>
      ⟨b, s, h, forward_keep_rows_preserved sample_sys scroll_state s four_rows b true
        four_rows_mem 12 1 0 1 1 1 (by decide) rfl rfl (by decide) (by decide) (by decide)
        hmap hfree h⟩) _ _ rfl⟩

/-- A forward scroll by `rows` rows with `top_keep_rows = 0` and
`bottom_keep_rows = 0` that returns (so `0 < rows` and `rows * stride < size`)
moves the content up by `rows` rows, with or without wrap-around: read through
the new mapping, row `i` of the resulting buffer holds the bytes row `i + rows`
of the input buffer held, for all `0 ≤ i < height - rows`.  The last `rows`
rows are fresh: they show the bytes of the file that follow the `size` bytes
in which the content stands.  After its wrap check the scroll copies nothing.
The page size is `2 ^ k`, the entry lies inside the pool bound with `size =
stride * height`, its mapping shows its bytes of the file, and the temporary
mapping of a wrap-around does not meet it. -/
theorem forward_content_moves_up (sys : Sys) (st st2 : Shm) (buf buf2 : Buffer)
    (ret : Bool) (m0 : Mem) (k : Nat) (rows tm bm : Int)
    (hk : k < 64) (hps : st.page_size_size = 2 ^ k)
    (hsz : buf.size = buf.stride * buf.height)
    (hinv : 0 ≤ buf.offset ∧ buf.offset + buf.size ≤ max_pool_size)
    (hmap : ∀ x : Int, 0 ≤ x → x < buf.size →
      m0.resolve (buf.mmapped + x) = some (buf.fd, buf.offset + x))
    (hfree : ∀ x : Int, 0 ≤ x → x < buf.size →
      buf.mmapped + x <
        mmap_of sys (st.now + (page_size_calls st).length) (page_size_of sys st) buf 0 ∨
      mmap_of sys (st.now + (page_size_calls st).length) (page_size_of sys st) buf 0 +
        mmap_size_of (page_size_of sys st) buf 0 ≤ buf.mmapped + x)
    (h : shm_scroll_forward sys st buf rows tm 0 bm 0 = Except.ok (ret, buf2, st2)) :
    (0 < rows ∧ rows * buf.stride < buf.size) ∧
    (∀ i j : Int, 0 ≤ i → i < buf.height - rows → 0 ≤ j → j < buf.stride →
      (Mem.run sys st.now m0 (st2.calls.drop st.calls.length)).read
        (row_address buf2.mmapped buf2.stride i + j) =
      m0.read (row_address buf.mmapped buf.stride (i + rows) + j)) ∧
    (∀ i j : Int, buf.height - rows ≤ i → i < buf.height → 0 ≤ j → j < buf.stride →
      (Mem.run sys st.now m0 (st2.calls.drop st.calls.length)).resolve
        (row_address buf2.mmapped buf2.stride i + j) =
        some (buf.fd, buf2.offset + (i * buf.stride + j)) ∧
      (buf2.offset - rows * buf.stride) + buf.size ≤ buf2.offset + (i * buf.stride + j)) ∧
    (∀ i j : Int, 0 ≤ i → i < buf.height - rows → 0 ≤ j → j < buf.stride →
      (Mem.run sys st.now m0 (st2.calls.drop st.calls.length)).resolve
        (row_address buf2.mmapped buf2.stride i + j) =
        some (buf.fd, buf2.offset + (i * buf.stride + j)) ∧
      buf2.offset + (i * buf.stride + j) < (buf2.offset - rows * buf.stride) + buf.size) ∧
    ∃ R : List Call,
      st2.calls = (forward_state sys st buf rows).calls ++ R ∧
      R.countP Call.is_memcpy = 0 ∧ R.countP Call.is_memmove = 0 := by
  obtain ⟨hrows, hst, prs, hr⟩ := forward_scroll_stride _ _ _ _ _ _ _ _ _ _ _ hinv h
  have hH : buf.size = buf.height * buf.stride := by rw [hsz, Int.mul_comm]
  have hno : ¬ ((0 : Int) > 0) := by omega
  have htop : (0 : Int) > 0 → 0 ≤ tm ∧ (tm + rows) * buf.stride + 0 * buf.stride ≤ buf.size :=
    fun hx => absurd hx hno
  have hbot : (0 : Int) > 0 → 0 ≤ bm ∧ (bm + rows + 0) * buf.stride ≤ buf.size :=
    fun hx => absurd hx hno
  obtain ⟨s2, z2, _, _, c, hc, hrow⟩ := forward_scroll_content sys st st2 buf buf2 ret m0 k
    rows tm 0 bm 0 hk hps hst hinv htop hbot hmap hfree h
  have ez : (0 : Int) * buf.stride = 0 := Int.zero_mul _
  have ea : ∀ i j : Int, row_address buf2.mmapped buf2.stride i + j =
      buf2.mmapped + (i * buf.stride + j) := by
    intro i j
    rw [s2]
    unfold row_address Ptr
    omega
  refine ⟨⟨hrows, hr⟩, ?_, ?_, ?_, ?_⟩
  · intro i j i0 i1 j0 j1
    have q0 : 0 ≤ i * buf.stride := Int.mul_nonneg i0 hst
    have q2 : (i + rows + 1) * buf.stride ≤ buf.height * buf.stride :=
      Int.mul_le_mul_of_nonneg_right (by omega) hst
    rw [Int.add_mul, Int.add_mul, Int.one_mul, ← hH] at q2
    have eb : row_address buf.mmapped buf.stride (i + rows) + j =
        buf.mmapped + (i * buf.stride + j + rows * buf.stride) := by
      unfold row_address Ptr
      rw [Int.add_mul]
      omega
    rw [ea, eb, (hrow _ (by omega) (by omega)).2, ← hc _ (by omega) (by omega)]
    unfold forward_content moved_up
    dsimp only
    have n1 : ¬ (buf.size - (bm + 0) * buf.stride ≤ i * buf.stride + j ∧
        i * buf.stride + j < buf.size - (bm + 0) * buf.stride + 0 * buf.stride) :=
      fun hx => by
        have := hx.1
        have := hx.2
        omega
    have n2 : ¬ ((tm + rows) * buf.stride ≤ i * buf.stride + j + rows * buf.stride ∧
        i * buf.stride + j + rows * buf.stride < (tm + rows) * buf.stride + 0 * buf.stride) :=
      fun hx => by
        have := hx.1
        have := hx.2
        omega
    rw [if_neg n1, if_neg n2]
  · intro i j i0 i1 j0 j1
    have q1 : (buf.height - rows) * buf.stride ≤ i * buf.stride :=
      Int.mul_le_mul_of_nonneg_right i0 hst
    have q2 : (i + 1) * buf.stride ≤ buf.height * buf.stride :=
      Int.mul_le_mul_of_nonneg_right (by omega) hst
    rw [Int.sub_mul, ← hH] at q1
    rw [Int.add_mul, Int.one_mul, ← hH] at q2
    rw [ea]
    exact ⟨(hrow _ (by omega) (by omega)).1, by omega⟩
  · intro i j i0 i1 j0 j1
    have q0 : 0 ≤ i * buf.stride := Int.mul_nonneg i0 hst
    have q2 : (i + rows + 1) * buf.stride ≤ buf.height * buf.stride :=
      Int.mul_le_mul_of_nonneg_right (by omega) hst
    rw [Int.add_mul, Int.add_mul, Int.one_mul, ← hH] at q2
    rw [ea]
    exact ⟨(hrow _ (by omega) (by omega)).1, by omega⟩
  · obtain ⟨_, _, _, hb2, hs2⟩ := shm_scroll_forward_returns _ _ _ _ _ _ _ _ _ _ _ h
    refine ⟨Call.ftruncate (forward_entry sys st buf rows).fd
        (s64 (u64 (forward_offset sys st buf rows + (forward_entry sys st buf rows).size))) ::
      forward_rest_calls sys st buf rows tm 0 bm 0, ?_, ?_, ?_⟩
    · rw [hs2, after_scroll_forward_calls]
    · rw [List.countP_cons, countP_memcpy_forward_rest]
      rfl
    · rw [List.countP_cons]
      unfold forward_rest_calls forward_top_move forward_bottom_move
      rw [if_neg hno, if_neg hno]
      simp only [List.countP_append, countP_memmove_destroy, countP_memmove_page_size,
        countP_memmove_instantiate, List.countP_nil]
      split <;> simp [Call.is_memmove]

/-- The forward scroll of `last_entry` by two rows, which wraps. -/
theorem forward_content_moves_up_sample :
    (12 < 64 ∧ scroll_state.page_size_size = 2 ^ 12 ∧
      last_entry.size = last_entry.stride * last_entry.height ∧
      (0 ≤ last_entry.offset ∧ last_entry.offset + last_entry.size ≤ max_pool_size) ∧
      (∀ x : Int, 0 ≤ x → x < last_entry.size →
        last_entry_mem.resolve (last_entry.mmapped + x) =
          some (last_entry.fd, last_entry.offset + x)) ∧
      (∀ x : Int, 0 ≤ x → x < last_entry.size →
        last_entry.mmapped + x <
          mmap_of sample_sys (scroll_state.now + (page_size_calls scroll_state).length)
            (page_size_of sample_sys scroll_state) last_entry 0 ∨
        mmap_of sample_sys (scroll_state.now + (page_size_calls scroll_state).length)
            (page_size_of sample_sys scroll_state) last_entry 0 +
          mmap_size_of (page_size_of sample_sys scroll_state) last_entry 0 ≤
            last_entry.mmapped + x)) ∧
    forward_wraps last_entry 2 ∧
    ∃ buf2 st2,
      shm_scroll_forward sample_sys scroll_state last_entry 2 0 0 0 0 =
        Except.ok (true, buf2, st2) ∧
      ((0 : Int) < 2 ∧ 2 * last_entry.stride < last_entry.size) ∧
      (∀ i j : Int, 0 ≤ i → i < last_entry.height - 2 → 0 ≤ j → j < last_entry.stride →
        (Mem.run sample_sys scroll_state.now last_entry_mem
          (st2.calls.drop scroll_state.calls.length)).read
          (row_address buf2.mmapped buf2.stride i + j) =
        last_entry_mem.read (row_address last_entry.mmapped last_entry.stride (i + 2) + j)) ∧
      (∀ i j : Int, last_entry.height - 2 ≤ i → i < last_entry.height → 0 ≤ j →
        j < last_entry.stride →
        (Mem.run sample_sys scroll_state.now last_entry_mem
          (st2.calls.drop scroll_state.calls.length)).resolve
          (row_address buf2.mmapped buf2.stride i + j) =
          some (last_entry.fd, buf2.offset + (i * last_entry.stride + j)) ∧
        (buf2.offset - 2 * last_entry.stride) + last_entry.size ≤
          buf2.offset + (i * last_entry.stride + j)) ∧
      (∀ i j : Int, 0 ≤ i → i < last_entry.height - 2 → 0 ≤ j → j < last_entry.stride →
        (Mem.run sample_sys scroll_state.now last_entry_mem
          (st2.calls.drop scroll_state.calls.length)).resolve
          (row_address buf2.mmapped buf2.stride i + j) =
          some (last_entry.fd, buf2.offset + (i * last_entry.stride + j)) ∧
        buf2.offset + (i * last_entry.stride + j) <
          (buf2.offset - 2 * last_entry.stride) + last_entry.size) ∧
      ∃ R : List Call,
        st2.calls = (forward_state sample_sys scroll_state last_entry 2).calls ++ R ∧
        R.countP Call.is_memcpy = 0 ∧ R.countP Call.is_memmove = 0 :=
  have hmap : ∀ x : Int, 0 ≤ x → x < last_entry.size →
      last_entry_mem.resolve (last_entry.mmapped + x) =
        some (last_entry.fd, last_entry.offset + x) :=
    fun x h0 h1 => by
      have h2 : x < 300 := h1
      have e := Mem.resolve_front last_entry_mem ⟨8192, 4096, 3, 268431360⟩ [] (3796 + x) rfl
        (by omega) (by show 3796 + x < 4096; omega)
      have ea : last_entry.mmapped + x = (8192 : Int) + (3796 + x) := by
        show (8192 : Int) + 3796 + x = 8192 + (3796 + x)
        omega
      have eo : (268431360 : Int) + (3796 + x) = last_entry.offset + x := by
        show (268431360 : Int) + (3796 + x) = 268435156 + x
        omega
      rw [ea]
      exact e.trans (by rw [eo]; rfl)
  have hfree : ∀ x : Int, 0 ≤ x → x < last_entry.size →
      last_entry.mmapped + x <
        mmap_of sample_sys (scroll_state.now + (page_size_calls scroll_state).length)
          (page_size_of sample_sys scroll_state) last_entry 0 ∨
      mmap_of sample_sys (scroll_state.now + (page_size_calls scroll_state).length)
          (page_size_of sample_sys scroll_state) last_entry 0 +
        mmap_size_of (page_size_of sample_sys scroll_state) last_entry 0 ≤
          last_entry.mmapped + x :=
    fun x h0 _ => Or.inr (by
      show (4096 : Int) + 300 ≤ 8192 + 3796 + x
      omega)
  ⟨⟨by decide, rfl, rfl, by decide, hmap, hfree⟩, by decide,
    (fun (b : Buffer) (s : Shm)
        (h : shm_scroll_forward sample_sys scroll_state last_entry 2 0 0 0 0 =
          Except.ok (true, b, s)) =>
      ⟨b, s, h, forward_content_moves_up sample_sys scroll_state s last_entry b true
        last_entry_mem 12 2 0 0 (by decide) rfl rfl (by decide) hmap hfree h⟩) _ _ rfl⟩

theorem wide_sys_posix : wide_sys.Posix := by
  refine ⟨?_, ?_, ?_, ?_⟩
  · intro n len fd off h
    simp [wide_sys, h]
  · intro n len fd off
    by_cases h : off < 0
    · left; simp [wide_sys, h]
    · right
      simp only [wide_sys, h, if_false]
      show (0 : Int) < 4294967296 * ((n : Int) + 1)
      omega
  · intro n fd len h
    simp [wide_sys, sample_sys, h]
  · intro w h
    simp only [wide_sys, sample_sys]
    omega

theorem group_pieces_flatten (kind : user_notification_kind) (ns : List user_notification) :
    (group_pieces kind ns).flatten = (ns.filter fun n => n.kind = kind).flatMap rendered := by
  unfold group_pieces
  have key : ∀ l : List user_notification, (∀ n ∈ l, n.kind = kind) →
      (l.flatMap fun n => [kind_label kind, n.text, reset_newline]).flatten =
        l.flatMap rendered := by
    intro l
    induction l with
    | nil => intro _; rfl
    | cons a l ih =>
      intro h
      rw [List.flatMap_cons, List.flatMap_cons, List.flatten_append,
        ih (fun n hn => h n (List.mem_cons_of_mem _ hn))]
      have ha := h a (List.mem_cons_self _ _)
      simp [rendered, ha]
  apply key
  intro n hn
  have := (List.mem_filter.mp hn).2
  simpa using this

/-- Writes that were all taken in full hand over the bytes given. -/
theorem received_complete (t : List Written) (h : ∀ c ∈ t, c.ret = c.buf.length) :
    received t = (t.map fun c => c.buf).flatten := by
  unfold received
  induction t with
  | nil => rfl
  | cons a t ih =>
    rw [List.flatMap_cons, List.map_cons, List.flatten_cons,
      ih (fun c hc => h c (List.mem_cons_of_mem _ hc)), h a (List.mem_cons_self _ _)]
    simp

/-- C24: `emit_notifications` returns, having called `write` on `fd` only.
The calls fall into three groups, for the errors, the warnings and the
deprecations in this order; each group writes the prefix of the kind, the
text and the postfix (reset and newline) of each notification of its kind, in
the order of the list, up to the first write that fails.  A write that fails
with `EWOULDBLOCK` or `EAGAIN` ends its group only: the groups after it are
still written.  A write that fails with another `errno` ends all, and the
result is false exactly when there was such a write.  So when no write fails
the result is true and the bytes given to `write` are, in order, those of all
errors, then all warnings, then all deprecations, each notification rendered;
they are the bytes that arrived when every write was taken in full. -/
theorem C24_notifications_in_kind_order (env : Tty) (s : Slave) (fd : Int)
    (ns : List user_notification) :
    ∃ (r : Bool) (s2 : Slave) (tE tW tD : List Written),
      emit_notifications env s fd ns = Except.ok (r, s2) ∧
      s2.writes = s.writes ++ (tE ++ tW ++ tD) ∧
      (∀ c ∈ tE ++ tW ++ tD, c.fd = fd) ∧
      Cut fd (group_pieces user_notification_kind.USER_NOTIFICATION_ERROR ns) tE ∧
      ((∃ c ∈ tE, c.fatal env) → tW = [] ∧ tD = []) ∧
      ((¬ ∃ c ∈ tE, c.fatal env) →
        Cut fd (group_pieces user_notification_kind.USER_NOTIFICATION_WARNING ns) tW ∧
        ((∃ c ∈ tW, c.fatal env) → tD = []) ∧
        ((¬ ∃ c ∈ tW, c.fatal env) →
          Cut fd (group_pieces user_notification_kind.USER_NOTIFICATION_DEPRECATED ns) tD)) ∧
      (r = false ↔ ∃ c ∈ tE ++ tW ++ tD, c.fatal env) ∧
      ((∀ c ∈ tE ++ tW ++ tD, 0 ≤ c.ret) →
        r = true ∧ ((tE ++ tW ++ tD).map fun c => c.buf).flatten = all_rendered ns) ∧
      ((∀ c ∈ tE ++ tW ++ tD, c.ret = c.buf.length) →
        r = true ∧ received (tE ++ tW ++ tD) = all_rendered ns) := by
  -- the tail of the statement follows from its head
  have tail : ∀ (r : Bool) (tE tW tD : List Written),
      Cut fd (group_pieces user_notification_kind.USER_NOTIFICATION_ERROR ns) tE →
      ((∃ c ∈ tE, c.fatal env) → tW = [] ∧ tD = []) →
      ((¬ ∃ c ∈ tE, c.fatal env) →
        Cut fd (group_pieces user_notification_kind.USER_NOTIFICATION_WARNING ns) tW ∧
        ((∃ c ∈ tW, c.fatal env) → tD = []) ∧
        ((¬ ∃ c ∈ tW, c.fatal env) →
          Cut fd (group_pieces user_notification_kind.USER_NOTIFICATION_DEPRECATED ns) tD)) →
      (r = false ↔ ∃ c ∈ tE ++ tW ++ tD, c.fatal env) →
      (∀ c ∈ tE ++ tW ++ tD, c.fd = fd) ∧
      ((∀ c ∈ tE ++ tW ++ tD, 0 ≤ c.ret) →
        r = true ∧ ((tE ++ tW ++ tD).map fun c => c.buf).flatten = all_rendered ns) ∧
      ((∀ c ∈ tE ++ tW ++ tD, c.ret = c.buf.length) →
        r = true ∧ received (tE ++ tW ++ tD) = all_rendered ns) := by
    intro r tE tW tD cE hE hnE hr
    have hall : (∀ c ∈ tE ++ tW ++ tD, 0 ≤ c.ret) →
        r = true ∧ ((tE ++ tW ++ tD).map fun c => c.buf).flatten = all_rendered ns := by
      intro hok
      have nofatal : ∀ t : List Written, (∀ c ∈ t, c ∈ tE ++ tW ++ tD) →
          ¬ ∃ c ∈ t, c.fatal env := by
        rintro t ht ⟨c, hc, hf⟩
        have := hok c (ht c hc)
        have := hf.1
        omega
      have n1 := nofatal tE (fun c hc => List.mem_append_left _ (List.mem_append_left _ hc))
      have n2 := nofatal tW (fun c hc => List.mem_append_left _ (List.mem_append_right _ hc))
      obtain ⟨cW, _, hD⟩ := hnE n1
      have cD := hD n2
      constructor
      · cases r with
        | true => rfl
        | false => exact absurd (hr.mp rfl) (nofatal _ (fun c hc => hc))
      · rw [List.map_append, List.map_append,
          Cut.complete cE
            (fun c hc => hok c (List.mem_append_left _ (List.mem_append_left _ hc))),
          Cut.complete cW
            (fun c hc => hok c (List.mem_append_left _ (List.mem_append_right _ hc))),
          Cut.complete cD (fun c hc => hok c (List.mem_append_right _ hc)),
          List.flatten_append, List.flatten_append, group_pieces_flatten, group_pieces_flatten,
          group_pieces_flatten]
        rfl
    refine ⟨?_, hall, ?_⟩
    · intro c hc
      by_cases f1 : ∃ c ∈ tE, c.fatal env
      · obtain ⟨e1, e2⟩ := hE f1
        rw [e1, e2, List.append_nil, List.append_nil] at hc
        exact cE.fds c hc
      · obtain ⟨cW, hW, hD⟩ := hnE f1
        rcases List.mem_append.mp hc with hc | hc
        · rcases List.mem_append.mp hc with hc | hc
          · exact cE.fds c hc
          · exact cW.fds c hc
        · by_cases f2 : ∃ c ∈ tW, c.fatal env
          · rw [hW f2] at hc
            cases hc
          · exact (hD f2).fds c hc
    · intro hfull
      have hok : ∀ c ∈ tE ++ tW ++ tD, 0 ≤ c.ret := by
        intro c hc
        rw [hfull c hc]
        exact Int.ofNat_nonneg _
      obtain ⟨h1, h2⟩ := hall hok
      exact ⟨h1, by rw [received_complete _ hfull, h2]⟩
  obtain ⟨r1, s1, tE, h1, w1, cE, fE⟩ := emit_notifications_of_kind_returns env fd
    user_notification_kind.USER_NOTIFICATION_ERROR ns s
  obtain ⟨r2, s2, tW, h2, w2, cW, fW⟩ := emit_notifications_of_kind_returns env fd
    user_notification_kind.USER_NOTIFICATION_WARNING ns s1
  obtain ⟨r3, s3, tD, h3, w3, cD, fD⟩ := emit_notifications_of_kind_returns env fd
    user_notification_kind.USER_NOTIFICATION_DEPRECATED ns s2
  cases r1 with
  | false =>
    have f1 := fE.mp rfl
    have e : emit_notifications env s fd ns = Except.ok (false, s1) := by
      simp only [emit_notifications, h1, bind, Except.bind]
      rfl
    have hr : (false = false ↔ ∃ c ∈ tE ++ [] ++ [], c.fatal env) := by
      rw [List.append_nil, List.append_nil]
      exact ⟨fun _ => f1, fun _ => rfl⟩
    have hE : (∃ c ∈ tE, c.fatal env) → ([] : List Written) = [] ∧ ([] : List Written) = [] :=
      fun _ => ⟨rfl, rfl⟩
    obtain ⟨t1, t2, t3⟩ := tail false tE [] [] cE hE (fun hx => absurd f1 hx) hr
    exact ⟨false, s1, tE, [], [], e, by rw [w1, List.append_nil, List.append_nil], t1, cE, hE,
      fun hx => absurd f1 hx, hr, t2, t3⟩
  | true =>
    have n1 : ¬ ∃ c ∈ tE, c.fatal env := fun hx => by
      have := fE.mpr hx
      cases this
    cases r2 with
    | false =>
      have f2 := fW.mp rfl
      have e : emit_notifications env s fd ns = Except.ok (false, s2) := by
        simp only [emit_notifications, h1, h2, bind, Except.bind]
        rfl
      have hr : (false = false ↔ ∃ c ∈ tE ++ tW ++ [], c.fatal env) := by
        rw [List.append_nil]
        obtain ⟨c, hc, hf⟩ := f2
        exact ⟨fun _ => ⟨c, List.mem_append_right _ hc, hf⟩, fun _ => rfl⟩
      have hE : (∃ c ∈ tE, c.fatal env) → tW = [] ∧ ([] : List Written) = [] :=
        fun hx => absurd hx n1
      have hnE : (¬ ∃ c ∈ tE, c.fatal env) →
          Cut fd (group_pieces user_notification_kind.USER_NOTIFICATION_WARNING ns) tW ∧
          ((∃ c ∈ tW, c.fatal env) → ([] : List Written) = []) ∧
          ((¬ ∃ c ∈ tW, c.fatal env) →
            Cut fd (group_pieces user_notification_kind.USER_NOTIFICATION_DEPRECATED ns) []) :=
        fun _ => ⟨cW, fun _ => rfl, fun hx => absurd f2 hx⟩
      obtain ⟨t1, t2, t3⟩ := tail false tE tW [] cE hE hnE hr
      exact ⟨false, s2, tE, tW, [], e,
        by rw [w2, w1, List.append_nil, List.append_assoc], t1, cE, hE, hnE, hr, t2, t3⟩
    | true =>
      have n2 : ¬ ∃ c ∈ tW, c.fatal env := fun hx => by
        have := fW.mpr hx
        cases this
      have e : emit_notifications env s fd ns = Except.ok (r3, s3) := by
        simp only [emit_notifications, h1, h2, h3, bind, Except.bind]
        rfl
      have hr : (r3 = false ↔ ∃ c ∈ tE ++ tW ++ tD, c.fatal env) := by
        rw [fD]
        constructor
        · rintro ⟨c, hc, hf⟩
          exact ⟨c, List.mem_append_right _ hc, hf⟩
        · rintro ⟨c, hc, hf⟩
          rcases List.mem_append.mp hc with hc | hc
          · rcases List.mem_append.mp hc with hc | hc
            · exact absurd ⟨c, hc, hf⟩ n1
            · exact absurd ⟨c, hc, hf⟩ n2
          · exact ⟨c, hc, hf⟩
      have hE : (∃ c ∈ tE, c.fatal env) → tW = [] ∧ tD = [] := fun hx => absurd hx n1
      have hnE : (¬ ∃ c ∈ tE, c.fatal env) →
          Cut fd (group_pieces user_notification_kind.USER_NOTIFICATION_WARNING ns) tW ∧
          ((∃ c ∈ tW, c.fatal env) → tD = []) ∧
          ((¬ ∃ c ∈ tW, c.fatal env) →
            Cut fd (group_pieces user_notification_kind.USER_NOTIFICATION_DEPRECATED ns) tD) :=
        fun _ => ⟨cW, fun hx => absurd hx n2, fun _ => cD⟩
      obtain ⟨t1, t2, t3⟩ := tail r3 tE tW tD cE hE hnE hr
      exact ⟨r3, s3, tE, tW, tD, e,
        by rw [w3, w2, w1, List.append_assoc, List.append_assoc, List.append_assoc], t1, cE,
        hE, hnE, hr, t2, t3⟩

/-- C14: a buffer of 8192 by 6400 pixels, 209715200 bytes, is acquired, at
offset 0 of its file.  A reverse scroll by one row wraps it to offset 58720256
and returns.  The wrap copies the buffer with `memcpy` from its mapping, which
shows the bytes 0 to 209715200 of the file, to a mapping that shows the bytes
from 58720256 on: the first byte the copy writes is byte 58720256 of what it
copies from, so the two ranges overlap and the bytes are not copied unchanged;
`shm_scroll_reverse` has no test like the assertion `offset > size` of the
forward scroll.  A reverse scroll by 3000 rows of the same buffer wraps to the
same offset and goes on to offset 58720256 - 3000 * 32768, which is negative;
no test of the code stops it, the scroll ends in `abort()` because the file
cannot be mapped there. -/
theorem C14_reverse_wrap_copy_overlaps :
    wide_sys.Posix ∧
    ∃ st1,
      run shm_init [Op.acquire wide_sys 8192 6400 7] = Except.ok st1 ∧
      Reachable posix_ops st1 ∧
      st1.buffers.map (fun b => (b.busy, b.stride, b.size, b.offset, b.fd, b.mmapped)) =
        [(true, 32768, 209715200, 0, 3, 21474836480)] ∧
      st1.calls.length = 10 ∧
      (∃ st2, shm_scroll wide_sys st1 0 (-1) 0 0 0 0 = Except.ok (true, st2) ∧
        st2.buffers.map (fun b => b.offset) = [58720256 - 1 * 32768] ∧
        (st2.calls.drop 10).take 3 =
          [Call.ftruncate 3 max_pool_size, Call.mmap 209715200 3 58720256,
           Call.memcpy 51539607552 21474836480 209715200] ∧
        (st2.calls.drop 10).countP Call.is_memcpy = 1 ∧
        (Mem.run wide_sys 0 ⟨fun _ _ => 0, []⟩ (st2.calls.take 12)).resolve (51539607552 + 0) =
          some (3, 58720256) ∧
        (Mem.run wide_sys 0 ⟨fun _ _ => 0, []⟩ (st2.calls.take 12)).resolve
          (21474836480 + 58720256) = some (3, 58720256)) ∧
      (58720256 : Int) < 0 + 209715200 ∧
      (58720256 : Int) - 3000 * 32768 < 0 ∧
      shm_scroll wide_sys st1 0 (-3000) 0 0 0 0 = Except.error Fault.abort :=
  ⟨wide_sys_posix, _, rfl,
    @Reachable.step posix_ops shm_init _ (Op.acquire wide_sys 8192 6400 7) Reachable.init
      ⟨wide_sys_posix, by decide⟩ rfl,
    rfl, rfl, ⟨_, rfl, rfl, rfl, rfl, rfl, rfl⟩, by decide, by decide, rfl⟩

/-- C21: a buffer of 1024 by 38400 pixels, 157286400 bytes, is acquired and
scrolled forward by 25600 rows, to offset 104857600.  A further forward scroll
by 2000 rows that is to keep one row at the top and one at the bottom has
`top_margin + top_keep_rows + rows + bottom_keep_rows + bottom_margin ≤
height` and needs the wrap-around, and `shm_can_scroll` answers true; it keeps
no row: the offset is not above the size, and the scroll stops at the
assertion `offset > size` of line 386. -/
theorem C21_large_buffer_keep_scroll_stops_at_wrap :
    wide_sys.Posix ∧
    ∃ st1,
      run shm_init [Op.acquire wide_sys 1024 38400 7, Op.scroll wide_sys 0 25600 0 0 0 0] =
        Except.ok st1 ∧
      Reachable posix_ops st1 ∧
      st1.buffers.map (fun b => (b.busy, b.height, b.stride, b.size, b.offset)) =
        [(true, 38400, 4096, 157286400, 104857600)] ∧
      shm_can_scroll st1 = true ∧
      ((0 : Int) < 2000 ∧ (0 : Int) + 1 + 2000 + 1 + 0 ≤ 38400) ∧
      (104857600 : Int) + 2000 * 4096 + 157286400 > max_pool_size ∧
      ¬ (104857600 : Int) > 157286400 ∧
      shm_scroll wide_sys st1 0 2000 0 1 0 1 = Except.error (Fault.assert 386) :=
  ⟨wide_sys_posix, _, rfl,
    @Reachable.step posix_ops _ _ (Op.scroll wide_sys 0 25600 0 0 0 0)
      (@Reachable.step posix_ops shm_init _ (Op.acquire wide_sys 1024 38400 7) Reachable.init
        ⟨wide_sys_posix, by decide⟩ rfl)
      wide_sys_posix rfl,
    rfl, rfl, by decide, by decide, by decide, rfl⟩

/-- C22: a buffer of 1024 by 38400 pixels, 157286400 bytes, is acquired and
scrolled forward by 25600 rows, to offset 104857600.  A further forward scroll
by 2000 rows, with both keep counts 0, has `0 < rows` and `rows * stride <
size`, and needs the wrap-around, and `shm_can_scroll` answers true; it does
not move the content up: the offset is not above the size, and the scroll
stops at the assertion `offset > size` of line 386. -/
theorem C22_large_buffer_scroll_stops_at_wrap :
    wide_sys.Posix ∧
    ∃ st1,
      run shm_init [Op.acquire wide_sys 1024 38400 7, Op.scroll wide_sys 0 25600 0 0 0 0] =
        Except.ok st1 ∧
      Reachable posix_ops st1 ∧
      st1.buffers.map (fun b => (b.busy, b.height, b.stride, b.size, b.offset)) =
        [(true, 38400, 4096, 157286400, 104857600)] ∧
      shm_can_scroll st1 = true ∧
      ((0 : Int) < 2000 ∧ (2000 : Int) * 4096 < 157286400) ∧
      (104857600 : Int) + 2000 * 4096 + 157286400 > max_pool_size ∧
      ¬ (104857600 : Int) > 157286400 ∧
      shm_scroll wide_sys st1 0 2000 0 0 0 0 = Except.error (Fault.assert 386) :=
  ⟨wide_sys_posix, _, rfl,
    @Reachable.step posix_ops _ _ (Op.scroll wide_sys 0 25600 0 0 0 0)
      (@Reachable.step posix_ops shm_init _ (Op.acquire wide_sys 1024 38400 7) Reachable.init
        ⟨wide_sys_posix, by decide⟩ rfl)
      wide_sys_posix rfl,
    rfl, rfl, by decide, by decide, by decide, rfl⟩

end Foot
